import Mathlib

/-!
# mrscake: AST codec and distributed job runtime

A shallow embedding of `serialize.c`, `constant.c` and `net.c`.

* A reader is the list of bytes that are still unread; a writer is the list of
  bytes written so far.  Bytes are natural numbers.
* A C function that can stop the process (`exit(1)`, a failed `assert`) or run
  into the end of its input returns `Except Fault _`.
* `float` payloads are carried as their 32-bit pattern, C `int`/`int32_t` as
  `Int` with explicit conversions to and from `uint32_t`.
-/

namespace Mrscake

/-! ## Faults -/

/-- Ways in which a C function of the embedding fails to return a value. -/
inductive Fault where
  /-- the reader has no more bytes -/
  | eof
  /-- the code called exit(1) -/
  | exit
  /-- an assert() failed -/
  | assertion
  /-- a union member was read that was never stored -/
  | undefined
  /-- the iteration budget of the model was used up -/
  | fuel
  /-- an integer division by zero -/
  | div_by_zero
  /-- the random source of the model has no more draws -/
  | stalled
  deriving DecidableEq, Repr

/-! ## Machine integers -/

/-- Conversion of a C `int` to `uint32_t`. -/
def to_uint32 (i : Int) : Nat := (i % 4294967296).toNat

/-- Conversion of a `uint32_t` to `int32_t` (two's complement). -/
def to_int32 (u : Nat) : Int :=
  if u % 4294967296 < 2147483648 then ((u % 4294967296 : Nat) : Int)
  else ((u % 4294967296 : Nat) : Int) - 4294967296

/-- The value range of `int32_t`. -/
def is_int32 (i : Int) : Prop := -2147483648 ≤ i ∧ i < 2147483648

instance (i : Int) : Decidable (is_int32 i) := by
  unfold is_int32; exact inferInstance

/-! ## io.c primitives -/

/-- The unread bytes of a `reader_t`. -/
abbrev reader_t := List Nat

/-- Modelled from the spec: io.c is not among the sources.  `read_uint8` takes one raw
byte from the reader. -/
def read_uint8 : reader_t → Except Fault (Nat × reader_t)
  | [] => .error .eof
  | b :: r => .ok (b, r)

/-- Modelled from the spec: io.c is not among the sources.  `write_uint8` emits one raw
byte. -/
def write_uint8 (b : Nat) : List Nat := [b % 256]

/-- Groups of seven bits, least significant first, bit 7 set on every byte but the
last; `k` bounds the number of continuation bytes. -/
def compressed_uint_groups : Nat → Nat → List Nat
  | 0, u => [u]
  | k + 1, u => if u < 128 then [u] else (u % 128 + 128) :: compressed_uint_groups k (u / 128)

/-- Modelled from the spec: io.c is not among the sources.  `write_compressed_uint` is the
variable-length unsigned integer with continuation-bit encoding, applied to the
argument converted to `uint32_t` (at most five bytes). -/
def write_compressed_uint (u : Nat) : List Nat :=
  compressed_uint_groups 4 (u % 4294967296)

/-- The unbounded value of a continuation-bit sequence and the bytes after it. -/
def compressed_uint_value : reader_t → Except Fault (Nat × reader_t)
  | [] => .error .eof
  | b :: r =>
    if b < 128 then .ok (b, r)
    else
      match compressed_uint_value r with
      | .ok (u, r') => .ok (b % 128 + 128 * u, r')
      | .error e => .error e

/-- Modelled from the spec: io.c is not among the sources.  `read_compressed_uint` reads
bytes up to and including the first one without continuation bit and returns the
value as a `uint32_t`. -/
def read_compressed_uint (r : reader_t) : Except Fault (Nat × reader_t) :=
  match compressed_uint_value r with
  | .ok (u, r') => .ok (u % 4294967296, r')
  | .error e => .error e

/-- Modelled from the spec: io.c is not among the sources.  `write_compressed_int` is
`write_compressed_uint` on the signed value bit-cast to unsigned. -/
def write_compressed_int (i : Int) : List Nat := write_compressed_uint (to_uint32 i)

/-- Modelled from the spec: io.c is not among the sources.  `read_compressed_int` reads a
compressed-uint and interprets it as a signed 32-bit integer. -/
def read_compressed_int (r : reader_t) : Except Fault (Int × reader_t) :=
  match read_compressed_uint r with
  | .ok (u, r') => .ok (to_int32 u, r')
  | .error e => .error e

/-- Modelled from the spec: io.c is not among the sources.  `write_float` emits the 32-bit
IEEE-754 pattern of the float, little-endian. -/
def write_float (bits : Nat) : List Nat :=
  [bits % 256, bits / 256 % 256, bits / 65536 % 256, bits / 16777216 % 256]

/-- Modelled from the spec: io.c is not among the sources.  `read_float` reads four bytes,
little-endian, as a 32-bit IEEE-754 pattern. -/
def read_float : reader_t → Except Fault (Nat × reader_t)
  | b0 :: b1 :: b2 :: b3 :: r => .ok (b0 + 256 * b1 + 65536 * b2 + 16777216 * b3, r)
  | _ => .error .eof

/-- Modelled from the spec: io.c is not among the sources.  `write_string` emits the
compressed-uint length followed by that many raw bytes. -/
def write_string (s : List Nat) : List Nat := write_compressed_uint s.length ++ s

/-- Modelled from the spec: io.c is not among the sources.  `read_string` reads a
compressed-uint length and then that many raw bytes. -/
def read_string (r : reader_t) : Except Fault (List Nat × reader_t) :=
  match read_compressed_uint r with
  | .ok (len, r') => if len ≤ r'.length then .ok (r'.take len, r'.drop len) else .error .eof
  | .error e => .error e

/-- The characters of a C string stored in a buffer: everything before the first NUL. -/
def c_string (buf : List Nat) : List Nat := buf.takeWhile (fun b => b != 0)

/-! ## constant.c -/

/-- The tagged value `constant_t`.  A float is its 32-bit pattern, a string the bytes
before its terminating NUL, an array its entries. -/
inductive constant_t where
  | float (f : Nat)
  | category (c : Int)
  | int (i : Int)
  | bool (b : Bool)
  | missing
  | array (a : List constant_t)
  | string (s : List Nat)
  deriving Repr

/-- Tag numbers: the index of the tag's name in `type_name` of constant.c. -/
def CONSTANT_FLOAT : Nat := 1
/-- Tag of a category value. -/
def CONSTANT_CATEGORY : Nat := 2
/-- Tag of an int value. -/
def CONSTANT_INT : Nat := 3
/-- Tag of a bool value. -/
def CONSTANT_BOOL : Nat := 4
/-- Tag of the missing value. -/
def CONSTANT_MISSING : Nat := 5
/-- Tag of an array value. -/
def CONSTANT_ARRAY : Nat := 6
/-- Tag of a string value. -/
def CONSTANT_STRING : Nat := 7

/-- The `type` field of a `constant_t`. -/
def constant_t.type : constant_t → Nat
  | .float _ => CONSTANT_FLOAT
  | .category _ => CONSTANT_CATEGORY
  | .int _ => CONSTANT_INT
  | .bool _ => CONSTANT_BOOL
  | .missing => CONSTANT_MISSING
  | .array _ => CONSTANT_ARRAY
  | .string _ => CONSTANT_STRING

/-- The function `bool_constant` of constant.c. -/
def bool_constant (b : Bool) : constant_t := .bool b
/-- The function `float_constant` of constant.c. -/
def float_constant (f : Nat) : constant_t := .float f
/-- The function `missing_constant` of constant.c. -/
def missing_constant : constant_t := .missing
/-- The function `category_constant` of constant.c. -/
def category_constant (c : Int) : constant_t := .category c
/-- The function `int_constant` of constant.c. -/
def int_constant (i : Int) : constant_t := .int i
/-- The function `array_constant` of constant.c. -/
def array_constant (a : List constant_t) : constant_t := .array a
/-- The function `string_constant` of constant.c: the value owns a `strdup` of `s`. -/
def string_constant (s : List Nat) : constant_t := .string (c_string s)

/-- The function `array_create` of constant.c: an array of category constants. -/
def array_create (cats : List Int) : List constant_t := cats.map category_constant

/-! ## serialize.c: values -/

/-- Modelled from the spec: serialize.h is not among the sources.  The string-omission
flag is one bit of the `flags` argument; `SERIALIZE_DEFAULTS` is 0. -/
def SERIALIZE_FLAG_OMIT_STRINGS : Nat := 1

/-- No serialization flag set. -/
def SERIALIZE_DEFAULTS : Nat := 0

/-- The test `flags & SERIALIZE_FLAG_OMIT_STRINGS`. -/
def omit_strings (flags : Nat) : Bool := flags &&& SERIALIZE_FLAG_OMIT_STRINGS != 0

mutual
/-- The function `constant_write` of serialize.c: the bytes written for a value, or the
fault that stops the process. -/
def constant_write (flags : Nat) : constant_t → Except Fault (List Nat)
  | .category c => .ok (write_uint8 CONSTANT_CATEGORY ++ write_compressed_uint (to_uint32 c))
  | .float f => .ok (write_uint8 CONSTANT_FLOAT ++ write_float f)
  | .int i => .ok (write_uint8 CONSTANT_INT ++ write_compressed_uint (to_uint32 i))
  | .string s =>
    if omit_strings flags then .ok (write_uint8 CONSTANT_STRING ++ write_uint8 0)
    else .ok (write_uint8 CONSTANT_STRING ++ write_string s)
  | .array a =>
    if a.length ≤ 255 then
      match constant_write_entries flags a with
      | .ok bs => .ok (write_uint8 CONSTANT_ARRAY ++ write_compressed_uint a.length ++ bs)
      | .error e => .error e
    else .error .assertion
  | .missing => .ok (write_uint8 CONSTANT_MISSING)
  | .bool _ => .error .exit
/-- The loop `for(t=0;t<a->size;t++) constant_write(&a->entries[t], ...)`. -/
def constant_write_entries (flags : Nat) : List constant_t → Except Fault (List Nat)
  | [] => .ok []
  | c :: cs =>
    match constant_write flags c with
    | .ok b =>
      match constant_write_entries flags cs with
      | .ok bs => .ok (b ++ bs)
      | .error e => .error e
    | .error e => .error e
end

/-- The function `constant_read` of serialize.c. -/
def constant_read (reader : reader_t) : Except Fault (constant_t × reader_t) :=
  match read_uint8 reader with
  | .error e => .error e
  | .ok (type, r) =>
    if type = CONSTANT_CATEGORY then
      match read_compressed_uint r with
      | .ok (c, r') => .ok (.category (to_int32 c), r')
      | .error e => .error e
    else if type = CONSTANT_FLOAT then
      match read_float r with
      | .ok (f, r') => .ok (.float f, r')
      | .error e => .error e
    else if type = CONSTANT_INT then
      match read_compressed_uint r with
      | .ok (i, r') => .ok (.int (to_int32 i), r')
      | .error e => .error e
    else if type = CONSTANT_STRING then
      match read_string r with
      | .ok (s, r') => .ok (.string (c_string s), r')
      | .error e => .error e
    else if type = CONSTANT_MISSING then .ok (.missing, r)
    else .error .exit

/-! ## ast.h: node types and nodes -/

/-- The node types (`nodetype_t` objects) of the opcode list, told apart by address in
the C code. -/
inductive nodetype_t where
  | node_root
  | node_if
  | node_add
  | node_lt
  | node_gt
  | node_in
  | node_var
  | node_category
  | node_float
  | node_int
  | node_bool
  | node_string
  | node_array
  | node_constant
  | node_setlocal
  | node_getlocal
  deriving DecidableEq, Repr

open nodetype_t

/-- The entries of `LIST_NODES`, in one fixed order. -/
def LIST_NODES : List nodetype_t :=
  [node_root, node_if, node_add, node_lt, node_gt, node_in, node_var, node_category,
   node_float, node_int, node_bool, node_string, node_array, node_constant, node_setlocal,
   node_getlocal]

/-- The flag bit `NODE_FLAG_HAS_CHILDREN` of ast.h. -/
def NODE_FLAG_HAS_CHILDREN : Nat := 1

/-- Modelled from the spec: the ast.h with this flag is not among the sources.  The
opcode flag that declares an embedded value is a second flag bit. -/
def NODE_FLAG_HAS_VALUE : Nat := 2

/-- The contents of the `nodetype_t` objects and of `LIST_NODES`, which are defined in
ast.c and the newer ast.h (not among the sources): per node type its `flags`,
`min_args`, `max_args` and its opcode byte. -/
structure nodetable_t where
  flags : nodetype_t → Nat
  min_args : nodetype_t → Nat
  max_args : nodetype_t → Nat
  opcode : nodetype_t → Nat

/-- The test `type->flags & NODE_FLAG_HAS_VALUE`. -/
def nodetable_t.has_value (T : nodetable_t) (t : nodetype_t) : Bool :=
  T.flags t &&& NODE_FLAG_HAS_VALUE != 0

/-- The test `type->flags & NODE_FLAG_HAS_CHILDREN`. -/
def nodetable_t.has_children (T : nodetable_t) (t : nodetype_t) : Bool :=
  T.flags t &&& NODE_FLAG_HAS_CHILDREN != 0

/-- A node: its type, its embedded value (none while no value has been stored) and its
children in order.  The parent link is not part of the tree value. -/
inductive node_t where
  | mk (type : nodetype_t) (value : Option constant_t) (child : List node_t)
  deriving Repr

/-- The field `type` of a node. -/
def node_t.type : node_t → nodetype_t
  | .mk t _ _ => t

/-- The field `value` of a node. -/
def node_t.value : node_t → Option constant_t
  | .mk _ v _ => v

/-- The field `child` of a node. -/
def node_t.child : node_t → List node_t
  | .mk _ _ c => c

/-- The field `num_children` of a node. -/
def node_t.num_children (n : node_t) : Nat := n.child.length

/-- The function `opcode_to_node` of serialize.c: the switch over `LIST_NODES`. -/
def opcode_to_node (T : nodetable_t) (opcode : Nat) : Option nodetype_t :=
  LIST_NODES.find? (fun t => T.opcode t == opcode)

/-- Modelled from the spec: ast.c is not among the sources.  `node_get_opcode` is the
opcode byte of the node's type. -/
def node_get_opcode (T : nodetable_t) (n : node_t) : Nat := T.opcode n.type

/-- Modelled from the spec: ast.c is not among the sources.  `node_new(type, parent)`
as called by the reader: a node of that type without value and without children. -/
def node_new (t : nodetype_t) : node_t := .mk t none []

/-- Modelled from the spec: ast.c is not among the sources.  `node_append_child`
enforces `num_children < max_args` and stores the child after the existing ones. -/
def node_append_child (T : nodetable_t) (n child : node_t) : Except Fault node_t :=
  if n.num_children < T.max_args n.type then .ok (.mk n.type n.value (n.child ++ [child]))
  else .error .assertion

mutual
/-- Modelled from the spec: ast.c is not among the sources.  `node_sanitycheck` verifies,
recursively, that every node's child count lies within its opcode's bounds. -/
def node_sanitycheck (T : nodetable_t) : node_t → Bool
  | .mk t _ c => decide (T.min_args t ≤ c.length) && decide (c.length ≤ T.max_args t)
      && node_sanitycheck_children T c
/-- The recursive descent of `node_sanitycheck` into the children. -/
def node_sanitycheck_children (T : nodetable_t) : List node_t → Bool
  | [] => true
  | n :: ns => node_sanitycheck T n && node_sanitycheck_children T ns
end

/-! ## serialize.c: nodes -/

/-- The function `node_write_internal_data` of serialize.c: the bytes written for the
value of a node of the given type.  `node->value.a` and the macros `AS_CATEGORY`,
`AS_FLOAT`, `AS_INT`, `AS_STRING` (constant.h, not among the sources) read one member of
the value; the embedding faults when the node holds no value of that tag. -/
def node_write_internal_data (T : nodetable_t) (flags : Nat) (type : nodetype_t)
    (value : Option constant_t) : Except Fault (List Nat) :=
  if type = node_array then
    match value with
    | some (.array a) =>
      if a.length ≤ 255 then
        match constant_write_entries flags a with
        | .ok bs => .ok (write_compressed_uint a.length ++ bs)
        | .error e => .error e
      else .error .assertion
    | _ => .error .undefined
  else if type = node_category then
    match value with
    | some (.category c) => .ok (write_compressed_uint (to_uint32 c))
    | _ => .error .undefined
  else if type = node_float then
    match value with
    | some (.float f) => .ok (write_float f)
    | _ => .error .undefined
  else if type = node_int then
    match value with
    | some (.int i) => .ok (write_compressed_uint (to_uint32 i))
    | _ => .error .undefined
  else if type = node_string then
    match value with
    | some (.string s) =>
      if omit_strings flags then .ok (write_uint8 0) else .ok (write_string s)
    | _ => .error .undefined
  else if type = node_var then
    match value with
    | some (.int var_index) => .ok (write_compressed_uint (to_uint32 var_index))
    | _ => .error .undefined
  else if T.has_value type then
    match value with
    | some v => constant_write flags v
    | none => .error .undefined
  else .ok []

mutual
/-- The function `node_write` of serialize.c. -/
def node_write (T : nodetable_t) (flags : Nat) : node_t → Except Fault (List Nat)
  | .mk type value child =>
    match node_write_internal_data T flags type value with
    | .error e => .error e
    | .ok data =>
      if T.has_children type then
        if T.min_args type = T.max_args type then
          if T.min_args type = child.length then
            match node_write_children T flags child with
            | .ok bs => .ok (write_uint8 (T.opcode type) ++ data ++ bs)
            | .error e => .error e
          else .error .assertion
        else
          match node_write_children T flags child with
          | .ok bs =>
            .ok (write_uint8 (T.opcode type) ++ data ++ write_compressed_uint child.length ++ bs)
          | .error e => .error e
      else .ok (write_uint8 (T.opcode type) ++ data)
/-- The loop `for(t=0;t<node->num_children;t++) node_write(node->child[t], ...)`. -/
def node_write_children (T : nodetable_t) (flags : Nat) : List node_t → Except Fault (List Nat)
  | [] => .ok []
  | n :: ns =>
    match node_write T flags n with
    | .ok b =>
      match node_write_children T flags ns with
      | .ok bs => .ok (b ++ bs)
      | .error e => .error e
    | .error e => .error e
end

/-- The loop `for(t=0;t<len;t++) a->entries[t] = constant_read(reader)`. -/
def constant_read_entries : Nat → reader_t → Except Fault (List constant_t × reader_t)
  | 0, r => .ok ([], r)
  | n + 1, r =>
    match constant_read r with
    | .error e => .error e
    | .ok (c, r') =>
      match constant_read_entries n r' with
      | .ok (cs, r'') => .ok (c :: cs, r'')
      | .error e => .error e

/-- The function `node_read_internal_data` of serialize.c: the value stored in the node
(none when the type is not one the function knows) and the remaining bytes. -/
def node_read_internal_data (type : nodetype_t) (reader : reader_t) :
    Except Fault (Option constant_t × reader_t) :=
  if type = node_array then
    match read_compressed_uint reader with
    | .error e => .error e
    | .ok (len, r) =>
      match constant_read_entries len r with
      | .ok (a, r') => .ok (some (array_constant a), r')
      | .error e => .error e
  else if type = node_category then
    match read_compressed_uint reader with
    | .ok (c, r) => .ok (some (category_constant (to_int32 c)), r)
    | .error e => .error e
  else if type = node_float then
    match read_float reader with
    | .ok (f, r) => .ok (some (float_constant f), r)
    | .error e => .error e
  else if type = node_int then
    match read_compressed_uint reader with
    | .ok (i, r) => .ok (some (int_constant (to_int32 i)), r)
    | .error e => .error e
  else if type = node_var then
    match read_compressed_uint reader with
    | .ok (var_index, r) => .ok (some (int_constant (to_int32 var_index)), r)
    | .error e => .error e
  else if type = node_string then
    match read_string reader with
    | .ok (s, r) => .ok (some (string_constant s), r)
    | .error e => .error e
  else if type = node_constant ∨ type = node_setlocal ∨ type = node_getlocal then
    match constant_read reader with
    | .ok (v, r) => .ok (some v, r)
    | .error e => .error e
  else .ok (none, reader)

/-- One frame of the work stack of `node_read`: the node under construction and the
number of children it is expected to get. -/
structure nodestack_t where
  node : node_t
  num_children : Int
  deriving Repr

/-- The function `stack_new` of serialize.c (`prev` is the tail of the list). -/
def stack_new (node : node_t) : nodestack_t := { node := node, num_children := 0 }

/-- A parent holds a pointer to its child, so it sees what is stored into the child
later: when a frame is left, its finished node stands in the last child slot of the
frame below. -/
def node_update_last_child (parent child : node_t) : node_t :=
  .mk parent.type parent.value (parent.child.dropLast ++ [child])

/-- The loop `while(stack && stack->num_children == stack->node->num_children)` of
`node_read`, started on the frame `top` above the frames `prev`. -/
def pop_complete (top : nodestack_t) (top_node : Option node_t) :
    List nodestack_t → List nodestack_t × Option node_t
  | [] =>
    if top.num_children = (top.node.num_children : Int) then ([], some top.node)
    else ([top], top_node)
  | p :: ps =>
    if top.num_children = (top.node.num_children : Int) then
      pop_complete { p with node := node_update_last_child p.node top.node } (some top.node) ps
    else (top :: p :: ps, top_node)

/-- The lines `if(type->flags & NODE_FLAG_HAS_VALUE) node_read_internal_data(node, reader)`
of `node_read`, on the node just made by `node_new`. -/
def node_read_value (T : nodetable_t) (type : nodetype_t) (reader : reader_t) :
    Except Fault (Option constant_t × reader_t) :=
  if T.has_value type then node_read_internal_data type reader
  else .ok ((node_new type).value, reader)

/-- The lines of `node_read` that set `stack->num_children`: the expected child count of
the new frame (0 from `stack_new` when the type has no children). -/
def node_read_num_children (T : nodetable_t) (type : nodetype_t) (reader : reader_t) :
    Except Fault (Int × reader_t) :=
  if T.has_children type then
    if T.min_args type = T.max_args type then .ok ((T.min_args type : Int), reader)
    else
      match read_compressed_uint reader with
      | .ok (n, r) => .ok (to_int32 n, r)
      | .error e => .error e
  else .ok ((stack_new (node_new type)).num_children, reader)

/-- One pass through the body of the do-while loop of `node_read`: the stack and
`top_node` afterwards and the remaining bytes. -/
def node_read_step (T : nodetable_t) (stack : List nodestack_t) (top_node : Option node_t)
    (reader : reader_t) : Except Fault ((List nodestack_t × Option node_t) × reader_t) :=
  match read_uint8 reader with
  | .error e => .error e
  | .ok (opcode, r0) =>
    match opcode_to_node T opcode with
    | none => .error .assertion
    | some type =>
      match node_read_value T type r0 with
      | .error e => .error e
      | .ok (value, r1) =>
        match node_read_num_children T type r1 with
        | .error e => .error e
        | .ok (num_children, r2) =>
          let node : node_t := .mk type value []
          let top : nodestack_t := { node := node, num_children := num_children }
          match stack with
          | [] => .ok (pop_complete top top_node [], r2)
          | prev :: rest =>
            match node_append_child T prev.node node with
            | .error e => .error e
            | .ok prev_node =>
              .ok (pop_complete top top_node ({ prev with node := prev_node } :: rest), r2)

/-- The do-while loop of `node_read`; `fuel` bounds the number of passes. -/
def node_read_loop (T : nodetable_t) : Nat → List nodestack_t → Option node_t → reader_t →
    Except Fault (Option node_t × reader_t)
  | 0, _, _, _ => .error .fuel
  | fuel + 1, stack, top_node, reader =>
    match node_read_step T stack top_node reader with
    | .error e => .error e
    | .ok ((stack1, top_node1), r) =>
      match stack1 with
      | [] => .ok (top_node1, r)
      | _ :: _ => node_read_loop T fuel stack1 top_node1 r

/-- The function `node_read` of serialize.c: the tree read and the bytes after it.  Every
pass of the loop takes at least the opcode byte, so one pass per unread byte (and one
more to meet the end of the input) is enough.  After the loop `node_sanitycheck(top_node);`
is a statement of its own: what the check finds is not used, and `top_node` is returned
whatever it found. -/
def node_read (T : nodetable_t) (reader : reader_t) : Except Fault (node_t × reader_t) :=
  match node_read_loop T (reader.length + 1) [] none reader with
  | .error e => .error e
  | .ok (none, _) => .error .undefined
  | .ok (some top_node, r) =>
    let _checked : Bool := node_sanitycheck T top_node
    .ok (top_node, r)

/-! ## net.c: the TRAIN_MODEL exchange, client side -/

/-- The request and response codes of net.h (not among the sources): an assignment of
byte values to the names the code uses. -/
structure net_h where
  REQUEST_TRAIN_MODEL : Nat
  REQUEST_SEND_DATASET : Nat
  REQUEST_RECV_DATASET : Nat
  REQUEST_SEND_CODE : Nat
  REQUEST_DISCARD_CODE : Nat
  RESPONSE_OK : Nat
  RESPONSE_IDLE : Nat
  RESPONSE_BUSY : Nat
  RESPONSE_GO_AHEAD : Nat
  RESPONSE_DUPL_DATA : Nat
  RESPONSE_DATA_FOLLOWS : Nat
  RESPONSE_DATASET_UNKNOWN : Nat
  RESPONSE_FACTORY_UNKNOWN : Nat
  RESPONSE_DATA_ERROR : Nat
  RESPONSE_READ_ERROR : Nat

/-- The constant `INT32_MAX`. -/
def INT32_MAX : Int := 2147483647

/-- The constant `INT_MAX` (32-bit int). -/
def INT_MAX : Int := 2147483647

/-- The result slot of a job: its score and the code received for it. -/
structure job_t where
  score : Int
  code : Option node_t
  deriving Repr

/-- Dispatcher-side record of a job in flight.  `server` is an index into the server
array, `cpu_time` is in seconds. -/
structure remote_job_t where
  job : job_t
  server : Nat
  socket : Int
  start_time : Int
  running : Bool
  done : Bool
  response : Nat
  cpu_time : Rat
  deriving Repr

/-- The function `finish_request_TRAIN_MODEL` of net.c.  The first component is what was
written to `w`, the second the remote job (with its job) and the reader afterwards. -/
def finish_request_TRAIN_MODEL (P : net_h) (T : nodetable_t) (r : reader_t)
    (rjob : remote_job_t) (cutoff : Int) : List Nat × Except Fault (remote_job_t × reader_t) :=
  match read_uint8 r with
  | .error e => ([], .error e)
  | .ok (response, r1) =>
    if response ≠ P.RESPONSE_OK then
      ([], .ok ({ rjob with response := response, cpu_time := 0,
                            job := { rjob.job with score := INT32_MAX, code := none } }, r1))
    else
      match read_compressed_int r1 with
      | .error e => ([], .error e)
      | .ok (ms, r2) =>
        match read_compressed_int r2 with
        | .error e => ([], .error e)
        | .ok (score, r3) =>
          if score ≥ cutoff then
            (write_uint8 P.REQUEST_DISCARD_CODE,
             .ok ({ rjob with response := response, cpu_time := (ms : Rat) / 1000,
                              job := { rjob.job with score := score, code := none } }, r3))
          else
            match read_uint8 r3 with
            | .error e => (write_uint8 P.REQUEST_SEND_CODE, .error e)
            | .ok (resp, r4) =>
              if resp ≠ P.RESPONSE_DATA_FOLLOWS then
                (write_uint8 P.REQUEST_SEND_CODE,
                 .ok ({ rjob with response := resp ||| 128, cpu_time := (ms : Rat) / 1000,
                                  job := { rjob.job with score := INT32_MAX, code := none } }, r4))
              else
                match node_read T r4 with
                | .error e => (write_uint8 P.REQUEST_SEND_CODE, .error e)
                | .ok (code, r5) =>
                  (write_uint8 P.REQUEST_SEND_CODE,
                   .ok ({ rjob with response := response, cpu_time := (ms : Rat) / 1000,
                                    job := { rjob.job with score := score, code := some code } }, r5))

/-- The function `remote_job_read_result` of net.c; `r` holds the bytes the job's socket
delivers.  Returns what was written to the socket and, when the reads went through, the
remote job, `*best_score` and the reader afterwards. -/
def remote_job_read_result (P : net_h) (T : nodetable_t) (config_limit_network_io : Bool)
    (r : reader_t) (j : remote_job_t) (best_score : Int) :
    List Nat × Except Fault (remote_job_t × Int × reader_t) :=
  match finish_request_TRAIN_MODEL P T r j best_score with
  | (w, .error e) => (w, .error e)
  | (w, .ok (j1, r1)) =>
    if config_limit_network_io = true ∧ j1.job.score < best_score then (w, .ok (j1, j1.job.score, r1))
    else (w, .ok (j1, best_score, r1))

/-- The initial value of `best_score` in `distribute_jobs_to_servers`. -/
def distribute_jobs_initial_best_score : Int := INT_MAX

/-- The calls of `remote_job_read_result` made by the loop of `distribute_jobs_to_servers`,
in the order in which the jobs are found readable: `best_score` is handed from each call
to the next.  Each entry of `ready` is a remote job with the bytes its socket delivers;
the result lists, per call, the job afterwards and the bytes written to its socket, and
gives the final `best_score`. -/
def read_results (P : net_h) (T : nodetable_t) (config_limit_network_io : Bool) :
    Int → List (remote_job_t × reader_t) → Except Fault (List (remote_job_t × List Nat) × Int)
  | best_score, [] => .ok ([], best_score)
  | best_score, (j, r) :: ready =>
    match remote_job_read_result P T config_limit_network_io r j best_score with
    | (_, .error e) => .error e
    | (w, .ok (j1, best1, _)) =>
      match read_results P T config_limit_network_io best1 ready with
      | .error e => .error e
      | .ok (done, best2) => .ok ((j1, w) :: done, best2)

/-! ## net.c: dataset dissemination -/

/-- The outcome of `send_dataset_to_remote_server`, which talks to the network: the
response code obtained by the n-th call, made for `server` with source `from_server`
(roster indices; no source when the dataset is sent inline). -/
abbrev dataset_net := Nat → Nat → Option Nat → Nat

/-- The array of servers returned by `distribute_dataset` (roster indices). -/
structure server_array_t where
  servers : List Nat
  num : Nat
  deriving DecidableEq, Repr

/-- The local variables of `distribute_dataset`.  `seeds` holds the entries
`seeds[0..num_seeds)`; `sent` records the calls of `send_dataset_to_remote_server` made so
far as (server, source, response). -/
structure distribute_state where
  status : List Int
  seeds : List Nat
  num_errors : Nat
  sent : List (Nat × Option Nat × Nat)
  deriving DecidableEq, Repr

/-- The variable `num_seeds`. -/
def distribute_state.num_seeds (st : distribute_state) : Nat := st.seeds.length

/-- The state at the start of `distribute_dataset`: `status` zeroed by `calloc`. -/
def distribute_init (config_num_remote_servers : Nat) : distribute_state :=
  { status := List.replicate config_num_remote_servers 0, seeds := [], num_errors := 0, sent := [] }

/-- Modelled from the spec: util.h is not among the sources.  `imin` is the minimum of two
ints (`hosts_to_seed = min(S, N)`). -/
def imin (a b : Nat) : Nat := min a b

/-- The test of the two `switch(resp)` statements: `RESPONSE_DUPL_DATA` or `RESPONSE_OK`. -/
def resp_is_success (P : net_h) (resp : Nat) : Bool :=
  resp == P.RESPONSE_DUPL_DATA || resp == P.RESPONSE_OK

/-- The loop `while(1) { seed_nr = lrand48() % config_num_remote_servers; if(!status[seed_nr])
break; }`: the index chosen and the draws left, or nothing when the draws run out first. -/
def seed_pick (config_num_remote_servers : Nat) (status : List Int) :
    List Nat → Option (Nat × List Nat)
  | [] => none
  | d :: draws =>
    if status.getD (d % config_num_remote_servers) 0 = 0 then
      some (d % config_num_remote_servers, draws)
    else seed_pick config_num_remote_servers status draws

/-- The body of the seed loop once `seed_nr` is chosen: the dataset is sent inline to
that server and the `switch(resp)` records the outcome. -/
def seed_contact (P : net_h) (net : dataset_net) (st : distribute_state) (seed_nr : Nat) :
    distribute_state :=
  let resp := net st.sent.length seed_nr none
  if resp_is_success P resp then
    { st with status := st.status.set seed_nr 1, seeds := st.seeds ++ [seed_nr],
              sent := st.sent ++ [(seed_nr, none, resp)] }
  else
    { st with status := st.status.set seed_nr (-1), num_errors := st.num_errors + 1,
              sent := st.sent ++ [(seed_nr, none, resp)] }

/-- The seed loop `while(num_seeds < hosts_to_seed)` of `distribute_dataset`.  The flag of
the result is false when the loop left through `goto error`. -/
def seed_phase (P : net_h) (config_num_remote_servers hosts_to_seed : Nat) (net : dataset_net) :
    Nat → distribute_state → List Nat → Except Fault (Bool × distribute_state × List Nat)
  | 0, _, _ => .error .fuel
  | fuel + 1, st, draws =>
    if st.num_seeds < hosts_to_seed then
      if st.num_seeds + st.num_errors = config_num_remote_servers then .ok (false, st, draws)
      else
        match seed_pick config_num_remote_servers st.status draws with
        | none => .error .stalled
        | some (seed_nr, draws1) =>
          seed_phase P config_num_remote_servers hosts_to_seed net fuel
            (seed_contact P net st seed_nr) draws1
    else .ok (true, st, draws)

/-- The body of the propagate loop for server `i`, with `seed_nr` the index drawn into
`seeds`: the server is told to fetch the dataset from `seeds[seed_nr]` and the
`switch(resp)` records the outcome (in `status[seed_nr]`). -/
def propagate_contact (P : net_h) (net : dataset_net) (st : distribute_state) (i seed_nr : Nat) :
    distribute_state :=
  let other_server := st.seeds.getD seed_nr 0
  let resp := net st.sent.length i (some other_server)
  if resp_is_success P resp then
    { st with status := st.status.set seed_nr 1, seeds := st.seeds ++ [i],
              sent := st.sent ++ [(i, some other_server, resp)] }
  else
    { st with status := st.status.set seed_nr (-1),
              sent := st.sent ++ [(i, some other_server, resp)] }

/-- The loop `for(i=0;i<config_num_remote_servers;i++)` of `distribute_dataset` over the
remaining values of `i`. -/
def propagate_phase (P : net_h) (net : dataset_net) :
    List Nat → distribute_state → List Nat → Except Fault (distribute_state × List Nat)
  | [], st, draws => .ok (st, draws)
  | i :: rest, st, draws =>
    if st.status.getD i 0 ≠ 0 then propagate_phase P net rest st draws
    else
      match draws with
      | [] => .error .stalled
      | d :: draws1 =>
        if st.num_seeds = 0 then .error .div_by_zero
        else propagate_phase P net rest (propagate_contact P net st i (d % st.num_seeds)) draws1

/-- The function `distribute_dataset` of net.c for a roster of `config_num_remote_servers`
servers; `draws` are the values `lrand48()` returns.  The result is the returned server
array (none for the NULL of the error exit) and the record of the datasets sent. -/
def distribute_dataset (P : net_h) (config_num_seeded_hosts config_num_remote_servers : Nat)
    (net : dataset_net) (draws : List Nat) :
    Except Fault (Option server_array_t × List (Nat × Option Nat × Nat)) :=
  let hosts_to_seed := imin config_num_seeded_hosts config_num_remote_servers
  match seed_phase P config_num_remote_servers hosts_to_seed net (config_num_remote_servers + 1)
      (distribute_init config_num_remote_servers) draws with
  | .error e => .error e
  | .ok (false, st, _) => .ok (none, st.sent)
  | .ok (true, st, draws1) =>
    match propagate_phase P net (List.range config_num_remote_servers) st draws1 with
    | .error e => .error e
    | .ok (st1, _) => .ok (some { servers := st1.seeds, num := st1.num_seeds }, st1.sent)

/-! ## net.c: the worker server -/

/-- One entry of the worker table. -/
structure worker_t where
  pid : Int
  start_time : Int
  deriving DecidableEq, Repr, Inhabited

/-- The worker table of the server: the array `jobs` (with room for
`config_number_of_remote_workers` entries) and the count `num_workers`. -/
structure server_t where
  jobs : List worker_t
  num_workers : Int
  deriving DecidableEq, Repr

/-- The table set up by `start_server` before its loop. -/
def server_init (config_number_of_remote_workers : Nat) : server_t :=
  { jobs := List.replicate config_number_of_remote_workers default, num_workers := 0 }

/-- The entries `jobs[0..num_workers)`. -/
def server_t.workers (s : server_t) : List worker_t := s.jobs.take s.num_workers.toNat

/-- The body of the `while(1)` loop of `sigchild` for one pid returned by `waitpid`. -/
def sigchild_reap (s : server_t) (pid : Int) : server_t :=
  match (List.range s.num_workers.toNat).find? (fun i => (s.jobs.getD i default).pid == pid) with
  | some i =>
    { jobs := s.jobs.set i (s.jobs.getD (s.num_workers - 1).toNat default),
      num_workers := s.num_workers - 1 }
  | none => s

/-- The function `sigchild` of net.c; `waitpid` lists the values the successive calls of
`waitpid` return. -/
def sigchild : server_t → List Int → server_t
  | s, [] => s
  | s, pid :: waitpid => if pid ≤ 0 then s else sigchild (sigchild_reap s pid) waitpid

/-- The function `send_header` of net.c: the three bytes written. -/
def send_header (P : net_h) (accept_request : Bool) (num_jobs num_workers : Int) : List Nat :=
  [(if accept_request then P.RESPONSE_IDLE else P.RESPONSE_BUSY) % 256,
   to_uint32 num_jobs % 256, to_uint32 num_workers % 256]

/-- What one accepted connection does to the parent in `start_server`. -/
structure accept_result where
  server : server_t
  header : List Nat
  forked : Bool
  deriving DecidableEq, Repr

/-- The body of the loop of `start_server` from `accept` on, in the parent process; `pid`
is what `fork` returns there and `now` what `time(0)` returns. -/
def start_server_accept (P : net_h) (config_number_of_remote_workers : Nat) (s : server_t)
    (pid now : Int) : accept_result :=
  let accept_request : Bool := decide (s.num_workers < (config_number_of_remote_workers : Int))
  let header := send_header P accept_request s.num_workers config_number_of_remote_workers
  if !accept_request then { server := s, header := header, forked := false }
  else
    { server := { jobs := s.jobs.set s.num_workers.toNat { pid := pid, start_time := now },
                  num_workers := s.num_workers + 1 },
      header := header, forked := true }

/-- The steps of the worker server: a connection is accepted, or SIGCHLD is delivered. -/
inductive server_event where
  | accept (pid now : Int)
  | sigchld (waitpid : List Int)
  deriving Repr

/-- The worker table after one step. -/
def server_step (P : net_h) (config_number_of_remote_workers : Nat) (s : server_t) :
    server_event → server_t
  | .accept pid now => (start_server_accept P config_number_of_remote_workers s pid now).server
  | .sigchld waitpid => sigchild s waitpid

/-- The worker table after a sequence of steps, starting from the empty table. -/
def server_run (P : net_h) (config_number_of_remote_workers : Nat) (events : List server_event) :
    server_t :=
  events.foldl (server_step P config_number_of_remote_workers)
    (server_init config_number_of_remote_workers)

/-! ## Well-formed values and trees -/

mutual
/-- A value whose payload fits its C type: a 32-bit float pattern, an `int32_t` category
or int, a NUL-free string of bytes shorter than 2^32, an array of such values. -/
def constant_wf : constant_t → Bool
  | .float f => decide (f < 4294967296)
  | .category c => decide (is_int32 c)
  | .int i => decide (is_int32 i)
  | .bool _ => true
  | .missing => true
  | .string s => decide (s.length < 4294967296) && s.all (fun b => decide (0 < b ∧ b < 256))
  | .array a => constant_wf_entries a
/-- All entries of an array are well-formed values. -/
def constant_wf_entries : List constant_t → Bool
  | [] => true
  | c :: cs => constant_wf c && constant_wf_entries cs
end

/-- The tags that have a case in both `constant_write` and `constant_read`: Float, Int,
Category, String and Missing. -/
def constant_t.is_scalar : constant_t → Bool
  | .float _ => true
  | .category _ => true
  | .int _ => true
  | .string _ => true
  | .missing => true
  | .bool _ => false
  | .array _ => false

mutual
/-- The payload the spec gives for a value after its tag byte: a compressed-uint for
Category, Int and Bool, a float32 for Float, a string for String, nothing for Missing,
and for an Array the compressed-uint size followed by the encoded entries. -/
def value_payload : constant_t → List Nat
  | .float f => write_float f
  | .category c => write_compressed_uint (to_uint32 c)
  | .int i => write_compressed_uint (to_uint32 i)
  | .string s => write_string s
  | .missing => []
  | .bool b => write_compressed_uint (if b then 1 else 0)
  | .array a => write_compressed_uint a.length ++ value_payload_entries a
/-- The encodings (tag byte, then payload) of the entries of an array, in order. -/
def value_payload_entries : List constant_t → List Nat
  | [] => []
  | c :: cs => (c.type :: value_payload c) ++ value_payload_entries cs
end

/-- The tag of value a node type expects: `var` and `int` an Int, `category` a Category,
`float` a Float, `bool` a Bool, `string` a String, `array` an Array; `constant`,
`setlocal` and `getlocal` any value. -/
def value_expected : nodetype_t → constant_t → Bool
  | node_var, .int _ => true
  | node_int, .int _ => true
  | node_category, .category _ => true
  | node_float, .float _ => true
  | node_bool, .bool _ => true
  | node_string, .string _ => true
  | node_array, .array _ => true
  | node_constant, _ => true
  | node_setlocal, _ => true
  | node_getlocal, _ => true
  | _, _ => false

mutual
/-- A well-formed tree: every node has a child count within its type's
`[min_args, max_args]`, a node whose type has no children flag has no children, and a node
carries a well-formed value of the expected tag exactly when its type has an embedded
value. -/
def node_wf (T : nodetable_t) : node_t → Bool
  | .mk t v c =>
    decide (T.min_args t ≤ c.length) && decide (c.length ≤ T.max_args t)
    && (T.has_children t || c.isEmpty)
    && (match v with
        | some x => T.has_value t && value_expected t x && constant_wf x
        | none => !T.has_value t)
    && node_wf_children T c
/-- All trees of a list are well-formed. -/
def node_wf_children (T : nodetable_t) : List node_t → Bool
  | [] => true
  | n :: ns => node_wf T n && node_wf_children T ns
end

/-- The values the node codec carries both ways: in an `array` node at most 255 entries,
all of a scalar tag; nothing in a `bool` node; otherwise a value of a scalar tag. -/
def value_codec_ok : nodetype_t → constant_t → Bool
  | node_array, .array a => decide (a.length ≤ 255) && a.all constant_t.is_scalar
  | node_bool, _ => false
  | _, v => v.is_scalar

mutual
/-- Every embedded value of the tree is one the node codec carries both ways. -/
def node_codec_ok : node_t → Bool
  | .mk t v c =>
    (match v with
     | some x => value_codec_ok t x
     | none => true)
    && node_codec_ok_children c
/-- Every embedded value of the trees of a list is one the node codec carries both ways. -/
def node_codec_ok_children : List node_t → Bool
  | [] => true
  | n :: ns => node_codec_ok n && node_codec_ok_children ns
end

/-- The properties of the opcode table the codec relies on: opcodes are distinct bytes
(they are the case labels of one switch over `uint8_t`), `max_args` is a C int, and the
leaf types with an opcode-specific payload are flagged as having an embedded value. -/
def nodetable_t.valid (T : nodetable_t) : Bool :=
  LIST_NODES.all (fun t => decide (T.opcode t < 256) && decide (T.max_args t < 2147483648))
  && decide ((LIST_NODES.map T.opcode).Nodup)
  && [node_array, node_category, node_float, node_int, node_string, node_var].all T.has_value

mutual
/-- The value with every string payload replaced by the empty string. -/
def constant_omit_strings : constant_t → constant_t
  | .string _ => .string []
  | .array a => .array (constant_omit_strings_entries a)
  | .float f => .float f
  | .category c => .category c
  | .int i => .int i
  | .bool b => .bool b
  | .missing => .missing
/-- The entries of an array with every string emptied. -/
def constant_omit_strings_entries : List constant_t → List constant_t
  | [] => []
  | c :: cs => constant_omit_strings c :: constant_omit_strings_entries cs
end

mutual
/-- The tree of the same shape and with the same non-string payloads in which every
string is empty. -/
def node_omit_strings : node_t → node_t
  | .mk t v c => .mk t (v.map constant_omit_strings) (node_omit_strings_children c)
/-- The trees of a list with every string emptied. -/
def node_omit_strings_children : List node_t → List node_t
  | [] => []
  | n :: ns => node_omit_strings n :: node_omit_strings_children ns
end

mutual
/-- The number of nodes of a tree. -/
def node_count : node_t → Nat
  | .mk _ _ c => 1 + node_count_children c
/-- The number of nodes of the trees of a list. -/
def node_count_children : List node_t → Nat
  | [] => 0
  | n :: ns => node_count n + node_count_children ns
end

/-! ## The work stack of `node_read` seen from outside -/

/-- A frame after the nodes `cs` have been stored as further children of its node. -/
def frame_attach (p : nodestack_t) (cs : List node_t) : nodestack_t :=
  { p with node := .mk p.node.type p.node.value (p.node.child ++ cs) }

/-- The stack after a child `x` has been appended to the node of its top frame. -/
def stack_push_child (stack : List nodestack_t) (x : node_t) : List nodestack_t :=
  match stack with
  | [] => []
  | p :: ps => frame_attach p [x] :: ps

/-- The stack and `top_node` once the subtree `n`, read on top of `stack`, is complete and
its frame has been left. -/
def stack_after_node (n : node_t) (stack : List nodestack_t) :
    List nodestack_t × Option node_t :=
  match stack with
  | [] => ([], some n)
  | p :: ps => pop_complete (frame_attach p [n]) (some n) ps

/-- The rest of the do-while loop of `node_read` after a pass: finished when the stack is
empty, another pass otherwise. -/
def node_read_resume (T : nodetable_t) (fuel : Nat) (s : List nodestack_t × Option node_t)
    (r : reader_t) : Except Fault (Option node_t × reader_t) :=
  match s.1 with
  | [] => .ok (s.2, r)
  | _ :: _ => node_read_loop T fuel s.1 s.2 r

/-- The top frame of the stack, if any, has room for one more child. -/
def stack_accepts (T : nodetable_t) (stack : List nodestack_t) : Prop :=
  ∀ p ∈ stack.head?, p.node.num_children < T.max_args p.node.type

/-- The bytes `node_write` emits for the child count: a compressed-uint when the type has
children and `min_args` differs from `max_args`, nothing otherwise. -/
def child_count_bytes (T : nodetable_t) (t : nodetype_t) (n : Nat) : List Nat :=
  if T.has_children t = true ∧ T.min_args t ≠ T.max_args t then write_compressed_uint n else []

/-! ## Invariants of `distribute_dataset` -/

/-- The servers the dataset has been sent to, in order. -/
def distribute_state.contacted (st : distribute_state) : List Nat := st.sent.map (fun e => e.1)

/-- The servers that answered a send with `RESPONSE_OK` or `RESPONSE_DUPL_DATA`, in order. -/
def sent_successes (P : net_h) (sent : List (Nat × Option Nat × Nat)) : List Nat :=
  (sent.filter (fun e => resp_is_success P e.2.2)).map (fun e => e.1)

/-- What holds of the variables of `distribute_dataset` throughout: every server contacted
is in the roster and was contacted once, and `seeds` lists the successful ones. -/
structure distribute_inv (P : net_h) (N : Nat) (st : distribute_state) : Prop where
  sent_lt : ∀ s ∈ st.contacted, s < N
  sent_nodup : st.contacted.Nodup
  seeds_eq : st.seeds = sent_successes P st.sent

/-- What holds in addition during the seed loop: `status` marks exactly the servers
contacted so far, and the two counters add up to their number. -/
structure seed_inv (P : net_h) (N : Nat) (st : distribute_state) : Prop where
  base : distribute_inv P N st
  status_len : st.status.length = N
  sent_len : st.sent.length = st.num_seeds + st.num_errors
  status_sent : ∀ s, s < N → (st.status.getD s 0 ≠ 0 ↔ s ∈ st.contacted)

/-! ## net.c: the dispatcher -/

/-- A roster entry `remote_server_t`, as far as net.c stores into it: the flags `busy` and
`broken` and the two counts of the last header received.  Name, host and port decide
what the network answers; that is given by a `connect_env`. -/
structure remote_server_t where
  busy : Bool
  broken : Bool
  num_jobs : Nat
  num_workers : Nat
  deriving DecidableEq, Repr, Inhabited

/-- Modelled from the spec: settings.c is not among the sources.  `remote_server_is_broken`
marks the server broken (the reason string is not kept). -/
def remote_server_is_broken (server : remote_server_t) : remote_server_t :=
  { server with broken := true }

/-- What the network does during one call of `connect_to_remote_server`: whether
`gethostbyname` finds the host, what `socket` and `connect` return, and the bytes the
read of the header delivers. -/
structure connect_env where
  he : Bool
  sock : Int
  ret : Int
  header : List Nat
  deriving DecidableEq, Repr

/-- The function `connect_to_remote_server` of net.c: the server record afterwards and the
value returned (the socket, or a negative number). -/
def connect_to_remote_server (P : net_h) (server : remote_server_t) (env : connect_env) :
    remote_server_t × Int :=
  if !env.he then (remote_server_is_broken server, -1)
  else if env.sock < 0 then (remote_server_is_broken server, -2)
  else if env.ret < 0 then (remote_server_is_broken server, -3)
  else
    match env.header with
    | [h0, h1, h2] =>
      if h0 ≠ P.RESPONSE_IDLE ∧ h0 ≠ P.RESPONSE_BUSY then (remote_server_is_broken server, -4)
      else if h0 = P.RESPONSE_BUSY then
        ({ server with num_jobs := h1, num_workers := h2, busy := true }, -5)
      else ({ server with num_jobs := h1, num_workers := h2, busy := false }, env.sock)
    | _ => (remote_server_is_broken server, -4)

/-- What the outside world does during one call of `remote_job_try_to_start`: the value of
`time(0)`, the answer of `config_has_remote_servers()` (settings.c is not among the
sources) and the network seen by `connect_to_remote_server`. -/
structure start_env where
  time : Int
  has_remote_servers : Bool
  net : connect_env
  deriving DecidableEq, Repr

/-- The effect of one call of `remote_job_try_to_start`: the roster and the static counter
`round_robin` afterwards, the roster index of the server the call selected, and the
remote job returned (none for the NULL returned when the connection failed). -/
structure start_result where
  roster : List remote_server_t
  round_robin : Nat
  server : Nat
  rjob : Option remote_job_t

/-- The function `remote_job_try_to_start` of net.c.  `servers` holds roster indices; the
request written to the socket is not part of this model. -/
def remote_job_try_to_start (P : net_h) (config_num_remote_servers : Nat)
    (servers : server_array_t) (roster : List remote_server_t) (round_robin : Nat)
    (job : job_t) (env : start_env) : Except Fault start_result :=
  if config_num_remote_servers = 0 then .error .exit
  else if !env.has_remote_servers then .error .exit
  else if servers.num = 0 then .error .div_by_zero
  else
    let s := servers.servers.getD (round_robin % servers.num) 0
    let c := connect_to_remote_server P (roster.getD s default) env.net
    if c.2 < 0 then
      .ok { roster := roster.set s c.1, round_robin := round_robin + 1, server := s, rjob := none }
    else
      .ok { roster := roster.set s c.1, round_robin := round_robin + 1, server := s,
            rjob := some { job := job, server := s, socket := c.2, start_time := env.time,
                           running := true, done := false, response := 0, cpu_time := 0 } }

/-- What the outside world does when the loop of `distribute_jobs_to_servers` looks at one
remote job: the answer of `remote_job_is_ready`, the value of `time(0)` in
`remote_job_age`, and the bytes the socket delivers to `remote_job_read_result`. -/
structure poll_env where
  ready : Bool
  time : Int
  reader : reader_t
  deriving DecidableEq, Repr

/-- What the outside world does during one pass through the do-while loop of
`distribute_jobs_to_servers`. -/
structure pass_env where
  start : start_env
  poll : Nat → poll_env

/-- The lines printed by the loop of `distribute_jobs_to_servers` for the remote job
`r[i]`: "Finished", "Failed (server, response)" and "Failed (server, timeout)". -/
inductive dispatch_report where
  | finished (i : Nat) (cpu_time : Rat)
  | failed (i : Nat) (server : Nat) (response : Nat)
  | failed_timeout (i : Nat) (server : Nat)
  deriving DecidableEq, Repr

/-- The variables of `distribute_jobs_to_servers`.  `pending` are the jobs of the queue
from `job` on, `r` the entries `r[0..num)`, `jobs_num` is `jobs->num`.  `selected` lists
the servers selected by the calls of `remote_job_try_to_start`, `closed` the sockets
closed by `remote_job_cancel`, `printed` the reports printed. -/
structure dispatch_t where
  roster : List remote_server_t
  round_robin : Nat
  jobs_num : Nat
  pending : List job_t
  r : List remote_job_t
  open_jobs : Int
  best_score : Int
  total_cpu_time : Rat
  pos : Nat
  selected : List Nat
  closed : List Int
  printed : List dispatch_report

/-- The variable `num`. -/
def dispatch_t.num (st : dispatch_t) : Nat := st.r.length

/-- The state of `distribute_jobs_to_servers` before its loop.  `round_robin` is static in
`remote_job_try_to_start`: it is 0 in the first run of a process. -/
def dispatch_init (roster : List remote_server_t) (round_robin : Nat) (jobs : List job_t) :
    dispatch_t :=
  { roster := roster, round_robin := round_robin, jobs_num := jobs.length, pending := jobs,
    r := [], open_jobs := jobs.length, best_score := INT_MAX, total_cpu_time := 0, pos := 0,
    selected := [], closed := [], printed := [] }

/-- The lines `if(job) { r[num] = remote_job_try_to_start(...); if(r[num]) { job->code = NULL;
num++; job = job->next; } }` of the loop. -/
def dispatch_start (P : net_h) (config_num_remote_servers : Nat) (servers : server_array_t)
    (st : dispatch_t) (env : start_env) : Except Fault dispatch_t :=
  match st.pending with
  | [] => .ok st
  | job :: next =>
    match remote_job_try_to_start P config_num_remote_servers servers st.roster st.round_robin
        job env with
    | .error e => .error e
    | .ok res =>
      match res.rjob with
      | none =>
        .ok { st with roster := res.roster, round_robin := res.round_robin,
                      selected := st.selected ++ [res.server] }
      | some j =>
        .ok { st with roster := res.roster, round_robin := res.round_robin,
                      selected := st.selected ++ [res.server],
                      r := st.r ++ [{ j with job := { j.job with code := none } }],
                      pending := next }

/-- The body of the loop `for(i=0;i<num;i++)` for one `i`. -/
def dispatch_poll (P : net_h) (T : nodetable_t) (config_limit_network_io : Bool)
    (config_remote_worker_timeout : Int) (st : dispatch_t) (i : Nat) (env : poll_env) :
    Except Fault dispatch_t :=
  match st.r.get? i with
  | none => .error .undefined
  | some j =>
    if j.running && !j.done && j.job.code.isNone then
      if env.ready then
        match remote_job_read_result P T config_limit_network_io env.reader j st.best_score with
        | (_, .error e) => .error e
        | (_, .ok (j1, best_score, _)) =>
          if j1.response = P.RESPONSE_OK then
            .ok { st with r := st.r.set i { j1 with done := true }, best_score := best_score,
                          total_cpu_time := st.total_cpu_time + j1.cpu_time,
                          open_jobs := st.open_jobs - 1, pos := st.pos + 1,
                          printed := st.printed ++ [.finished i j1.cpu_time] }
          else
            .ok { st with r := st.r.set i { j1 with done := true }, best_score := best_score,
                          open_jobs := st.open_jobs - 1, pos := st.pos + 1,
                          printed := st.printed ++ [.failed i j1.server j1.response] }
      else if st.num = st.jobs_num ∧ env.time - j.start_time > config_remote_worker_timeout then
        .ok { st with r := st.r.set i { j with done := true },
                      open_jobs := st.open_jobs - 1, pos := st.pos + 1,
                      closed := st.closed ++ [j.socket],
                      printed := st.printed ++ [.failed_timeout i j.server] }
      else .ok { st with pos := st.pos + 1 }
    else .ok { st with pos := st.pos + 1 }

/-- The loop `for(i=0;i<num;i++)` over the remaining values of `i`. -/
def dispatch_polls (P : net_h) (T : nodetable_t) (config_limit_network_io : Bool)
    (config_remote_worker_timeout : Int) (poll : Nat → poll_env) :
    List Nat → dispatch_t → Except Fault dispatch_t
  | [], st => .ok st
  | i :: rest, st =>
    match dispatch_poll P T config_limit_network_io config_remote_worker_timeout st i (poll i) with
    | .error e => .error e
    | .ok st1 =>
      dispatch_polls P T config_limit_network_io config_remote_worker_timeout poll rest st1

/-- One pass through the body of the do-while loop of `distribute_jobs_to_servers`. -/
def dispatch_pass (P : net_h) (T : nodetable_t) (config_num_remote_servers : Nat)
    (config_limit_network_io : Bool) (config_remote_worker_timeout : Int)
    (servers : server_array_t) (st : dispatch_t) (env : pass_env) : Except Fault dispatch_t :=
  match dispatch_start P config_num_remote_servers servers st env.start with
  | .error e => .error e
  | .ok st1 =>
    dispatch_polls P T config_limit_network_io config_remote_worker_timeout env.poll
      (List.range st1.num) st1

/-- The do-while loop of `distribute_jobs_to_servers`, one entry of `world` per pass; the
loop is `stalled` when the record of the outside world ends before `open_jobs` is 0. -/
def dispatch_loop (P : net_h) (T : nodetable_t) (config_num_remote_servers : Nat)
    (config_limit_network_io : Bool) (config_remote_worker_timeout : Int)
    (servers : server_array_t) : dispatch_t → List pass_env → Except Fault dispatch_t
  | _, [] => .error .stalled
  | st, env :: world =>
    match dispatch_pass P T config_num_remote_servers config_limit_network_io
        config_remote_worker_timeout servers st env with
    | .error e => .error e
    | .ok st1 =>
      if st1.open_jobs = 0 then .ok st1
      else dispatch_loop P T config_num_remote_servers config_limit_network_io
        config_remote_worker_timeout servers st1 world

/-- The function `distribute_jobs_to_servers` of net.c: the variables at the end of its
loop.  The jobs of the queue that were started are the `job` fields of `r`. -/
def distribute_jobs_to_servers (P : net_h) (T : nodetable_t) (config_num_remote_servers : Nat)
    (config_limit_network_io : Bool) (config_remote_worker_timeout : Int)
    (roster : List remote_server_t) (round_robin : Nat) (jobs : List job_t)
    (servers : server_array_t) (world : List pass_env) : Except Fault dispatch_t :=
  dispatch_loop P T config_num_remote_servers config_limit_network_io
    config_remote_worker_timeout servers (dispatch_init roster round_robin jobs) world

/-! ## Invariants of `distribute_jobs_to_servers` -/

/-- The servers selected so far follow the rotation that starts at `rr0`. -/
def rotation_inv (servers : server_array_t) (rr0 : Nat) (st : dispatch_t) : Prop :=
  st.round_robin = rr0 + st.selected.length ∧
  st.selected = (List.range st.selected.length).map
    (fun k => servers.servers.getD ((rr0 + k) % servers.num) 0)

/-! ## The passes of the loop of `node_read` -/

/-- The states in which the loop of `node_read`, started on the bytes `r0`, begins a pass:
the first pass begins with the empty stack and all of `r0`; a pass that leaves frames
on the stack is followed by another one.  The next byte read in such a state is read in
opcode position; the depth of the node it announces is the height of the stack. -/
inductive node_read_at (T : nodetable_t) (r0 : reader_t) :
    List nodestack_t → Option node_t → reader_t → Prop where
  | root : node_read_at T r0 [] none r0
  | pass (stack : List nodestack_t) (top_node : Option node_t) (r : reader_t)
      (frame : nodestack_t) (stack1 : List nodestack_t) (top_node1 : Option node_t)
      (r1 : reader_t) :
      node_read_at T r0 stack top_node r →
      node_read_step T stack top_node r = .ok ((frame :: stack1, top_node1), r1) →
      node_read_at T r0 (frame :: stack1) top_node1 r1


/-! ## constant.c: printing -/

mutual
/-- The function `constant_print` of constant.c: the characters printed.  `printf_2f`
stands for the rendering of a float by the format `%.2f`, which is not modelled; `%d` is
the decimal rendering of the integer.  The switch has no case for `CONSTANT_STRING`. -/
def constant_print (printf_2f : Nat → String) : constant_t → String
  | .float f => printf_2f f
  | .int i => toString i
  | .category c => "C" ++ toString c
  | .bool b => if b then "true" else "false"
  | .missing => "<missing>"
  | .array a => "[" ++ constant_print_entries printf_2f 0 a ++ "]"
  | .string _ => "<bad value>"
/-- The loop `for(t=0;t<a->size;t++)` of `constant_print` from index `t` on. -/
def constant_print_entries (printf_2f : Nat → String) : Nat → List constant_t → String
  | _, [] => ""
  | t, e :: rest =>
    (if t > 0 then "," else "") ++ constant_print printf_2f e
      ++ constant_print_entries printf_2f (t + 1) rest
end

/-! ## serialize.c: models -/

/-- The fields of `model_t` that serialize.c stores: the name, the number of inputs, the
column names and column types (each an array of `num_inputs` entries, or NULL) and the
code.  Strings are the bytes before the terminating NUL. -/
structure model_t where
  name : List Nat
  num_inputs : Int
  column_names : Option (List (List Nat))
  column_types : Option (List Nat)
  code : node_t

/-- Modelled from the spec: stringpool.h is not among the sources.
`register_and_free_string` returns the pooled string with the characters of `s`. -/
def register_and_free_string (s : List Nat) : List Nat := c_string s

/-- The loop `for(t=0;t<m->num_inputs;t++) write_string(w, m->column_names[t])` of
`model_save`, for the remaining `n` indices; reading beyond the array is undefined. -/
def model_save_names : Nat → List (List Nat) → Except Fault (List Nat)
  | 0, _ => .ok []
  | _ + 1, [] => .error .undefined
  | n + 1, s :: rest =>
    match model_save_names n rest with
    | .ok bs => .ok (write_string s ++ bs)
    | .error e => .error e

/-- The loop `for(t=0;t<m->num_inputs;t++) write_compressed_uint(w, m->column_types[t])` of
`model_save`, for the remaining `n` indices. -/
def model_save_types : Nat → List Nat → Except Fault (List Nat)
  | 0, _ => .ok []
  | _ + 1, [] => .error .undefined
  | n + 1, c :: rest =>
    match model_save_types n rest with
    | .ok bs => .ok (write_compressed_uint c ++ bs)
    | .error e => .error e

/-- The byte `flags` of `model_save`: bit 0 for column names, bit 1 for column types. -/
def model_save_flags (m : model_t) : Nat :=
  (if m.column_names.isSome then 1 else 0) ||| (if m.column_types.isSome then 2 else 0)

/-- The function `model_save` of serialize.c: the bytes of the file written. -/
def model_save (T : nodetable_t) (m : model_t) : Except Fault (List Nat) :=
  let head := write_string m.name ++ write_compressed_uint (to_uint32 m.num_inputs)
    ++ write_uint8 (model_save_flags m)
  match (match m.column_names with
         | some a => model_save_names m.num_inputs.toNat a
         | none => .ok []) with
  | .error e => .error e
  | .ok names =>
    match (match m.column_types with
           | some a => model_save_types m.num_inputs.toNat a
           | none => .ok []) with
    | .error e => .error e
    | .ok types =>
      match node_write T 0 m.code with
      | .error e => .error e
      | .ok code => .ok (head ++ names ++ types ++ code)

/-- The loop of `model_load` that reads the column names, for the remaining `n` indices. -/
def model_load_names : Nat → reader_t → Except Fault (List (List Nat) × reader_t)
  | 0, r => .ok ([], r)
  | n + 1, r =>
    match read_string r with
    | .error e => .error e
    | .ok (s, r1) =>
      match model_load_names n r1 with
      | .error e => .error e
      | .ok (rest, r2) => .ok (register_and_free_string s :: rest, r2)

/-- The loop of `model_load` that reads the column types, for the remaining `n` indices. -/
def model_load_types : Nat → reader_t → Except Fault (List Nat × reader_t)
  | 0, r => .ok ([], r)
  | n + 1, r =>
    match read_compressed_uint r with
    | .error e => .error e
    | .ok (c, r1) =>
      match model_load_types n r1 with
      | .error e => .error e
      | .ok (rest, r2) => .ok (c :: rest, r2)

/-- The function `model_load` of serialize.c, on the bytes of the file. -/
def model_load (T : nodetable_t) (r : reader_t) : Except Fault model_t :=
  match read_string r with
  | .error e => .error e
  | .ok (name, r1) =>
    match read_compressed_uint r1 with
    | .error e => .error e
    | .ok (n, r2) =>
      let num_inputs := to_int32 n
      match read_uint8 r2 with
      | .error e => .error e
      | .ok (flags, r3) =>
        match (if flags &&& 1 ≠ 0 then
                 match model_load_names num_inputs.toNat r3 with
                 | .error e => .error e
                 | .ok (a, r4) => .ok (some a, r4)
               else .ok (none, r3) : Except Fault (Option (List (List Nat)) × reader_t)) with
        | .error e => .error e
        | .ok (column_names, r4) =>
          match (if flags &&& 2 ≠ 0 then
                   match model_load_types num_inputs.toNat r4 with
                   | .error e => .error e
                   | .ok (a, r5) => .ok (some a, r5)
                 else .ok (none, r4) : Except Fault (Option (List Nat) × reader_t)) with
          | .error e => .error e
          | .ok (column_types, r5) =>
            match node_read T r5 with
            | .error e => .error e
            | .ok (code, _) =>
              .ok { name := register_and_free_string name, num_inputs := num_inputs,
                    column_names := column_names, column_types := column_types, code := code }

/-- The bytes `model_save` writes for the column names. -/
def model_names_bytes (m : model_t) : List Nat :=
  match m.column_names with
  | some a => (a.map write_string).flatten
  | none => []

/-- The bytes `model_save` writes for the column types. -/
def model_types_bytes (m : model_t) : List Nat :=
  match m.column_types with
  | some a => (a.map write_compressed_uint).flatten
  | none => []

/-- A string as `write_string` and `read_string` carry it: shorter than 2^32 bytes, none
of them NUL. -/
def string_wf (s : List Nat) : Bool :=
  decide (s.length < 4294967296) && s.all (fun b => decide (0 < b ∧ b < 256))

/-- A model whose fields fit their C types: a string as name, a non-negative `int` as
`num_inputs`, `num_inputs` strings as column names and `num_inputs` 32-bit values as column
types where present, and a well-formed tree as code. -/
def model_wf (T : nodetable_t) (m : model_t) : Bool :=
  string_wf m.name && decide (0 ≤ m.num_inputs) && decide (is_int32 m.num_inputs)
  && (match m.column_names with
      | some a => decide ((a.length : Int) = m.num_inputs) && a.all string_wf
      | none => true)
  && (match m.column_types with
      | some a => decide ((a.length : Int) = m.num_inputs)
          && a.all (fun c => decide (c < 4294967296))
      | none => true)
  && node_wf T m.code

/-! ## net.c: receiving a dataset -/

/-- The constant `HASH_SIZE`: a hash has 20 bytes. -/
def HASH_SIZE : Nat := 20

/-- A dataset as far as net.c looks at it: the array `hash` and, opaque, its content. -/
structure dataset_t where
  hash : List Nat
  content : List Nat
  deriving DecidableEq, Repr

/-- Modelled from the spec: datacache.h is not among the sources.  The cache is a mapping
from hash to dataset, here the list of the datasets stored. -/
abbrev datacache_t := List dataset_t

/-- Modelled from the spec: datacache.h is not among the sources.  `datacache_find` looks
a dataset up by its hash. -/
def datacache_find (datacache : datacache_t) (hash : List Nat) : Option dataset_t :=
  datacache.find? (fun d => d.hash == hash)

/-- Modelled from the spec: datacache.h is not among the sources.  `datacache_store`
inserts the dataset. -/
def datacache_store (datacache : datacache_t) (dataset : dataset_t) : datacache_t :=
  datacache ++ [dataset]

/-- What a call of `dataset_read` (dataset.c, not among the sources) leaves behind: the
pointer returned (none for NULL), the flag `r->error` and the unread bytes. -/
structure dataset_read_t where
  dataset : Option dataset_t
  error : Bool
  rest : reader_t
  deriving DecidableEq, Repr

/-- The function `make_request_SEND_DATASET` of net.c: the bytes written, and the dataset
returned with the flag `r->error`.  A failed read of the response byte sets the flag. -/
def make_request_SEND_DATASET (P : net_h) (dataset_read : reader_t → dataset_read_t)
    (r : reader_t) (hash : List Nat) : List Nat × Option dataset_t × Bool :=
  match read_uint8 r with
  | .error _ => (write_uint8 P.REQUEST_SEND_DATASET ++ hash, none, true)
  | .ok (response, r1) =>
    if response ≠ P.RESPONSE_OK then (write_uint8 P.REQUEST_SEND_DATASET ++ hash, none, false)
    else
      (write_uint8 P.REQUEST_SEND_DATASET ++ hash, (dataset_read r1).dataset,
        (dataset_read r1).error)

/-- The function `dataset_read_from_server` of net.c.  `peer` holds the bytes the peer
delivers on the connection opened by `connect_to_host`, none when that returns a
negative socket. -/
def dataset_read_from_server (P : net_h) (dataset_read : reader_t → dataset_read_t)
    (peer : Option reader_t) (hash : List Nat) : Option dataset_t :=
  match peer with
  | none => none
  | some r =>
    let res := make_request_SEND_DATASET P dataset_read r hash
    if res.2.2 then none else res.2.1

/-- The function `process_request_RECV_DATASET` of net.c from `if(!dataset)` on, after
`RESPONSE_GO_AHEAD` was written: the bytes written to `w` in all and the cache
afterwards. -/
def recv_dataset_check (P : net_h) (datacache : datacache_t) (hash : List Nat)
    (dataset : Option dataset_t) : List Nat × Except Fault datacache_t :=
  match dataset with
  | none =>
    (write_uint8 P.RESPONSE_GO_AHEAD ++ hash ++ write_uint8 P.RESPONSE_DATA_ERROR, .ok datacache)
  | some dataset =>
    if dataset.hash ≠ hash then
      (write_uint8 P.RESPONSE_GO_AHEAD ++ hash ++ write_uint8 P.RESPONSE_DATA_ERROR,
        .ok datacache)
    else
      (write_uint8 P.RESPONSE_GO_AHEAD ++ dataset.hash ++ write_uint8 P.RESPONSE_OK,
        .ok (datacache_store datacache dataset))

/-- The function `process_request_RECV_DATASET` of net.c: the bytes written to `w` and the
cache afterwards.  `dataset_read` stands for the function of dataset.c, `peer_net host
port` for the connection `dataset_read_from_server` opens. -/
def process_request_RECV_DATASET (P : net_h) (dataset_read : reader_t → dataset_read_t)
    (peer_net : List Nat → Nat → Option reader_t) (datacache : datacache_t) (r : reader_t) :
    List Nat × Except Fault datacache_t :=
  if r.length < HASH_SIZE then ([], .ok datacache)
  else
    let hash := r.take HASH_SIZE
    match datacache_find datacache hash with
    | some dataset =>
      (write_uint8 P.RESPONSE_DUPL_DATA ++ dataset.hash ++ write_uint8 P.RESPONSE_DUPL_DATA,
        .ok datacache)
    | none =>
      match read_string (r.drop HASH_SIZE) with
      | .error e => (write_uint8 P.RESPONSE_GO_AHEAD, .error e)
      | .ok (host, r1) =>
        match read_compressed_uint r1 with
        | .error e => (write_uint8 P.RESPONSE_GO_AHEAD, .error e)
        | .ok (port, r2) =>
          if c_string host = [] then
            if (dataset_read r2).error then (write_uint8 P.RESPONSE_GO_AHEAD, .ok datacache)
            else recv_dataset_check P datacache hash (dataset_read r2).dataset
          else
            recv_dataset_check P datacache hash
              (dataset_read_from_server P dataset_read (peer_net (c_string host) port) hash)

/-- What `process_request_RECV_DATASET` holds in `dataset` after the transfer, for the
host string and the bytes that follow the port: none when the inline read ended with
`r->error` set (the function then returns at once), else the pointer obtained. -/
def recv_dataset_obtained (P : net_h) (dataset_read : reader_t → dataset_read_t)
    (peer_net : List Nat → Nat → Option reader_t) (hash host : List Nat) (port : Nat)
    (body : reader_t) : Option (Option dataset_t) :=
  if host = [] then
    if (dataset_read body).error then none else some (dataset_read body).dataset
  else some (dataset_read_from_server P dataset_read (peer_net host port) hash)

/-! ## model.c: rows -/

/-- An input variable `variable_t`: its column type with the payload of that type.  A
continuous value is the 32-bit pattern of the float. -/
inductive variable_t where
  | categorical (category : Int)
  | continuous (value : Nat)
  | text (text : List Nat)
  | missing
  deriving DecidableEq, Repr

/-- The function `variable_make_categorical` of model.c. -/
def variable_make_categorical (c : Int) : variable_t := .categorical c
/-- The function `variable_make_continuous` of model.c. -/
def variable_make_continuous (f : Nat) : variable_t := .continuous f
/-- The function `variable_make_text` of model.c. -/
def variable_make_text (s : List Nat) : variable_t := .text (c_string s)
/-- The function `variable_make_missing` of model.c. -/
def variable_make_missing : variable_t := .missing

/-- The inputs of a `row_t` (`num_inputs` is the length). -/
abbrev row_t := List variable_t

/-- The struct `environment_t` of ast.h. -/
structure environment_t where
  row : row_t
  deriving DecidableEq, Repr

/-! ## ast.h: the construction macros -/

/-- Modelled from the spec: ast.c is not among the sources.  `node_new(type, ...)` with the
embedded value of a leaf given by its variadic arguments (none for a branch, which gets
an empty child vector). -/
def node_new_with (type : nodetype_t) (value : Option constant_t) : node_t := .mk type value []

/-- The variables of a block opened by `START_CODE`.  `chain` is `current_node` followed
by its `parent` chain (empty when `current_node` is NULL); a node of the chain is the
last child of the next one, which sees what is stored into it once it is left.
`program` is the root once it has left the chain. -/
structure code_builder where
  chain : List node_t
  program : Option node_t

/-- The macro `START_CODE`: `current_node = program = node_new(&node_root)`. -/
def START_CODE : code_builder := { chain := [node_new node_root], program := none }

/-- The macro `NODE_BEGIN(new_type, args...)` of ast.h. -/
def NODE_BEGIN (T : nodetable_t) (new_type : nodetype_t) (value : Option constant_t)
    (b : code_builder) : Except Fault code_builder :=
  let new_node := node_new_with new_type value
  match b.chain with
  | [] => if T.has_children new_type then .ok { b with chain := [new_node] } else .ok b
  | current_node :: parents =>
    if current_node.num_children < T.max_args current_node.type then
      let current_node1 : node_t :=
        .mk current_node.type current_node.value (current_node.child ++ [new_node])
      if T.has_children new_type then .ok { b with chain := new_node :: current_node1 :: parents }
      else .ok { b with chain := current_node1 :: parents }
    else .error .assertion

/-- The macro `END` of ast.h: the bounds of `current_node` are asserted and
`current_node = current_node->parent`. -/
def END (T : nodetable_t) (b : code_builder) : Except Fault code_builder :=
  match b.chain with
  | [] => .error .undefined
  | current_node :: parents =>
    if T.min_args current_node.type ≤ current_node.num_children
        ∧ current_node.num_children ≤ T.max_args current_node.type then
      match parents with
      | [] =>
        match b.program with
        | none => .ok { chain := [], program := some current_node }
        | some p => .ok { chain := [], program := some p }
      | parent :: rest =>
        .ok { b with chain := node_update_last_child parent current_node :: rest }
    else .error .assertion

/-- The assertion of the macros `THEN` (with `n = 1`) and `ELSE` (with `n = 2`):
`current_node` is an `if` node with `n` children. -/
def assert_if_children (n : Nat) (b : code_builder) : Except Fault code_builder :=
  match b.chain with
  | [] => .error .assertion
  | current_node :: _ =>
    if current_node.type = node_if ∧ current_node.num_children = n then .ok b
    else .error .assertion

/-- The macros that may stand between `START_CODE` and `END_CODE`.  `IN` and
`ARRAY_CONSTANT` are used by test_ast.c; the ast.h among the sources predates them, and
they are taken to follow the pattern of the others. -/
inductive code_op where
  | IF
  | THEN
  | ELSE
  | ADD
  | LT
  | GT
  | IN
  | VAR (i : Int)
  | RETURN (n : Int)
  | ARRAY_CONSTANT (a : List constant_t)
  | END
  deriving Repr

/-- The expansion of one macro. -/
def code_op.run (T : nodetable_t) (b : code_builder) : code_op → Except Fault code_builder
  | .IF => NODE_BEGIN T node_if none b
  | .THEN => assert_if_children 1 b
  | .ELSE => assert_if_children 2 b
  | .ADD => NODE_BEGIN T node_add none b
  | .LT => NODE_BEGIN T node_lt none b
  | .GT => NODE_BEGIN T node_gt none b
  | .IN => NODE_BEGIN T node_in none b
  | .VAR i => NODE_BEGIN T node_var (some (int_constant i)) b
  | .RETURN n => NODE_BEGIN T node_category (some (category_constant n)) b
  | .ARRAY_CONSTANT a => NODE_BEGIN T node_array (some (array_constant a)) b
  | .END => Mrscake.END T b

/-- The macros of a list, one after the other. -/
def code_ops_run (T : nodetable_t) : code_builder → List code_op → Except Fault code_builder
  | b, [] => .ok b
  | b, op :: ops =>
    match op.run T b with
    | .error e => .error e
    | .ok b1 => code_ops_run T b1 ops

/-- The root as the variable `program` sees it while nodes of the chain are still open. -/
def chain_root : node_t → List node_t → node_t
  | n, [] => n
  | n, parent :: rest => chain_root (node_update_last_child parent n) rest

/-- The tree in `program` at `END_CODE`, for a block `START_CODE ops END_CODE`. -/
def code_build (T : nodetable_t) (ops : List code_op) : Except Fault node_t :=
  match code_ops_run T START_CODE ops with
  | .error e => .error e
  | .ok b =>
    match b.program, b.chain with
    | some p, _ => .ok p
    | none, n :: parents => .ok (chain_root n parents)
    | none, [] => .error .undefined

/-! ## test_ast.c -/

/-- The function `test_environment` of test_ast.c: the row 1.0, 2.0, 4.0, C5. -/
def test_environment : environment_t :=
  { row := [variable_make_continuous 1065353216, variable_make_continuous 1073741824,
            variable_make_continuous 1082130432, variable_make_categorical 5] }

/-- The function `test_serialization` of test_ast.c: the tree is written to a memory
writer and read back from it. -/
def test_serialization (T : nodetable_t) (node : node_t) : Except Fault node_t :=
  match node_write T SERIALIZE_DEFAULTS node with
  | .error e => .error e
  | .ok bs =>
    match node_read T bs with
    | .error e => .error e
    | .ok (node1, _) => .ok node1

/-- The block of macros of `test_if`. -/
def test_if_code : List code_op :=
  [.IF, .GT, .ADD, .VAR 0, .VAR 1, .END, .VAR 2, .END, .THEN, .RETURN 1, .ELSE, .RETURN 2, .END]

/-- The block of macros of `test_array`. -/
def test_array_code : List code_op :=
  [.IF, .IN, .VAR 3, .ARRAY_CONSTANT (array_create [1, 2, 3]), .END, .THEN, .RETURN 1, .ELSE,
   .RETURN 2, .END]


/-! ## The evaluator -/

/-- The arithmetic of C on `float`, which the embedding does not model: sum, the two
comparisons, equality, and the conversion of an `int`, all on 32-bit patterns. -/
structure float_ops where
  add : Nat → Nat → Nat
  lt : Nat → Nat → Bool
  gt : Nat → Nat → Bool
  eq : Nat → Nat → Bool
  of_int : Int → Nat

mutual
/-- Modelled from the spec: ast.c is not among the sources.  Tag-aware equality of two
values: the same tag and the same payload. -/
def constant_equals (F : float_ops) : constant_t → constant_t → Bool
  | .float x, .float y => F.eq x y
  | .category c, .category d => c == d
  | .int i, .int j => i == j
  | .bool a, .bool b => a == b
  | .missing, .missing => true
  | .string s, .string t => s == t
  | .array a, .array b => constant_equals_entries F a b
  | _, _ => false
/-- Entry by entry equality of two arrays. -/
def constant_equals_entries (F : float_ops) : List constant_t → List constant_t → Bool
  | [], [] => true
  | x :: xs, y :: ys => constant_equals F x y && constant_equals_entries F xs ys
  | _, _ => false
end

/-- Modelled from the spec: ast.c is not among the sources.  `add(a, b)`: numeric; the
result is Float if either operand is Float, else Int (with the wrap-around of `int`);
Missing propagates to Missing; any other operand is a type error. -/
def eval_add (F : float_ops) : constant_t → constant_t → Except Fault constant_t
  | .missing, _ => .ok .missing
  | _, .missing => .ok .missing
  | .float x, .float y => .ok (.float (F.add x y))
  | .float x, .int j => .ok (.float (F.add x (F.of_int j)))
  | .int i, .float y => .ok (.float (F.add (F.of_int i) y))
  | .int i, .int j => .ok (.int (to_int32 (to_uint32 (i + j))))
  | _, _ => .error .assertion

/-- Modelled from the spec: ast.c is not among the sources.  `lt(a, b)` (with `less` true)
and `gt(a, b)`: numeric comparison with a Bool result; Missing on either side yields
Bool false; any other operand is a type error. -/
def eval_compare (F : float_ops) (less : Bool) : constant_t → constant_t → Except Fault constant_t
  | .missing, _ => .ok (.bool false)
  | _, .missing => .ok (.bool false)
  | .float x, .float y => .ok (.bool (if less then F.lt x y else F.gt x y))
  | .float x, .int j => .ok (.bool (if less then F.lt x (F.of_int j) else F.gt x (F.of_int j)))
  | .int i, .float y => .ok (.bool (if less then F.lt (F.of_int i) y else F.gt (F.of_int i) y))
  | .int i, .int j => .ok (.bool (if less then decide (i < j) else decide (i > j)))
  | _, _ => .error .assertion

/-- Modelled from the spec: ast.c is not among the sources.  `in(x, array)`: true if any
array entry equals `x` under tag-aware equality; a second operand that is no Array is a
type error. -/
def eval_in (F : float_ops) : constant_t → constant_t → Except Fault constant_t
  | x, .array a => .ok (.bool (a.any (fun e => constant_equals F e x)))
  | _, _ => .error .assertion

/-- Modelled from the spec: ast.c is not among the sources.  `var(i)` looks up row input
`i` and lifts it to a value: Categorical to Category, Continuous to Float, Missing to
Missing; an index out of range is a fatal error.  The spec gives no value for a text
input. -/
def eval_var (env : environment_t) (i : Int) : Except Fault constant_t :=
  if 0 ≤ i ∧ i < env.row.length then
    match env.row.get? i.toNat with
    | some (.categorical c) => .ok (category_constant c)
    | some (.continuous f) => .ok (float_constant f)
    | some .missing => .ok missing_constant
    | _ => .error .undefined
  else .error .assertion

mutual
/-- Modelled from the spec: ast.c is not among the sources.  `node_eval(node, env)`, by
opcode: `root` returns the value of its single child; `if` evaluates its condition to a
Bool (anything else is a type error) and then exactly one branch; `add`, `lt`, `gt`, `in`
evaluate both operands; `var` looks the row input up; the leaves with an embedded
constant return it.  The spec gives no evaluation for `setlocal` and `getlocal`. -/
def node_eval (F : float_ops) (env : environment_t) : node_t → Except Fault constant_t
  | .mk type value child =>
    match type with
    | node_root => node_eval_child F env child 0
    | node_if =>
      match node_eval_child F env child 0 with
      | .error e => .error e
      | .ok (.bool true) => node_eval_child F env child 1
      | .ok (.bool false) => node_eval_child F env child 2
      | .ok _ => .error .assertion
    | node_add =>
      match node_eval_child F env child 0 with
      | .error e => .error e
      | .ok a =>
        match node_eval_child F env child 1 with
        | .error e => .error e
        | .ok b => eval_add F a b
    | node_lt =>
      match node_eval_child F env child 0 with
      | .error e => .error e
      | .ok a =>
        match node_eval_child F env child 1 with
        | .error e => .error e
        | .ok b => eval_compare F true a b
    | node_gt =>
      match node_eval_child F env child 0 with
      | .error e => .error e
      | .ok a =>
        match node_eval_child F env child 1 with
        | .error e => .error e
        | .ok b => eval_compare F false a b
    | node_in =>
      match node_eval_child F env child 0 with
      | .error e => .error e
      | .ok x =>
        match node_eval_child F env child 1 with
        | .error e => .error e
        | .ok a => eval_in F x a
    | node_var =>
      match value with
      | some (.int i) => eval_var env i
      | _ => .error .undefined
    | node_setlocal => .error .undefined
    | node_getlocal => .error .undefined
    | _ =>
      match value with
      | some v => .ok v
      | none => .error .undefined
/-- The value of the child with the given index (`node->child[k]`). -/
def node_eval_child (F : float_ops) (env : environment_t) :
    List node_t → Nat → Except Fault constant_t
  | [], _ => .error .undefined
  | c :: _, 0 => node_eval F env c
  | _ :: cs, k + 1 => node_eval_child F env cs k
end

/-- Modelled from the spec: ast.c is not among the sources.  The arities the spec gives:
`root` has one child, `if` three, `add`, `lt`, `gt` and `in`
two, and none of these carries a value; `var`, `category` and `array` are leaves. -/
def nodetable_t.as_spec (T : nodetable_t) : Bool :=
  [node_root, node_if, node_add, node_lt, node_gt, node_in].all
    (fun t => T.has_children t && !T.has_value t)
  && [node_var, node_category, node_array].all
    (fun t => !T.has_children t && decide (T.min_args t = 0))
  && decide (T.min_args node_root = 1) && decide (T.max_args node_root = 1)
  && decide (T.min_args node_if = 3) && decide (T.max_args node_if = 3)
  && [node_add, node_lt, node_gt, node_in].all
    (fun t => decide (T.min_args t = 2) && decide (T.max_args t = 2))

/-- The tree `test_if` builds: `root(if(gt(add(var 0, var 1), var 2), category 1,
category 2))`. -/
def test_if_tree : node_t :=
  .mk node_root none
    [.mk node_if none
      [.mk node_gt none
         [.mk node_add none [.mk node_var (some (.int 0)) [], .mk node_var (some (.int 1)) []],
          .mk node_var (some (.int 2)) []],
       .mk node_category (some (.category 1)) [],
       .mk node_category (some (.category 2)) []]]

/-- The tree `test_array` builds: `root(if(in(var 3, array [C1, C2, C3]), category 1,
category 2))`. -/
def test_array_tree : node_t :=
  .mk node_root none
    [.mk node_if none
      [.mk node_in none
         [.mk node_var (some (.int 3)) [],
          .mk node_array (some (.array [.category 1, .category 2, .category 3])) []],
       .mk node_category (some (.category 1)) [],
       .mk node_category (some (.category 2)) []]]

/-! ## net.c: the TRAIN_MODEL exchange, worker side -/

/-- What a call of `process_request_TRAIN_MODEL` did: the bytes written to `w`, whether
`job_process` was run, and the fault that ended the function, if any. -/
structure train_result where
  written : List Nat
  trained : Bool
  fault : Option Fault
  deriving DecidableEq, Repr

/-- The function `process_request_TRAIN_MODEL` of net.c.  `model_factory_get_by_name` and
`job_process` (which fills the score and the code of the job) are not among the sources
and are taken as given; `cpu_ms` is the cpu time measured, in milliseconds. -/
def process_request_TRAIN_MODEL (P : net_h) (T : nodetable_t)
    (model_factory_get_by_name : List Nat → Option Nat)
    (job_process : Nat → dataset_t → List Nat → job_t) (cpu_ms : Int)
    (cache : datacache_t) (r : reader_t) : train_result :=
  if r.length < HASH_SIZE then { written := [], trained := false, fault := none }
  else
    match datacache_find cache (r.take HASH_SIZE) with
    | none =>
      { written := write_uint8 P.RESPONSE_DATASET_UNKNOWN, trained := false, fault := none }
    | some dataset =>
      match read_string (r.drop HASH_SIZE) with
      | .error _ => { written := [], trained := false, fault := none }
      | .ok (name, r1) =>
        match read_string r1 with
        | .error _ => { written := [], trained := false, fault := none }
        | .ok (transforms, r2) =>
          match model_factory_get_by_name (c_string name) with
          | none =>
            { written := write_uint8 P.RESPONSE_FACTORY_UNKNOWN, trained := false,
              fault := none }
          | some factory =>
            let j := job_process factory dataset (c_string transforms)
            let head := write_uint8 P.RESPONSE_OK ++ write_compressed_int cpu_ms
              ++ write_compressed_int j.score
            match read_uint8 r2 with
            | .error e => { written := head, trained := true, fault := some e }
            | .ok (want_data, _) =>
              if want_data = P.REQUEST_SEND_CODE then
                match j.code with
                | none =>
                  { written := head ++ write_uint8 P.RESPONSE_DATA_FOLLOWS, trained := true,
                    fault := some .undefined }
                | some code =>
                  match node_write T SERIALIZE_DEFAULTS code with
                  | .error e =>
                    { written := head ++ write_uint8 P.RESPONSE_DATA_FOLLOWS, trained := true,
                      fault := some e }
                  | .ok bs =>
                    { written := head ++ write_uint8 P.RESPONSE_DATA_FOLLOWS ++ bs,
                      trained := true, fault := none }
              else { written := head, trained := true, fault := none }

/-- The codes of net.h are bytes, and the codes the TRAIN_MODEL exchange tells apart are
distinct. -/
def net_h.train_codes_ok (P : net_h) : Bool :=
  decide (P.REQUEST_SEND_CODE < 256) && decide (P.REQUEST_DISCARD_CODE < 256)
  && decide (P.RESPONSE_OK < 256) && decide (P.RESPONSE_DATA_FOLLOWS < 256)
  && decide (P.REQUEST_SEND_CODE ≠ P.REQUEST_DISCARD_CODE)

/-! ## The node codec in the words of the spec -/

/-- The opcode-specific value payload of the spec: for `constant`, `setlocal` and
`getlocal` the full value encoding (tag, then payload); for `var`, `category` and `int` a
compressed-uint, for `float` a float32, for `string` a string, for `array` the size and
the encoded entries. -/
def spec_node_payload (t : nodetype_t) (v : constant_t) : List Nat :=
  match t with
  | node_constant => v.type :: value_payload v
  | node_setlocal => v.type :: value_payload v
  | node_getlocal => v.type :: value_payload v
  | _ => value_payload v

mutual
/-- The node codec as the spec words it: the opcode byte, then the opcode-specific value
payload if the opcode has an embedded value, then, if the opcode has children, the
compressed-uint child count when `min_args` differs from `max_args` (nothing when they
are equal), then the encodings of the children in order. -/
def spec_node_encoding (T : nodetable_t) : node_t → List Nat
  | .mk t v cs =>
    T.opcode t ::
      ((match v with
        | some x => if T.has_value t then spec_node_payload t x else []
        | none => [])
      ++ child_count_bytes T t cs.length ++ spec_node_encoding_children T cs)
/-- The encodings of the trees of a list, one after the other. -/
def spec_node_encoding_children (T : nodetable_t) : List node_t → List Nat
  | [] => []
  | n :: ns => spec_node_encoding T n ++ spec_node_encoding_children T ns
end

/-! ## net.c: sending a dataset -/

/-- What the outside world does during one call of `send_dataset_to_remote_server`: the
network seen by `connect_to_remote_server`, whether `w->error` is set after the write of
the request code and after the write of the hash, the bytes the server delivers, and
the value `read_uint8` returns when its read fails (io.c is not among the sources). -/
structure send_env where
  net : connect_env
  write_error1 : Bool
  write_error2 : Bool
  reply : List Nat
  failed_read : Nat
  deriving DecidableEq, Repr

/-- What a call of `make_request_RECV_DATASET` leaves behind: the value returned, the
bytes handed to the writer, the bytes of the reply still unread, and the flag
`r->error`. -/
structure recv_request_t where
  ret : Bool
  written : List Nat
  rest : List Nat
  error : Bool
  deriving DecidableEq, Repr

/-- The function `make_request_RECV_DATASET` of net.c.  `other_server` is the host and the
port of the server to fetch from (none for NULL); `dataset_write` stands for the
function of dataset.c. -/
def make_request_RECV_DATASET (P : net_h) (dataset_write : dataset_t → List Nat)
    (env : send_env) (dataset : dataset_t) (other_server : Option (List Nat × Nat)) :
    recv_request_t :=
  if env.write_error1 then
    { ret := false, written := write_uint8 P.REQUEST_RECV_DATASET, rest := env.reply,
      error := false }
  else if env.write_error2 then
    { ret := false, written := write_uint8 P.REQUEST_RECV_DATASET ++ dataset.hash,
      rest := env.reply, error := false }
  else
    let status := match env.reply with
      | [] => env.failed_read % 256
      | b :: _ => b
    if status ≠ P.RESPONSE_GO_AHEAD ∧ status ≠ P.RESPONSE_DUPL_DATA then
      { ret := false, written := write_uint8 P.REQUEST_RECV_DATASET ++ dataset.hash,
        rest := env.reply.tail, error := env.reply.isEmpty }
    else if status = P.RESPONSE_DUPL_DATA then
      { ret := true, written := write_uint8 P.REQUEST_RECV_DATASET ++ dataset.hash,
        rest := env.reply.tail, error := env.reply.isEmpty }
    else
      match other_server with
      | some (host, port) =>
        { ret := true,
          written := write_uint8 P.REQUEST_RECV_DATASET ++ dataset.hash ++ write_string host
            ++ write_compressed_uint port,
          rest := env.reply.tail, error := env.reply.isEmpty }
      | none =>
        { ret := true,
          written := write_uint8 P.REQUEST_RECV_DATASET ++ dataset.hash ++ write_string []
            ++ write_compressed_uint 0 ++ dataset_write dataset,
          rest := env.reply.tail, error := env.reply.isEmpty }

/-- What a call of `send_dataset_to_remote_server` leaves behind: the record of the
server, the value returned and the bytes handed to the writer. -/
structure send_result where
  server : remote_server_t
  resp : Nat
  written : List Nat
  deriving DecidableEq, Repr

/-- The function `send_dataset_to_remote_server` of net.c.  The flag `r->error` stays set
once a read has failed; the read of the echoed hash and of the response byte fails
when fewer than `HASH_SIZE + 1` bytes are left. -/
def send_dataset_to_remote_server (P : net_h) (dataset_write : dataset_t → List Nat)
    (server : remote_server_t) (env : send_env) (data : dataset_t)
    (from_server : Option (List Nat × Nat)) : send_result :=
  let c := connect_to_remote_server P server env.net
  if c.2 < 0 then { server := c.1, resp := P.RESPONSE_READ_ERROR, written := [] }
  else if c.1.busy then { server := c.1, resp := P.RESPONSE_BUSY, written := [] }
  else
    let m := make_request_RECV_DATASET P dataset_write env data from_server
    if !m.ret then
      { server := remote_server_is_broken c.1, resp := P.RESPONSE_READ_ERROR,
        written := m.written }
    else if m.error ∨ m.rest.length < HASH_SIZE + 1 then
      { server := remote_server_is_broken c.1, resp := P.RESPONSE_READ_ERROR,
        written := m.written }
    else if m.rest.take HASH_SIZE ≠ data.hash then
      { server := remote_server_is_broken c.1, resp := P.RESPONSE_DATA_ERROR,
        written := m.written }
    else { server := c.1, resp := m.rest.getD HASH_SIZE 0, written := m.written }

/-- The codes `send_dataset_to_remote_server` returns for a failure differ from the two
that stand for success. -/
def net_h.send_codes_ok (P : net_h) : Bool :=
  decide (P.RESPONSE_READ_ERROR ≠ P.RESPONSE_OK)
  && decide (P.RESPONSE_READ_ERROR ≠ P.RESPONSE_DUPL_DATA)
  && decide (P.RESPONSE_DATA_ERROR ≠ P.RESPONSE_OK)
  && decide (P.RESPONSE_DATA_ERROR ≠ P.RESPONSE_DUPL_DATA)
  && decide (P.RESPONSE_BUSY ≠ P.RESPONSE_OK)
  && decide (P.RESPONSE_BUSY ≠ P.RESPONSE_DUPL_DATA)

/-! ## Invariants of the construction macros -/

mutual
/-- Every node of the tree has at most `max_args` children. -/
def node_within_max (T : nodetable_t) : node_t → Bool
  | .mk t _ c => decide (c.length ≤ T.max_args t) && node_within_max_children T c
/-- Every node of the trees of a list has at most `max_args` children. -/
def node_within_max_children (T : nodetable_t) : List node_t → Bool
  | [] => true
  | n :: ns => node_within_max T n && node_within_max_children T ns
end

/-- What holds of the nodes of the chain: `current_node` has at most `max_args` children,
all of them finished trees that `node_sanitycheck` accepts; each node further up has at
most `max_args` children, the last of which is the node below it in the chain, and the
others are finished trees that `node_sanitycheck` accepts. -/
def chain_inv (T : nodetable_t) : List node_t → Prop
  | [] => True
  | current_node :: parents =>
    current_node.num_children ≤ T.max_args current_node.type ∧
    node_sanitycheck_children T current_node.child = true ∧
    ∀ p ∈ parents, p.num_children ≤ T.max_args p.type ∧ p.child ≠ [] ∧
      node_sanitycheck_children T p.child.dropLast = true

/-- What holds between the macros of a block: the invariant of the chain; the root, once
it has left the chain, is a tree that `node_sanitycheck` accepts; and the root is in
the chain until then. -/
structure builder_inv (T : nodetable_t) (b : code_builder) : Prop where
  chain : chain_inv T b.chain
  program : ∀ p, b.program = some p → node_sanitycheck T p = true
  rooted : b.program = none → b.chain ≠ []

/-! ## The child counts `node_read` is told -/

mutual
/-- The nodes of a tree in the order in which `node_read` starts them (a node before its
children, the children from first to last), each with its type and child count. -/
def node_preorder : node_t → List (nodetype_t × Int)
  | .mk t _ c => (t, (c.length : Int)) :: node_preorder_children c
/-- The nodes of the trees of a list, tree after tree. -/
def node_preorder_children : List node_t → List (nodetype_t × Int)
  | [] => []
  | n :: ns => node_preorder n ++ node_preorder_children ns
end

/-- The index `i` of the remote job `r[i]` a report is printed for.  The loop prints
one report each time it sets `j->done`. -/
def dispatch_report.index : dispatch_report → Nat
  | .finished i _ => i
  | .failed i _ _ => i
  | .failed_timeout i _ => i

/-- The number of remote jobs marked done. -/
def num_done (r : List remote_job_t) : Nat := (r.filter (fun j => j.done)).length

/-- The states of the variables of `distribute_jobs_to_servers` between the steps of its
loop, started in `st0`: before the first pass, after the lines that try to start a job,
and after the body of the `for` loop for one `i`, whatever the outside world does. -/
inductive dispatch_reach (P : net_h) (T : nodetable_t) (config_num_remote_servers : Nat)
    (config_limit_network_io : Bool) (config_remote_worker_timeout : Int)
    (servers : server_array_t) (st0 : dispatch_t) : dispatch_t → Prop where
  | init : dispatch_reach P T config_num_remote_servers config_limit_network_io
      config_remote_worker_timeout servers st0 st0
  | start (st : dispatch_t) (env : start_env) (st1 : dispatch_t) :
      dispatch_reach P T config_num_remote_servers config_limit_network_io
        config_remote_worker_timeout servers st0 st →
      dispatch_start P config_num_remote_servers servers st env = .ok st1 →
      dispatch_reach P T config_num_remote_servers config_limit_network_io
        config_remote_worker_timeout servers st0 st1
  | poll (st : dispatch_t) (i : Nat) (env : poll_env) (st1 : dispatch_t) :
      dispatch_reach P T config_num_remote_servers config_limit_network_io
        config_remote_worker_timeout servers st0 st →
      dispatch_poll P T config_limit_network_io config_remote_worker_timeout st i env = .ok st1 →
      dispatch_reach P T config_num_remote_servers config_limit_network_io
        config_remote_worker_timeout servers st0 st1

/-- The states of the variables of `distribute_jobs_to_servers` at the end of the
iterations of its do-while loop, started in `st0`: the first iteration is always made, a
further one when `open_jobs` is not 0. -/
inductive dispatch_iter (P : net_h) (T : nodetable_t) (config_num_remote_servers : Nat)
    (config_limit_network_io : Bool) (config_remote_worker_timeout : Int)
    (servers : server_array_t) (st0 : dispatch_t) : dispatch_t → Prop where
  | first (env : pass_env) (st1 : dispatch_t) :
      dispatch_pass P T config_num_remote_servers config_limit_network_io
        config_remote_worker_timeout servers st0 env = .ok st1 →
      dispatch_iter P T config_num_remote_servers config_limit_network_io
        config_remote_worker_timeout servers st0 st1
  | next (st : dispatch_t) (env : pass_env) (st1 : dispatch_t) :
      dispatch_iter P T config_num_remote_servers config_limit_network_io
        config_remote_worker_timeout servers st0 st →
      st.open_jobs ≠ 0 →
      dispatch_pass P T config_num_remote_servers config_limit_network_io
        config_remote_worker_timeout servers st env = .ok st1 →
      dispatch_iter P T config_num_remote_servers config_limit_network_io
        config_remote_worker_timeout servers st0 st1

/-- The accounting of `distribute_jobs_to_servers` for the queue `jobs`: the remote jobs
`r[0..num)` are the first `num` jobs of the queue, `job` points at the next one;
`open_jobs` counts the jobs of the queue whose remote job is not marked done; one report
was printed for each remote job marked done and none for the others; a remote job not
marked done is running and holds its job as it was queued, with `code` cleared. -/
structure dispatch_acct (jobs : List job_t) (st : dispatch_t) : Prop where
  jobs_num : st.jobs_num = jobs.length
  started : st.r.length ≤ jobs.length
  pending : st.pending = jobs.drop st.r.length
  open_jobs : st.open_jobs = (jobs.length : Int) - (num_done st.r : Int)
  printed_nodup : (st.printed.map dispatch_report.index).Nodup
  printed_done : ∀ i, i ∈ st.printed.map dispatch_report.index ↔
    ∃ j, st.r.get? i = some j ∧ j.done = true
  running : ∀ j ∈ st.r, j.running = true
  fresh : ∀ i j, st.r.get? i = some j → j.done = false →
    ∃ job, jobs.get? i = some job ∧ j.job.score = job.score ∧ j.job.code = none

/-- An opcode table in the shape the spec describes (`root` with one child, `if` with
three, the binary operators with two, leaves with an embedded value), used where an
example needs a concrete table.  ast.c is not among the sources. -/
def sample_nodes : nodetable_t where
  flags := fun t =>
    match t with
    | node_root | node_if | node_add | node_lt | node_gt | node_in => NODE_FLAG_HAS_CHILDREN
    | node_setlocal => NODE_FLAG_HAS_CHILDREN + NODE_FLAG_HAS_VALUE
    | _ => NODE_FLAG_HAS_VALUE
  min_args := fun t =>
    match t with
    | node_root => 1
    | node_if => 3
    | node_add | node_lt | node_gt | node_in => 2
    | _ => 0
  max_args := fun t =>
    match t with
    | node_root => 1
    | node_if => 3
    | node_add | node_lt | node_gt | node_in => 2
    | node_setlocal => 4
    | _ => 0
  opcode := fun t =>
    match t with
    | node_root => 113
    | node_if => 1
    | node_add => 2
    | node_lt => 3
    | node_gt => 4
    | node_in => 5
    | node_var => 6
    | node_category => 7
    | node_float => 8
    | node_int => 9
    | node_bool => 10
    | node_string => 11
    | node_array => 12
    | node_constant => 13
    | node_setlocal => 14
    | node_getlocal => 15

/-- An assignment of distinct byte values to the codes of net.h, used where an example
needs concrete codes.  net.h is not among the sources. -/
def sample_codes : net_h where
  REQUEST_TRAIN_MODEL := 1
  REQUEST_SEND_DATASET := 2
  REQUEST_RECV_DATASET := 3
  REQUEST_SEND_CODE := 4
  REQUEST_DISCARD_CODE := 5
  RESPONSE_OK := 16
  RESPONSE_IDLE := 17
  RESPONSE_BUSY := 18
  RESPONSE_GO_AHEAD := 19
  RESPONSE_DUPL_DATA := 20
  RESPONSE_DATA_FOLLOWS := 21
  RESPONSE_DATASET_UNKNOWN := 22
  RESPONSE_FACTORY_UNKNOWN := 23
  RESPONSE_DATA_ERROR := 24
  RESPONSE_READ_ERROR := 25

/-- A tree for examples: `root(setlocal "A" (array [C1, C2, "BC"], string "D",
if(gt(add(var 0, var 1), var 2), category 1, category 2), constant 3.0f))`. -/
def sample_tree : node_t :=
  .mk node_root none
    [.mk node_setlocal (some (.string [65]))
      [.mk node_array (some (.array [.category 1, .category 2, .string [66, 67]])) [],
       .mk node_string (some (.string [68])) [],
       .mk node_if none
         [.mk node_gt none
            [.mk node_add none [.mk node_var (some (.int 0)) [], .mk node_var (some (.int 1)) []],
             .mk node_var (some (.int 2)) []],
          .mk node_category (some (.category 1)) [],
          .mk node_category (some (.category 2)) []],
       .mk node_constant (some (.float 1077936128)) []]]

/-- A one-node tree for examples: `category 1`. -/
def sample_leaf : node_t := .mk node_category (some (category_constant 1)) []

/-- A remote job for examples, as it is before its result is read. -/
def sample_remote_job : remote_job_t :=
  { job := { score := 0, code := none }, server := 0, socket := 3, start_time := 0,
    running := true, done := false, response := 0, cpu_time := 0 }

/-- A complete answer of a worker for examples: OK, cpu-time 0, the score, and after
`SEND_CODE` the code `category 1`. -/
def sample_response (score : Int) : List Nat :=
  sample_codes.RESPONSE_OK :: (write_compressed_int 0 ++ write_compressed_int score
    ++ sample_codes.RESPONSE_DATA_FOLLOWS :: [sample_nodes.opcode node_category, 1])

/-- A dispatcher state for examples: one job, started on server 0 and not yet answered. -/
def sample_dispatch : dispatch_t :=
  { roster := [default], round_robin := 1, jobs_num := 1, pending := [],
    r := [sample_remote_job], open_jobs := 1, best_score := INT_MAX, total_cpu_time := 0,
    pos := 0, selected := [0], closed := [], printed := [] }

/-- A pass of the dispatcher loop for examples: server 0 accepts the connection at time
`now` with an IDLE header, and no remote job is readable. -/
def sample_quiet_pass (now : Int) : pass_env :=
  { start := { time := now, has_remote_servers := true,
               net := { he := true, sock := 3, ret := 0,
                        header := [sample_codes.RESPONSE_IDLE, 0, 4] } },
    poll := fun _ => { ready := false, time := now, reader := [] } }


/-- A pass of the dispatcher loop for examples: the name lookup of the server fails, and
no remote job is readable. -/
def sample_lookup_fails : pass_env :=
  { start := { time := 0, has_remote_servers := true,
               net := { he := false, sock := 0, ret := 0, header := [] } },
    poll := fun _ => { ready := false, time := 0, reader := [] } }

/-- A pass of the dispatcher loop for examples: every remote job is readable and answers
`DATASET_UNKNOWN`. -/
def sample_answers : pass_env :=
  { start := { time := 2, has_remote_servers := true,
               net := { he := true, sock := 3, ret := 0,
                        header := [sample_codes.RESPONSE_IDLE, 0, 4] } },
    poll := fun _ => { ready := true, time := 2,
                       reader := [sample_codes.RESPONSE_DATASET_UNKNOWN] } }

/-- A model for examples: named "m", two inputs "a" and "b" of column types 0 and 1, and
`sample_tree` as code. -/
def sample_model : model_t :=
  { name := [109], num_inputs := 2, column_names := some [[97], [98]],
    column_types := some [0, 1], code := sample_tree }

/-- A model for examples whose code holds a Bool: `root(constant true)`, no column names
and no column types. -/
def sample_bool_model : model_t :=
  { name := [109], num_inputs := 0, column_names := none, column_types := none,
    code := .mk node_root none [.mk node_constant (some (bool_constant true)) []] }

/-- A stand-in for `dataset_read` for examples: the first byte, repeated, is the hash of
the dataset and the other bytes are its content; on an empty stream the read fails. -/
def sample_dataset_read : reader_t → dataset_read_t
  | [] => { dataset := none, error := true, rest := [] }
  | b :: content =>
    { dataset := some { hash := List.replicate HASH_SIZE b, content := content },
      error := false, rest := [] }

/-- The number of binary digits of `n`, for `n < 2 ^ fuel`. -/
def binary_digits : Nat → Nat → Nat
  | 0, _ => 0
  | fuel + 1, n => if n = 0 then 0 else binary_digits fuel (n / 2) + 1

/-- Whether a 32-bit pattern is a NaN. -/
def float_is_nan (x : Nat) : Bool := x / 8388608 % 256 == 255 && x % 8388608 != 0

/-- The place of a float that is no NaN in the order of the floats (both zeros at 0). -/
def float_rank (x : Nat) : Int :=
  if x / 2147483648 % 2 = 0 then ((x % 2147483648 : Nat) : Int)
  else -((x % 2147483648 : Nat) : Int)

/-- The sum of two positive normal floats, rounded to nearest, ties to even (infinity on
overflow); a NaN for every other pair of operands, which the examples do not use. -/
def sample_float_add (x y : Nat) : Nat :=
  let ex := x / 8388608 % 256
  let ey := y / 8388608 % 256
  if x < 2147483648 ∧ y < 2147483648 ∧ 0 < ex ∧ ex < 255 ∧ 0 < ey ∧ ey < 255 then
    let e := min ex ey
    let total := (x % 8388608 + 8388608) * 2 ^ (ex - e) + (y % 8388608 + 8388608) * 2 ^ (ey - e)
    let s := binary_digits 300 total - 24
    let q := total / 2 ^ s
    let rest := total % 2 ^ s
    let q1 := if rest * 2 > 2 ^ s ∨ (rest * 2 = 2 ^ s ∧ q % 2 = 1) then q + 1 else q
    let q2 := if q1 = 16777216 then 8388608 else q1
    let e1 := if q1 = 16777216 then e + s + 1 else e + s
    if e1 < 255 then e1 * 8388608 + (q2 - 8388608) else 2139095040
  else 2143289344

/-- The float with the value of a small integer (0 <= i < 2^24); a NaN for every other
integer, which the examples do not use. -/
def sample_float_of_int (i : Int) : Nat :=
  if i = 0 then 0
  else if 0 < i ∧ i < 16777216 then
    let n := i.toNat
    let d := binary_digits 24 n
    (d + 126) * 8388608 + (n * 2 ^ (24 - d) - 8388608)
  else 2143289344

/-- A float arithmetic for examples: the comparisons of IEEE 754 single precision, and
the sum and the conversion on the operands given above. -/
def sample_floats : float_ops where
  add := sample_float_add
  lt := fun x y => !float_is_nan x && !float_is_nan y && decide (float_rank x < float_rank y)
  gt := fun x y => !float_is_nan x && !float_is_nan y && decide (float_rank x > float_rank y)
  eq := fun x y => !float_is_nan x && !float_is_nan y && decide (float_rank x = float_rank y)
  of_int := sample_float_of_int

/-- A dataset for examples, with the hash of twenty 7s. -/
def sample_dataset : dataset_t := { hash := List.replicate HASH_SIZE 7, content := [1, 2] }

/-- A stand-in for `model_factory_get_by_name` for examples: the only factory is named
"f". -/
def sample_factories (name : List Nat) : Option Nat := if name = [102] then some 0 else none

/-- A stand-in for `job_process` for examples: training yields the given score and
`sample_tree` as code. -/
def sample_job_process (score : Int) (_ : Nat) (_ : dataset_t) (_ : List Nat) : job_t :=
  { score := score, code := some sample_tree }

/-- A stand-in for `job_process` for examples: training yields the given score and the
code `root(constant true)`. -/
def sample_bool_job_process (score : Int) (_ : Nat) (_ : dataset_t) (_ : List Nat) : job_t :=
  { score := score, code := some sample_bool_model.code }

/-- A call of `send_dataset_to_remote_server` for examples: the server accepts the
connection, nothing goes wrong with the writes, and the server delivers `reply`. -/
def sample_send (reply : List Nat) : send_env :=
  { net := { he := true, sock := 3, ret := 0, header := [sample_codes.RESPONSE_IDLE, 0, 4] },
    write_error1 := false, write_error2 := false, reply := reply, failed_read := 0 }

/-- A pass of the dispatcher loop for examples: the server accepts the connection at time
1 with an IDLE header; the remote job `r[0]` is readable and answers with the score 5
and the code `category 1`, the others are not readable. -/
def sample_mixed_pass : pass_env :=
  { start := { time := 1, has_remote_servers := true,
               net := { he := true, sock := 4, ret := 0,
                        header := [sample_codes.RESPONSE_IDLE, 0, 4] } },
    poll := fun i =>
      if i = 0 then { ready := true, time := 1, reader := sample_response 5 }
      else { ready := false, time := 1, reader := [] } }

theorem to_int32_to_uint32 (i : Int) (h : is_int32 i) : to_int32 (to_uint32 i) = i := by
  unfold is_int32 at h
  unfold to_int32 to_uint32
  omega

theorem to_uint32_lt (i : Int) : to_uint32 i < 4294967296 := by
  unfold to_uint32
  omega

theorem compressed_uint_value_groups (k : Nat) :
    ∀ (u : Nat) (rest : List Nat), u < 128 ^ (k + 1) →
      compressed_uint_value (compressed_uint_groups k u ++ rest) = .ok (u, rest) := by
  induction k with
  | zero =>
    intro u rest h
    have h1 : u < 128 := by simpa using h
    simp [compressed_uint_groups, compressed_uint_value, h1]
  | succ k ih =>
    intro u rest h
    by_cases h1 : u < 128
    · simp [compressed_uint_groups, compressed_uint_value, h1]
    · have h2 : u / 128 < 128 ^ (k + 1) := by
        rw [Nat.div_lt_iff_lt_mul (by norm_num)]
        calc u < 128 ^ (k + 1 + 1) := h
          _ = 128 ^ (k + 1) * 128 := by ring
      have h3 : ¬ (u % 128 + 128 < 128) := by omega
      simp only [compressed_uint_groups, h1, if_false, List.cons_append, compressed_uint_value, h3,
        ih (u / 128) rest h2]
      have h4 : (u % 128 + 128) % 128 + 128 * (u / 128) = u := by omega
      rw [h4]

theorem read_compressed_uint_write (u : Nat) (rest : List Nat) :
    read_compressed_uint (write_compressed_uint u ++ rest) = .ok (u % 4294967296, rest) := by
  unfold read_compressed_uint write_compressed_uint
  have h : u % 4294967296 < 128 ^ (4 + 1) := by
    have : u % 4294967296 < 4294967296 := Nat.mod_lt _ (by norm_num)
    norm_num
    omega
  rw [compressed_uint_value_groups 4 _ rest h]
  simp

theorem read_compressed_int_write (i : Int) (h : is_int32 i) (rest : List Nat) :
    read_compressed_int (write_compressed_int i ++ rest) = .ok (i, rest) := by
  unfold read_compressed_int write_compressed_int
  rw [read_compressed_uint_write]
  simp only [Nat.mod_eq_of_lt (to_uint32_lt i), to_int32_to_uint32 i h]

theorem read_float_write (f : Nat) (h : f < 4294967296) (rest : List Nat) :
    read_float (write_float f ++ rest) = .ok (f, rest) := by
  unfold write_float
  simp only [List.cons_append, List.nil_append, read_float]
  have : f % 256 + 256 * (f / 256 % 256) + 65536 * (f / 65536 % 256)
      + 16777216 * (f / 16777216 % 256) = f := by omega
  rw [this]

theorem read_string_write (s : List Nat) (h : s.length < 4294967296) (rest : List Nat) :
    read_string (write_string s ++ rest) = .ok (s, rest) := by
  unfold read_string write_string
  rw [List.append_assoc, read_compressed_uint_write, Nat.mod_eq_of_lt h]
  simp

theorem c_string_eq (s : List Nat) (h : ∀ b ∈ s, b ≠ 0) : c_string s = s := by
  unfold c_string
  rw [List.takeWhile_eq_self_iff]
  intro b hb
  simpa using h b hb

theorem write_uint8_tag (t : Nat) (h : t < 256) : write_uint8 t = [t] := by
  unfold write_uint8
  rw [Nat.mod_eq_of_lt h]

theorem string_wf_nonzero (s : List Nat)
    (h : s.all (fun b => decide (0 < b ∧ b < 256)) = true) : ∀ b ∈ s, b ≠ 0 := by
  intro b hb
  rw [List.all_eq_true] at h
  have := h b hb
  simp only [decide_eq_true_eq] at this
  omega

/-- A scalar value is written as its tag and payload and read back. -/
theorem constant_read_write_scalar (flags : Nat) (v : constant_t) (hf : omit_strings flags = false)
    (hwf : constant_wf v = true) (hs : v.is_scalar = true) (rest : List Nat) :
    constant_write flags v = .ok (v.type :: value_payload v) ∧
    constant_read (v.type :: value_payload v ++ rest) = .ok (v, rest) := by
  cases v with
  | float f =>
    simp only [constant_wf, decide_eq_true_eq] at hwf
    simp [constant_write, constant_read, read_uint8, constant_t.type, value_payload, write_uint8,
      CONSTANT_FLOAT, CONSTANT_CATEGORY, read_float_write f hwf]
  | category c =>
    simp only [constant_wf, decide_eq_true_eq] at hwf
    simp [constant_write, constant_read, read_uint8, constant_t.type, value_payload, write_uint8,
      CONSTANT_CATEGORY, read_compressed_uint_write, Nat.mod_eq_of_lt (to_uint32_lt c),
      to_int32_to_uint32 c hwf]
  | int i =>
    simp only [constant_wf, decide_eq_true_eq] at hwf
    simp [constant_write, constant_read, read_uint8, constant_t.type, value_payload, write_uint8,
      CONSTANT_CATEGORY, CONSTANT_INT, CONSTANT_FLOAT, read_compressed_uint_write,
      Nat.mod_eq_of_lt (to_uint32_lt i), to_int32_to_uint32 i hwf]
  | bool b => simp [constant_t.is_scalar] at hs
  | missing =>
    simp [constant_write, constant_read, read_uint8, constant_t.type, value_payload, write_uint8,
      CONSTANT_CATEGORY, CONSTANT_INT, CONSTANT_FLOAT, CONSTANT_MISSING, CONSTANT_STRING]
  | array a => simp [constant_t.is_scalar] at hs
  | string s =>
    simp only [constant_wf, Bool.and_eq_true, decide_eq_true_eq] at hwf
    simp [constant_write, constant_read, read_uint8, constant_t.type, value_payload, write_uint8,
      CONSTANT_CATEGORY, CONSTANT_INT, CONSTANT_FLOAT, CONSTANT_STRING, hf,
      read_string_write s hwf.1, c_string_eq s (string_wf_nonzero s hwf.2)]

theorem constant_write_bool (flags : Nat) (b : Bool) :
    constant_write flags (.bool b) = .error .exit := by
  simp [constant_write]

theorem constant_read_bool (r : reader_t) : constant_read (CONSTANT_BOOL :: r) = .error .exit := by
  simp [constant_read, read_uint8, CONSTANT_BOOL, CONSTANT_CATEGORY, CONSTANT_INT, CONSTANT_FLOAT,
    CONSTANT_MISSING, CONSTANT_STRING]

theorem constant_read_array (r : reader_t) : constant_read (CONSTANT_ARRAY :: r) = .error .exit := by
  simp [constant_read, read_uint8, CONSTANT_ARRAY, CONSTANT_CATEGORY, CONSTANT_INT, CONSTANT_FLOAT,
    CONSTANT_MISSING, CONSTANT_STRING]

/-! ## Lemmas: the opcode table -/

theorem mem_LIST_NODES (t : nodetype_t) : t ∈ LIST_NODES := by
  cases t <;> simp [LIST_NODES]

theorem valid_opcode_lt (T : nodetable_t) (h : T.valid = true) (t : nodetype_t) :
    T.opcode t < 256 := by
  simp only [nodetable_t.valid, Bool.and_eq_true, List.all_eq_true, decide_eq_true_eq] at h
  exact (h.1.1 t (mem_LIST_NODES t)).1

theorem valid_max_args_lt (T : nodetable_t) (h : T.valid = true) (t : nodetype_t) :
    T.max_args t < 2147483648 := by
  simp only [nodetable_t.valid, Bool.and_eq_true, List.all_eq_true, decide_eq_true_eq] at h
  exact (h.1.1 t (mem_LIST_NODES t)).2

theorem valid_has_value (T : nodetable_t) (h : T.valid = true) (t : nodetype_t)
    (ht : t ∈ [node_array, node_category, node_float, node_int, node_string, node_var]) :
    T.has_value t = true := by
  simp only [nodetable_t.valid, Bool.and_eq_true, List.all_eq_true, decide_eq_true_eq] at h
  exact h.2 t ht

theorem find_of_nodup_map {α : Type} [DecidableEq α] (f : α → Nat) :
    ∀ (l : List α) (t : α), (l.map f).Nodup → t ∈ l →
      l.find? (fun x => f x == f t) = some t := by
  intro l
  induction l with
  | nil => intro t _ ht; simp at ht
  | cons a l ih =>
    intro t hn ht
    rw [List.map_cons, List.nodup_cons] at hn
    by_cases hat : a = t
    · subst hat
      simp [List.find?]
    · have hmem : t ∈ l := by
        rcases List.mem_cons.mp ht with h | h
        · exact absurd h.symm hat
        · exact h
      have hne : f a ≠ f t := by
        intro he
        apply hn.1
        rw [he]
        exact List.mem_map_of_mem f hmem
      have hb : (f a == f t) = false := by simpa using hne
      rw [List.find?_cons, hb]
      exact ih t hn.2 hmem

theorem opcode_to_node_opcode (T : nodetable_t) (h : T.valid = true) (t : nodetype_t) :
    opcode_to_node T (T.opcode t) = some t := by
  unfold opcode_to_node
  apply find_of_nodup_map T.opcode LIST_NODES t _ (mem_LIST_NODES t)
  simp only [nodetable_t.valid, Bool.and_eq_true, decide_eq_true_eq] at h
  exact h.1.2

/-! ## Lemmas: values inside nodes -/

theorem constant_entries_read_write (flags : Nat) (hf : omit_strings flags = false) :
    ∀ (a : List constant_t), a.all constant_t.is_scalar = true → constant_wf_entries a = true →
      constant_write_entries flags a = .ok (value_payload_entries a) ∧
      ∀ rest, constant_read_entries a.length (value_payload_entries a ++ rest) = .ok (a, rest) := by
  intro a
  induction a with
  | nil => intro _ _; simp [constant_write_entries, value_payload_entries, constant_read_entries]
  | cons c cs ih =>
    intro hs hwf
    simp only [List.all_cons, Bool.and_eq_true] at hs
    simp only [constant_wf_entries, Bool.and_eq_true] at hwf
    obtain ⟨hw, hr⟩ := ih hs.2 hwf.2
    constructor
    · simp only [constant_write_entries, (constant_read_write_scalar flags c hf hwf.1 hs.1 []).1,
        hw, value_payload_entries]
    · intro rest
      have h1 := (constant_read_write_scalar flags c hf hwf.1 hs.1
        (value_payload_entries cs ++ rest)).2
      simp only [List.length_cons, constant_read_entries, value_payload_entries,
        List.append_assoc, h1, hr rest]

/-- A node without embedded value writes no value bytes and reads none. -/
theorem node_value_read_write_none (T : nodetable_t) (hT : T.valid = true) (flags : Nat)
    (t : nodetype_t) (hv : T.has_value t = false) :
    node_write_internal_data T flags t none = .ok [] ∧
      ∀ rest, node_read_value T t rest = .ok (none, rest) := by
  have h6 : t ∉ [node_array, node_category, node_float, node_int, node_string, node_var] := by
    intro hm
    rw [valid_has_value T hT t hm] at hv
    exact Bool.noConfusion hv
  constructor
  · cases t <;> simp [node_write_internal_data, hv] at h6 ⊢
  · intro rest
    simp [node_read_value, hv, node_new, node_t.value]

/-- The value of a `constant`, `setlocal` or `getlocal` node is written and read back. -/
theorem node_value_read_write_full (T : nodetable_t) (flags : Nat)
    (hf : omit_strings flags = false) (t : nodetype_t) (x : constant_t)
    (ht : t = node_constant ∨ t = node_setlocal ∨ t = node_getlocal)
    (hv : T.has_value t = true) (hx : constant_wf x = true) (hs : x.is_scalar = true) :
    ∃ d, node_write_internal_data T flags t (some x) = .ok d ∧
      ∀ rest, node_read_value T t (d ++ rest) = .ok (some x, rest) := by
  refine ⟨x.type :: value_payload x, ?_, ?_⟩
  · have hw := (constant_read_write_scalar flags x hf hx hs []).1
    rcases ht with h | h | h <;> subst h <;> simp [node_write_internal_data, hv, hw]
  · intro rest
    have hr := (constant_read_write_scalar flags x hf hx hs rest).2
    rw [List.cons_append] at hr
    rcases ht with h | h | h <;> subst h <;>
      simp [node_read_value, node_read_internal_data, hv, hr]

/-- The value part of one node is written and read back. -/
theorem node_value_read_write_some (T : nodetable_t) (flags : Nat)
    (hf : omit_strings flags = false) (t : nodetype_t) (x : constant_t)
    (hv : T.has_value t = true) (he : value_expected t x = true) (hx : constant_wf x = true)
    (hc : value_codec_ok t x = true) :
    ∃ d, node_write_internal_data T flags t (some x) = .ok d ∧
      ∀ rest, node_read_value T t (d ++ rest) = .ok (some x, rest) := by
  cases t
  case node_constant =>
    exact node_value_read_write_full T flags hf _ x (by simp) hv hx (by simpa [value_codec_ok] using hc)
  case node_setlocal =>
    exact node_value_read_write_full T flags hf _ x (by simp) hv hx (by simpa [value_codec_ok] using hc)
  case node_getlocal =>
    exact node_value_read_write_full T flags hf _ x (by simp) hv hx (by simpa [value_codec_ok] using hc)
  case node_var =>
    cases x <;> simp only [value_expected] at he <;> try exact absurd he (by decide)
    case int i =>
      simp only [constant_wf, decide_eq_true_eq] at hx
      refine ⟨write_compressed_uint (to_uint32 i), by simp [node_write_internal_data], ?_⟩
      intro rest
      simp [node_read_value, node_read_internal_data, hv, read_compressed_uint_write,
        Nat.mod_eq_of_lt (to_uint32_lt i), to_int32_to_uint32 i hx, int_constant]
  case node_int =>
    cases x <;> simp only [value_expected] at he <;> try exact absurd he (by decide)
    case int i =>
      simp only [constant_wf, decide_eq_true_eq] at hx
      refine ⟨write_compressed_uint (to_uint32 i), by simp [node_write_internal_data], ?_⟩
      intro rest
      simp [node_read_value, node_read_internal_data, hv, read_compressed_uint_write,
        Nat.mod_eq_of_lt (to_uint32_lt i), to_int32_to_uint32 i hx, int_constant]
  case node_category =>
    cases x <;> simp only [value_expected] at he <;> try exact absurd he (by decide)
    case category c =>
      simp only [constant_wf, decide_eq_true_eq] at hx
      refine ⟨write_compressed_uint (to_uint32 c), by simp [node_write_internal_data], ?_⟩
      intro rest
      simp [node_read_value, node_read_internal_data, hv, read_compressed_uint_write,
        Nat.mod_eq_of_lt (to_uint32_lt c), to_int32_to_uint32 c hx, category_constant]
  case node_float =>
    cases x <;> simp only [value_expected] at he <;> try exact absurd he (by decide)
    case float f =>
      simp only [constant_wf, decide_eq_true_eq] at hx
      refine ⟨write_float f, by simp [node_write_internal_data], ?_⟩
      intro rest
      simp [node_read_value, node_read_internal_data, hv, read_float_write f hx, float_constant]
  case node_string =>
    cases x <;> simp only [value_expected] at he <;> try exact absurd he (by decide)
    case string s =>
      simp only [constant_wf, Bool.and_eq_true, decide_eq_true_eq] at hx
      refine ⟨write_string s, by simp [node_write_internal_data, hf], ?_⟩
      intro rest
      simp [node_read_value, node_read_internal_data, hv, read_string_write s hx.1,
        string_constant, c_string_eq s (string_wf_nonzero s hx.2)]
  case node_array =>
    cases x <;> simp only [value_expected] at he <;> try exact absurd he (by decide)
    case array a =>
      simp only [value_codec_ok, Bool.and_eq_true, decide_eq_true_eq] at hc
      simp only [constant_wf] at hx
      obtain ⟨hw, hr⟩ := constant_entries_read_write flags hf a hc.2 hx
      refine ⟨write_compressed_uint a.length ++ value_payload_entries a,
        by simp [node_write_internal_data, hc.1, hw], ?_⟩
      intro rest
      have hl : a.length % 4294967296 = a.length := Nat.mod_eq_of_lt (by omega)
      simp [node_read_value, node_read_internal_data, hv, read_compressed_uint_write, hl, hr rest,
        array_constant]
  all_goals (cases x <;> simp [value_expected, value_codec_ok] at he hc)

/-! ## Lemmas: the work stack -/

theorem node_read_loop_succ (T : nodetable_t) (fuel : Nat) (stack : List nodestack_t)
    (top : Option node_t) (r : reader_t) :
    node_read_loop T (fuel + 1) stack top r =
      match node_read_step T stack top r with
      | .error e => .error e
      | .ok (s, r1) => node_read_resume T fuel s r1 := by
  rw [node_read_loop]
  cases h : node_read_step T stack top r with
  | error e => rfl
  | ok x =>
    obtain ⟨⟨s1, t1⟩, r1⟩ := x
    cases s1 <;> simp [node_read_resume]

theorem pop_complete_of_ne (f : nodestack_t) (a : Option node_t) (fs : List nodestack_t)
    (h : f.num_children ≠ (f.node.num_children : Int)) : pop_complete f a fs = (f :: fs, a) := by
  cases fs <;> simp [pop_complete, h]

theorem node_update_last_child_attach (p : nodestack_t) (x n : node_t) :
    node_update_last_child (frame_attach p [x]).node n = (frame_attach p [n]).node := by
  simp [node_update_last_child, frame_attach, node_t.type, node_t.value, node_t.child]

theorem pop_complete_of_eq (f : nodestack_t) (a : Option node_t) (stack : List nodestack_t)
    (x : node_t) (h : f.num_children = (f.node.num_children : Int)) :
    pop_complete f a (stack_push_child stack x) = stack_after_node f.node stack := by
  cases stack with
  | nil => simp [stack_push_child, pop_complete, h, stack_after_node]
  | cons p ps =>
    simp only [stack_push_child, pop_complete, h, if_true, stack_after_node]
    congr 1
    rw [node_update_last_child_attach]
    rfl

theorem node_read_num_children_count (T : nodetable_t) (hT : T.valid = true) (t : nodetype_t)
    (n : Nat)
    (hch : (if T.has_children t then decide (T.min_args t ≤ n) && decide (n ≤ T.max_args t)
            else decide (n = 0)) = true) (rest : List Nat) :
    node_read_num_children T t (child_count_bytes T t n ++ rest) = .ok ((n : Int), rest) := by
  unfold node_read_num_children child_count_bytes
  by_cases hc : T.has_children t = true
  · simp only [hc, if_true, Bool.and_eq_true, decide_eq_true_eq, true_and] at hch ⊢
    by_cases hm : T.min_args t = T.max_args t
    · have : T.min_args t = n := by omega
      simp [hm, ← this]
    · have hlt := valid_max_args_lt T hT t
      have h1 : n % 4294967296 = n := Nat.mod_eq_of_lt (by omega)
      have h2 : to_int32 n = (n : Int) := by unfold to_int32; omega
      simp [hm, read_compressed_uint_write, h1, h2]
  · simp only [hc, Bool.false_eq_true, if_false, decide_eq_true_eq] at hch ⊢
    simp [hch, stack_new]

theorem node_read_step_node (T : nodetable_t) (hT : T.valid = true) (t : nodetype_t)
    (v : Option constant_t) (n : Nat) (d : List Nat)
    (hd : ∀ rest, node_read_value T t (d ++ rest) = .ok (v, rest))
    (hch : (if T.has_children t then decide (T.min_args t ≤ n) && decide (n ≤ T.max_args t)
            else decide (n = 0)) = true)
    (stack : List nodestack_t) (top : Option node_t) (hacc : stack_accepts T stack)
    (rest : List Nat) :
    node_read_step T stack top (write_uint8 (T.opcode t) ++ d ++ child_count_bytes T t n ++ rest)
      = .ok (pop_complete { node := .mk t v [], num_children := (n : Int) } top
               (stack_push_child stack (.mk t v [])), rest) := by
  unfold node_read_step
  rw [write_uint8_tag _ (valid_opcode_lt T hT t)]
  simp only [List.cons_append, List.nil_append, List.append_assoc, read_uint8,
    opcode_to_node_opcode T hT t, hd, node_read_num_children_count T hT t n hch]
  cases stack with
  | nil => simp [stack_push_child]
  | cons p ps =>
    have hp : p.node.num_children < T.max_args p.node.type := hacc p (by simp)
    simp [stack_push_child, node_append_child, hp, frame_attach]

theorem pop_complete_irrel (f : nodestack_t) (a b : Option node_t) (fs : List nodestack_t)
    (h : f.num_children = (f.node.num_children : Int)) :
    pop_complete f a fs = pop_complete f b fs := by
  cases fs <;> simp [pop_complete, h]

theorem frame_attach_attach (f : nodestack_t) (c : node_t) (cs : List node_t) :
    frame_attach (frame_attach f [c]) cs = frame_attach f (c :: cs) := by
  simp [frame_attach, node_t.type, node_t.value, node_t.child]

theorem frame_attach_num_children (f : nodestack_t) (cs : List node_t) :
    (frame_attach f cs).num_children = f.num_children := rfl

theorem frame_attach_node_num_children (f : nodestack_t) (cs : List node_t) :
    (frame_attach f cs).node.num_children = f.node.num_children + cs.length := by
  simp [frame_attach, node_t.num_children, node_t.child]

theorem frame_attach_node_type (f : nodestack_t) (cs : List node_t) :
    (frame_attach f cs).node.type = f.node.type := rfl

theorem node_read_resume_cons (T : nodetable_t) (fuel : Nat) (f : nodestack_t)
    (fs : List nodestack_t) (a : Option node_t) (r : reader_t) :
    node_read_resume T fuel (f :: fs, a) r = node_read_loop T fuel (f :: fs) a r := rfl

theorem node_write_eq (T : nodetable_t) (flags : Nat) (t : nodetype_t) (v : Option constant_t)
    (cs : List node_t) (d bcs : List Nat)
    (hd : node_write_internal_data T flags t v = .ok d)
    (hcs : node_write_children T flags cs = .ok bcs)
    (hch : (if T.has_children t then decide (T.min_args t ≤ cs.length) && decide (cs.length ≤ T.max_args t)
            else decide (cs.length = 0)) = true) :
    node_write T flags (.mk t v cs) =
      .ok (write_uint8 (T.opcode t) ++ d ++ child_count_bytes T t cs.length ++ bcs) := by
  rw [node_write]
  simp only [hd, hcs, child_count_bytes]
  by_cases hc : T.has_children t = true
  · simp only [hc, if_true, Bool.and_eq_true, decide_eq_true_eq, true_and] at hch ⊢
    by_cases hm : T.min_args t = T.max_args t
    · have : T.min_args t = cs.length := by omega
      simp [hm, ← this]
    · simp [hm]
  · simp only [hc, Bool.false_eq_true, if_false, decide_eq_true_eq, List.length_eq_zero] at hch ⊢
    subst hch
    simp [node_write_children] at hcs
    simp [hcs]

mutual
/-- Reading the bytes written for a tree leaves the work stack as if the finished tree had
been stored in one step. -/
theorem node_read_loop_write (T : nodetable_t) (hT : T.valid = true) (flags : Nat)
    (hf : omit_strings flags = false) :
    ∀ (n : node_t), node_wf T n = true → node_codec_ok n = true →
      ∃ bs, node_write T flags n = .ok bs ∧ node_count n ≤ bs.length ∧
        ∀ (fuel : Nat) (stack : List nodestack_t) (top : Option node_t) (rest : List Nat),
          stack_accepts T stack →
          node_read_loop T (fuel + node_count n) stack top (bs ++ rest)
            = node_read_resume T fuel (stack_after_node n stack) rest
  | .mk t v cs, hwf, hok => by
    simp only [node_wf, Bool.and_eq_true] at hwf
    simp only [node_codec_ok, Bool.and_eq_true] at hok
    obtain ⟨⟨⟨⟨hmin, hmax0⟩, hch⟩, hv⟩, hwcs⟩ := hwf
    simp only [decide_eq_true_eq] at hmin hmax0
    simp only [Bool.or_eq_true, List.isEmpty_iff] at hch
    obtain ⟨hcv, hocs⟩ := hok
    obtain ⟨bcs, hbcs, hlen, hloop⟩ := node_read_loop_write_children T hT flags hf cs hwcs hocs
    have hval : ∃ d, node_write_internal_data T flags t v = .ok d ∧
        ∀ rest, node_read_value T t (d ++ rest) = .ok (v, rest) := by
      cases v with
      | none =>
        simp only [Bool.not_eq_true'] at hv
        exact ⟨[], (node_value_read_write_none T hT flags t hv).1,
          fun rest => by simpa using (node_value_read_write_none T hT flags t hv).2 rest⟩
      | some x =>
        simp only [Bool.and_eq_true] at hv
        exact node_value_read_write_some T flags hf t x hv.1.1 hv.1.2 hv.2 hcv
    obtain ⟨d, hd, hdr⟩ := hval
    have hch2 : (if T.has_children t then decide (T.min_args t ≤ cs.length)
        && decide (cs.length ≤ T.max_args t) else decide (cs.length = 0)) = true := by
      by_cases hc : T.has_children t = true
      · simp [hc, hmin, hmax0]
      · rcases hch with h | h
        · exact absurd h hc
        · simp [hc, h]
    refine ⟨write_uint8 (T.opcode t) ++ d ++ child_count_bytes T t cs.length ++ bcs,
      node_write_eq T flags t v cs d bcs hd hbcs hch2, ?_, ?_⟩
    · simp only [node_count, List.length_append, write_uint8, List.length_singleton]
      omega
    · intro fuel stack top rest hacc
      have hfuel : fuel + node_count (.mk t v cs) = (fuel + node_count_children cs) + 1 := by
        simp only [node_count]; omega
      rw [hfuel, node_read_loop_succ]
      have hstep := node_read_step_node T hT t v cs.length d hdr hch2 stack top hacc (bcs ++ rest)
      rw [← List.append_assoc] at hstep
      rw [hstep]
      simp only
      cases cs with
      | nil =>
        simp only [node_write_children, Except.ok.injEq] at hbcs
        subst hbcs
        rw [pop_complete_of_eq _ _ _ _ (by simp [node_t.num_children, node_t.child])]
        simp [node_count_children]
      | cons c cs1 =>
        rw [pop_complete_of_ne _ _ _ (by simp [node_t.num_children, node_t.child]; omega)]
        have hmax : (c :: cs1).length ≤ T.max_args t := hmax0
        have h := hloop fuel { node := .mk t v [], num_children := ((c :: cs1).length : Int) }
          (stack_push_child stack (.mk t v [])) top rest (by simp)
          (by simp [node_t.num_children, node_t.child])
          (by simpa [node_t.num_children, node_t.child, node_t.type] using hmax)
        rw [node_read_resume_cons, h]
        rw [pop_complete_of_eq _ _ _ _
          (by simp [frame_attach, node_t.num_children, node_t.child])]
        simp [frame_attach, node_t.type, node_t.value, node_t.child]
/-- Reading the bytes written for the remaining children of a frame fills the frame. -/
theorem node_read_loop_write_children (T : nodetable_t) (hT : T.valid = true) (flags : Nat)
    (hf : omit_strings flags = false) :
    ∀ (cs : List node_t), node_wf_children T cs = true → node_codec_ok_children cs = true →
      ∃ bs, node_write_children T flags cs = .ok bs ∧ node_count_children cs ≤ bs.length ∧
        ∀ (fuel : Nat) (f : nodestack_t) (fs : List nodestack_t) (top : Option node_t)
          (rest : List Nat), cs ≠ [] →
          f.num_children = ((f.node.num_children + cs.length : Nat) : Int) →
          f.node.num_children + cs.length ≤ T.max_args f.node.type →
          node_read_loop T (fuel + node_count_children cs) (f :: fs) top (bs ++ rest)
            = node_read_resume T fuel (pop_complete (frame_attach f cs) none fs) rest
  | [], _, _ => ⟨[], by simp [node_write_children], by simp [node_count_children],
      fun _ _ _ _ _ h => absurd rfl h⟩
  | c :: cs1, hwf, hok => by
    simp only [node_wf_children, Bool.and_eq_true] at hwf
    simp only [node_codec_ok_children, Bool.and_eq_true] at hok
    obtain ⟨bc, hbc, hlc, hloopc⟩ := node_read_loop_write T hT flags hf c hwf.1 hok.1
    obtain ⟨bcs, hbcs, hlcs, hloopcs⟩ :=
      node_read_loop_write_children T hT flags hf cs1 hwf.2 hok.2
    refine ⟨bc ++ bcs, by simp [node_write_children, hbc, hbcs], ?_, ?_⟩
    · simp only [node_count_children, List.length_append]; omega
    · intro fuel f fs top rest _ hnum hmax
      have hfuel : fuel + node_count_children (c :: cs1)
          = (fuel + node_count_children cs1) + node_count c := by
        simp only [node_count_children]; omega
      have hacc : stack_accepts T (f :: fs) := by
        intro p hp
        simp only [List.head?_cons, Option.mem_def, Option.some.injEq] at hp
        subst hp
        simp only [List.length_cons] at hmax
        omega
      rw [hfuel, List.append_assoc, hloopc _ (f :: fs) top (bcs ++ rest) hacc]
      simp only [stack_after_node]
      cases cs1 with
      | nil =>
        simp only [node_write_children, Except.ok.injEq] at hbcs
        subst hbcs
        simp only [node_count_children, Nat.add_zero, List.nil_append]
        rw [pop_complete_irrel _ (some c) none]
        rw [frame_attach_num_children, frame_attach_node_num_children, hnum]
      | cons c2 cs2 =>
        have hne : (frame_attach f [c]).num_children
            ≠ ((frame_attach f [c]).node.num_children : Int) := by
          rw [frame_attach_num_children, frame_attach_node_num_children, hnum]
          simp only [List.length_cons, List.length_nil]
          omega
        rw [pop_complete_of_ne _ _ _ hne, node_read_resume_cons]
        rw [hloopcs fuel (frame_attach f [c]) fs (some c) rest (by simp)
          (by
            rw [frame_attach_num_children, frame_attach_node_num_children, hnum]
            simp only [List.length_cons, List.length_nil]
            omega)
          (by
            rw [frame_attach_node_num_children, frame_attach_node_type]
            simp only [List.length_cons, List.length_nil] at hmax ⊢
            omega)]
        rw [frame_attach_attach]
end

mutual
/-- A well-formed tree passes `node_sanitycheck`. -/
theorem node_sanitycheck_of_wf (T : nodetable_t) :
    ∀ (n : node_t), node_wf T n = true → node_sanitycheck T n = true
  | .mk t v cs, h => by
    simp only [node_wf, Bool.and_eq_true] at h
    simp only [node_sanitycheck, Bool.and_eq_true]
    exact ⟨⟨h.1.1.1.1, h.1.1.1.2⟩, node_sanitycheck_children_of_wf T cs h.2⟩
/-- Well-formed trees of a list pass `node_sanitycheck`. -/
theorem node_sanitycheck_children_of_wf (T : nodetable_t) :
    ∀ (cs : List node_t), node_wf_children T cs = true → node_sanitycheck_children T cs = true
  | [], _ => by simp [node_sanitycheck_children]
  | c :: cs, h => by
    simp only [node_wf_children, Bool.and_eq_true] at h
    simp only [node_sanitycheck_children, Bool.and_eq_true]
    exact ⟨node_sanitycheck_of_wf T c h.1, node_sanitycheck_children_of_wf T cs h.2⟩
end

/-- Round trip of the node codec on the trees it supports. -/
theorem node_read_write_ok (T : nodetable_t) (hT : T.valid = true) (flags : Nat)
    (hf : omit_strings flags = false) (n : node_t) (hwf : node_wf T n = true)
    (hok : node_codec_ok n = true) :
    ∃ bs, node_write T flags n = .ok bs ∧ ∀ rest, node_read T (bs ++ rest) = .ok (n, rest) := by
  obtain ⟨bs, hw, hlen, hloop⟩ := node_read_loop_write T hT flags hf n hwf hok
  refine ⟨bs, hw, ?_⟩
  intro rest
  have hfuel : (bs ++ rest).length + 1
      = ((bs ++ rest).length + 1 - node_count n) + node_count n := by
    simp only [List.length_append]; omega
  unfold node_read
  rw [hfuel, hloop _ [] none rest (by intro p hp; simp at hp)]
  simp [stack_after_node, node_read_resume, node_sanitycheck_of_wf T n hwf]

/-! ## Lemmas: string omission -/

theorem write_string_nil : write_string [] = write_uint8 0 := by decide

theorem constant_omit_strings_type (v : constant_t) :
    (constant_omit_strings v).type = v.type := by
  cases v <;> simp [constant_omit_strings, constant_t.type]

theorem constant_omit_strings_entries_length :
    ∀ (a : List constant_t), (constant_omit_strings_entries a).length = a.length
  | [] => rfl
  | c :: cs => by simp [constant_omit_strings_entries, constant_omit_strings_entries_length cs]

mutual
/-- Writing a value with strings omitted is writing the value with its strings emptied. -/
theorem constant_write_omit (flags flags0 : Nat) (h1 : omit_strings flags = true)
    (h0 : omit_strings flags0 = false) :
    ∀ (v : constant_t), constant_write flags v = constant_write flags0 (constant_omit_strings v)
  | .float f => by simp [constant_write, constant_omit_strings]
  | .category c => by simp [constant_write, constant_omit_strings]
  | .int i => by simp [constant_write, constant_omit_strings]
  | .bool b => by simp [constant_write, constant_omit_strings]
  | .missing => by simp [constant_write, constant_omit_strings]
  | .string s => by simp [constant_write, constant_omit_strings, h1, h0, write_string_nil]
  | .array a => by
    simp only [constant_write, constant_omit_strings, constant_omit_strings_entries_length,
      constant_write_entries_omit flags flags0 h1 h0 a]
/-- The same for the entries of an array. -/
theorem constant_write_entries_omit (flags flags0 : Nat) (h1 : omit_strings flags = true)
    (h0 : omit_strings flags0 = false) :
    ∀ (a : List constant_t),
      constant_write_entries flags a = constant_write_entries flags0 (constant_omit_strings_entries a)
  | [] => by simp [constant_write_entries, constant_omit_strings_entries]
  | c :: cs => by
    simp only [constant_write_entries, constant_omit_strings_entries,
      constant_write_omit flags flags0 h1 h0 c, constant_write_entries_omit flags flags0 h1 h0 cs]
end

theorem node_write_internal_data_omit (T : nodetable_t) (flags flags0 : Nat)
    (h1 : omit_strings flags = true) (h0 : omit_strings flags0 = false) (t : nodetype_t)
    (v : Option constant_t) :
    node_write_internal_data T flags t v
      = node_write_internal_data T flags0 t (v.map constant_omit_strings) := by
  cases v with
  | none => cases t <;> simp [node_write_internal_data]
  | some x =>
    have hx := constant_write_omit flags flags0 h1 h0 x
    cases t <;> cases x <;>
      simp [node_write_internal_data, constant_omit_strings, h1, h0, write_string_nil,
        constant_omit_strings_entries_length, constant_write_entries_omit flags flags0 h1 h0] <;>
      simp [constant_omit_strings] at hx <;> simp [hx]

theorem node_omit_strings_children_length :
    ∀ (cs : List node_t), (node_omit_strings_children cs).length = cs.length
  | [] => rfl
  | c :: cs => by simp [node_omit_strings_children, node_omit_strings_children_length cs]

mutual
/-- Writing a tree with strings omitted is writing the tree with its strings emptied. -/
theorem node_write_omit (T : nodetable_t) (flags flags0 : Nat) (h1 : omit_strings flags = true)
    (h0 : omit_strings flags0 = false) :
    ∀ (n : node_t), node_write T flags n = node_write T flags0 (node_omit_strings n)
  | .mk t v cs => by
    simp only [node_write, node_omit_strings, node_omit_strings_children_length,
      node_write_internal_data_omit T flags flags0 h1 h0 t v,
      node_write_children_omit T flags flags0 h1 h0 cs]
/-- The same for the trees of a list. -/
theorem node_write_children_omit (T : nodetable_t) (flags flags0 : Nat)
    (h1 : omit_strings flags = true) (h0 : omit_strings flags0 = false) :
    ∀ (cs : List node_t),
      node_write_children T flags cs = node_write_children T flags0 (node_omit_strings_children cs)
  | [] => by simp [node_write_children, node_omit_strings_children]
  | c :: cs => by
    simp only [node_write_children, node_omit_strings_children,
      node_write_omit T flags flags0 h1 h0 c, node_write_children_omit T flags flags0 h1 h0 cs]
end

mutual
theorem constant_wf_omit :
    ∀ (v : constant_t), constant_wf v = true → constant_wf (constant_omit_strings v) = true
  | .float f, h => by simpa [constant_omit_strings] using h
  | .category c, h => by simpa [constant_omit_strings] using h
  | .int i, h => by simpa [constant_omit_strings] using h
  | .bool b, h => by simp [constant_omit_strings, constant_wf]
  | .missing, h => by simp [constant_omit_strings, constant_wf]
  | .string s, h => by simp [constant_omit_strings, constant_wf]
  | .array a, h => by
    simp only [constant_wf] at h
    simp only [constant_omit_strings, constant_wf]
    exact constant_wf_entries_omit a h
theorem constant_wf_entries_omit :
    ∀ (a : List constant_t), constant_wf_entries a = true →
      constant_wf_entries (constant_omit_strings_entries a) = true
  | [], _ => by simp [constant_omit_strings_entries, constant_wf_entries]
  | c :: cs, h => by
    simp only [constant_wf_entries, Bool.and_eq_true] at h
    simp only [constant_omit_strings_entries, constant_wf_entries, Bool.and_eq_true]
    exact ⟨constant_wf_omit c h.1, constant_wf_entries_omit cs h.2⟩
end

theorem constant_omit_strings_is_scalar (v : constant_t) :
    (constant_omit_strings v).is_scalar = v.is_scalar := by
  cases v <;> simp [constant_omit_strings, constant_t.is_scalar]

theorem constant_omit_strings_entries_all_scalar :
    ∀ (a : List constant_t), a.all constant_t.is_scalar = true →
      (constant_omit_strings_entries a).all constant_t.is_scalar = true
  | [], _ => by simp [constant_omit_strings_entries]
  | c :: cs, h => by
    simp only [List.all_cons, Bool.and_eq_true] at h
    simp only [constant_omit_strings_entries, List.all_cons, Bool.and_eq_true,
      constant_omit_strings_is_scalar]
    exact ⟨h.1, constant_omit_strings_entries_all_scalar cs h.2⟩

theorem value_expected_omit (t : nodetype_t) (x : constant_t) :
    value_expected t (constant_omit_strings x) = value_expected t x := by
  cases t <;> cases x <;> simp [value_expected, constant_omit_strings]

theorem value_codec_ok_omit (t : nodetype_t) (x : constant_t) (h : value_codec_ok t x = true) :
    value_codec_ok t (constant_omit_strings x) = true := by
  cases t
  case node_array =>
    cases x
    case array a =>
      simp only [value_codec_ok, Bool.and_eq_true, decide_eq_true_eq] at h
      simp only [constant_omit_strings, value_codec_ok, Bool.and_eq_true, decide_eq_true_eq,
        constant_omit_strings_entries_length]
      exact ⟨h.1, constant_omit_strings_entries_all_scalar a h.2⟩
    all_goals simp_all [value_codec_ok, constant_omit_strings, constant_t.is_scalar]
  all_goals
    cases x <;> simp_all [value_codec_ok, constant_omit_strings, constant_t.is_scalar]

mutual
theorem node_wf_omit (T : nodetable_t) :
    ∀ (n : node_t), node_wf T n = true → node_wf T (node_omit_strings n) = true
  | .mk t v cs, h => by
    simp only [node_wf, Bool.and_eq_true] at h
    simp only [node_omit_strings, node_wf, Bool.and_eq_true,
      node_omit_strings_children_length]
    refine ⟨⟨⟨h.1.1.1, ?_⟩, ?_⟩, node_wf_children_omit T cs h.2⟩
    · have := h.1.1.2
      simp only [Bool.or_eq_true, List.isEmpty_iff] at this ⊢
      rcases this with h1 | h1
      · exact Or.inl h1
      · subst h1; exact Or.inr rfl
    · have := h.1.2
      cases v with
      | none => simpa using this
      | some x =>
        simp only [Bool.and_eq_true] at this
        simp only [Option.map_some', Bool.and_eq_true, value_expected_omit]
        exact ⟨this.1, constant_wf_omit x this.2⟩
theorem node_wf_children_omit (T : nodetable_t) :
    ∀ (cs : List node_t), node_wf_children T cs = true →
      node_wf_children T (node_omit_strings_children cs) = true
  | [], _ => by simp [node_omit_strings_children, node_wf_children]
  | c :: cs, h => by
    simp only [node_wf_children, Bool.and_eq_true] at h
    simp only [node_omit_strings_children, node_wf_children, Bool.and_eq_true]
    exact ⟨node_wf_omit T c h.1, node_wf_children_omit T cs h.2⟩
end

mutual
theorem node_codec_ok_omit :
    ∀ (n : node_t), node_codec_ok n = true → node_codec_ok (node_omit_strings n) = true
  | .mk t v cs, h => by
    simp only [node_codec_ok, Bool.and_eq_true] at h
    simp only [node_omit_strings, node_codec_ok, Bool.and_eq_true]
    refine ⟨?_, node_codec_ok_children_omit cs h.2⟩
    cases v with
    | none => rfl
    | some x => exact value_codec_ok_omit t x h.1
theorem node_codec_ok_children_omit :
    ∀ (cs : List node_t), node_codec_ok_children cs = true →
      node_codec_ok_children (node_omit_strings_children cs) = true
  | [], _ => by simp [node_omit_strings_children, node_codec_ok_children]
  | c :: cs, h => by
    simp only [node_codec_ok_children, Bool.and_eq_true] at h
    simp only [node_omit_strings_children, node_codec_ok_children, Bool.and_eq_true]
    exact ⟨node_codec_ok_omit c h.1, node_codec_ok_children_omit cs h.2⟩
end

/-- With strings omitted, the bytes written are those of the tree with emptied strings, and
reading them gives that tree. -/
theorem node_read_write_omit (T : nodetable_t) (hT : T.valid = true) (flags : Nat)
    (h1 : omit_strings flags = true) (n : node_t) (hwf : node_wf T n = true)
    (hok : node_codec_ok n = true) :
    ∃ bs, node_write T flags n = .ok bs ∧
      node_write T SERIALIZE_DEFAULTS (node_omit_strings n) = .ok bs ∧
      ∀ rest, node_read T (bs ++ rest) = .ok (node_omit_strings n, rest) := by
  have h0 : omit_strings SERIALIZE_DEFAULTS = false := by decide
  obtain ⟨bs, hw, hr⟩ := node_read_write_ok T hT SERIALIZE_DEFAULTS h0 (node_omit_strings n)
    (node_wf_omit T n hwf) (node_codec_ok_omit n hok)
  exact ⟨bs, by rw [node_write_omit T flags SERIALIZE_DEFAULTS h1 h0 n, hw], hw, hr⟩

/-! ## Lemmas: the TRAIN_MODEL exchange -/

theorem finish_request_ok_header (P : net_h) (T : nodetable_t) (rjob : remote_job_t)
    (ms s cutoff : Int) (hms : is_int32 ms) (hs : is_int32 s) (rest : List Nat) :
    finish_request_TRAIN_MODEL P T
        (P.RESPONSE_OK :: (write_compressed_int ms ++ write_compressed_int s ++ rest)) rjob cutoff
      = if s ≥ cutoff then
          (write_uint8 P.REQUEST_DISCARD_CODE,
           .ok ({ rjob with response := P.RESPONSE_OK, cpu_time := (ms : Rat) / 1000,
                            job := { rjob.job with score := s, code := none } }, rest))
        else
          match read_uint8 rest with
          | .error e => (write_uint8 P.REQUEST_SEND_CODE, .error e)
          | .ok (resp, r4) =>
            if resp ≠ P.RESPONSE_DATA_FOLLOWS then
              (write_uint8 P.REQUEST_SEND_CODE,
               .ok ({ rjob with response := resp ||| 128, cpu_time := (ms : Rat) / 1000,
                                job := { rjob.job with score := INT32_MAX, code := none } }, r4))
            else
              match node_read T r4 with
              | .error e => (write_uint8 P.REQUEST_SEND_CODE, .error e)
              | .ok (code, r5) =>
                (write_uint8 P.REQUEST_SEND_CODE,
                 .ok ({ rjob with response := P.RESPONSE_OK, cpu_time := (ms : Rat) / 1000,
                                  job := { rjob.job with score := s, code := some code } }, r5)) := by
  unfold finish_request_TRAIN_MODEL
  simp only [read_uint8, ne_eq, not_true_eq_false, if_false, List.append_assoc,
    read_compressed_int_write ms hms, read_compressed_int_write s hs]

theorem finish_request_written (P : net_h) (T : nodetable_t) (rjob : remote_job_t)
    (ms s cutoff : Int) (hms : is_int32 ms) (hs : is_int32 s) (rest : List Nat) :
    (finish_request_TRAIN_MODEL P T
        (P.RESPONSE_OK :: (write_compressed_int ms ++ write_compressed_int s ++ rest)) rjob cutoff).1
      = if s ≥ cutoff then write_uint8 P.REQUEST_DISCARD_CODE
        else write_uint8 P.REQUEST_SEND_CODE := by
  rw [finish_request_ok_header P T rjob ms s cutoff hms hs rest]
  by_cases h : s ≥ cutoff
  · simp [h]
  · simp only [h, if_false]
    cases read_uint8 rest with
    | error e => rfl
    | ok x =>
      obtain ⟨resp, r4⟩ := x
      by_cases h2 : resp ≠ P.RESPONSE_DATA_FOLLOWS
      · simp [h2]
      · simp only [h2, if_false]
        cases node_read T r4 with
        | error e => rfl
        | ok y => rfl

theorem remote_job_read_result_eq (P : net_h) (T : nodetable_t) (limit : Bool) (r : reader_t)
    (j : remote_job_t) (best : Int) :
    remote_job_read_result P T limit r j best =
      ((finish_request_TRAIN_MODEL P T r j best).1,
       match (finish_request_TRAIN_MODEL P T r j best).2 with
       | .error e => .error e
       | .ok (j1, r1) =>
         .ok (j1, if limit = true ∧ j1.job.score < best then j1.job.score else best, r1)) := by
  unfold remote_job_read_result
  rcases hfin : finish_request_TRAIN_MODEL P T r j best with ⟨w0, o⟩
  cases o with
  | error e => rfl
  | ok x =>
    obtain ⟨j1, r1⟩ := x
    by_cases hc : limit = true ∧ j1.job.score < best
    · simp [hc]
    · simp [hc]

theorem remote_job_read_result_best (P : net_h) (T : nodetable_t) (r : reader_t)
    (j : remote_job_t) (best : Int) (w : List Nat) (j1 : remote_job_t) (best1 : Int)
    (r1 : reader_t)
    (h : remote_job_read_result P T true r j best = (w, .ok (j1, best1, r1))) :
    best1 = min best j1.job.score := by
  rw [remote_job_read_result_eq] at h
  cases hfin : (finish_request_TRAIN_MODEL P T r j best).2 with
  | error e => rw [hfin] at h; simp at h
  | ok x =>
    obtain ⟨j2, r2⟩ := x
    rw [hfin] at h
    simp only [true_and, Prod.mk.injEq, Except.ok.injEq] at h
    obtain ⟨_, hj, hb, _⟩ := h
    subst hj
    rw [← hb]
    by_cases hc : j2.job.score < best
    · simp only [hc, if_true]; omega
    · simp only [hc, if_false]; omega

theorem read_results_best (P : net_h) (T : nodetable_t) :
    ∀ (ready : List (remote_job_t × reader_t)) (best : Int)
      (done : List (remote_job_t × List Nat)) (best2 : Int),
      read_results P T true best ready = .ok (done, best2) →
      best2 = (done.map (fun d => d.1.job.score)).foldl min best ∧ best2 ≤ best := by
  intro ready
  induction ready with
  | nil =>
    intro best done best2 h
    simp only [read_results, Except.ok.injEq, Prod.mk.injEq] at h
    obtain ⟨h1, h2⟩ := h
    subst h1 h2
    simp
  | cons jr ready ih =>
    intro best done best2 h
    obtain ⟨j, r⟩ := jr
    simp only [read_results] at h
    rcases hres : remote_job_read_result P T true r j best with ⟨w, o⟩
    rw [hres] at h
    cases o with
    | error e => simp at h
    | ok x =>
      obtain ⟨j1, best1, r1⟩ := x
      simp only at h
      cases hrest : read_results P T true best1 ready with
      | error e => rw [hrest] at h; simp at h
      | ok y =>
        obtain ⟨done1, b2⟩ := y
        rw [hrest] at h
        simp only [Except.ok.injEq, Prod.mk.injEq] at h
        obtain ⟨hd, hb⟩ := h
        subst hd hb
        have h1 := remote_job_read_result_best P T r j best w j1 best1 r1 hres
        obtain ⟨h2, h3⟩ := ih best1 done1 b2 hrest
        simp only [List.map_cons, List.foldl_cons]
        rw [← h1]
        refine ⟨h2, ?_⟩
        have : best1 ≤ best := by rw [h1]; exact min_le_left _ _
        omega

/-! ## Lemmas: dataset dissemination -/

theorem getD_set_int (l : List Int) (i j : Nat) (a : Int) :
    (l.set i a).getD j 0 = if i = j ∧ i < l.length then a else l.getD j 0 := by
  simp only [List.getD_eq_getElem?_getD, List.getElem?_set]
  by_cases h : i = j
  · subst h
    by_cases h2 : i < l.length
    · simp [h2]
    · simp [h2]
      rw [List.getElem?_eq_none (by omega)]
      rfl
  · simp [h]

theorem seed_pick_some (N : Nat) (status : List Int) :
    ∀ (draws : List Nat) (s : Nat) (draws1 : List Nat),
      seed_pick N status draws = some (s, draws1) →
      status.getD s 0 = 0 ∧ ∃ d skipped, s = d % N ∧ draws = skipped ++ d :: draws1 := by
  intro draws
  induction draws with
  | nil => intro s d1 h; simp [seed_pick] at h
  | cons d ds ih =>
    intro s d1 h
    simp only [seed_pick] at h
    by_cases hz : status.getD (d % N) 0 = 0
    · simp only [hz, if_true, Option.some.injEq, Prod.mk.injEq] at h
      obtain ⟨h1, h2⟩ := h
      subst h1 h2
      exact ⟨hz, d, [], rfl, rfl⟩
    · simp only [hz, if_false] at h
      obtain ⟨h1, d0, sk, h2, h3⟩ := ih s d1 h
      exact ⟨h1, d0, d :: sk, h2, by rw [h3]; rfl⟩

theorem seed_pick_append (N : Nat) (status : List Int) :
    ∀ (draws : List Nat) (s : Nat) (draws1 more : List Nat),
      seed_pick N status draws = some (s, draws1) →
      seed_pick N status (draws ++ more) = some (s, draws1 ++ more) := by
  intro draws
  induction draws with
  | nil => intro s d1 more h; simp [seed_pick] at h
  | cons d ds ih =>
    intro s d1 more h
    rw [List.cons_append]
    rw [seed_pick] at h ⊢
    by_cases hz : status.getD (d % N) 0 = 0
    · rw [if_pos hz] at h ⊢
      simp only [Option.some.injEq, Prod.mk.injEq] at h ⊢
      exact ⟨h.1, by rw [h.2]⟩
    · rw [if_neg hz] at h ⊢
      exact ih s d1 more h

theorem seed_pick_none_append (N : Nat) (status : List Int) (s : Nat) (hs : s < N)
    (hz : status.getD s 0 = 0) :
    ∀ (draws more : List Nat), seed_pick N status draws = none →
      seed_pick N status (draws ++ s :: more) = some (s, more) := by
  intro draws
  induction draws with
  | nil =>
    intro more _
    rw [List.nil_append, seed_pick, Nat.mod_eq_of_lt hs, if_pos hz]
  | cons d ds ih =>
    intro more h
    rw [List.cons_append]
    rw [seed_pick] at h ⊢
    by_cases hz2 : status.getD (d % N) 0 = 0
    · rw [if_pos hz2] at h
      exact absurd h (by simp)
    · rw [if_neg hz2] at h ⊢
      exact ih more h

theorem contacted_length_le (P : net_h) (N : Nat) (st : distribute_state)
    (h : distribute_inv P N st) : st.sent.length ≤ N := by
  have h1 : st.contacted ⊆ List.range N := by
    intro s hs
    exact List.mem_range.mpr (h.sent_lt s hs)
  have h2 := (List.subperm_of_subset h.sent_nodup h1).length_le
  simpa [distribute_state.contacted] using h2

theorem exists_uncontacted (P : net_h) (N : Nat) (st : distribute_state)
    (h : seed_inv P N st) (hlt : st.num_seeds + st.num_errors < N) :
    ∃ s, s < N ∧ st.status.getD s 0 = 0 := by
  by_contra hne
  push_neg at hne
  have h1 : List.range N ⊆ st.contacted := by
    intro s hs
    have hs2 := List.mem_range.mp hs
    exact (h.status_sent s hs2).mp (hne s hs2)
  have h2 := (List.subperm_of_subset (List.nodup_range N) h1).length_le
  have h3 := h.sent_len
  simp only [distribute_state.contacted, List.length_map, List.length_range] at h2
  omega

theorem distribute_init_inv (P : net_h) (N : Nat) : seed_inv P N (distribute_init N) := by
  refine { base := { sent_lt := ?_, sent_nodup := ?_, seeds_eq := ?_ }, status_len := ?_,
           sent_len := ?_, status_sent := ?_ }
  · intro s hs; simp [distribute_init, distribute_state.contacted] at hs
  · simp [distribute_init, distribute_state.contacted]
  · simp [distribute_init, sent_successes]
  · simp [distribute_init]
  · simp [distribute_init, distribute_state.num_seeds]
  · intro s hs
    simp [distribute_init, distribute_state.contacted, List.getD_eq_getElem?_getD,
      List.getElem?_replicate, hs]

theorem seed_contact_sent (P : net_h) (net : dataset_net) (st : distribute_state) (s : Nat) :
    (seed_contact P net st s).sent = st.sent ++ [(s, none, net st.sent.length s none)] := by
  unfold seed_contact
  by_cases h : resp_is_success P (net st.sent.length s none) = true <;> simp [h]

theorem seed_contact_inv (P : net_h) (net : dataset_net) (N : Nat) (st : distribute_state)
    (h : seed_inv P N st) (s : Nat) (hs : s < N) (hz : st.status.getD s 0 = 0) :
    seed_inv P N (seed_contact P net st s) := by
  have hnot : s ∉ st.contacted := fun hm => (h.status_sent s hs).mpr hm hz
  have hlen := h.status_len
  have hstatus : ∀ (a : Int), a ≠ 0 → ∀ s', s' < N →
      ((st.status.set s a).getD s' 0 ≠ 0 ↔ s' ∈ st.contacted ++ [s]) := by
    intro a ha s' hs'
    rw [getD_set_int]
    by_cases he : s = s'
    · subst he
      simp [hlen, hs, ha]
    · have : ¬ (s = s' ∧ s < st.status.length) := fun hc => he hc.1
      rw [if_neg this, h.status_sent s' hs']
      simp [Ne.symm he]
  unfold seed_contact
  by_cases hr : resp_is_success P (net st.sent.length s none) = true
  · simp only [hr, if_true]
    refine { base := { sent_lt := ?_, sent_nodup := ?_, seeds_eq := ?_ }, status_len := ?_,
             sent_len := ?_, status_sent := ?_ }
    · intro x hx
      simp only [distribute_state.contacted, List.map_append, List.map_cons, List.map_nil,
        List.mem_append, List.mem_singleton] at hx
      rcases hx with hx | hx
      · exact h.base.sent_lt x hx
      · rw [hx]; exact hs
    · simp only [distribute_state.contacted, List.map_append, List.map_cons, List.map_nil]
      rw [List.nodup_append]
      refine ⟨h.base.sent_nodup, List.nodup_singleton _, ?_⟩
      intro x hx hx2
      rw [List.mem_singleton] at hx2
      subst hx2
      exact hnot hx
    · simp only [sent_successes, List.filter_append, List.map_append, h.base.seeds_eq]
      simp [hr]
    · simp [hlen]
    · have := h.sent_len
      simp only [distribute_state.num_seeds, List.length_append, List.length_singleton] at this ⊢
      omega
    · intro s' hs'
      simpa [distribute_state.contacted] using hstatus 1 (by decide) s' hs'
  · simp only [hr, Bool.false_eq_true, if_false]
    refine { base := { sent_lt := ?_, sent_nodup := ?_, seeds_eq := ?_ }, status_len := ?_,
             sent_len := ?_, status_sent := ?_ }
    · intro x hx
      simp only [distribute_state.contacted, List.map_append, List.map_cons, List.map_nil,
        List.mem_append, List.mem_singleton] at hx
      rcases hx with hx | hx
      · exact h.base.sent_lt x hx
      · rw [hx]; exact hs
    · simp only [distribute_state.contacted, List.map_append, List.map_cons, List.map_nil]
      rw [List.nodup_append]
      refine ⟨h.base.sent_nodup, List.nodup_singleton _, ?_⟩
      intro x hx hx2
      rw [List.mem_singleton] at hx2
      subst hx2
      exact hnot hx
    · simp only [sent_successes, List.filter_append, List.map_append, h.base.seeds_eq]
      simp [hr]
    · simp [hlen]
    · have := h.sent_len
      simp only [distribute_state.num_seeds, List.length_append, List.length_singleton] at this ⊢
      omega
    · intro s' hs'
      simpa [distribute_state.contacted] using hstatus (-1) (by decide) s' hs'

theorem seed_contact_num_seeds (P : net_h) (net : dataset_net) (st : distribute_state) (s : Nat) :
    (seed_contact P net st s).num_seeds ≤ st.num_seeds + 1 := by
  unfold seed_contact
  by_cases hr : resp_is_success P (net st.sent.length s none) = true <;>
    simp [hr, distribute_state.num_seeds]

/-- The seed loop keeps its invariant, ends with exactly `hosts_to_seed` seeds or through
the error exit with every server contacted, and fails only by running out of draws. -/
theorem seed_phase_spec (P : net_h) (N hosts : Nat) (net : dataset_net) :
    ∀ (fuel : Nat) (st : distribute_state) (draws : List Nat),
      seed_inv P N st → st.num_seeds ≤ hosts → N < fuel + st.sent.length →
      (seed_phase P N hosts net fuel st draws = .error .stalled) ∨
      ∃ ok st1 draws1, seed_phase P N hosts net fuel st draws = .ok (ok, st1, draws1) ∧
        seed_inv P N st1 ∧
        (ok = true → st1.num_seeds = hosts) ∧
        (ok = false → st1.num_seeds + st1.num_errors = N ∧ st1.num_seeds < hosts) ∧
        (∃ later, st1.sent = st.sent ++ later) := by
  intro fuel
  induction fuel with
  | zero =>
    intro st draws hinv _ hf
    have := contacted_length_le P N st hinv.base
    omega
  | succ fuel ih =>
    intro st draws hinv hle hf
    rw [seed_phase]
    by_cases h1 : st.num_seeds < hosts
    · rw [if_pos h1]
      by_cases h2 : st.num_seeds + st.num_errors = N
      · rw [if_pos h2]
        exact Or.inr ⟨false, st, draws, rfl, hinv, by simp, fun _ => ⟨h2, h1⟩, [], by simp⟩
      · rw [if_neg h2]
        cases hp : seed_pick N st.status draws with
        | none => exact Or.inl rfl
        | some x =>
          obtain ⟨s, draws1⟩ := x
          simp only
          obtain ⟨hz, d, sk, hd, _⟩ := seed_pick_some N st.status draws s draws1 hp
          have hlen := contacted_length_le P N st hinv.base
          have hsl := hinv.sent_len
          have hN : 0 < N := by omega
          have hs : s < N := by rw [hd]; exact Nat.mod_lt _ hN
          have hinv2 := seed_contact_inv P net N st hinv s hs hz
          have hle2 : (seed_contact P net st s).num_seeds ≤ hosts := by
            have := seed_contact_num_seeds P net st s
            omega
          have hf2 : N < fuel + (seed_contact P net st s).sent.length := by
            rw [seed_contact_sent]
            simp only [List.length_append, List.length_singleton]
            omega
          rcases ih (seed_contact P net st s) draws1 hinv2 hle2 hf2 with h | h
          · exact Or.inl h
          · obtain ⟨ok, st1, d1, he, hi, ho, hn, later, hl⟩ := h
            refine Or.inr ⟨ok, st1, d1, he, hi, ho, hn, ?_⟩
            rw [seed_contact_sent] at hl
            exact ⟨_ :: later, by rw [hl, List.append_assoc]; rfl⟩
    · rw [if_neg h1]
      exact Or.inr ⟨true, st, draws, rfl, hinv, fun _ => by omega, by simp, [], by simp⟩

/-- Whatever has been drawn so far, further draws exist on which the seed loop ends. -/
theorem seed_phase_ends (P : net_h) (N hosts : Nat) (net : dataset_net) :
    ∀ (fuel : Nat) (st : distribute_state) (draws : List Nat),
      seed_inv P N st → N < fuel + st.sent.length →
      ∃ more ok st1 draws1,
        seed_phase P N hosts net fuel st (draws ++ more) = .ok (ok, st1, draws1) := by
  intro fuel
  induction fuel with
  | zero =>
    intro st draws hinv hf
    have := contacted_length_le P N st hinv.base
    omega
  | succ fuel ih =>
    intro st draws hinv hf
    by_cases h1 : st.num_seeds < hosts
    · by_cases h2 : st.num_seeds + st.num_errors = N
      · exact ⟨[], false, st, draws ++ [], by rw [seed_phase, if_pos h1, if_pos h2]⟩
      · have hlen := contacted_length_le P N st hinv.base
        have hsl := hinv.sent_len
        have hstep : ∀ (s : Nat) (d1 : List Nat), s < N → st.status.getD s 0 = 0 →
            ∃ more ok st1 draws1,
              seed_phase P N hosts net fuel (seed_contact P net st s) (d1 ++ more)
                = .ok (ok, st1, draws1) := by
          intro s d1 hs hz
          apply ih (seed_contact P net st s) d1 (seed_contact_inv P net N st hinv s hs hz)
          rw [seed_contact_sent]
          simp only [List.length_append, List.length_singleton]
          omega
        cases hp : seed_pick N st.status draws with
        | none =>
          obtain ⟨s, hs, hz⟩ := exists_uncontacted P N st hinv (by omega)
          obtain ⟨more, ok, st1, d1, he⟩ := hstep s [] hs hz
          refine ⟨s :: more, ok, st1, d1, ?_⟩
          rw [seed_phase, if_pos h1, if_neg h2,
            seed_pick_none_append N st.status s hs hz draws more hp]
          simpa using he
        | some x =>
          obtain ⟨s, draws1⟩ := x
          obtain ⟨hz, d, sk, hd, _⟩ := seed_pick_some N st.status draws s draws1 hp
          have hN : 0 < N := by omega
          have hs : s < N := by rw [hd]; exact Nat.mod_lt _ hN
          obtain ⟨more, ok, st1, d1, he⟩ := hstep s draws1 hs hz
          refine ⟨more, ok, st1, d1, ?_⟩
          rw [seed_phase, if_pos h1, if_neg h2,
            seed_pick_append N st.status draws s draws1 more hp]
          exact he
    · exact ⟨[], true, st, draws ++ [], by rw [seed_phase, if_neg h1]⟩

theorem propagate_contact_eq (P : net_h) (net : dataset_net) (st : distribute_state)
    (i k : Nat) :
    propagate_contact P net st i k =
      if resp_is_success P (net st.sent.length i (some (st.seeds.getD k 0))) = true then
        { st with status := st.status.set k 1, seeds := st.seeds ++ [i],
                  sent := st.sent ++ [(i, some (st.seeds.getD k 0),
                    net st.sent.length i (some (st.seeds.getD k 0)))] }
      else
        { st with status := st.status.set k (-1),
                  sent := st.sent ++ [(i, some (st.seeds.getD k 0),
                    net st.sent.length i (some (st.seeds.getD k 0)))] } := rfl

theorem propagate_contact_sent (P : net_h) (net : dataset_net) (st : distribute_state)
    (i k : Nat) :
    (propagate_contact P net st i k).sent
      = st.sent ++ [(i, some (st.seeds.getD k 0), net st.sent.length i (some (st.seeds.getD k 0)))] := by
  rw [propagate_contact_eq]
  by_cases h : resp_is_success P (net st.sent.length i (some (st.seeds.getD k 0))) = true
  · rw [if_pos h]
  · rw [if_neg h]

theorem propagate_contact_status (P : net_h) (net : dataset_net) (st : distribute_state)
    (i k s : Nat) (h : st.status.getD s 0 ≠ 0) :
    (propagate_contact P net st i k).status.getD s 0 ≠ 0 := by
  rw [propagate_contact_eq]
  by_cases hr : resp_is_success P (net st.sent.length i (some (st.seeds.getD k 0))) = true
  · rw [if_pos hr]
    show (st.status.set k 1).getD s 0 ≠ 0
    rw [getD_set_int]
    by_cases hc : k = s ∧ k < st.status.length
    · rw [if_pos hc]; decide
    · rw [if_neg hc]; exact h
  · rw [if_neg hr]
    show (st.status.set k (-1)).getD s 0 ≠ 0
    rw [getD_set_int]
    by_cases hc : k = s ∧ k < st.status.length
    · rw [if_pos hc]; decide
    · rw [if_neg hc]; exact h

theorem propagate_contact_inv (P : net_h) (net : dataset_net) (N : Nat) (st : distribute_state)
    (h : distribute_inv P N st) (i k : Nat) (hi : i < N) (hnot : i ∉ st.contacted) :
    distribute_inv P N (propagate_contact P net st i k) := by
  have hsent := propagate_contact_sent P net st i k
  refine { sent_lt := ?_, sent_nodup := ?_, seeds_eq := ?_ }
  · intro x hx
    simp only [distribute_state.contacted, hsent, List.map_append, List.map_cons, List.map_nil,
      List.mem_append, List.mem_singleton] at hx
    rcases hx with hx | hx
    · exact h.sent_lt x hx
    · rw [hx]; exact hi
  · simp only [distribute_state.contacted, hsent, List.map_append, List.map_cons, List.map_nil]
    rw [List.nodup_append]
    refine ⟨h.sent_nodup, List.nodup_singleton _, ?_⟩
    intro x hx hx2
    rw [List.mem_singleton] at hx2
    subst hx2
    exact hnot hx
  · rw [hsent]
    have hseeds := h.seeds_eq
    rw [propagate_contact_eq]
    by_cases hr : resp_is_success P (net st.sent.length i (some (st.seeds.getD k 0))) = true
    · rw [if_pos hr]
      show st.seeds ++ [i] = _
      simp only [sent_successes, List.filter_append, List.map_append] at hseeds ⊢
      rw [← hseeds, List.filter_cons_of_pos (by exact hr)]
      rfl
    · rw [if_neg hr]
      show st.seeds = _
      simp only [sent_successes, List.filter_append, List.map_append] at hseeds ⊢
      rw [← hseeds, List.filter_cons_of_neg (by exact hr)]
      simp

/-- The propagate loop keeps the invariant of `distribute_dataset`. -/
theorem propagate_phase_inv (P : net_h) (net : dataset_net) (N : Nat) :
    ∀ (rest : List Nat) (st : distribute_state) (draws : List Nat) (st1 : distribute_state)
      (draws1 : List Nat),
      distribute_inv P N st → rest.Nodup → (∀ i ∈ rest, i < N) →
      (∀ s ∈ st.contacted, st.status.getD s 0 ≠ 0 ∨ s ∉ rest) →
      propagate_phase P net rest st draws = .ok (st1, draws1) →
      distribute_inv P N st1 ∧ ∃ later, st1.sent = st.sent ++ later := by
  intro rest
  induction rest with
  | nil =>
    intro st draws st1 draws1 hinv _ _ _ h
    simp only [propagate_phase, Except.ok.injEq, Prod.mk.injEq] at h
    rw [← h.1]
    exact ⟨hinv, [], by simp⟩
  | cons i rest ih =>
    intro st draws st1 draws1 hinv hnd hlt hc h
    rw [List.nodup_cons] at hnd
    unfold propagate_phase at h
    by_cases hz : st.status.getD i 0 ≠ 0
    · rw [if_pos hz] at h
      apply ih st draws st1 draws1 hinv hnd.2 (fun x hx => hlt x (List.mem_cons_of_mem _ hx)) _ h
      intro s hs
      rcases hc s hs with h1 | h1
      · exact Or.inl h1
      · exact Or.inr (fun hm => h1 (List.mem_cons_of_mem _ hm))
    · rw [if_neg hz] at h
      cases draws with
      | nil => simp at h
      | cons d draws2 =>
        simp only at h
        by_cases h0 : st.num_seeds = 0
        · rw [if_pos h0] at h; simp at h
        · rw [if_neg h0] at h
          have hnot : i ∉ st.contacted := by
            intro hm
            rcases hc i hm with h1 | h1
            · exact hz h1
            · exact h1 (List.mem_cons_self _ _)
          have hinv2 := propagate_contact_inv P net N st hinv i (d % st.num_seeds)
            (hlt i (List.mem_cons_self _ _)) hnot
          obtain ⟨hi, later, hl⟩ := ih (propagate_contact P net st i (d % st.num_seeds)) draws2
            st1 draws1 hinv2 hnd.2 (fun x hx => hlt x (List.mem_cons_of_mem _ hx)) (by
              intro s hs
              simp only [distribute_state.contacted, propagate_contact_sent, List.map_append,
                List.map_cons, List.map_nil, List.mem_append, List.mem_singleton] at hs
              rcases hs with hs | hs
              · rcases hc s hs with h1 | h1
                · exact Or.inl (propagate_contact_status P net st i _ s h1)
                · exact Or.inr (fun hm => h1 (List.mem_cons_of_mem _ hm))
              · rw [hs]; exact Or.inr hnd.1) h
          refine ⟨hi, ?_⟩
          rw [propagate_contact_sent] at hl
          exact ⟨_ :: later, by rw [hl, List.append_assoc]; rfl⟩

/-- The array `distribute_dataset` returns lists the servers of the successful sends, and
no server was sent the dataset twice. -/
theorem distribute_dataset_spec (P : net_h) (S N : Nat) (net : dataset_net) (draws : List Nat)
    (arr : server_array_t) (sent : List (Nat × Option Nat × Nat))
    (h : distribute_dataset P S N net draws = .ok (some arr, sent)) :
    arr.servers = sent_successes P sent ∧ arr.num = arr.servers.length ∧
      (sent.map (fun e => e.1)).Nodup ∧ ∀ e ∈ sent, e.1 < N := by
  unfold distribute_dataset at h
  simp only at h
  rcases seed_phase_spec P N (imin S N) net (N + 1) (distribute_init N) draws
      (distribute_init_inv P N) (by simp [distribute_init, distribute_state.num_seeds])
      (by omega) with hs | hs
  · rw [hs] at h; simp at h
  · obtain ⟨ok, st1, d1, he, hinv, _, _, _⟩ := hs
    rw [he] at h
    cases ok with
    | false => simp at h
    | true =>
      simp only at h
      cases hp : propagate_phase P net (List.range N) st1 d1 with
      | error e => rw [hp] at h; simp at h
      | ok x =>
        obtain ⟨st2, d2⟩ := x
        rw [hp] at h
        simp only [Except.ok.injEq, Prod.mk.injEq, Option.some.injEq] at h
        obtain ⟨ha, hsent⟩ := h
        obtain ⟨hinv2, _⟩ := propagate_phase_inv P net N (List.range N) st1 d1 st2 d2 hinv.base
          (List.nodup_range N) (fun i hi => List.mem_range.mp hi) (by
            intro s hs
            exact Or.inl ((hinv.status_sent s (hinv.base.sent_lt s hs)).mpr hs)) hp
        subst hsent
        rw [← ha]
        refine ⟨hinv2.seeds_eq, rfl, hinv2.sent_nodup, ?_⟩
        intro e he
        exact hinv2.sent_lt e.1 (List.mem_map_of_mem _ he)

/-! ## Lemmas: the worker table -/

/-- Moving the last entry of a list into slot `i` and dropping the last slot removes
exactly the entry at `i`. -/
theorem swap_remove_perm {α : Type} (d : α) :
    ∀ (W : List α) (i : Nat), i < W.length →
      ((W.set i (W.getD (W.length - 1) d)).dropLast).Perm (W.eraseIdx i) := by
  intro W
  induction W with
  | nil => intro i hi; simp at hi
  | cons a W ih =>
    intro i hi
    cases W with
    | nil =>
      have : i = 0 := by simpa using hi
      subst this
      simp
    | cons b W2 =>
      have hx : (a :: b :: W2).getD ((a :: b :: W2).length - 1) d
          = (b :: W2).getD ((b :: W2).length - 1) d := by
        simp only [List.length_cons, Nat.add_sub_cancel, List.getD_cons_succ]
      rw [hx]
      cases i with
      | zero =>
        simp only [List.set_cons_zero, List.eraseIdx_cons_zero]
        rw [List.dropLast_cons_of_ne_nil (by simp)]
        have hl : (b :: W2).dropLast ++ [(b :: W2).getD ((b :: W2).length - 1) d] = b :: W2 := by
          have h1 := List.dropLast_append_getLast? (l := b :: W2)
            ((b :: W2).getD ((b :: W2).length - 1) d) (by
              rw [List.getLast?_eq_getElem?, List.getD_eq_getElem?_getD]
              have : (b :: W2).length - 1 < (b :: W2).length := by simp
              rw [List.getElem?_eq_getElem this]
              simp)
          exact h1
        exact (List.perm_append_singleton _ _).symm.trans (by rw [hl])
      | succ k =>
        simp only [List.set_cons_succ, List.eraseIdx_cons_succ]
        rw [List.dropLast_cons_of_ne_nil (by
          intro hc
          have := congrArg List.length hc
          simp at this)]
        exact List.Perm.cons a (ih k (by simpa using hi))

/-- What holds of the worker table: the array has room for the configured number of
workers and the count stays within it. -/
theorem server_inv_accept (P : net_h) (cfg : Nat) (s : server_t) (pid now : Int)
    (h : s.jobs.length = cfg ∧ 0 ≤ s.num_workers ∧ s.num_workers ≤ (cfg : Int)) :
    (start_server_accept P cfg s pid now).server.jobs.length = cfg ∧
      0 ≤ (start_server_accept P cfg s pid now).server.num_workers ∧
      (start_server_accept P cfg s pid now).server.num_workers ≤ (cfg : Int) := by
  unfold start_server_accept
  by_cases hc : s.num_workers < (cfg : Int)
  · simp only [hc, decide_True, Bool.not_true, Bool.false_eq_true, if_false, List.length_set]
    exact ⟨h.1, by omega, by omega⟩
  · simp only [hc, decide_False, Bool.not_false, if_true]
    exact h

theorem find_range_some (p : Nat → Bool) (n i : Nat)
    (h : (List.range n).find? p = some i) : i < n ∧ p i = true ∧ ∀ j < i, p j = false := by
  rw [List.find?_range_eq_some] at h
  refine ⟨List.mem_range.mp h.2.1, h.1, ?_⟩
  intro j hj
  simpa using h.2.2 j hj

theorem server_inv_reap (cfg : Nat) (s : server_t) (pid : Int)
    (h : s.jobs.length = cfg ∧ 0 ≤ s.num_workers ∧ s.num_workers ≤ (cfg : Int)) :
    (sigchild_reap s pid).jobs.length = cfg ∧ 0 ≤ (sigchild_reap s pid).num_workers ∧
      (sigchild_reap s pid).num_workers ≤ (cfg : Int) := by
  unfold sigchild_reap
  cases hf : (List.range s.num_workers.toNat).find?
      (fun i => (s.jobs.getD i default).pid == pid) with
  | none => exact h
  | some i =>
    obtain ⟨hi, _, _⟩ := find_range_some _ _ _ hf
    simp only [List.length_set]
    refine ⟨h.1, ?_, ?_⟩ <;> omega

theorem server_inv_sigchild (cfg : Nat) :
    ∀ (waitpid : List Int) (s : server_t),
      (s.jobs.length = cfg ∧ 0 ≤ s.num_workers ∧ s.num_workers ≤ (cfg : Int)) →
      (sigchild s waitpid).jobs.length = cfg ∧ 0 ≤ (sigchild s waitpid).num_workers ∧
        (sigchild s waitpid).num_workers ≤ (cfg : Int) := by
  intro waitpid
  induction waitpid with
  | nil => intro s h; exact h
  | cons pid rest ih =>
    intro s h
    rw [sigchild]
    by_cases hp : pid ≤ 0
    · rw [if_pos hp]; exact h
    · rw [if_neg hp]; exact ih _ (server_inv_reap cfg s pid h)

theorem server_inv_run (P : net_h) (cfg : Nat) :
    ∀ (events : List server_event) (s : server_t),
      (s.jobs.length = cfg ∧ 0 ≤ s.num_workers ∧ s.num_workers ≤ (cfg : Int)) →
      ((events.foldl (server_step P cfg) s).jobs.length = cfg ∧
        0 ≤ (events.foldl (server_step P cfg) s).num_workers ∧
        (events.foldl (server_step P cfg) s).num_workers ≤ (cfg : Int)) := by
  intro events
  induction events with
  | nil => intro s h; exact h
  | cons e rest ih =>
    intro s h
    rw [List.foldl_cons]
    apply ih
    cases e with
    | accept pid now => exact server_inv_accept P cfg s pid now h
    | sigchld waitpid => exact server_inv_sigchild cfg waitpid s h

theorem server_accept_spawn (P : net_h) (cfg : Nat) (s : server_t) (pid now : Int)
    (h : s.jobs.length = cfg ∧ 0 ≤ s.num_workers ∧ s.num_workers ≤ (cfg : Int)) :
    ((start_server_accept P cfg s pid now).forked = true ↔ s.num_workers < (cfg : Int)) ∧
    (s.num_workers < (cfg : Int) →
      (start_server_accept P cfg s pid now).server.num_workers = s.num_workers + 1 ∧
      (start_server_accept P cfg s pid now).server.workers
        = s.workers ++ [{ pid := pid, start_time := now }]) ∧
    (¬ s.num_workers < (cfg : Int) → (start_server_accept P cfg s pid now).server = s) := by
  unfold start_server_accept
  by_cases hc : s.num_workers < (cfg : Int)
  · simp only [hc, decide_True, Bool.not_true, Bool.false_eq_true, if_false, true_iff,
      forall_true_left, not_true_eq_false, false_implies, and_true, true_and]
    unfold server_t.workers
    simp only
    have h1 : (s.num_workers + 1).toNat = s.num_workers.toNat + 1 := by omega
    have h2 : s.num_workers.toNat < s.jobs.length := by omega
    rw [h1, List.take_succ, List.getElem?_set_self h2, List.set_take]
    rw [List.set_eq_of_length_le (by simp)]
    rfl
  · simp [hc]

theorem server_reap_spec (cfg : Nat) (s : server_t) (pid : Int)
    (h : s.jobs.length = cfg ∧ 0 ≤ s.num_workers ∧ s.num_workers ≤ (cfg : Int))
    (hw : ∃ w ∈ s.workers, w.pid = pid) :
    (sigchild_reap s pid).num_workers = s.num_workers - 1 ∧
    ∃ i, i < s.workers.length ∧ (s.workers.getD i default).pid = pid ∧
      (∀ j < i, (s.workers.getD j default).pid ≠ pid) ∧
      (sigchild_reap s pid).workers.Perm (s.workers.eraseIdx i) := by
  obtain ⟨w, hwm, hwp⟩ := hw
  have hn : s.num_workers.toNat ≤ s.jobs.length := by omega
  have hlen : s.workers.length = s.num_workers.toNat := by
    simp [server_t.workers, hn]
  have hget : ∀ j, j < s.num_workers.toNat →
      s.workers.getD j default = s.jobs.getD j default := by
    intro j hj
    simp only [server_t.workers, List.getD_eq_getElem?_getD, List.getElem?_take, hj, if_true]
  have hex : ∃ j, j < s.num_workers.toNat ∧ (s.jobs.getD j default).pid = pid := by
    obtain ⟨j, hj, hjw⟩ := List.getElem_of_mem hwm
    refine ⟨j, by omega, ?_⟩
    rw [← hget j (by omega), List.getD_eq_getElem?_getD, List.getElem?_eq_getElem hj]
    simp [hjw, hwp]
  unfold sigchild_reap
  cases hf : (List.range s.num_workers.toNat).find?
      (fun i => (s.jobs.getD i default).pid == pid) with
  | none =>
    exfalso
    rw [List.find?_eq_none] at hf
    obtain ⟨j, hj, hjp⟩ := hex
    exact hf j (List.mem_range.mpr hj) (beq_iff_eq.mpr hjp)
  | some i =>
    obtain ⟨hi, hp, hmin⟩ := find_range_some _ _ _ hf
    simp only [beq_iff_eq] at hp
    refine ⟨rfl, i, by omega, by rw [hget i hi]; exact hp, ?_, ?_⟩
    · intro j hj
      rw [hget j (by omega)]
      have := hmin j hj
      simpa using this
    · have h1 : (s.num_workers - 1).toNat = s.num_workers.toNat - 1 := by omega
      have hx : s.jobs.getD (s.num_workers.toNat - 1) default
          = s.workers.getD (s.workers.length - 1) default := by
        rw [hlen, hget _ (by omega)]
      have hw2 : ({ jobs := s.jobs.set i (s.jobs.getD (s.num_workers - 1).toNat default),
                    num_workers := s.num_workers - 1 } : server_t).workers
          = (s.workers.set i (s.workers.getD (s.workers.length - 1) default)).dropLast := by
        show List.take (s.num_workers - 1).toNat
            (s.jobs.set i (s.jobs.getD (s.num_workers - 1).toNat default)) = _
        rw [h1, hx]
        generalize s.workers.getD (s.workers.length - 1) default = x
        rw [List.dropLast_eq_take, List.length_set, hlen]
        have hs : s.workers.set i x = List.take s.num_workers.toNat (s.jobs.set i x) := by
          unfold server_t.workers
          rw [List.set_take]
        rw [hs, List.take_take]
        congr 1
        omega
      rw [hw2]
      exact swap_remove_perm default s.workers i (by omega)

/-! ## Lemmas: `node_read` never runs out of passes -/

theorem read_uint8_length (r : reader_t) (b : Nat) (r1 : reader_t)
    (h : read_uint8 r = .ok (b, r1)) : r1.length < r.length := by
  cases r with
  | nil => simp [read_uint8] at h
  | cons x xs =>
    simp only [read_uint8, Except.ok.injEq, Prod.mk.injEq] at h
    rw [← h.2]
    simp

theorem compressed_uint_value_length :
    ∀ (r : reader_t) (u : Nat) (r1 : reader_t),
      compressed_uint_value r = .ok (u, r1) → r1.length < r.length := by
  intro r
  induction r with
  | nil => intro u r1 h; simp [compressed_uint_value] at h
  | cons b r ih =>
    intro u r1 h
    rw [compressed_uint_value] at h
    by_cases hb : b < 128
    · rw [if_pos hb] at h
      simp only [Except.ok.injEq, Prod.mk.injEq] at h
      rw [← h.2]
      simp
    · rw [if_neg hb] at h
      cases hc : compressed_uint_value r with
      | error e => rw [hc] at h; simp at h
      | ok x =>
        obtain ⟨u2, r2⟩ := x
        rw [hc] at h
        simp only [Except.ok.injEq, Prod.mk.injEq] at h
        have := ih u2 r2 hc
        rw [← h.2]
        simp only [List.length_cons]
        omega

theorem read_compressed_uint_length (r : reader_t) (u : Nat) (r1 : reader_t)
    (h : read_compressed_uint r = .ok (u, r1)) : r1.length < r.length := by
  unfold read_compressed_uint at h
  cases hc : compressed_uint_value r with
  | error e => rw [hc] at h; simp at h
  | ok x =>
    obtain ⟨u2, r2⟩ := x
    rw [hc] at h
    simp only [Except.ok.injEq, Prod.mk.injEq] at h
    rw [← h.2]
    exact compressed_uint_value_length r u2 r2 hc

theorem read_float_length (r : reader_t) (f : Nat) (r1 : reader_t)
    (h : read_float r = .ok (f, r1)) : r1.length < r.length := by
  match r, h with
  | b0 :: b1 :: b2 :: b3 :: r2, h =>
    simp only [read_float, Except.ok.injEq, Prod.mk.injEq] at h
    rw [← h.2]
    simp only [List.length_cons]
    omega

theorem read_string_length (r : reader_t) (s : List Nat) (r1 : reader_t)
    (h : read_string r = .ok (s, r1)) : r1.length < r.length := by
  unfold read_string at h
  cases hc : read_compressed_uint r with
  | error e => rw [hc] at h; simp at h
  | ok x =>
    obtain ⟨len, r2⟩ := x
    rw [hc] at h
    simp only at h
    have h2 := read_compressed_uint_length r len r2 hc
    by_cases hl : len ≤ r2.length
    · rw [if_pos hl] at h
      simp only [Except.ok.injEq, Prod.mk.injEq] at h
      rw [← h.2]
      simp only [List.length_drop]
      omega
    · rw [if_neg hl] at h
      simp at h

theorem constant_read_length (r : reader_t) (c : constant_t) (r1 : reader_t)
    (h : constant_read r = .ok (c, r1)) : r1.length < r.length := by
  unfold constant_read at h
  cases h0 : read_uint8 r with
  | error e => rw [h0] at h; simp at h
  | ok x =>
    obtain ⟨type, r0⟩ := x
    rw [h0] at h
    simp only at h
    have hlen := read_uint8_length r type r0 h0
    split at h
    · cases hc : read_compressed_uint r0 with
      | error e => rw [hc] at h; simp at h
      | ok y =>
        rw [hc] at h
        simp only [Except.ok.injEq, Prod.mk.injEq] at h
        have := read_compressed_uint_length r0 y.1 y.2 hc
        rw [← h.2]; omega
    · split at h
      · cases hc : read_float r0 with
        | error e => rw [hc] at h; simp at h
        | ok y =>
          rw [hc] at h
          simp only [Except.ok.injEq, Prod.mk.injEq] at h
          have := read_float_length r0 y.1 y.2 hc
          rw [← h.2]; omega
      · split at h
        · cases hc : read_compressed_uint r0 with
          | error e => rw [hc] at h; simp at h
          | ok y =>
            rw [hc] at h
            simp only [Except.ok.injEq, Prod.mk.injEq] at h
            have := read_compressed_uint_length r0 y.1 y.2 hc
            rw [← h.2]; omega
        · split at h
          · cases hc : read_string r0 with
            | error e => rw [hc] at h; simp at h
            | ok y =>
              rw [hc] at h
              simp only [Except.ok.injEq, Prod.mk.injEq] at h
              have := read_string_length r0 y.1 y.2 hc
              rw [← h.2]; omega
          · split at h
            · simp only [Except.ok.injEq, Prod.mk.injEq] at h
              rw [← h.2]; omega
            · simp at h

theorem constant_read_entries_length :
    ∀ (n : Nat) (r : reader_t) (cs : List constant_t) (r1 : reader_t),
      constant_read_entries n r = .ok (cs, r1) → r1.length ≤ r.length := by
  intro n
  induction n with
  | zero =>
    intro r cs r1 h
    simp only [constant_read_entries, Except.ok.injEq, Prod.mk.injEq] at h
    rw [← h.2]
  | succ n ih =>
    intro r cs r1 h
    rw [constant_read_entries] at h
    cases hc : constant_read r with
    | error e => rw [hc] at h; simp at h
    | ok x =>
      obtain ⟨c, r2⟩ := x
      rw [hc] at h
      simp only at h
      cases hc2 : constant_read_entries n r2 with
      | error e => rw [hc2] at h; simp at h
      | ok y =>
        obtain ⟨cs2, r3⟩ := y
        rw [hc2] at h
        simp only [Except.ok.injEq, Prod.mk.injEq] at h
        have h1 := constant_read_length r c r2 hc
        have h2 := ih r2 cs2 r3 hc2
        rw [← h.2]
        omega

theorem read_uint8_not_fuel (r : reader_t) : read_uint8 r ≠ .error .fuel := by
  cases r <;> simp [read_uint8]

theorem compressed_uint_value_not_fuel :
    ∀ (r : reader_t), compressed_uint_value r ≠ .error .fuel := by
  intro r
  induction r with
  | nil => simp [compressed_uint_value]
  | cons b r ih =>
    rw [compressed_uint_value]
    by_cases hb : b < 128
    · rw [if_pos hb]; simp
    · rw [if_neg hb]
      cases hc : compressed_uint_value r with
      | error e =>
        simp only
        intro h
        apply ih
        injection h with he; rw [hc, he]
      | ok x => simp

theorem read_compressed_uint_not_fuel (r : reader_t) :
    read_compressed_uint r ≠ .error .fuel := by
  unfold read_compressed_uint
  cases hc : compressed_uint_value r with
  | error e =>
    simp only
    intro h
    apply compressed_uint_value_not_fuel r
    injection h with he; rw [hc, he]
  | ok x => simp

theorem read_float_not_fuel (r : reader_t) : read_float r ≠ .error .fuel := by
  unfold read_float
  split <;> simp

theorem read_string_not_fuel (r : reader_t) : read_string r ≠ .error .fuel := by
  unfold read_string
  cases hc : read_compressed_uint r with
  | error e =>
    simp only
    intro h
    apply read_compressed_uint_not_fuel r
    injection h with he; rw [hc, he]
  | ok x =>
    simp only
    split <;> simp

theorem constant_read_not_fuel (r : reader_t) : constant_read r ≠ .error .fuel := by
  unfold constant_read
  cases h0 : read_uint8 r with
  | error e =>
    simp only
    intro h
    apply read_uint8_not_fuel r
    injection h with he; rw [h0, he]
  | ok x =>
    obtain ⟨type, r0⟩ := x
    simp only
    split
    · cases hc : read_compressed_uint r0 with
      | error e =>
        simp only
        intro h
        apply read_compressed_uint_not_fuel r0
        injection h with he; rw [hc, he]
      | ok y => simp
    · split
      · cases hc : read_float r0 with
        | error e =>
          simp only
          intro h
          apply read_float_not_fuel r0
          injection h with he; rw [hc, he]
        | ok y => simp
      · split
        · cases hc : read_compressed_uint r0 with
          | error e =>
            simp only
            intro h
            apply read_compressed_uint_not_fuel r0
            injection h with he; rw [hc, he]
          | ok y => simp
        · split
          · cases hc : read_string r0 with
            | error e =>
              simp only
              intro h
              apply read_string_not_fuel r0
              injection h with he; rw [hc, he]
            | ok y => simp
          · split <;> simp

theorem constant_read_entries_not_fuel :
    ∀ (n : Nat) (r : reader_t), constant_read_entries n r ≠ .error .fuel := by
  intro n
  induction n with
  | zero => intro r; simp [constant_read_entries]
  | succ n ih =>
    intro r
    rw [constant_read_entries]
    cases hc : constant_read r with
    | error e =>
      simp only
      intro h
      apply constant_read_not_fuel r
      injection h with he; rw [hc, he]
    | ok x =>
      obtain ⟨c, r2⟩ := x
      simp only
      cases hc2 : constant_read_entries n r2 with
      | error e =>
        simp only
        intro h
        apply ih r2
        injection h with he; rw [hc2, he]
      | ok y => simp

theorem node_read_internal_data_not_fuel (t : nodetype_t) (r : reader_t) :
    node_read_internal_data t r ≠ .error .fuel := by
  unfold node_read_internal_data
  split
  · cases hc : read_compressed_uint r with
    | error e =>
      simp only
      intro h
      apply read_compressed_uint_not_fuel r
      injection h with he; rw [hc, he]
    | ok x =>
      obtain ⟨len, r2⟩ := x
      simp only
      cases hc2 : constant_read_entries len r2 with
      | error e =>
        simp only
        intro h
        apply constant_read_entries_not_fuel len r2
        injection h with he; rw [hc2, he]
      | ok y => simp
  · split
    · cases hc : read_compressed_uint r with
      | error e =>
        simp only
        intro h
        apply read_compressed_uint_not_fuel r
        injection h with he; rw [hc, he]
      | ok y => simp
    · split
      · cases hc : read_float r with
        | error e =>
          simp only
          intro h
          apply read_float_not_fuel r
          injection h with he; rw [hc, he]
        | ok y => simp
      · split
        · cases hc : read_compressed_uint r with
          | error e =>
            simp only
            intro h
            apply read_compressed_uint_not_fuel r
            injection h with he; rw [hc, he]
          | ok y => simp
        · split
          · cases hc : read_compressed_uint r with
            | error e =>
              simp only
              intro h
              apply read_compressed_uint_not_fuel r
              injection h with he; rw [hc, he]
            | ok y => simp
          · split
            · cases hc : read_string r with
              | error e =>
                simp only
                intro h
                apply read_string_not_fuel r
                injection h with he; rw [hc, he]
              | ok y => simp
            · split
              · cases hc : constant_read r with
                | error e =>
                  simp only
                  intro h
                  apply constant_read_not_fuel r
                  injection h with he; rw [hc, he]
                | ok y => simp
              · simp

theorem node_read_step_not_fuel (T : nodetable_t) (stack : List nodestack_t)
    (top : Option node_t) (r : reader_t) : node_read_step T stack top r ≠ .error .fuel := by
  unfold node_read_step
  cases h0 : read_uint8 r with
  | error e =>
    simp only
    intro h
    apply read_uint8_not_fuel r
    injection h with he; rw [h0, he]
  | ok x =>
    obtain ⟨opcode, r0⟩ := x
    simp only
    cases ht : opcode_to_node T opcode with
    | none => simp
    | some type =>
      simp only
      cases hv : node_read_value T type r0 with
      | error e =>
        simp only
        intro h
        have he : e = .fuel := by injection h
        subst he
        unfold node_read_value at hv
        split at hv
        · exact node_read_internal_data_not_fuel type r0 hv
        · simp at hv
      | ok y =>
        obtain ⟨value, r2⟩ := y
        simp only
        cases hn : node_read_num_children T type r2 with
        | error e =>
          simp only
          intro h
          have he : e = .fuel := by injection h
          subst he
          unfold node_read_num_children at hn
          split at hn
          · split at hn
            · simp at hn
            · cases hc : read_compressed_uint r2 with
              | error e2 =>
                rw [hc] at hn
                simp only [Except.error.injEq] at hn
                apply read_compressed_uint_not_fuel r2
                rw [hc, hn]
              | ok w => rw [hc] at hn; simp at hn
          · simp at hn
        | ok z =>
          obtain ⟨k, r3⟩ := z
          simp only
          cases stack with
          | nil => simp
          | cons p ps =>
            simp only
            unfold node_append_child
            by_cases hp : p.node.num_children < T.max_args p.node.type
            · rw [if_pos hp]; simp
            · rw [if_neg hp]; simp

theorem node_read_internal_data_length (t : nodetype_t) (r : reader_t)
    (v : Option constant_t) (r1 : reader_t)
    (h : node_read_internal_data t r = .ok (v, r1)) : r1.length ≤ r.length := by
  unfold node_read_internal_data at h
  split at h
  · cases hc : read_compressed_uint r with
    | error e => rw [hc] at h; simp at h
    | ok x =>
      obtain ⟨len, r2⟩ := x
      rw [hc] at h
      simp only at h
      cases hc2 : constant_read_entries len r2 with
      | error e => rw [hc2] at h; simp at h
      | ok y =>
        rw [hc2] at h
        simp only [Except.ok.injEq, Prod.mk.injEq] at h
        have h1 := read_compressed_uint_length r len r2 hc
        have h2 := constant_read_entries_length len r2 y.1 y.2 hc2
        rw [← h.2]; omega
  · split at h
    · cases hc : read_compressed_uint r with
      | error e => rw [hc] at h; simp at h
      | ok y =>
        rw [hc] at h
        simp only [Except.ok.injEq, Prod.mk.injEq] at h
        have := read_compressed_uint_length r y.1 y.2 hc
        rw [← h.2]; omega
    · split at h
      · cases hc : read_float r with
        | error e => rw [hc] at h; simp at h
        | ok y =>
          rw [hc] at h
          simp only [Except.ok.injEq, Prod.mk.injEq] at h
          have := read_float_length r y.1 y.2 hc
          rw [← h.2]; omega
      · split at h
        · cases hc : read_compressed_uint r with
          | error e => rw [hc] at h; simp at h
          | ok y =>
            rw [hc] at h
            simp only [Except.ok.injEq, Prod.mk.injEq] at h
            have := read_compressed_uint_length r y.1 y.2 hc
            rw [← h.2]; omega
        · split at h
          · cases hc : read_compressed_uint r with
            | error e => rw [hc] at h; simp at h
            | ok y =>
              rw [hc] at h
              simp only [Except.ok.injEq, Prod.mk.injEq] at h
              have := read_compressed_uint_length r y.1 y.2 hc
              rw [← h.2]; omega
          · split at h
            · cases hc : read_string r with
              | error e => rw [hc] at h; simp at h
              | ok y =>
                rw [hc] at h
                simp only [Except.ok.injEq, Prod.mk.injEq] at h
                have := read_string_length r y.1 y.2 hc
                rw [← h.2]; omega
            · split at h
              · cases hc : constant_read r with
                | error e => rw [hc] at h; simp at h
                | ok y =>
                  rw [hc] at h
                  simp only [Except.ok.injEq, Prod.mk.injEq] at h
                  have := constant_read_length r y.1 y.2 hc
                  rw [← h.2]; omega
              · simp only [Except.ok.injEq, Prod.mk.injEq] at h
                rw [← h.2]

/-- Every pass of the loop of `node_read` takes at least one byte. -/
theorem node_read_step_length (T : nodetable_t) (stack : List nodestack_t)
    (top : Option node_t) (r : reader_t) (s : List nodestack_t × Option node_t) (r1 : reader_t)
    (h : node_read_step T stack top r = .ok (s, r1)) : r1.length < r.length := by
  unfold node_read_step at h
  cases h0 : read_uint8 r with
  | error e => rw [h0] at h; simp at h
  | ok x =>
    obtain ⟨opcode, r0⟩ := x
    rw [h0] at h
    simp only at h
    have hl0 := read_uint8_length r opcode r0 h0
    cases ht : opcode_to_node T opcode with
    | none => rw [ht] at h; simp at h
    | some type =>
      rw [ht] at h
      simp only at h
      cases hv : node_read_value T type r0 with
      | error e => rw [hv] at h; simp at h
      | ok y =>
        obtain ⟨value, r2⟩ := y
        rw [hv] at h
        simp only at h
        have hl1 : r2.length ≤ r0.length := by
          unfold node_read_value at hv
          split at hv
          · exact node_read_internal_data_length type r0 value r2 hv
          · simp only [Except.ok.injEq, Prod.mk.injEq] at hv
            rw [← hv.2]
        cases hn : node_read_num_children T type r2 with
        | error e => rw [hn] at h; simp at h
        | ok z =>
          obtain ⟨k, r3⟩ := z
          rw [hn] at h
          simp only at h
          have hl2 : r3.length ≤ r2.length := by
            unfold node_read_num_children at hn
            split at hn
            · split at hn
              · simp only [Except.ok.injEq, Prod.mk.injEq] at hn
                rw [← hn.2]
              · cases hc : read_compressed_uint r2 with
                | error e => rw [hc] at hn; simp at hn
                | ok w =>
                  rw [hc] at hn
                  simp only [Except.ok.injEq, Prod.mk.injEq] at hn
                  have := read_compressed_uint_length r2 w.1 w.2 hc
                  rw [← hn.2]; omega
            · simp only [Except.ok.injEq, Prod.mk.injEq] at hn
              rw [← hn.2]
          have hr : r1 = r3 := by
            cases stack with
            | nil =>
              simp only [Except.ok.injEq, Prod.mk.injEq] at h
              exact h.2.symm
            | cons p ps =>
              simp only at h
              cases ha : node_append_child T p.node (.mk type value []) with
              | error e => rw [ha] at h; simp at h
              | ok pn =>
                rw [ha] at h
                simp only [Except.ok.injEq, Prod.mk.injEq] at h
                exact h.2.symm
          rw [hr]
          omega

/-- The loop of `node_read` ends before its passes are used up when there are more passes
than unread bytes. -/
theorem node_read_loop_fuel (T : nodetable_t) :
    ∀ (fuel : Nat) (stack : List nodestack_t) (top : Option node_t) (r : reader_t),
      r.length < fuel → node_read_loop T fuel stack top r ≠ .error .fuel := by
  intro fuel
  induction fuel with
  | zero => intro stack top r h; omega
  | succ fuel ih =>
    intro stack top r h
    rw [node_read_loop_succ]
    cases hs : node_read_step T stack top r with
    | error e =>
      simp only
      intro hc
      have he : e = .fuel := by injection hc
      subst he
      exact node_read_step_not_fuel T stack top r hs
    | ok x =>
      obtain ⟨s, r1⟩ := x
      simp only
      have hl := node_read_step_length T stack top r s r1 hs
      obtain ⟨st, tp⟩ := s
      cases st with
      | nil => simp [node_read_resume]
      | cons f fs =>
        rw [node_read_resume_cons]
        exact ih (f :: fs) tp r1 (by omega)

/-- The function `node_read` returns or faults in the way the C code does; the bound on
its passes is never what stops it. -/
theorem node_read_not_fuel (T : nodetable_t) (r : reader_t) : node_read T r ≠ .error .fuel := by
  unfold node_read
  cases hl : node_read_loop T (r.length + 1) [] none r with
  | error e =>
    simp only
    intro h
    have he : e = .fuel := by injection h
    subst he
    exact node_read_loop_fuel T (r.length + 1) [] none r (by omega) hl
  | ok x =>
    obtain ⟨tn, r1⟩ := x
    cases tn with
    | none => simp
    | some n => simp

theorem or_128_ne (b ok : Nat) (h : ok < 128) : b ||| 128 ≠ ok := by
  intro he
  have h1 : (b ||| 128).testBit 7 = true := by
    rw [Nat.testBit_or]; simp; right; decide
  rw [he, Nat.testBit_lt_two_pow (by simpa using h)] at h1
  exact Bool.noConfusion h1

theorem finish_request_mismatch (P : net_h) (T : nodetable_t) (rjob : remote_job_t)
    (ms s cutoff : Int) (hms : is_int32 ms) (hs : is_int32 s) (hlt : s < cutoff) (b : Nat)
    (hb : b ≠ P.RESPONSE_DATA_FOLLOWS) (rest : List Nat) :
    finish_request_TRAIN_MODEL P T
        (P.RESPONSE_OK :: (write_compressed_int ms ++ write_compressed_int s ++ b :: rest))
        rjob cutoff
      = (write_uint8 P.REQUEST_SEND_CODE,
         .ok ({ rjob with response := b ||| 128, cpu_time := (ms : Rat) / 1000,
                          job := { rjob.job with score := INT32_MAX, code := none } }, rest)) := by
  rw [finish_request_ok_header P T rjob ms s cutoff hms hs (b :: rest)]
  have h1 : ¬ s ≥ cutoff := by omega
  simp only [h1, if_false, read_uint8, ne_eq, hb, not_false_eq_true, if_true]


theorem dispatch_poll_failed (P : net_h) (T : nodetable_t) (limit : Bool) (timeout : Int)
    (st : dispatch_t) (i : Nat) (env : poll_env) (rjob rjob1 : remote_job_t) (w rest : List Nat)
    (hi : st.r.get? i = some rjob) (hrun : rjob.running = true) (hdone : rjob.done = false)
    (hcode : rjob.job.code = none) (hready : env.ready = true)
    (hfin : finish_request_TRAIN_MODEL P T env.reader rjob st.best_score = (w, .ok (rjob1, rest)))
    (hne : rjob1.response ≠ P.RESPONSE_OK) :
    ∃ st1, dispatch_poll P T limit timeout st i env = .ok st1 ∧
      st1.printed = st.printed ++ [.failed i rjob1.server rjob1.response] ∧
      st1.r = st.r.set i { rjob1 with done := true } ∧
      st1.open_jobs = st.open_jobs - 1 := by
  have hcond : (rjob.running && !rjob.done && rjob.job.code.isNone) = true := by
    rw [hrun, hdone, hcode]; rfl
  unfold dispatch_poll
  simp only [hi, hcond, hready, if_true, remote_job_read_result_eq, hfin]
  by_cases hc : limit = true ∧ rjob1.job.score < st.best_score
  · simp only [hc, and_self, if_true, hne, if_false]
    exact ⟨_, rfl, rfl, rfl, rfl⟩
  · simp only [hc, if_false, hne]
    exact ⟨_, rfl, rfl, rfl, rfl⟩

/-! ## Lemmas: the dispatcher -/

theorem remote_job_try_to_start_server (P : net_h) (N : Nat) (servers : server_array_t)
    (roster : List remote_server_t) (rr : Nat) (job : job_t) (env : start_env)
    (res : start_result)
    (h : remote_job_try_to_start P N servers roster rr job env = .ok res) :
    res.server = servers.servers.getD (rr % servers.num) 0 ∧ res.round_robin = rr + 1 := by
  unfold remote_job_try_to_start at h
  split at h
  · exact absurd h (by simp)
  · split at h
    · exact absurd h (by simp)
    · split at h
      · exact absurd h (by simp)
      · simp only at h
        split at h
        · injection h with h; subst h; exact ⟨rfl, rfl⟩
        · injection h with h; subst h; exact ⟨rfl, rfl⟩

theorem connect_to_remote_server_ret (P : net_h) (s s1 : remote_server_t) (env : connect_env) :
    (connect_to_remote_server P s env).2 = (connect_to_remote_server P s1 env).2 := by
  unfold connect_to_remote_server
  split
  · rfl
  · split
    · rfl
    · split
      · rfl
      · split
        · split
          · rfl
          · split <;> rfl
        · rfl

theorem remote_job_try_to_start_started (P : net_h) (N : Nat) (servers : server_array_t)
    (roster : List remote_server_t) (rr : Nat) (job : job_t) (env : start_env)
    (res : start_result)
    (h : remote_job_try_to_start P N servers roster rr job env = .ok res) :
    (res.rjob.isSome = true ↔ 0 ≤ (connect_to_remote_server P default env.net).2) := by
  unfold remote_job_try_to_start at h
  split at h
  · exact absurd h (by simp)
  · split at h
    · exact absurd h (by simp)
    · split at h
      · exact absurd h (by simp)
      · simp only at h
        rw [connect_to_remote_server_ret P _ default] at h
        split at h
        · rename_i hneg
          injection h with h; subst h
          simp only [Option.isSome_none, Bool.false_eq_true, false_iff, not_le]
          exact hneg
        · rename_i hneg
          injection h with h; subst h
          simp only [Option.isSome_some, true_iff]
          omega

theorem rotation_inv_snoc (servers : server_array_t) (rr0 : Nat) (st st1 : dispatch_t)
    (h : rotation_inv servers rr0 st)
    (hrr : st1.round_robin = st.round_robin + 1)
    (hsel : st1.selected
      = st.selected ++ [servers.servers.getD (st.round_robin % servers.num) 0]) :
    rotation_inv servers rr0 st1 := by
  obtain ⟨h1, h2⟩ := h
  refine ⟨by rw [hrr, hsel, h1, List.length_append]; simp; omega, ?_⟩
  rw [hsel, List.length_append, List.length_singleton, List.range_succ, List.map_append, ← h2,
    h1]
  rfl

theorem dispatch_start_rotation (P : net_h) (N : Nat) (servers : server_array_t) (rr0 : Nat)
    (st st1 : dispatch_t) (env : start_env)
    (h : dispatch_start P N servers st env = .ok st1) (hinv : rotation_inv servers rr0 st) :
    rotation_inv servers rr0 st1 := by
  unfold dispatch_start at h
  split at h
  · injection h with h; subst h; exact hinv
  · rename_i job next hp
    cases hres : remote_job_try_to_start P N servers st.roster st.round_robin job env with
    | error e => rw [hres] at h; exact absurd h (by simp)
    | ok res =>
      rw [hres] at h
      obtain ⟨hs, hr⟩ := remote_job_try_to_start_server P N servers _ _ _ _ _ hres
      simp only at h
      split at h
      · injection h with h; subst h
        exact rotation_inv_snoc servers rr0 st _ hinv hr (by rw [hs])
      · injection h with h; subst h
        exact rotation_inv_snoc servers rr0 st _ hinv hr (by rw [hs])

theorem dispatch_poll_selected (P : net_h) (T : nodetable_t) (limit : Bool) (timeout : Int)
    (st st1 : dispatch_t) (i : Nat) (env : poll_env)
    (h : dispatch_poll P T limit timeout st i env = .ok st1) :
    st1.selected = st.selected ∧ st1.round_robin = st.round_robin ∧ st1.roster = st.roster ∧
      st1.jobs_num = st.jobs_num ∧ st1.pending = st.pending ∧ st1.r.length = st.r.length := by
  unfold dispatch_poll at h
  split at h
  · exact absurd h (by simp)
  · split at h
    · split at h
      · split at h
        · exact absurd h (by simp)
        · split at h
          · injection h with h; subst h; simp
          · injection h with h; subst h; simp
      · split at h
        · injection h with h; subst h; simp
        · injection h with h; subst h; simp
    · injection h with h; subst h; simp

theorem dispatch_polls_selected (P : net_h) (T : nodetable_t) (limit : Bool) (timeout : Int)
    (poll : Nat → poll_env) :
    ∀ (l : List Nat) (st st1 : dispatch_t),
      dispatch_polls P T limit timeout poll l st = .ok st1 →
      st1.selected = st.selected ∧ st1.round_robin = st.round_robin ∧ st1.roster = st.roster ∧
        st1.jobs_num = st.jobs_num ∧ st1.pending = st.pending ∧ st1.r.length = st.r.length := by
  intro l
  induction l with
  | nil =>
    intro st st1 h
    simp only [dispatch_polls] at h
    injection h with h; subst h; simp
  | cons i rest ih =>
    intro st st1 h
    simp only [dispatch_polls] at h
    cases hp : dispatch_poll P T limit timeout st i (poll i) with
    | error e => rw [hp] at h; exact absurd h (by simp)
    | ok st2 =>
      rw [hp] at h
      obtain ⟨a1, a2, a3, a4, a5, a6⟩ := dispatch_poll_selected P T limit timeout st st2 i _ hp
      obtain ⟨b1, b2, b3, b4, b5, b6⟩ := ih st2 st1 h
      exact ⟨b1.trans a1, b2.trans a2, b3.trans a3, b4.trans a4, b5.trans a5, b6.trans a6⟩

theorem dispatch_pass_rotation (P : net_h) (T : nodetable_t) (N : Nat) (limit : Bool)
    (timeout : Int) (servers : server_array_t) (rr0 : Nat) (st st1 : dispatch_t)
    (env : pass_env)
    (h : dispatch_pass P T N limit timeout servers st env = .ok st1)
    (hinv : rotation_inv servers rr0 st) : rotation_inv servers rr0 st1 := by
  unfold dispatch_pass at h
  cases hs : dispatch_start P N servers st env.start with
  | error e => rw [hs] at h; exact absurd h (by simp)
  | ok st2 =>
    rw [hs] at h
    have h2 := dispatch_start_rotation P N servers rr0 st st2 _ hs hinv
    obtain ⟨a1, a2, _⟩ := dispatch_polls_selected P T limit timeout _ _ _ _ h
    unfold rotation_inv at h2 ⊢
    rw [a1, a2]; exact h2

theorem dispatch_loop_rotation (P : net_h) (T : nodetable_t) (N : Nat) (limit : Bool)
    (timeout : Int) (servers : server_array_t) (rr0 : Nat) :
    ∀ (world : List pass_env) (st st1 : dispatch_t),
      dispatch_loop P T N limit timeout servers st world = .ok st1 →
      rotation_inv servers rr0 st → rotation_inv servers rr0 st1 := by
  intro world
  induction world with
  | nil => intro st st1 h; simp [dispatch_loop] at h
  | cons env world ih =>
    intro st st1 h hinv
    simp only [dispatch_loop] at h
    cases hp : dispatch_pass P T N limit timeout servers st env with
    | error e => rw [hp] at h; exact absurd h (by simp)
    | ok st2 =>
      rw [hp] at h
      have h2 := dispatch_pass_rotation P T N limit timeout servers rr0 st st2 env hp hinv
      simp only at h
      split at h
      · injection h with h; subst h; exact h2
      · exact ih st2 st1 h h2

theorem dispatch_init_rotation (servers : server_array_t) (roster : List remote_server_t)
    (rr0 : Nat) (jobs : List job_t) : rotation_inv servers rr0 (dispatch_init roster rr0 jobs) :=
  ⟨rfl, rfl⟩

/-! ## Lemmas: unknown opcodes -/

theorem node_read_step_unknown (T : nodetable_t) (stack : List nodestack_t)
    (top : Option node_t) (b : Nat) (rest : reader_t) (hb : opcode_to_node T b = none) :
    node_read_step T stack top (b :: rest) = .error .assertion := by
  simp only [node_read_step, read_uint8, hb]

theorem node_read_at_loop (T : nodetable_t) (r0 : reader_t) (stack : List nodestack_t)
    (top : Option node_t) (r : reader_t) (h : node_read_at T r0 stack top r) :
    ∃ k, k + r.length ≤ r0.length ∧
      ∀ fuel, node_read_loop T (fuel + k) [] none r0 = node_read_loop T fuel stack top r := by
  induction h with
  | root => exact ⟨0, by simp, fun _ => rfl⟩
  | pass stack top r frame stack1 top1 r1 _ hstep ih =>
    obtain ⟨k, hk, hloop⟩ := ih
    have hlen := node_read_step_length T stack top r _ r1 hstep
    refine ⟨k + 1, by omega, fun fuel => ?_⟩
    rw [show fuel + (k + 1) = (fuel + 1) + k by omega, hloop (fuel + 1)]
    simp only [node_read_loop, hstep]

theorem node_read_unknown_opcode (T : nodetable_t) (r0 : reader_t) (stack : List nodestack_t)
    (top : Option node_t) (b : Nat) (rest : reader_t)
    (h : node_read_at T r0 stack top (b :: rest)) (hb : opcode_to_node T b = none) :
    node_read T r0 = .error .assertion := by
  obtain ⟨k, hk, hloop⟩ := node_read_at_loop T r0 stack top _ h
  simp only [List.length_cons] at hk
  obtain ⟨f, hf⟩ : ∃ f, r0.length + 1 = (f + 1) + k := ⟨r0.length - k, by omega⟩
  unfold node_read
  rw [hf, hloop]
  simp only [node_read_loop, node_read_step_unknown T stack top b rest hb]


/-! ## Lemmas: printing -/

theorem constant_print_entries_pos (f : Nat → String) :
    ∀ (a : List constant_t) (t : Nat), 0 < t →
      constant_print_entries f t a
        = (a.map (fun e => "," ++ constant_print f e)).foldr (fun x y => x ++ y) "" := by
  intro a
  induction a with
  | nil => intro t _; simp [constant_print_entries]
  | cons e rest ih =>
    intro t ht
    simp only [constant_print_entries, gt_iff_lt, ht, if_true, List.map_cons, List.foldr_cons]
    rw [ih (t + 1) (by omega)]

theorem constant_print_array_cons (f : Nat → String) (e : constant_t) (rest : List constant_t) :
    constant_print f (.array (e :: rest))
      = "[" ++ (constant_print f e
          ++ (rest.map (fun x => "," ++ constant_print f x)).foldr (fun x y => x ++ y) "")
        ++ "]" := by
  simp only [constant_print, constant_print_entries, gt_iff_lt, Nat.lt_irrefl, if_false]
  rw [constant_print_entries_pos f rest 1 (by omega)]
  simp [String.append_assoc]

/-! ## Lemmas: models -/

theorem model_names_round_trip :
    ∀ (a : List (List Nat)), a.all string_wf = true → ∀ rest,
      model_save_names a.length a = .ok (a.map write_string).flatten ∧
      model_load_names a.length ((a.map write_string).flatten ++ rest) = .ok (a, rest) := by
  intro a
  induction a with
  | nil => intro _ rest; exact ⟨rfl, rfl⟩
  | cons s a ih =>
    intro h rest
    simp only [List.all_cons, Bool.and_eq_true] at h
    obtain ⟨hs, ha⟩ := h
    simp only [string_wf, Bool.and_eq_true, decide_eq_true_eq] at hs
    obtain ⟨h1, h2⟩ := ih ha rest
    constructor
    · simp only [List.length_cons, model_save_names, h1, List.map_cons, List.flatten_cons]
    · simp only [List.length_cons, model_load_names, List.map_cons, List.flatten_cons,
        List.append_assoc, read_string_write s hs.1, h2, register_and_free_string,
        c_string_eq s (string_wf_nonzero s hs.2)]

theorem model_types_round_trip :
    ∀ (a : List Nat), a.all (fun c => decide (c < 4294967296)) = true → ∀ rest,
      model_save_types a.length a = .ok (a.map write_compressed_uint).flatten ∧
      model_load_types a.length ((a.map write_compressed_uint).flatten ++ rest) = .ok (a, rest) := by
  intro a
  induction a with
  | nil => intro _ rest; exact ⟨rfl, rfl⟩
  | cons c a ih =>
    intro h rest
    simp only [List.all_cons, Bool.and_eq_true, decide_eq_true_eq] at h
    obtain ⟨hc, ha⟩ := h
    obtain ⟨h1, h2⟩ := ih (by simpa using ha) rest
    constructor
    · simp only [List.length_cons, model_save_types, h1, List.map_cons, List.flatten_cons]
    · simp only [List.length_cons, model_load_types, List.map_cons, List.flatten_cons,
        List.append_assoc, read_compressed_uint_write, h2, Nat.mod_eq_of_lt hc]

theorem model_save_load (T : nodetable_t) (hT : T.valid = true) (m : model_t)
    (hwf : model_wf T m = true) (hok : node_codec_ok m.code = true) :
    ∃ code, node_write T 0 m.code = .ok code ∧
      model_save T m = .ok (write_string m.name ++ write_compressed_uint (to_uint32 m.num_inputs)
        ++ [model_save_flags m] ++ model_names_bytes m ++ model_types_bytes m ++ code) ∧
      model_load T (write_string m.name ++ write_compressed_uint (to_uint32 m.num_inputs)
        ++ [model_save_flags m] ++ model_names_bytes m ++ model_types_bytes m ++ code) = .ok m := by
  obtain ⟨name, num_inputs, column_names, column_types, code⟩ := m
  simp only [model_wf, Bool.and_eq_true, decide_eq_true_eq, string_wf] at hwf
  obtain ⟨⟨⟨⟨⟨⟨hn1, hn2⟩, h0⟩, hi⟩, hnames⟩, htypes⟩, hcode⟩ := hwf
  obtain ⟨bs, hw, hr⟩ := node_read_write_ok T hT 0 (by decide) code hcode hok
  have hu : to_uint32 num_inputs % 4294967296 = to_uint32 num_inputs :=
    Nat.mod_eq_of_lt (to_uint32_lt _)
  have hname : register_and_free_string name = name :=
    c_string_eq name (string_wf_nonzero name hn2)
  refine ⟨bs, hw, ?_, ?_⟩
  · cases column_names with
    | none =>
      cases column_types with
      | none =>
        simp [model_save, model_save_flags, model_names_bytes, model_types_bytes, hw,
          write_uint8]
      | some b =>
        simp only [Bool.and_eq_true, decide_eq_true_eq] at htypes
        obtain ⟨hb1, hb2⟩ := htypes
        subst hb1
        simp [model_save, model_save_flags, model_names_bytes, model_types_bytes, hw,
          write_uint8, (model_types_round_trip b hb2 []).1]
    | some a =>
      simp only [Bool.and_eq_true, decide_eq_true_eq] at hnames
      obtain ⟨ha1, ha2⟩ := hnames
      subst ha1
      cases column_types with
      | none =>
        simp [model_save, model_save_flags, model_names_bytes, model_types_bytes, hw,
          write_uint8, (model_names_round_trip a ha2 []).1]
      | some b =>
        simp only [Bool.and_eq_true, decide_eq_true_eq] at htypes
        obtain ⟨hb1, hb2⟩ := htypes
        have hlen : a.length = b.length := by exact_mod_cast hb1.symm
        have h1 := (model_names_round_trip a ha2 []).1
        have h2 := (model_types_round_trip b hb2 []).1
        rw [← hlen] at h2
        simp [model_save, model_save_flags, model_names_bytes, model_types_bytes, hw,
          write_uint8, h1, h2]
  · cases column_names with
    | none =>
      cases column_types with
      | none =>
        simp [model_load, model_save_flags, model_names_bytes, model_types_bytes,
          read_string_write name hn1, read_compressed_uint_write, hu,
          to_int32_to_uint32 num_inputs hi, read_uint8, hname]
        have := hr []
        simp only [List.append_nil] at this
        simp [this]
      | some b =>
        simp only [Bool.and_eq_true, decide_eq_true_eq] at htypes
        obtain ⟨hb1, hb2⟩ := htypes
        subst hb1
        have h2 := (model_types_round_trip b hb2 bs).2
        simp [model_load, model_save_flags, model_names_bytes, model_types_bytes,
          read_string_write name hn1, read_compressed_uint_write, hu,
          to_int32_to_uint32 _ hi, read_uint8, hname, h2]
        have := hr []
        simp only [List.append_nil] at this
        simp [this]
    | some a =>
      simp only [Bool.and_eq_true, decide_eq_true_eq] at hnames
      obtain ⟨ha1, ha2⟩ := hnames
      subst ha1
      cases column_types with
      | none =>
        have h1 := (model_names_round_trip a ha2 bs).2
        simp [model_load, model_save_flags, model_names_bytes, model_types_bytes,
          read_string_write name hn1, read_compressed_uint_write, hu,
          to_int32_to_uint32 _ hi, read_uint8, hname, h1]
        have := hr []
        simp only [List.append_nil] at this
        simp [this]
      | some b =>
        simp only [Bool.and_eq_true, decide_eq_true_eq] at htypes
        obtain ⟨hb1, hb2⟩ := htypes
        have hlen : a.length = b.length := by exact_mod_cast hb1.symm
        have h2 := (model_types_round_trip b hb2 bs).2
        rw [← hlen] at h2
        have h1 := (model_names_round_trip a ha2
          ((b.map write_compressed_uint).flatten ++ bs)).2
        simp [model_load, model_save_flags, model_names_bytes, model_types_bytes,
          read_string_write name hn1, read_compressed_uint_write, hu,
          to_int32_to_uint32 _ hi, read_uint8, hname, h1, h2]
        have := hr []
        simp only [List.append_nil] at this
        simp [this]

/-! ## Lemmas: receiving a dataset -/

theorem process_request_RECV_DATASET_eq (P : net_h) (dataset_read : reader_t → dataset_read_t)
    (peer_net : List Nat → Nat → Option reader_t) (datacache : datacache_t)
    (h host : List Nat) (port : Nat) (body : reader_t)
    (hh : h.length = HASH_SIZE) (hfind : datacache_find datacache h = none)
    (hhost : string_wf host = true) (hport : port < 4294967296) :
    process_request_RECV_DATASET P dataset_read peer_net datacache
        (h ++ write_string host ++ write_compressed_uint port ++ body)
      = match recv_dataset_obtained P dataset_read peer_net h host port body with
        | none => (write_uint8 P.RESPONSE_GO_AHEAD, .ok datacache)
        | some dataset => recv_dataset_check P datacache h dataset := by
  simp only [string_wf, Bool.and_eq_true, decide_eq_true_eq] at hhost
  have hc : c_string host = host := c_string_eq host (string_wf_nonzero host hhost.2)
  have hlen : ¬ (h ++ write_string host ++ write_compressed_uint port ++ body).length
      < HASH_SIZE := by
    simp only [List.length_append, hh]; omega
  have htake : (h ++ write_string host ++ write_compressed_uint port ++ body).take HASH_SIZE
      = h := by
    rw [List.append_assoc, List.append_assoc, ← hh, List.take_left']
    rfl
  have hdrop : (h ++ write_string host ++ write_compressed_uint port ++ body).drop HASH_SIZE
      = write_string host ++ (write_compressed_uint port ++ body) := by
    rw [List.append_assoc, List.append_assoc, ← hh, List.drop_left']
    rfl
  unfold process_request_RECV_DATASET
  rw [if_neg hlen]
  simp only [htake, hfind, hdrop, read_string_write host hhost.1, read_compressed_uint_write,
    Nat.mod_eq_of_lt hport, hc, recv_dataset_obtained]
  by_cases hempty : host = []
  · simp only [hempty, if_true]
    by_cases herr : (dataset_read body).error = true
    · simp [herr]
    · simp [herr]
  · simp only [hempty, if_false]

/-! ## Lemmas: the construction macros and the evaluator -/

theorem code_build_test_if (T : nodetable_t) (hS : T.as_spec = true) :
    code_build T test_if_code = .ok test_if_tree := by
  simp only [nodetable_t.as_spec, List.all_cons, List.all_nil, Bool.and_true, Bool.and_eq_true,
    decide_eq_true_eq, Bool.not_eq_true'] at hS
  obtain ⟨⟨⟨⟨⟨⟨⟨⟨c1, v1⟩, ⟨c2, v2⟩, ⟨c3, v3⟩, ⟨c4, v4⟩, ⟨c5, v5⟩, ⟨c6, v6⟩⟩,
    ⟨l1, m1⟩, ⟨l2, m2⟩, ⟨l3, m3⟩⟩, r1⟩, r2⟩, i1⟩, i2⟩,
    ⟨a1, a2⟩, ⟨b1, b2⟩, ⟨g1, g2⟩, ⟨n1, n2⟩⟩ := hS
  simp [code_build, test_if_code, code_ops_run, code_op.run, NODE_BEGIN, Mrscake.END,
    assert_if_children, START_CODE, node_new, node_new_with, node_t.num_children, node_t.child,
    node_t.type, node_t.value, node_update_last_child, chain_root, test_if_tree,
    int_constant, category_constant,
    c1, c2, c3, c4, c5, c6, l1, l2, l3, r1, r2, i1, i2, a1, a2, g1, g2]


theorem code_build_test_array (T : nodetable_t) (hS : T.as_spec = true) :
    code_build T test_array_code = .ok test_array_tree := by
  simp only [nodetable_t.as_spec, List.all_cons, List.all_nil, Bool.and_true, Bool.and_eq_true,
    decide_eq_true_eq, Bool.not_eq_true'] at hS
  obtain ⟨⟨⟨⟨⟨⟨⟨⟨c1, v1⟩, ⟨c2, v2⟩, ⟨c3, v3⟩, ⟨c4, v4⟩, ⟨c5, v5⟩, ⟨c6, v6⟩⟩,
    ⟨l1, m1⟩, ⟨l2, m2⟩, ⟨l3, m3⟩⟩, r1⟩, r2⟩, i1⟩, i2⟩,
    ⟨a1, a2⟩, ⟨b1, b2⟩, ⟨g1, g2⟩, ⟨n1, n2⟩⟩ := hS
  simp [code_build, test_array_code, code_ops_run, code_op.run, NODE_BEGIN, Mrscake.END,
    assert_if_children, START_CODE, node_new, node_new_with, node_t.num_children, node_t.child,
    node_t.type, node_t.value, node_update_last_child, chain_root, test_array_tree,
    int_constant, category_constant, array_constant, array_create,
    c1, c2, c3, c4, c5, c6, l1, l2, l3, r1, r2, i1, i2, n1, n2]

theorem test_if_tree_wf (T : nodetable_t) (hT : T.valid = true) (hS : T.as_spec = true) :
    node_wf T test_if_tree = true := by
  have hv1 := valid_has_value T hT node_var (by decide)
  have hv2 := valid_has_value T hT node_category (by decide)
  simp only [nodetable_t.as_spec, List.all_cons, List.all_nil, Bool.and_true, Bool.and_eq_true,
    decide_eq_true_eq, Bool.not_eq_true'] at hS
  obtain ⟨⟨⟨⟨⟨⟨⟨⟨c1, v1⟩, ⟨c2, v2⟩, ⟨c3, v3⟩, ⟨c4, v4⟩, ⟨c5, v5⟩, ⟨c6, v6⟩⟩,
    ⟨l1, m1⟩, ⟨l2, m2⟩, ⟨l3, m3⟩⟩, r1⟩, r2⟩, i1⟩, i2⟩,
    ⟨a1, a2⟩, ⟨b1, b2⟩, ⟨g1, g2⟩, ⟨n1, n2⟩⟩ := hS
  simp [node_wf, node_wf_children, test_if_tree, value_expected, constant_wf, is_int32,
    hv1, hv2, c1, c2, c3, c4, c5, c6, v1, v2, v3, v4, v5, v6, l1, l2, l3, m1, m2, m3,
    r1, r2, i1, i2, a1, a2, g1, g2]

theorem test_array_tree_wf (T : nodetable_t) (hT : T.valid = true) (hS : T.as_spec = true) :
    node_wf T test_array_tree = true := by
  have hv1 := valid_has_value T hT node_var (by decide)
  have hv2 := valid_has_value T hT node_category (by decide)
  have hv3 := valid_has_value T hT node_array (by decide)
  simp only [nodetable_t.as_spec, List.all_cons, List.all_nil, Bool.and_true, Bool.and_eq_true,
    decide_eq_true_eq, Bool.not_eq_true'] at hS
  obtain ⟨⟨⟨⟨⟨⟨⟨⟨c1, v1⟩, ⟨c2, v2⟩, ⟨c3, v3⟩, ⟨c4, v4⟩, ⟨c5, v5⟩, ⟨c6, v6⟩⟩,
    ⟨l1, m1⟩, ⟨l2, m2⟩, ⟨l3, m3⟩⟩, r1⟩, r2⟩, i1⟩, i2⟩,
    ⟨a1, a2⟩, ⟨b1, b2⟩, ⟨g1, g2⟩, ⟨n1, n2⟩⟩ := hS
  simp [node_wf, node_wf_children, test_array_tree, value_expected, constant_wf,
    constant_wf_entries, is_int32,
    hv1, hv2, hv3, c1, c2, c3, c4, c5, c6, v1, v2, v3, v4, v5, v6, l1, l2, l3, m1, m2, m3,
    r1, r2, i1, i2, n1, n2]

theorem test_serialization_ok (T : nodetable_t) (hT : T.valid = true) (n : node_t)
    (hwf : node_wf T n = true) (hok : node_codec_ok n = true) :
    test_serialization T n = .ok n := by
  obtain ⟨bs, hw, hr⟩ := node_read_write_ok T hT 0 (by decide) n hwf hok
  have h := hr []
  rw [List.append_nil] at h
  simp only [test_serialization, SERIALIZE_DEFAULTS, hw, h]

theorem node_eval_test_if (F : float_ops) (env : environment_t) (a b c : Nat)
    (h0 : env.row.get? 0 = some (.continuous a)) (h1 : env.row.get? 1 = some (.continuous b))
    (h2 : env.row.get? 2 = some (.continuous c)) :
    node_eval F env test_if_tree
      = .ok (if F.gt (F.add a b) c = true then category_constant 1 else category_constant 2) := by
  have hlen : 2 < env.row.length := by
    by_contra hn
    rw [List.get?_eq_none.mpr (by omega)] at h2
    exact absurd h2 (by simp)
  have e0 : eval_var env 0 = .ok (.float a) := by
    simp only [eval_var, Int.toNat_zero, h0, float_constant]
    rw [if_pos (by omega)]
  have e1 : eval_var env 1 = .ok (.float b) := by
    simp only [eval_var, Int.toNat_one, h1, float_constant]
    rw [if_pos (by omega)]
  have e2 : eval_var env 2 = .ok (.float c) := by
    have : (2 : Int).toNat = 2 := rfl
    simp only [eval_var, this, h2, float_constant]
    rw [if_pos (by omega)]
  simp only [test_if_tree, node_eval, node_eval_child, e0, e1, e2, eval_add, eval_compare]
  cases F.gt (F.add a b) c <;> rfl

theorem node_eval_test_array (F : float_ops) (env : environment_t) (k : Int)
    (h3 : env.row.get? 3 = some (.categorical k)) :
    node_eval F env test_array_tree
      = .ok (if k = 1 ∨ k = 2 ∨ k = 3 then category_constant 1 else category_constant 2) := by
  have hlen : 3 < env.row.length := by
    by_contra hn
    rw [List.get?_eq_none.mpr (by omega)] at h3
    exact absurd h3 (by simp)
  have e3 : eval_var env 3 = .ok (.category k) := by
    have : (3 : Int).toNat = 3 := rfl
    simp only [eval_var, this, h3, category_constant]
    rw [if_pos (by omega)]
  simp only [test_array_tree, node_eval, node_eval_child, e3, eval_in, List.any_cons,
    List.any_nil, constant_equals, Bool.or_false]
  by_cases hk : k = 1 ∨ k = 2 ∨ k = 3
  · rw [if_pos hk]
    rcases hk with h | h | h <;> subst h <;> rfl
  · rw [if_neg hk]
    have h1 : ((1 : Int) == k) = false := by
      rw [beq_eq_false_iff_ne]; intro h; exact hk (Or.inl h.symm)
    have h2 : ((2 : Int) == k) = false := by
      rw [beq_eq_false_iff_ne]; intro h; exact hk (Or.inr (Or.inl h.symm))
    have h3 : ((3 : Int) == k) = false := by
      rw [beq_eq_false_iff_ne]; intro h; exact hk (Or.inr (Or.inr h.symm))
    simp only [h1, h2, h3, Bool.or_false]
    rfl

/-! ## Lemmas: the header of the worker server -/

theorem to_uint32_natCast_mod (n : Nat) : to_uint32 (n : Int) % 256 = n % 256 := by
  unfold to_uint32
  have h : ((n : Int) % 4294967296).toNat = n % 4294967296 := by
    have : ((n : Int) % 4294967296) = ((n % 4294967296 : Nat) : Int) := by
      push_cast; rfl
    rw [this, Int.toNat_natCast]
  rw [h]
  omega

theorem start_server_accept_header (P : net_h) (cfg : Nat) (s : server_t) (pid now : Int)
    (hcodes : P.RESPONSE_IDLE % 256 ≠ P.RESPONSE_BUSY % 256)
    (h0 : 0 ≤ s.num_workers) :
    (start_server_accept P cfg s pid now).header
      = [(if s.num_workers < (cfg : Int) then P.RESPONSE_IDLE else P.RESPONSE_BUSY) % 256,
         s.num_workers.toNat % 256, cfg % 256] ∧
    ((start_server_accept P cfg s pid now).header.head? = some (P.RESPONSE_IDLE % 256) ↔
      s.num_workers < (cfg : Int)) ∧
    ((start_server_accept P cfg s pid now).header.head? = some (P.RESPONSE_BUSY % 256) ↔
      ¬ s.num_workers < (cfg : Int)) ∧
    ((start_server_accept P cfg s pid now).header.head? = some (P.RESPONSE_BUSY % 256) →
      (start_server_accept P cfg s pid now).forked = false ∧
      (start_server_accept P cfg s pid now).server = s) := by
  have hw : to_uint32 s.num_workers % 256 = s.num_workers.toNat % 256 := by
    obtain ⟨n, hn⟩ := Int.eq_ofNat_of_zero_le h0
    rw [hn, Int.toNat_natCast]
    exact to_uint32_natCast_mod n
  have hhead : (start_server_accept P cfg s pid now).header
      = [(if s.num_workers < (cfg : Int) then P.RESPONSE_IDLE else P.RESPONSE_BUSY) % 256,
         s.num_workers.toNat % 256, cfg % 256] := by
    unfold start_server_accept
    by_cases hlt : s.num_workers < (cfg : Int)
    · simp [hlt, send_header, hw, to_uint32_natCast_mod]
    · simp [hlt, send_header, hw, to_uint32_natCast_mod]
  refine ⟨hhead, ?_, ?_, ?_⟩
  · rw [hhead]
    by_cases hlt : s.num_workers < (cfg : Int)
    · simp [hlt]
    · simp only [hlt, if_false, List.head?_cons, Option.some.injEq, iff_false]
      exact fun h => hcodes h.symm
  · rw [hhead]
    by_cases hlt : s.num_workers < (cfg : Int)
    · simp only [hlt, if_true, List.head?_cons, Option.some.injEq, not_true_eq_false, iff_false]
      exact hcodes
    · simp [hlt]
  · intro hb
    rw [hhead] at hb
    have hlt : ¬ s.num_workers < (cfg : Int) := by
      intro hlt
      simp only [hlt, if_true, List.head?_cons, Option.some.injEq] at hb
      exact hcodes hb
    unfold start_server_accept
    simp [hlt]


/-! ## Lemmas: the TRAIN_MODEL exchange, worker side -/

theorem take_hash (h rest : List Nat) (hh : h.length = HASH_SIZE) :
    (h ++ rest).take HASH_SIZE = h ∧ (h ++ rest).drop HASH_SIZE = rest ∧
    ¬ (h ++ rest).length < HASH_SIZE := by
  refine ⟨?_, ?_, ?_⟩
  · rw [← hh, List.take_left']; rfl
  · rw [← hh, List.drop_left']; rfl
  · simp only [List.length_append, hh]; omega

theorem process_request_dataset_unknown (P : net_h) (T : nodetable_t)
    (factories : List Nat → Option Nat) (job_process : Nat → dataset_t → List Nat → job_t)
    (cpu_ms : Int) (cache : datacache_t) (h rest : List Nat)
    (hh : h.length = HASH_SIZE) (hfind : datacache_find cache h = none) :
    process_request_TRAIN_MODEL P T factories job_process cpu_ms cache (h ++ rest)
      = { written := write_uint8 P.RESPONSE_DATASET_UNKNOWN, trained := false, fault := none } := by
  obtain ⟨h1, h2, h3⟩ := take_hash h rest hh
  unfold process_request_TRAIN_MODEL
  rw [if_neg h3]
  simp only [h1, hfind]

theorem process_request_factory_unknown (P : net_h) (T : nodetable_t)
    (factories : List Nat → Option Nat) (job_process : Nat → dataset_t → List Nat → job_t)
    (cpu_ms : Int) (cache : datacache_t) (h name transforms rest : List Nat) (d : dataset_t)
    (hh : h.length = HASH_SIZE) (hfind : datacache_find cache h = some d)
    (hname : string_wf name = true) (htr : string_wf transforms = true)
    (hfac : factories name = none) :
    process_request_TRAIN_MODEL P T factories job_process cpu_ms cache
        (h ++ (write_string name ++ (write_string transforms ++ rest)))
      = { written := write_uint8 P.RESPONSE_FACTORY_UNKNOWN, trained := false, fault := none } := by
  obtain ⟨h1, h2, h3⟩ := take_hash h (write_string name ++ (write_string transforms ++ rest)) hh
  simp only [string_wf, Bool.and_eq_true, decide_eq_true_eq] at hname htr
  unfold process_request_TRAIN_MODEL
  rw [if_neg h3]
  simp only [h1, h2, hfind, read_string_write name hname.1, read_string_write transforms htr.1,
    c_string_eq name (string_wf_nonzero name hname.2), hfac]

theorem process_request_trained (P : net_h) (T : nodetable_t)
    (factories : List Nat → Option Nat) (job_process : Nat → dataset_t → List Nat → job_t)
    (cpu_ms : Int) (cache : datacache_t) (h name transforms : List Nat) (d : dataset_t)
    (factory : Nat) (want : Nat) (rest : List Nat)
    (hh : h.length = HASH_SIZE) (hfind : datacache_find cache h = some d)
    (hname : string_wf name = true) (htr : string_wf transforms = true)
    (hfac : factories name = some factory) :
    process_request_TRAIN_MODEL P T factories job_process cpu_ms cache
        (h ++ (write_string name ++ (write_string transforms ++ want :: rest)))
      = (if want = P.REQUEST_SEND_CODE then
          match (job_process factory d transforms).code with
          | none =>
            { written := write_uint8 P.RESPONSE_OK ++ write_compressed_int cpu_ms
                ++ write_compressed_int (job_process factory d transforms).score
                ++ write_uint8 P.RESPONSE_DATA_FOLLOWS, trained := true,
              fault := some .undefined }
          | some code =>
            match node_write T SERIALIZE_DEFAULTS code with
            | .error e =>
              { written := write_uint8 P.RESPONSE_OK ++ write_compressed_int cpu_ms
                  ++ write_compressed_int (job_process factory d transforms).score
                  ++ write_uint8 P.RESPONSE_DATA_FOLLOWS, trained := true, fault := some e }
            | .ok bs =>
              { written := write_uint8 P.RESPONSE_OK ++ write_compressed_int cpu_ms
                  ++ write_compressed_int (job_process factory d transforms).score
                  ++ write_uint8 P.RESPONSE_DATA_FOLLOWS ++ bs, trained := true, fault := none }
        else
          { written := write_uint8 P.RESPONSE_OK ++ write_compressed_int cpu_ms
              ++ write_compressed_int (job_process factory d transforms).score,
            trained := true, fault := none }) := by
  obtain ⟨h1, h2, h3⟩ :=
    take_hash h (write_string name ++ (write_string transforms ++ want :: rest)) hh
  simp only [string_wf, Bool.and_eq_true, decide_eq_true_eq] at hname htr
  unfold process_request_TRAIN_MODEL
  rw [if_neg h3]
  simp only [h1, h2, hfind, read_string_write name hname.1, read_string_write transforms htr.1,
    c_string_eq name (string_wf_nonzero name hname.2),
    c_string_eq transforms (string_wf_nonzero transforms htr.2), hfac, read_uint8]


theorem to_uint32_to_int32 (u : Nat) (h : u < 4294967296) : to_uint32 (to_int32 u) = u := by
  unfold to_uint32 to_int32
  rw [Nat.mod_eq_of_lt h]
  by_cases h1 : u < 2147483648
  · rw [if_pos h1]
    omega
  · rw [if_neg h1]
    omega

theorem is_int32_to_int32 (u : Nat) : is_int32 (to_int32 u) := by
  unfold is_int32 to_int32
  have : u % 4294967296 < 4294967296 := Nat.mod_lt _ (by norm_num)
  by_cases h1 : u % 4294967296 < 2147483648
  · rw [if_pos h1]; omega
  · rw [if_neg h1]; omega

theorem write_compressed_int_wrap (i : Int) :
    write_compressed_int i = write_compressed_int (to_int32 (to_uint32 i)) := by
  unfold write_compressed_int
  rw [to_uint32_to_int32 _ (to_uint32_lt i)]

theorem train_model_exchange (P : net_h) (T : nodetable_t)
    (factories : List Nat → Option Nat) (job_process : Nat → dataset_t → List Nat → job_t)
    (cpu_ms : Int) (cache : datacache_t) (h name transforms : List Nat) (d : dataset_t)
    (factory : Nat) (N : node_t) (s c : Int) (rjob : remote_job_t)
    (hP : P.train_codes_ok = true) (hT : T.valid = true)
    (hh : h.length = HASH_SIZE) (hfind : datacache_find cache h = some d)
    (hname : string_wf name = true) (htr : string_wf transforms = true)
    (hfac : factories name = some factory)
    (htrain : job_process factory d transforms = { score := s, code := some N })
    (hs : is_int32 s) (hwf : node_wf T N = true) (hok : node_codec_ok N = true) :
    ∃ code reply rjob1,
      node_write T SERIALIZE_DEFAULTS N = .ok code ∧
      reply = write_uint8 P.RESPONSE_OK ++ write_compressed_int cpu_ms ++ write_compressed_int s
        ++ (if s < c then write_uint8 P.RESPONSE_DATA_FOLLOWS ++ code else []) ∧
      process_request_TRAIN_MODEL P T factories job_process cpu_ms cache
          (h ++ (write_string name ++ (write_string transforms
            ++ (if s < c then write_uint8 P.REQUEST_SEND_CODE
                else write_uint8 P.REQUEST_DISCARD_CODE))))
        = { written := reply, trained := true, fault := none } ∧
      finish_request_TRAIN_MODEL P T reply rjob c
        = ((if s < c then write_uint8 P.REQUEST_SEND_CODE
            else write_uint8 P.REQUEST_DISCARD_CODE), .ok (rjob1, [])) ∧
      rjob1.response = P.RESPONSE_OK ∧ rjob1.job.score = s ∧
      rjob1.job.code = (if s < c then some N else none) := by
  simp only [net_h.train_codes_ok, Bool.and_eq_true, decide_eq_true_eq] at hP
  obtain ⟨⟨⟨⟨p1, p2⟩, p3⟩, p4⟩, p5⟩ := hP
  obtain ⟨code, hw, hr⟩ := node_read_write_ok T hT 0 (by decide) N hwf hok
  have hr0 := hr []
  rw [List.append_nil] at hr0
  have hOK : write_uint8 P.RESPONSE_OK = [P.RESPONSE_OK] := write_uint8_tag _ p3
  have hDF : write_uint8 P.RESPONSE_DATA_FOLLOWS = [P.RESPONSE_DATA_FOLLOWS] :=
    write_uint8_tag _ p4
  have hSC : write_uint8 P.REQUEST_SEND_CODE = [P.REQUEST_SEND_CODE] := write_uint8_tag _ p1
  have hDC : write_uint8 P.REQUEST_DISCARD_CODE = [P.REQUEST_DISCARD_CODE] :=
    write_uint8_tag _ p2
  have hms := is_int32_to_int32 (to_uint32 cpu_ms)
  by_cases hlt : s < c
  · have hj : ∃ j : remote_job_t, j = { rjob with
        cpu_time := (to_int32 (to_uint32 cpu_ms) : Rat) / 1000,
        job := { rjob.job with score := s, code := some N }, response := P.RESPONSE_OK } := ⟨_, rfl⟩
    obtain ⟨j1, hj1⟩ := hj
    refine ⟨code, _, j1, hw, rfl, ?_, ?_, ?_⟩
    · rw [if_pos hlt, hSC]
      rw [process_request_trained P T factories job_process cpu_ms cache h name transforms d
        factory P.REQUEST_SEND_CODE [] hh hfind hname htr hfac]
      simp only [if_true, htrain, SERIALIZE_DEFAULTS] at hw ⊢
      simp only [hw, hlt, if_true, List.append_assoc]
    · rw [if_pos hlt, if_pos hlt, hOK, hDF, write_compressed_int_wrap cpu_ms]
      have := finish_request_ok_header P T rjob (to_int32 (to_uint32 cpu_ms)) s c hms hs
        (P.RESPONSE_DATA_FOLLOWS :: code)
      simp only [List.singleton_append, List.append_assoc, List.cons_append, List.nil_append] at this ⊢
      rw [this]
      have hge : ¬ s ≥ c := by omega
      simp only [hge, if_false, read_uint8, ne_eq, not_true_eq_false, hr0, hj1]
    · subst hj1; simp only [hlt, if_true, and_self]
  · have hj : ∃ j : remote_job_t, j = { rjob with
        cpu_time := (to_int32 (to_uint32 cpu_ms) : Rat) / 1000,
        job := { rjob.job with score := s, code := none }, response := P.RESPONSE_OK } := ⟨_, rfl⟩
    obtain ⟨j1, hj1⟩ := hj
    refine ⟨code, _, j1, hw, rfl, ?_, ?_, ?_⟩
    · rw [if_neg hlt, hDC]
      rw [process_request_trained P T factories job_process cpu_ms cache h name transforms d
        factory P.REQUEST_DISCARD_CODE [] hh hfind hname htr hfac]
      have hne : ¬ P.REQUEST_DISCARD_CODE = P.REQUEST_SEND_CODE := fun h => p5 h.symm
      simp only [hne, if_false, htrain, hlt, List.append_nil]
    · rw [if_neg hlt, if_neg hlt, hOK, write_compressed_int_wrap cpu_ms, List.append_nil]
      have := finish_request_ok_header P T rjob (to_int32 (to_uint32 cpu_ms)) s c hms hs []
      simp only [List.singleton_append, List.append_assoc, List.cons_append, List.nil_append,
        List.append_nil] at this ⊢
      rw [this]
      have hge : s ≥ c := by omega
      simp only [hge, if_true, hj1]
    · subst hj1; simp only [hlt, if_false, and_self]

/-! ## Lemmas: round robin -/

theorem dispatch_start_job (P : net_h) (N : Nat) (servers : server_array_t)
    (st st1 : dispatch_t) (env : start_env) (job : job_t) (next : List job_t)
    (h : dispatch_start P N servers st env = .ok st1) (hp : st.pending = job :: next) :
    st1.selected = st.selected ++ [servers.servers.getD (st.round_robin % servers.num) 0] ∧
    st1.round_robin = st.round_robin + 1 ∧
    (0 ≤ (connect_to_remote_server P default env.net).2 →
      st1.pending = next ∧
      ∃ j, st1.r = st.r ++ [j] ∧
        j.server = servers.servers.getD (st.round_robin % servers.num) 0 ∧
        j.job = { job with code := none } ∧ j.running = true ∧ j.done = false) ∧
    (¬ 0 ≤ (connect_to_remote_server P default env.net).2 →
      st1.pending = job :: next ∧ st1.r = st.r) := by
  unfold dispatch_start at h
  rw [hp] at h
  simp only at h
  cases hres : remote_job_try_to_start P N servers st.roster st.round_robin job env with
  | error e => rw [hres] at h; exact absurd h (by simp)
  | ok res =>
    rw [hres] at h
    obtain ⟨hs, hr⟩ := remote_job_try_to_start_server P N servers _ _ _ _ _ hres
    have hstarted := remote_job_try_to_start_started P N servers _ _ _ _ _ hres
    simp only at h
    unfold remote_job_try_to_start at hres
    split at hres
    · exact absurd hres (by simp)
    · split at hres
      · exact absurd hres (by simp)
      · split at hres
        · exact absurd hres (by simp)
        · simp only at hres
          split at hres
          · rename_i hneg
            injection hres with hres; subst hres
            simp only at h
            injection h with h; subst h
            refine ⟨rfl, rfl, ?_, fun _ => ⟨rfl, rfl⟩⟩
            intro hc
            have := hstarted.mpr hc
            simp at this
          · rename_i hneg
            injection hres with hres; subst hres
            simp only at h
            injection h with h; subst h
            refine ⟨rfl, rfl, fun _ => ⟨rfl, _, rfl, rfl, rfl, rfl, rfl⟩, ?_⟩
            intro hc
            have := hstarted.mp (by simp)
            exact absurd this hc

theorem dispatch_pass_job (P : net_h) (T : nodetable_t) (N : Nat) (limit : Bool)
    (timeout : Int) (servers : server_array_t) (st st1 : dispatch_t) (env : pass_env)
    (job : job_t) (next : List job_t)
    (h : dispatch_pass P T N limit timeout servers st env = .ok st1)
    (hp : st.pending = job :: next) :
    st1.selected = st.selected ++ [servers.servers.getD (st.round_robin % servers.num) 0] ∧
    st1.round_robin = st.round_robin + 1 ∧
    (0 ≤ (connect_to_remote_server P default env.start.net).2 →
      st1.pending = next ∧ st1.r.length = st.r.length + 1) ∧
    (¬ 0 ≤ (connect_to_remote_server P default env.start.net).2 →
      st1.pending = job :: next ∧ st1.r.length = st.r.length) := by
  unfold dispatch_pass at h
  cases hs : dispatch_start P N servers st env.start with
  | error e => rw [hs] at h; exact absurd h (by simp)
  | ok st2 =>
    rw [hs] at h
    obtain ⟨a1, a2, a3, a4⟩ := dispatch_start_job P N servers st st2 _ job next hs hp
    obtain ⟨b1, b2, _, _, b5, b6⟩ := dispatch_polls_selected P T limit timeout _ _ _ _ h
    refine ⟨b1.trans a1, b2.trans a2, fun hc => ?_, fun hc => ?_⟩
    · obtain ⟨c1, j, c2, _⟩ := a3 hc
      exact ⟨b5.trans c1, by rw [b6, c2]; simp⟩
    · obtain ⟨c1, c2⟩ := a4 hc
      exact ⟨b5.trans c1, by rw [b6, c2]⟩


/-! ## Lemmas: the random indices of `distribute_dataset` -/

theorem distribute_dataset_no_seeds (P : net_h) (N : Nat) (net : dataset_net) (d : Nat)
    (draws : List Nat) :
    distribute_dataset P 0 (N + 1) net (d :: draws) = .error .div_by_zero := by
  unfold distribute_dataset
  have h1 : imin 0 (N + 1) = 0 := by simp [imin]
  simp only [h1]
  have h2 : seed_phase P (N + 1) 0 net (N + 1 + 1) (distribute_init (N + 1)) (d :: draws)
      = .ok (true, distribute_init (N + 1), d :: draws) := by
    simp [seed_phase, distribute_state.num_seeds, distribute_init]
  rw [h2]
  simp only [List.range_succ_eq_map, propagate_phase]
  have h3 : (distribute_init (N + 1)).status.getD 0 0 = 0 := by
    simp [distribute_init, List.replicate_succ]
  simp [h3, distribute_state.num_seeds, distribute_init]

theorem propagate_contact_num_seeds (P : net_h) (net : dataset_net) (st : distribute_state)
    (i k : Nat) : st.num_seeds ≤ (propagate_contact P net st i k).num_seeds := by
  unfold propagate_contact
  simp only [distribute_state.num_seeds]
  split
  · simp
  · simp

theorem propagate_phase_no_div (P : net_h) (net : dataset_net) :
    ∀ (rest : List Nat) (st : distribute_state) (draws : List Nat),
      0 < st.num_seeds → propagate_phase P net rest st draws ≠ .error .div_by_zero := by
  intro rest
  induction rest with
  | nil => intro st draws _; simp [propagate_phase]
  | cons i rest ih =>
    intro st draws hpos
    unfold propagate_phase
    split
    · exact ih st draws hpos
    · cases draws with
      | nil => simp
      | cons d draws1 =>
        simp only
        rw [if_neg (by omega)]
        exact ih _ _ (lt_of_lt_of_le hpos (propagate_contact_num_seeds P net st i _))

theorem distribute_dataset_no_div (P : net_h) (S N : Nat) (net : dataset_net)
    (draws : List Nat) (hS : 0 < S) :
    distribute_dataset P S N net draws ≠ .error .div_by_zero := by
  unfold distribute_dataset
  simp only
  rcases seed_phase_spec P N (imin S N) net (N + 1) (distribute_init N) draws
      (distribute_init_inv P N) (by simp [distribute_init, distribute_state.num_seeds])
      (by omega) with h | h
  · rw [h]; simp
  · obtain ⟨ok, st, d1, he, hinv, ho, hn, _⟩ := h
    rw [he]
    cases ok with
    | false => simp
    | true =>
      simp only
      have hseeds := ho rfl
      cases N with
      | zero =>
        simp only [List.range_zero, propagate_phase]
        simp
      | succ n =>
        have hpos : 0 < st.num_seeds := by
          rw [hseeds]; simp only [imin]; omega
        cases hp : propagate_phase P net (List.range (n + 1)) st d1 with
        | error e =>
          simp only
          intro hc
          injection hc with hc
          subst hc
          exact propagate_phase_no_div P net _ st d1 hpos hp
        | ok x => simp

/-! ## Lemmas: the bytes of `node_write` -/

theorem node_write_internal_data_payload (T : nodetable_t) (flags : Nat)
    (hf : omit_strings flags = false) (t : nodetype_t) (x : constant_t)
    (hv : T.has_value t = true) (he : value_expected t x = true) (hx : constant_wf x = true)
    (hc : value_codec_ok t x = true) :
    node_write_internal_data T flags t (some x) = .ok (spec_node_payload t x) := by
  cases t
  case node_constant =>
    have hw := (constant_read_write_scalar flags x hf hx
      (by simpa [value_codec_ok] using hc) []).1
    simp [node_write_internal_data, hv, hw, spec_node_payload]
  case node_setlocal =>
    have hw := (constant_read_write_scalar flags x hf hx
      (by simpa [value_codec_ok] using hc) []).1
    simp [node_write_internal_data, hv, hw, spec_node_payload]
  case node_getlocal =>
    have hw := (constant_read_write_scalar flags x hf hx
      (by simpa [value_codec_ok] using hc) []).1
    simp [node_write_internal_data, hv, hw, spec_node_payload]
  case node_var =>
    cases x <;> simp only [value_expected] at he <;> try exact absurd he (by decide)
    case int i => simp [node_write_internal_data, spec_node_payload, value_payload]
  case node_int =>
    cases x <;> simp only [value_expected] at he <;> try exact absurd he (by decide)
    case int i => simp [node_write_internal_data, spec_node_payload, value_payload]
  case node_category =>
    cases x <;> simp only [value_expected] at he <;> try exact absurd he (by decide)
    case category c => simp [node_write_internal_data, spec_node_payload, value_payload]
  case node_float =>
    cases x <;> simp only [value_expected] at he <;> try exact absurd he (by decide)
    case float f => simp [node_write_internal_data, spec_node_payload, value_payload]
  case node_string =>
    cases x <;> simp only [value_expected] at he <;> try exact absurd he (by decide)
    case string s => simp [node_write_internal_data, hf, spec_node_payload, value_payload]
  case node_array =>
    cases x <;> simp only [value_expected] at he <;> try exact absurd he (by decide)
    case array a =>
      simp only [value_codec_ok, Bool.and_eq_true, decide_eq_true_eq] at hc
      simp only [constant_wf] at hx
      obtain ⟨hw, _⟩ := constant_entries_read_write flags hf a hc.2 hx
      simp [node_write_internal_data, hc.1, hw, spec_node_payload, value_payload]
  all_goals (cases x <;> simp [value_expected, value_codec_ok] at he hc)

mutual
theorem node_write_spec (T : nodetable_t) (hT : T.valid = true) (flags : Nat)
    (hf : omit_strings flags = false) :
    ∀ (n : node_t), node_wf T n = true → node_codec_ok n = true →
      node_write T flags n = .ok (spec_node_encoding T n)
  | .mk t v cs, hwf, hok => by
    simp only [node_wf, Bool.and_eq_true] at hwf
    simp only [node_codec_ok, Bool.and_eq_true] at hok
    obtain ⟨⟨⟨⟨hmin, hmax0⟩, hch⟩, hv⟩, hwcs⟩ := hwf
    simp only [decide_eq_true_eq] at hmin hmax0
    simp only [Bool.or_eq_true, List.isEmpty_iff] at hch
    obtain ⟨hcv, hocs⟩ := hok
    have hcs := node_write_children_spec T hT flags hf cs hwcs hocs
    have hop : write_uint8 (T.opcode t) = [T.opcode t] :=
      write_uint8_tag _ (valid_opcode_lt T hT t)
    have hval : node_write_internal_data T flags t v
        = .ok (match v with
          | some x => if T.has_value t then spec_node_payload t x else []
          | none => []) := by
      cases v with
      | none =>
        simp only [Bool.not_eq_true'] at hv
        exact (node_value_read_write_none T hT flags t hv).1
      | some x =>
        simp only [Bool.and_eq_true] at hv
        simp only [hv.1.1, if_true]
        exact node_write_internal_data_payload T flags hf t x hv.1.1 hv.1.2 hv.2 hcv
    have hcond : (if T.has_children t then
        decide (T.min_args t ≤ cs.length) && decide (cs.length ≤ T.max_args t)
        else decide (cs.length = 0)) = true := by
      by_cases hc : T.has_children t = true
      · simp [hc, hmin, hmax0]
      · simp only [hc, Bool.false_eq_true, if_false, decide_eq_true_eq]
        rcases hch with h | h
        · exact absurd h hc
        · simp [h]
    rw [node_write_eq T flags t v cs _ _ hval hcs hcond, hop]
    simp only [spec_node_encoding, List.singleton_append, List.append_assoc]
    cases v <;> rfl
theorem node_write_children_spec (T : nodetable_t) (hT : T.valid = true) (flags : Nat)
    (hf : omit_strings flags = false) :
    ∀ (cs : List node_t), node_wf_children T cs = true → node_codec_ok_children cs = true →
      node_write_children T flags cs = .ok (spec_node_encoding_children T cs)
  | [], _, _ => by simp [node_write_children, spec_node_encoding_children]
  | c :: cs1, hwf, hok => by
    simp only [node_wf_children, Bool.and_eq_true] at hwf
    simp only [node_codec_ok_children, Bool.and_eq_true] at hok
    simp [node_write_children, spec_node_encoding_children,
      node_write_spec T hT flags hf c hwf.1 hok.1,
      node_write_children_spec T hT flags hf cs1 hwf.2 hok.2]
end


/-! ## Lemmas: the end of the loop of `node_read` -/

theorem node_read_loop_length (T : nodetable_t) :
    ∀ (fuel : Nat) (stack : List nodestack_t) (top : Option node_t) (r : reader_t)
      (x : Option node_t) (r1 : reader_t),
      node_read_loop T fuel stack top r = .ok (x, r1) → r1.length < r.length := by
  intro fuel
  induction fuel with
  | zero => intro stack top r x r1 h; simp [node_read_loop] at h
  | succ fuel ih =>
    intro stack top r x r1 h
    simp only [node_read_loop] at h
    cases hs : node_read_step T stack top r with
    | error e => rw [hs] at h; exact absurd h (by simp)
    | ok y =>
      obtain ⟨⟨stack1, top1⟩, r2⟩ := y
      rw [hs] at h
      have hlen := node_read_step_length T stack top r _ r2 hs
      simp only at h
      cases stack1 with
      | nil =>
        simp only at h
        injection h with h
        injection h with _ h2
        rw [← h2]; exact hlen
      | cons f fs =>
        simp only at h
        have := ih _ _ _ _ _ h
        omega

theorem node_read_write_at (T : nodetable_t) (hT : T.valid = true) (n : node_t)
    (hwf : node_wf T n = true) (hok : node_codec_ok n = true) :
    ∃ bs, node_write T 0 n = .ok bs ∧ ∀ rest,
      node_read T (bs ++ rest) = .ok (n, rest) ∧
      ∀ stack top r, node_read_at T (bs ++ rest) stack top r → rest.length < r.length := by
  obtain ⟨bs, hw, hlen, hloop⟩ := node_read_loop_write T hT 0 (by decide) n hwf hok
  obtain ⟨bs1, hw1, hr⟩ := node_read_write_ok T hT 0 (by decide) n hwf hok
  rw [hw] at hw1
  injection hw1 with hw1
  subst hw1
  refine ⟨bs, hw, fun rest => ⟨hr rest, ?_⟩⟩
  intro stack top r hat
  obtain ⟨k, hk, hat_loop⟩ := node_read_at_loop T (bs ++ rest) stack top r hat
  have hfuel : (bs ++ rest).length + 1 + k
      = ((bs ++ rest).length + 1 + k - node_count n) + node_count n := by
    simp only [List.length_append]; omega
  have h1 := hat_loop ((bs ++ rest).length + 1)
  rw [hfuel, hloop _ [] none rest (by intro p hp; simp at hp)] at h1
  simp only [stack_after_node, node_read_resume] at h1
  exact node_read_loop_length T _ stack top r _ rest h1.symm

/-! ## Lemmas: sending a dataset -/

theorem connect_to_remote_server_idle (P : net_h) (s : remote_server_t) (env : connect_env)
    (h : 0 ≤ (connect_to_remote_server P s env).2) :
    (connect_to_remote_server P s env).1.busy = false ∧
    (connect_to_remote_server P s env).1.broken = s.broken := by
  unfold connect_to_remote_server at h ⊢
  split
  · rename_i h1; rw [if_pos h1] at h; exact absurd h (by simp)
  · rename_i h1
    rw [if_neg h1] at h
    split
    · rename_i h2; rw [if_pos h2] at h; exact absurd h (by simp)
    · rename_i h2
      rw [if_neg h2] at h
      split
      · rename_i h3; rw [if_pos h3] at h; exact absurd h (by simp)
      · rename_i h3
        rw [if_neg h3] at h
        split
        · rename_i h0 h1' h2' heq
          rw [heq] at h
          simp only at h
          split
          · rename_i h4; rw [if_pos h4] at h; exact absurd h (by simp)
          · rename_i h4
            rw [if_neg h4] at h
            split
            · rename_i h5; rw [if_pos h5] at h; exact absurd h (by simp)
            · exact ⟨rfl, rfl⟩
        · rename_i hne
          split at h
          · rename_i a b c heq
            exact absurd heq (hne a b c)
          · exact absurd h (by simp)


theorem make_request_RECV_DATASET_ok (P : net_h) (dw : dataset_t → List Nat) (env : send_env)
    (data : dataset_t) (other : Option (List Nat × Nat))
    (hret : (make_request_RECV_DATASET P dw env data other).ret = true)
    (herr : (make_request_RECV_DATASET P dw env data other).error = false) :
    env.write_error1 = false ∧ env.write_error2 = false ∧
    ∃ status rest, env.reply = status :: rest ∧
      (status = P.RESPONSE_GO_AHEAD ∨ status = P.RESPONSE_DUPL_DATA) ∧
      (make_request_RECV_DATASET P dw env data other).rest = rest := by
  unfold make_request_RECV_DATASET at hret herr ⊢
  by_cases h1 : env.write_error1 = true
  · simp [h1] at hret
  · by_cases h2 : env.write_error2 = true
    · simp [h1, h2] at hret
    · simp only [h1, h2, Bool.false_eq_true, if_false] at hret herr ⊢
      cases hr : env.reply with
      | nil =>
        rw [hr] at herr
        split at herr
        · simp at herr
        · split at herr
          · simp at herr
          · split at herr <;> simp at herr
      | cons status rest =>
        rw [hr] at hret
        simp only at hret ⊢
        refine ⟨trivial, trivial, status, rest, rfl, ?_, ?_⟩
        · by_contra hn
          rw [not_or] at hn
          rw [if_pos ⟨hn.1, hn.2⟩] at hret
          exact absurd hret (by simp)
        · split
          · rfl
          · split
            · rfl
            · split <;> rfl

theorem make_request_RECV_DATASET_of_reply (P : net_h) (dw : dataset_t → List Nat)
    (env : send_env) (data : dataset_t) (other : Option (List Nat × Nat))
    (status : Nat) (rest : List Nat)
    (h1 : env.write_error1 = false) (h2 : env.write_error2 = false)
    (hr : env.reply = status :: rest)
    (hs : status = P.RESPONSE_GO_AHEAD ∨ status = P.RESPONSE_DUPL_DATA) :
    (make_request_RECV_DATASET P dw env data other).ret = true ∧
    (make_request_RECV_DATASET P dw env data other).error = false ∧
    (make_request_RECV_DATASET P dw env data other).rest = rest := by
  unfold make_request_RECV_DATASET
  simp only [h1, h2, Bool.false_eq_true, if_false, hr]
  have hn : ¬ (status ≠ P.RESPONSE_GO_AHEAD ∧ status ≠ P.RESPONSE_DUPL_DATA) := by
    intro hn; rcases hs with h | h
    · exact hn.1 h
    · exact hn.2 h
  rw [if_neg hn]
  split
  · exact ⟨rfl, rfl, rfl⟩
  · split <;> exact ⟨rfl, rfl, rfl⟩

theorem make_request_RECV_DATASET_failed (P : net_h) (dw : dataset_t → List Nat)
    (env : send_env) (data : dataset_t) (other : Option (List Nat × Nat))
    (h : env.write_error1 = true ∨ env.write_error2 = true ∨ env.reply = [] ∨
      ∃ status rest, env.reply = status :: rest ∧ status ≠ P.RESPONSE_GO_AHEAD ∧
        status ≠ P.RESPONSE_DUPL_DATA) :
    (make_request_RECV_DATASET P dw env data other).ret = false ∨
    (make_request_RECV_DATASET P dw env data other).error = true := by
  by_cases hret : (make_request_RECV_DATASET P dw env data other).ret = true
  · by_cases herr : (make_request_RECV_DATASET P dw env data other).error = true
    · exact Or.inr herr
    · exfalso
      obtain ⟨h1, h2, status, rest, hr, hs, _⟩ :=
        make_request_RECV_DATASET_ok P dw env data other hret (by simpa using herr)
      rcases h with h | h | h | ⟨s1, r1, hr1, hs1, hs2⟩
      · rw [h1] at h; exact Bool.noConfusion h
      · rw [h2] at h; exact Bool.noConfusion h
      · rw [h] at hr; exact List.noConfusion hr
      · rw [hr1] at hr
        injection hr with ha hb
        subst ha
        rcases hs with h | h
        · exact hs1 h
        · exact hs2 h
  · exact Or.inl (by simpa using hret)


theorem send_dataset_success (P : net_h) (dw : dataset_t → List Nat) (server : remote_server_t)
    (env : send_env) (data : dataset_t) (other : Option (List Nat × Nat))
    (hP : P.send_codes_ok = true)
    (hres : (send_dataset_to_remote_server P dw server env data other).resp = P.RESPONSE_OK ∨
      (send_dataset_to_remote_server P dw server env data other).resp = P.RESPONSE_DUPL_DATA) :
    0 ≤ (connect_to_remote_server P server env.net).2 ∧
    env.write_error1 = false ∧ env.write_error2 = false ∧
    (∃ status more, env.reply
        = status :: (data.hash
            ++ (send_dataset_to_remote_server P dw server env data other).resp :: more) ∧
      (status = P.RESPONSE_GO_AHEAD ∨ status = P.RESPONSE_DUPL_DATA)) ∧
    (send_dataset_to_remote_server P dw server env data other).server.broken = server.broken := by
  simp only [net_h.send_codes_ok, Bool.and_eq_true, decide_eq_true_eq] at hP
  obtain ⟨⟨⟨⟨⟨p1, p2⟩, p3⟩, p4⟩, p5⟩, p6⟩ := hP
  unfold send_dataset_to_remote_server at hres ⊢
  simp only at hres ⊢
  by_cases hc : (connect_to_remote_server P server env.net).2 < 0
  · rw [if_pos hc] at hres
    rcases hres with h | h
    · exact absurd h p1
    · exact absurd h p2
  · rw [if_neg hc] at hres ⊢
    have hc0 : 0 ≤ (connect_to_remote_server P server env.net).2 := by omega
    obtain ⟨hbusy, hbroken⟩ := connect_to_remote_server_idle P server env.net hc0
    simp only [hbusy, Bool.false_eq_true, if_false] at hres ⊢
    by_cases hret : (make_request_RECV_DATASET P dw env data other).ret = true
    · simp only [hret, Bool.not_true, Bool.false_eq_true, if_false] at hres ⊢
      by_cases herr : (make_request_RECV_DATASET P dw env data other).error = true ∨
          (make_request_RECV_DATASET P dw env data other).rest.length < HASH_SIZE + 1
      · rw [if_pos herr] at hres
        rcases hres with h | h
        · exact absurd h p1
        · exact absurd h p2
      · rw [if_neg herr] at hres ⊢
        rw [not_or] at herr
        by_cases hhash : (make_request_RECV_DATASET P dw env data other).rest.take HASH_SIZE
            ≠ data.hash
        · rw [if_pos hhash] at hres
          rcases hres with h | h
          · exact absurd h p3
          · exact absurd h p4
        · rw [if_neg hhash] at hres ⊢
          obtain ⟨h1, h2, status, rest, hr, hs, hrest⟩ :=
            make_request_RECV_DATASET_ok P dw env data other hret (by simpa using herr.1)
          refine ⟨hc0, h1, h2, ⟨status, rest.drop (HASH_SIZE + 1), ?_, hs⟩, hbroken⟩
          rw [hrest] at hhash herr ⊢
          simp only [ne_eq, not_not] at hhash
          have hlen : HASH_SIZE < rest.length := by omega
          rw [hr, ← hhash]
          congr 1
          rw [List.getD_eq_getElem?_getD, List.getElem?_eq_getElem hlen, Option.getD_some]
          conv_lhs => rw [← List.take_append_drop HASH_SIZE rest]
          congr 1
          rw [List.drop_eq_getElem_cons hlen]
    · simp only [hret, Bool.not_false, if_true] at hres
      rcases hres with h | h
      · exact absurd h p1
      · exact absurd h p2

theorem send_dataset_bad_hash (P : net_h) (dw : dataset_t → List Nat) (server : remote_server_t)
    (env : send_env) (data : dataset_t) (other : Option (List Nat × Nat))
    (status : Nat) (hash more : List Nat) (b : Nat)
    (hc : 0 ≤ (connect_to_remote_server P server env.net).2)
    (h1 : env.write_error1 = false) (h2 : env.write_error2 = false)
    (hr : env.reply = status :: (hash ++ b :: more))
    (hs : status = P.RESPONSE_GO_AHEAD ∨ status = P.RESPONSE_DUPL_DATA)
    (hlen : hash.length = HASH_SIZE) :
    (hash ≠ data.hash →
      (send_dataset_to_remote_server P dw server env data other).resp = P.RESPONSE_DATA_ERROR ∧
      (send_dataset_to_remote_server P dw server env data other).server.broken = true) ∧
    (hash = data.hash →
      (send_dataset_to_remote_server P dw server env data other).resp = b ∧
      (send_dataset_to_remote_server P dw server env data other).server.broken
        = server.broken) := by
  obtain ⟨hbusy, hbroken⟩ := connect_to_remote_server_idle P server env.net hc
  obtain ⟨m1, m2, m3⟩ := make_request_RECV_DATASET_of_reply P dw env data other status _ h1 h2
    hr hs
  have htake : (hash ++ b :: more).take HASH_SIZE = hash := by
    rw [← hlen, List.take_left']; rfl
  have hget : (hash ++ b :: more).getD HASH_SIZE 0 = b := by
    rw [← hlen, List.getD_eq_getElem?_getD, List.getElem?_append_right (le_refl _)]
    simp
  have hl : ¬ (hash ++ b :: more).length < HASH_SIZE + 1 := by
    simp only [List.length_append, List.length_cons, hlen]; omega
  unfold send_dataset_to_remote_server
  simp only [if_neg (not_lt.mpr hc), hbusy, Bool.false_eq_true, if_false, m1, m2, m3,
    Bool.not_true, false_or, hl, htake, hget]
  constructor
  · intro hne
    rw [if_pos hne]
    exact ⟨rfl, rfl⟩
  · intro heq
    rw [if_neg (by simpa using heq)]
    exact ⟨rfl, hbroken⟩

theorem send_dataset_read_error (P : net_h) (dw : dataset_t → List Nat)
    (server : remote_server_t) (env : send_env) (data : dataset_t)
    (other : Option (List Nat × Nat))
    (h : (connect_to_remote_server P server env.net).2 < 0 ∨
      env.write_error1 = true ∨ env.write_error2 = true ∨ env.reply = [] ∨
      (∃ status rest, env.reply = status :: rest ∧ status ≠ P.RESPONSE_GO_AHEAD ∧
        status ≠ P.RESPONSE_DUPL_DATA) ∨
      (∃ status rest, env.reply = status :: rest ∧ rest.length < HASH_SIZE + 1)) :
    (send_dataset_to_remote_server P dw server env data other).resp = P.RESPONSE_READ_ERROR := by
  unfold send_dataset_to_remote_server
  simp only
  by_cases hc : (connect_to_remote_server P server env.net).2 < 0
  · rw [if_pos hc]
  · rw [if_neg hc]
    have hc0 : 0 ≤ (connect_to_remote_server P server env.net).2 := by omega
    obtain ⟨hbusy, _⟩ := connect_to_remote_server_idle P server env.net hc0
    simp only [hbusy, Bool.false_eq_true, if_false]
    by_cases hret : (make_request_RECV_DATASET P dw env data other).ret = true
    · simp only [hret, Bool.not_true, Bool.false_eq_true, if_false]
      have herr : (make_request_RECV_DATASET P dw env data other).error = true ∨
          (make_request_RECV_DATASET P dw env data other).rest.length < HASH_SIZE + 1 := by
        rcases h with h | h | h | h | h | ⟨status, rest, hr, hl⟩
        · exact absurd h hc
        · rcases make_request_RECV_DATASET_failed P dw env data other (Or.inl h) with h | h
          · rw [hret] at h; exact Bool.noConfusion h
          · exact Or.inl h
        · rcases make_request_RECV_DATASET_failed P dw env data other (Or.inr (Or.inl h))
            with h | h
          · rw [hret] at h; exact Bool.noConfusion h
          · exact Or.inl h
        · rcases make_request_RECV_DATASET_failed P dw env data other
            (Or.inr (Or.inr (Or.inl h))) with h | h
          · rw [hret] at h; exact Bool.noConfusion h
          · exact Or.inl h
        · rcases make_request_RECV_DATASET_failed P dw env data other
            (Or.inr (Or.inr (Or.inr h))) with h | h
          · rw [hret] at h; exact Bool.noConfusion h
          · exact Or.inl h
        · by_cases he : (make_request_RECV_DATASET P dw env data other).error = true
          · exact Or.inl he
          · obtain ⟨_, _, s1, r1, hr1, _, hrest⟩ :=
              make_request_RECV_DATASET_ok P dw env data other hret (by simpa using he)
            rw [hr] at hr1
            injection hr1 with _ hb
            subst hb
            rw [hrest]
            exact Or.inr hl
      rw [if_pos herr]
    · simp only [hret, Bool.not_false, if_true]

/-! ## Lemmas: the construction macros -/

theorem node_sanitycheck_children_append (T : nodetable_t) :
    ∀ (a b : List node_t), node_sanitycheck_children T (a ++ b)
      = (node_sanitycheck_children T a && node_sanitycheck_children T b) := by
  intro a
  induction a with
  | nil => intro b; simp [node_sanitycheck_children]
  | cons x xs ih => intro b; simp [node_sanitycheck_children, ih, Bool.and_assoc]

theorem node_within_max_children_append (T : nodetable_t) :
    ∀ (a b : List node_t), node_within_max_children T (a ++ b)
      = (node_within_max_children T a && node_within_max_children T b) := by
  intro a
  induction a with
  | nil => intro b; simp [node_within_max_children]
  | cons x xs ih => intro b; simp [node_within_max_children, ih, Bool.and_assoc]

mutual
theorem node_within_max_of_sane (T : nodetable_t) :
    ∀ (n : node_t), node_sanitycheck T n = true → node_within_max T n = true
  | .mk t v c, h => by
    simp only [node_sanitycheck, Bool.and_eq_true, decide_eq_true_eq] at h
    simp only [node_within_max, Bool.and_eq_true, decide_eq_true_eq]
    exact ⟨h.1.2, node_within_max_children_of_sane T c h.2⟩
theorem node_within_max_children_of_sane (T : nodetable_t) :
    ∀ (c : List node_t), node_sanitycheck_children T c = true →
      node_within_max_children T c = true
  | [], _ => by simp [node_within_max_children]
  | n :: ns, h => by
    simp only [node_sanitycheck_children, Bool.and_eq_true] at h
    simp only [node_within_max_children, Bool.and_eq_true]
    exact ⟨node_within_max_of_sane T n h.1, node_within_max_children_of_sane T ns h.2⟩
end

theorem node_sanitycheck_eq (T : nodetable_t) (n : node_t) :
    node_sanitycheck T n = (decide (T.min_args n.type ≤ n.num_children)
      && decide (n.num_children ≤ T.max_args n.type) && node_sanitycheck_children T n.child) := by
  cases n with
  | mk t v c => simp [node_sanitycheck, node_t.type, node_t.num_children, node_t.child]

theorem node_within_max_eq (T : nodetable_t) (n : node_t) :
    node_within_max T n = (decide (n.num_children ≤ T.max_args n.type)
      && node_within_max_children T n.child) := by
  cases n with
  | mk t v c => simp [node_within_max, node_t.type, node_t.num_children, node_t.child]

theorem START_CODE_inv (T : nodetable_t) : builder_inv T START_CODE := by
  refine ⟨?_, ?_, ?_⟩
  · simp [START_CODE, chain_inv, node_new, node_t.num_children, node_t.child,
      node_sanitycheck_children]
  · intro p hp; simp [START_CODE] at hp
  · intro _; simp [START_CODE]

theorem NODE_BEGIN_inv (T : nodetable_t)
    (hleaf : ∀ t, T.has_children t = false → T.min_args t = 0)
    (t : nodetype_t) (v : Option constant_t) (b b1 : code_builder)
    (h : NODE_BEGIN T t v b = .ok b1) (hinv : builder_inv T b) : builder_inv T b1 := by
  obtain ⟨hchain, hprog, hroot⟩ := hinv
  unfold NODE_BEGIN at h
  simp only at h
  cases hc : b.chain with
  | nil =>
    rw [hc] at h
    simp only at h
    split at h
    · injection h with h; subst h
      refine ⟨?_, hprog, fun _ => by simp⟩
      simp [chain_inv, node_new_with, node_t.num_children, node_t.child,
        node_sanitycheck_children]
    · injection h with h; subst h
      exact ⟨hchain, hprog, hroot⟩
  | cons cur parents =>
    rw [hc] at h hchain
    obtain ⟨ct, cv, cc⟩ := cur
    simp only [node_t.num_children, node_t.type] at h
    obtain ⟨hmax, hsane, hpar⟩ := hchain
    simp only [node_t.num_children, node_t.type, node_t.child] at hmax hsane
    split at h
    · rename_i hlt
      split at h
      · rename_i hch
        injection h with h; subst h
        refine ⟨?_, hprog, fun _ => by simp⟩
        refine ⟨by simp [node_new_with, node_t.num_children, node_t.child],
          by simp [node_new_with, node_t.child, node_sanitycheck_children], ?_⟩
        intro p hp
        simp only [List.mem_cons] at hp
        rcases hp with hp | hp
        · subst hp
          refine ⟨?_, ?_, ?_⟩
          · simp only [node_t.num_children, node_t.child, node_t.type, List.length_append,
              List.length_singleton] at hlt ⊢
            omega
          · simp [node_t.child]
          · simp only [node_t.child, List.dropLast_concat]
            exact hsane
        · exact hpar p hp
      · rename_i hch
        injection h with h; subst h
        refine ⟨?_, hprog, fun _ => by simp⟩
        refine ⟨?_, ?_, hpar⟩
        · simp only [node_t.num_children, node_t.child, node_t.type, List.length_append,
            List.length_singleton] at hlt ⊢
          omega
        · simp only [node_t.child, node_sanitycheck_children_append, hsane, Bool.true_and,
            node_sanitycheck_children, Bool.and_true, node_new_with, node_sanitycheck,
            List.length_nil, Bool.and_eq_true, decide_eq_true_eq]
          have := hleaf t (by simpa using hch)
          omega
    · exact absurd h (by simp)

theorem END_inv (T : nodetable_t) (b b1 : code_builder)
    (h : Mrscake.END T b = .ok b1) (hinv : builder_inv T b) : builder_inv T b1 := by
  obtain ⟨hchain, hprog, hroot⟩ := hinv
  unfold Mrscake.END at h
  cases hc : b.chain with
  | nil => rw [hc] at h; exact absurd h (by simp)
  | cons cur parents =>
    rw [hc] at h hchain
    simp only at h
    obtain ⟨hmax, hsane, hpar⟩ := hchain
    split at h
    · rename_i hb
      have hcur : node_sanitycheck T cur = true := by
        rw [node_sanitycheck_eq]
        simp [hb.1, hb.2, hsane]
      cases parents with
      | nil =>
        simp only at h
        cases hp : b.program with
        | none =>
          rw [hp] at h
          injection h with h; subst h
          refine ⟨by simp [chain_inv], ?_, fun hn => by simp at hn⟩
          intro p hp1
          simp only [Option.some.injEq] at hp1
          subst hp1
          exact hcur
        | some p =>
          rw [hp] at h
          injection h with h; subst h
          refine ⟨by simp [chain_inv], ?_, fun hn => by simp at hn⟩
          intro p1 hp1
          simp only [Option.some.injEq] at hp1
          subst hp1
          exact hprog _ hp
      | cons parent rest =>
        simp only at h
        injection h with h; subst h
        obtain ⟨pm, pne, ps⟩ := hpar parent (by simp)
        obtain ⟨pt, pv, pc⟩ := parent
        simp only [node_t.num_children, node_t.type, node_t.child] at pm pne ps
        refine ⟨?_, hprog, fun _ => by simp⟩
        refine ⟨?_, ?_, fun p hp => hpar p (by simp [hp])⟩
        · simp only [node_update_last_child, node_t.num_children, node_t.child, node_t.type,
            List.length_append, List.length_dropLast, List.length_singleton] at pm ⊢
          have : 0 < pc.length := List.length_pos.mpr pne
          omega
        · simp only [node_update_last_child, node_t.child, node_sanitycheck_children_append, ps,
            Bool.true_and, node_sanitycheck_children, hcur, Bool.and_true]
    · exact absurd h (by simp)

theorem assert_if_children_inv (T : nodetable_t) (n : Nat) (b b1 : code_builder)
    (h : assert_if_children n b = .ok b1) (hinv : builder_inv T b) : builder_inv T b1 := by
  unfold assert_if_children at h
  split at h
  · exact absurd h (by simp)
  · split at h
    · injection h with h; subst h; exact hinv
    · exact absurd h (by simp)

theorem code_op_run_inv (T : nodetable_t)
    (hleaf : ∀ t, T.has_children t = false → T.min_args t = 0)
    (op : code_op) (b b1 : code_builder) (h : op.run T b = .ok b1) (hinv : builder_inv T b) :
    builder_inv T b1 := by
  cases op <;> simp only [code_op.run] at h
  case THEN => exact assert_if_children_inv T _ b b1 h hinv
  case ELSE => exact assert_if_children_inv T _ b b1 h hinv
  case END => exact END_inv T b b1 h hinv
  all_goals exact NODE_BEGIN_inv T hleaf _ _ b b1 h hinv

theorem code_ops_run_inv (T : nodetable_t)
    (hleaf : ∀ t, T.has_children t = false → T.min_args t = 0) :
    ∀ (ops : List code_op) (b b1 : code_builder), code_ops_run T b ops = .ok b1 →
      builder_inv T b → builder_inv T b1 := by
  intro ops
  induction ops with
  | nil =>
    intro b b1 h hinv
    simp only [code_ops_run] at h
    injection h with h; subst h; exact hinv
  | cons op ops ih =>
    intro b b1 h hinv
    simp only [code_ops_run] at h
    cases hop : op.run T b with
    | error e => rw [hop] at h; exact absurd h (by simp)
    | ok b2 =>
      rw [hop] at h
      exact ih b2 b1 h (code_op_run_inv T hleaf op b b2 hop hinv)

theorem chain_root_within_max (T : nodetable_t) :
    ∀ (parents : List node_t) (n : node_t), node_within_max T n = true →
      (∀ p ∈ parents, p.num_children ≤ T.max_args p.type ∧ p.child ≠ [] ∧
        node_sanitycheck_children T p.child.dropLast = true) →
      node_within_max T (chain_root n parents) = true := by
  intro parents
  induction parents with
  | nil => intro n hn _; simpa [chain_root] using hn
  | cons parent rest ih =>
    intro n hn hpar
    simp only [chain_root]
    refine ih _ ?_ (fun p hp => hpar p (by simp [hp]))
    obtain ⟨pm, pne, ps⟩ := hpar parent (by simp)
    obtain ⟨pt, pv, pc⟩ := parent
    simp only [node_t.num_children, node_t.type, node_t.child] at pm pne ps
    have hlen : 0 < pc.length := List.length_pos.mpr pne
    simp only [node_update_last_child, node_t.type, node_t.value, node_t.child, node_within_max,
      List.length_append, List.length_dropLast, List.length_singleton,
      node_within_max_children_append, node_within_max_children, hn, Bool.and_true,
      node_within_max_children_of_sane T _ ps, Bool.and_eq_true, decide_eq_true_eq, and_true]
    omega

theorem chain_root_sane (T : nodetable_t) :
    ∀ (parents : List node_t) (n : node_t), node_sanitycheck T n = true →
      (∀ p ∈ parents, p.num_children ≤ T.max_args p.type ∧ p.child ≠ [] ∧
        node_sanitycheck_children T p.child.dropLast = true) →
      (∀ p ∈ parents, T.min_args p.type ≤ p.num_children) →
      node_sanitycheck T (chain_root n parents) = true := by
  intro parents
  induction parents with
  | nil => intro n hn _ _; simpa [chain_root] using hn
  | cons parent rest ih =>
    intro n hn hpar hmin
    simp only [chain_root]
    refine ih _ ?_ (fun p hp => hpar p (by simp [hp])) (fun p hp => hmin p (by simp [hp]))
    obtain ⟨pm, pne, ps⟩ := hpar parent (by simp)
    have pmin := hmin parent (by simp)
    obtain ⟨pt, pv, pc⟩ := parent
    simp only [node_t.num_children, node_t.type, node_t.child] at pm pne ps pmin
    have hlen : 0 < pc.length := List.length_pos.mpr pne
    simp only [node_update_last_child, node_t.type, node_t.value, node_t.child, node_sanitycheck,
      List.length_append, List.length_dropLast, List.length_singleton,
      node_sanitycheck_children_append, node_sanitycheck_children, hn, Bool.and_true,
      ps, Bool.and_eq_true, decide_eq_true_eq, and_true]
    omega

/-- What the block leaves in `program`: a tree within the upper bounds, which
`node_sanitycheck` accepts when every node still open has its minimum of children. -/
theorem code_build_of_inv (T : nodetable_t) (ops : List code_op) (b : code_builder)
    (h : code_ops_run T START_CODE ops = .ok b) (hinv : builder_inv T b) :
    ∃ tree, code_build T ops = .ok tree ∧ node_within_max T tree = true ∧
      ((∀ n ∈ b.chain, T.min_args n.type ≤ n.num_children) →
        node_sanitycheck T tree = true) := by
  obtain ⟨hchain, hprog, hroot⟩ := hinv
  unfold code_build
  rw [h]
  cases hp : b.program with
  | some p =>
    exact ⟨p, by simp only [hp], node_within_max_of_sane T p (hprog p hp), fun _ => hprog p hp⟩
  | none =>
    cases hc : b.chain with
    | nil => exact absurd hc (hroot hp)
    | cons n parents =>
      rw [hc] at hchain
      obtain ⟨hmax, hsane, hpar⟩ := hchain
      refine ⟨chain_root n parents, by simp only [hp, hc], ?_, ?_⟩
      · refine chain_root_within_max T parents n ?_ hpar
        rw [node_within_max_eq]
        simp [hmax, node_within_max_children_of_sane T _ hsane]
      · intro hmin
        refine chain_root_sane T parents n ?_ hpar (fun p hp => hmin p (by simp [hp]))
        rw [node_sanitycheck_eq]
        simp [hmax, hsane, hmin n (by simp)]

/-! ## Lemmas: the child counts `node_read` is told -/

mutual
theorem node_preorder_bounds (T : nodetable_t) :
    ∀ (n : node_t), node_sanitycheck T n = true →
      ∀ d ∈ node_preorder n, (T.min_args d.1 : Int) ≤ d.2 ∧ d.2 ≤ (T.max_args d.1 : Int)
  | .mk t v c, h => by
    simp only [node_sanitycheck, Bool.and_eq_true, decide_eq_true_eq] at h
    intro d hd
    simp only [node_preorder, List.mem_cons] at hd
    rcases hd with hd | hd
    · subst hd
      simp only
      omega
    · exact node_preorder_children_bounds T c h.2 d hd
theorem node_preorder_children_bounds (T : nodetable_t) :
    ∀ (c : List node_t), node_sanitycheck_children T c = true →
      ∀ d ∈ node_preorder_children c,
        (T.min_args d.1 : Int) ≤ d.2 ∧ d.2 ≤ (T.max_args d.1 : Int)
  | [], _ => by simp [node_preorder_children]
  | n :: ns, h => by
    simp only [node_sanitycheck_children, Bool.and_eq_true] at h
    intro d hd
    simp only [node_preorder_children, List.mem_append] at hd
    rcases hd with hd | hd
    · exact node_preorder_bounds T n h.1 d hd
    · exact node_preorder_children_bounds T ns h.2 d hd
end

/-- Whatever `distribute_dataset` returns, no server was sent the dataset twice and
every server it was sent to is in the roster; a returned array lists the successes. -/
theorem distribute_dataset_sent (P : net_h) (S N : Nat) (net : dataset_net) (draws : List Nat)
    (res : Option server_array_t) (sent : List (Nat × Option Nat × Nat))
    (h : distribute_dataset P S N net draws = .ok (res, sent)) :
    (sent.map (fun e => e.1)).Nodup ∧ (∀ e ∈ sent, e.1 < N) ∧
      ∀ arr, res = some arr →
        arr.servers = sent_successes P sent ∧ arr.num = arr.servers.length := by
  cases res with
  | some arr =>
    obtain ⟨h1, h2, h3, h4⟩ := distribute_dataset_spec P S N net draws arr sent h
    refine ⟨h3, h4, ?_⟩
    intro arr1 harr
    simp only [Option.some.injEq] at harr
    subst harr
    exact ⟨h1, h2⟩
  | none =>
    unfold distribute_dataset at h
    simp only at h
    rcases seed_phase_spec P N (imin S N) net (N + 1) (distribute_init N) draws
        (distribute_init_inv P N) (by simp [distribute_init, distribute_state.num_seeds])
        (by omega) with hs | hs
    · rw [hs] at h; simp at h
    · obtain ⟨ok, st1, d1, he, hinv, _, _, _⟩ := hs
      rw [he] at h
      cases ok with
      | true =>
        simp only at h
        cases hp : propagate_phase P net (List.range N) st1 d1 with
        | error e => rw [hp] at h; simp at h
        | ok x => rw [hp] at h; simp at h
      | false =>
        simp only [Except.ok.injEq, Prod.mk.injEq, true_and] at h
        subst h
        refine ⟨hinv.base.sent_nodup, ?_, fun arr harr => absurd harr (by simp)⟩
        intro e he
        exact hinv.base.sent_lt e.1 (List.mem_map_of_mem _ he)

theorem sent_successes_sublist (P : net_h) (sent : List (Nat × Option Nat × Nat)) :
    (sent_successes P sent).Sublist (sent.map (fun e => e.1)) := by
  unfold sent_successes
  exact List.Sublist.map _ (List.filter_sublist _)

theorem nodup_lt_length_le (l : List Nat) (N : Nat) (hnd : l.Nodup) (hlt : ∀ s ∈ l, s < N) :
    l.length ≤ N := by
  have hsub : l.Subperm (List.range N) :=
    List.subperm_of_subset hnd (fun s hs => List.mem_range.mpr (hlt s hs))
  simpa using hsub.length_le

/-! ## Lemmas: the accounting of the dispatcher -/

theorem num_done_append (r : List remote_job_t) (j : remote_job_t) (hj : j.done = false) :
    num_done (r ++ [j]) = num_done r := by
  simp [num_done, List.filter_append, List.filter_cons, hj]

theorem num_done_set :
    ∀ (r : List remote_job_t) (i : Nat) (j a : remote_job_t), r.get? i = some j →
      j.done = false → a.done = true → num_done (r.set i a) = num_done r + 1 := by
  intro r
  induction r with
  | nil => intro i j a h; simp at h
  | cons x xs ih =>
    intro i j a h hj ha
    cases i with
    | zero =>
      simp only [List.get?_cons_zero, Option.some.injEq] at h
      subst h
      simp [num_done, List.filter_cons, hj, ha]
    | succ k =>
      simp only [List.get?_cons_succ] at h
      have := ih k j a h hj ha
      simp only [num_done, List.set_cons_succ, List.filter_cons] at this ⊢
      by_cases hx : x.done = true
      · simp only [hx, if_true, List.length_cons]; omega
      · simp only [hx, Bool.false_eq_true, if_false]; exact this

theorem num_done_le (r : List remote_job_t) : num_done r ≤ r.length := by
  unfold num_done
  exact List.length_filter_le _ _

theorem num_done_eq_length (r : List remote_job_t) (h : num_done r = r.length) :
    ∀ j ∈ r, j.done = true := by
  unfold num_done at h
  have := List.filter_eq_self.mp (List.Sublist.eq_of_length (List.filter_sublist r) h)
  intro j hj
  exact this j hj

/-- What `finish_request_TRAIN_MODEL` leaves alone in the remote job. -/
theorem finish_request_fields (P : net_h) (T : nodetable_t) (r : reader_t) (j : remote_job_t)
    (cutoff : Int) (w : List Nat) (j1 : remote_job_t) (r1 : reader_t)
    (h : finish_request_TRAIN_MODEL P T r j cutoff = (w, .ok (j1, r1))) :
    j1.running = j.running ∧ j1.done = j.done ∧ j1.server = j.server ∧
      j1.socket = j.socket ∧ j1.start_time = j.start_time := by
  unfold finish_request_TRAIN_MODEL at h
  split at h
  · exact absurd h (by simp)
  · split at h
    · simp only [Prod.mk.injEq, Except.ok.injEq] at h
      obtain ⟨_, h, _⟩ := h; subst h; simp
    · split at h
      · exact absurd h (by simp)
      · split at h
        · exact absurd h (by simp)
        · split at h
          · simp only [Prod.mk.injEq, Except.ok.injEq] at h
            obtain ⟨_, h, _⟩ := h; subst h; simp
          · split at h
            · exact absurd h (by simp)
            · split at h
              · simp only [Prod.mk.injEq, Except.ok.injEq] at h
                obtain ⟨_, h, _⟩ := h; subst h; simp
              · split at h
                · exact absurd h (by simp)
                · simp only [Prod.mk.injEq, Except.ok.injEq] at h
                  obtain ⟨_, h, _⟩ := h; subst h; simp

/-- What `remote_job_read_result` leaves alone in the remote job, and what it does to
`*best_score`: nothing, or, with `config_limit_network_io` set, it lowers it to the
score of the job. -/
theorem remote_job_read_result_fields (P : net_h) (T : nodetable_t) (limit : Bool)
    (r : reader_t) (j : remote_job_t) (best : Int) (w : List Nat) (j1 : remote_job_t)
    (best1 : Int) (r1 : reader_t)
    (h : remote_job_read_result P T limit r j best = (w, .ok (j1, best1, r1))) :
    j1.running = j.running ∧ j1.done = j.done ∧
      (best1 = best ∨ (limit = true ∧ best1 < best)) := by
  unfold remote_job_read_result at h
  cases hf : finish_request_TRAIN_MODEL P T r j best with
  | mk w0 res =>
    rw [hf] at h
    cases res with
    | error e => exact absurd h (by simp)
    | ok p =>
      obtain ⟨j0, r0⟩ := p
      obtain ⟨h1, h2, _⟩ := finish_request_fields P T r j best w0 j0 r0 hf
      simp only at h
      split at h
      · rename_i hc
        simp only [Prod.mk.injEq, Except.ok.injEq] at h
        obtain ⟨_, hj, hb, _⟩ := h
        subst hj; subst hb
        exact ⟨h1, h2, Or.inr hc⟩
      · simp only [Prod.mk.injEq, Except.ok.injEq] at h
        obtain ⟨_, hj, hb, _⟩ := h
        subst hj; subst hb
        exact ⟨h1, h2, Or.inl rfl⟩

/-- The body of the `for` loop for one `i`: either it only moves `pos`, or `r[i]` was
running and not marked done, it is marked done now, `open_jobs` went down by one and
one report was printed for `i`.  `best_score` stays or, with `config_limit_network_io`
set, goes down. -/
theorem dispatch_poll_cases (P : net_h) (T : nodetable_t) (limit : Bool) (timeout : Int)
    (st st1 : dispatch_t) (i : Nat) (env : poll_env)
    (h : dispatch_poll P T limit timeout st i env = .ok st1) :
    ∃ j, st.r.get? i = some j ∧ st1.pending = st.pending ∧ st1.jobs_num = st.jobs_num ∧
      (st1.best_score = st.best_score ∨ (limit = true ∧ st1.best_score < st.best_score)) ∧
      ((st1.r = st.r ∧ st1.open_jobs = st.open_jobs ∧ st1.printed = st.printed) ∨
       (j.running = true ∧ j.done = false ∧ ∃ j1 rep, j1.done = true ∧ j1.running = true ∧
          dispatch_report.index rep = i ∧ st1.r = st.r.set i j1 ∧
          st1.open_jobs = st.open_jobs - 1 ∧ st1.printed = st.printed ++ [rep])) := by
  unfold dispatch_poll at h
  split at h
  · exact absurd h (by simp)
  · rename_i j hj
    refine ⟨j, hj, ?_⟩
    split at h
    · rename_i hcond
      simp only [Bool.and_eq_true, Bool.not_eq_true_eq_eq_false] at hcond
      have hrun : j.running = true := hcond.1.1
      have hdone : j.done = false := hcond.1.2
      split at h
      · split at h
        · exact absurd h (by simp)
        · rename_i w j1 best r1 hres
          obtain ⟨f1, f2, f3⟩ := remote_job_read_result_fields P T limit _ j _ _ j1 best r1 hres
          split at h
          · injection h with h; subst h
            refine ⟨rfl, rfl, f3, Or.inr ⟨hrun, hdone, { j1 with done := true },
              .finished i j1.cpu_time, rfl, ?_, rfl, rfl, rfl, rfl⟩⟩
            simp [f1, hrun]
          · injection h with h; subst h
            refine ⟨rfl, rfl, f3, Or.inr ⟨hrun, hdone, { j1 with done := true },
              .failed i j1.server j1.response, rfl, ?_, rfl, rfl, rfl, rfl⟩⟩
            simp [f1, hrun]
      · split at h
        · injection h with h; subst h
          refine ⟨rfl, rfl, Or.inl rfl, Or.inr ⟨hrun, hdone, { j with done := true },
            .failed_timeout i j.server, rfl, ?_, rfl, rfl, rfl, rfl⟩⟩
          simp [hrun]
        · injection h with h; subst h
          exact ⟨rfl, rfl, Or.inl rfl, Or.inl ⟨rfl, rfl, rfl⟩⟩
    · injection h with h; subst h
      exact ⟨rfl, rfl, Or.inl rfl, Or.inl ⟨rfl, rfl, rfl⟩⟩

/-- The remote job `remote_job_try_to_start` returns holds the job it was called for, is
running and is not marked done. -/
theorem remote_job_try_to_start_rjob (P : net_h) (N : Nat) (servers : server_array_t)
    (roster : List remote_server_t) (rr : Nat) (job : job_t) (env : start_env)
    (res : start_result) (j : remote_job_t)
    (h : remote_job_try_to_start P N servers roster rr job env = .ok res)
    (hj : res.rjob = some j) : j.job = job ∧ j.running = true ∧ j.done = false := by
  unfold remote_job_try_to_start at h
  split at h
  · exact absurd h (by simp)
  · split at h
    · exact absurd h (by simp)
    · split at h
      · exact absurd h (by simp)
      · simp only at h
        split at h
        · injection h with h; subst h; simp at hj
        · injection h with h; subst h
          simp only [Option.some.injEq] at hj
          subst hj
          exact ⟨rfl, rfl, rfl⟩

/-- The lines that try to start a job: either nothing is started, or the job `job` points
at becomes the next remote job, running and not marked done, and `job` moves on. -/
theorem dispatch_start_cases (P : net_h) (N : Nat) (servers : server_array_t)
    (st st1 : dispatch_t) (env : start_env)
    (h : dispatch_start P N servers st env = .ok st1) :
    st1.jobs_num = st.jobs_num ∧ st1.open_jobs = st.open_jobs ∧ st1.printed = st.printed ∧
      st1.best_score = st.best_score ∧
      ((st1.r = st.r ∧ st1.pending = st.pending) ∨
       (∃ job j, st.pending = job :: st1.pending ∧ st1.r = st.r ++ [j] ∧
          j.job = { job with code := none } ∧ j.running = true ∧ j.done = false)) := by
  unfold dispatch_start at h
  split at h
  · injection h with h; subst h
    exact ⟨rfl, rfl, rfl, rfl, Or.inl ⟨rfl, rfl⟩⟩
  · rename_i job next hp
    split at h
    · exact absurd h (by simp)
    · rename_i res hres
      split at h
      · injection h with h; subst h
        exact ⟨rfl, rfl, rfl, rfl, Or.inl ⟨rfl, rfl⟩⟩
      · rename_i j hj
        injection h with h; subst h
        refine ⟨rfl, rfl, rfl, rfl, Or.inr ⟨job, _, hp, rfl, ?_⟩⟩
        obtain ⟨k1, k2, k3⟩ := remote_job_try_to_start_rjob P N servers st.roster
          st.round_robin job env res j hres hj
        simp [k1, k2, k3]

theorem drop_eq_cons {α : Type} (l : List α) (n : Nat) (a : α) (rest : List α)
    (h : l.drop n = a :: rest) : n < l.length ∧ l.get? n = some a ∧ rest = l.drop (n + 1) := by
  have hn : n < l.length := by
    by_contra hc
    rw [List.drop_eq_nil_of_le (by omega)] at h
    exact absurd h (by simp)
  rw [List.drop_eq_getElem_cons hn] at h
  injection h with h1 h2
  refine ⟨hn, ?_, h2.symm⟩
  rw [List.get?_eq_getElem?, List.getElem?_eq_getElem hn, h1]

theorem dispatch_acct_init (roster : List remote_server_t) (rr : Nat) (jobs : List job_t) :
    dispatch_acct jobs (dispatch_init roster rr jobs) := by
  refine { jobs_num := rfl, started := ?_, pending := ?_, open_jobs := ?_, printed_nodup := ?_,
           printed_done := ?_, running := ?_, fresh := ?_ }
  · simp [dispatch_init]
  · simp [dispatch_init]
  · simp [dispatch_init, num_done]
  · simp [dispatch_init]
  · intro i; simp [dispatch_init]
  · intro j hj; simp [dispatch_init] at hj
  · intro i j hj; simp [dispatch_init] at hj

theorem dispatch_acct_start (P : net_h) (N : Nat) (servers : server_array_t)
    (jobs : List job_t) (st st1 : dispatch_t) (env : start_env)
    (h : dispatch_start P N servers st env = .ok st1) (hinv : dispatch_acct jobs st) :
    dispatch_acct jobs st1 := by
  obtain ⟨h1, h2, h3, _, h4⟩ := dispatch_start_cases P N servers st st1 env h
  obtain ⟨a1, a2, a3, a4, a5, a6, a7, a8⟩ := hinv
  rcases h4 with ⟨hr, hp⟩ | ⟨job, j, hp, hr, hjob, hrun, hdone⟩
  · refine { jobs_num := ?_, started := ?_, pending := ?_, open_jobs := ?_, printed_nodup := ?_,
             printed_done := ?_, running := ?_, fresh := ?_ }
    · rw [h1]; exact a1
    · rw [hr]; exact a2
    · rw [hr, hp]; exact a3
    · rw [hr, h2]; exact a4
    · rw [h3]; exact a5
    · rw [h3, hr]; exact a6
    · rw [hr]; exact a7
    · rw [hr]; exact a8
  · rw [a3] at hp
    obtain ⟨hlt, hget, hrest⟩ := drop_eq_cons jobs st.r.length job st1.pending hp
    refine { jobs_num := ?_, started := ?_, pending := ?_, open_jobs := ?_, printed_nodup := ?_,
             printed_done := ?_, running := ?_, fresh := ?_ }
    · rw [h1]; exact a1
    · rw [hr]; simp only [List.length_append, List.length_singleton]; omega
    · rw [hr, hrest]; simp
    · rw [hr, h2, num_done_append _ _ hdone]; exact a4
    · rw [h3]; exact a5
    · intro i
      rw [h3, hr, a6 i]
      constructor
      · rintro ⟨j0, hj0, hd0⟩
        refine ⟨j0, ?_, hd0⟩
        rw [List.get?_eq_getElem?] at hj0 ⊢
        have hi : i < st.r.length := (List.getElem?_eq_some_iff.mp hj0).1
        rw [List.getElem?_append_left hi]; exact hj0
      · rintro ⟨j0, hj0, hd0⟩
        rw [List.get?_eq_getElem?] at hj0
        by_cases hi : i < st.r.length
        · rw [List.getElem?_append_left hi] at hj0
          exact ⟨j0, by rw [List.get?_eq_getElem?]; exact hj0, hd0⟩
        · have hi2 : i < (st.r ++ [j]).length := (List.getElem?_eq_some_iff.mp hj0).1
          simp only [List.length_append, List.length_singleton] at hi2
          have hi3 : i = st.r.length := by omega
          subst hi3
          simp only [List.getElem?_concat_length, Option.some.injEq] at hj0
          subst hj0
          rw [hdone] at hd0
          exact absurd hd0 (by simp)
    · intro j0 hj0
      rw [hr] at hj0
      simp only [List.mem_append, List.mem_singleton] at hj0
      rcases hj0 with hj0 | hj0
      · exact a7 j0 hj0
      · rw [hj0]; exact hrun
    · intro i j0 hj0 hd0
      rw [hr, List.get?_eq_getElem?] at hj0
      by_cases hi : i < st.r.length
      · rw [List.getElem?_append_left hi] at hj0
        exact a8 i j0 (by rw [List.get?_eq_getElem?]; exact hj0) hd0
      · have hi2 : i < (st.r ++ [j]).length := (List.getElem?_eq_some_iff.mp hj0).1
        simp only [List.length_append, List.length_singleton] at hi2
        have hi3 : i = st.r.length := by omega
        subst hi3
        simp only [List.getElem?_concat_length, Option.some.injEq] at hj0
        subst hj0
        exact ⟨job, hget, by rw [hjob], by rw [hjob]⟩

theorem dispatch_acct_poll (P : net_h) (T : nodetable_t) (limit : Bool) (timeout : Int)
    (jobs : List job_t) (st st1 : dispatch_t) (i : Nat) (env : poll_env)
    (h : dispatch_poll P T limit timeout st i env = .ok st1) (hinv : dispatch_acct jobs st) :
    dispatch_acct jobs st1 := by
  obtain ⟨j, hj, hp, hn, _, hc⟩ := dispatch_poll_cases P T limit timeout st st1 i env h
  obtain ⟨a1, a2, a3, a4, a5, a6, a7, a8⟩ := hinv
  rcases hc with ⟨hr, ho, hpr⟩ | ⟨hrun, hdone, j1, rep, hd1, hr1, hrep, hr, ho, hpr⟩
  · refine { jobs_num := ?_, started := ?_, pending := ?_, open_jobs := ?_, printed_nodup := ?_,
             printed_done := ?_, running := ?_, fresh := ?_ }
    · rw [hn]; exact a1
    · rw [hr]; exact a2
    · rw [hr, hp]; exact a3
    · rw [hr, ho]; exact a4
    · rw [hpr]; exact a5
    · rw [hpr, hr]; exact a6
    · rw [hr]; exact a7
    · rw [hr]; exact a8
  · have hnot : i ∉ st.printed.map dispatch_report.index := by
      intro hmem
      obtain ⟨j0, hj0, hd0⟩ := (a6 i).mp hmem
      rw [hj] at hj0
      simp only [Option.some.injEq] at hj0
      subst hj0
      rw [hdone] at hd0
      exact absurd hd0 (by simp)
    have hilt : i < st.r.length := by
      rw [List.get?_eq_getElem?] at hj
      exact (List.getElem?_eq_some_iff.mp hj).1
    refine { jobs_num := ?_, started := ?_, pending := ?_, open_jobs := ?_, printed_nodup := ?_,
             printed_done := ?_, running := ?_, fresh := ?_ }
    · rw [hn]; exact a1
    · rw [hr, List.length_set]; exact a2
    · rw [hr, hp, List.length_set]; exact a3
    · rw [hr, ho, num_done_set st.r i j j1 hj hdone hd1, a4]
      push_cast
      ring
    · rw [hpr, List.map_append, List.map_singleton, hrep]
      exact List.Nodup.append a5 (List.nodup_singleton i) (by
        intro x hx hx2
        simp only [List.mem_singleton] at hx2
        subst hx2
        exact hnot hx)
    · intro k
      rw [hpr, hr, List.map_append, List.map_singleton, hrep, List.mem_append,
        List.mem_singleton, a6 k]
      simp only [List.get?_eq_getElem?, List.getElem?_set]
      by_cases hk : i = k
      · subst hk
        simp only [if_true, hilt, or_true, true_iff]
        exact ⟨j1, rfl, hd1⟩
      · simp only [hk, if_false]
        constructor
        · rintro (hx | hx)
          · exact hx
          · exact absurd hx.symm hk
        · intro hx
          exact Or.inl hx
    · intro j0 hj0
      rw [hr] at hj0
      rcases List.mem_or_eq_of_mem_set hj0 with hj0 | hj0
      · exact a7 j0 hj0
      · rw [hj0]; exact hr1
    · intro k j0 hj0 hd0
      rw [hr] at hj0
      simp only [List.get?_eq_getElem?, List.getElem?_set] at hj0
      by_cases hk : i = k
      · subst hk
        simp only [if_true, hilt, Option.some.injEq] at hj0
        subst hj0
        rw [hd1] at hd0
        exact absurd hd0 (by simp)
      · simp only [hk, if_false] at hj0
        exact a8 k j0 (by rw [List.get?_eq_getElem?]; exact hj0) hd0

theorem dispatch_acct_reach (P : net_h) (T : nodetable_t) (N : Nat) (limit : Bool)
    (timeout : Int) (servers : server_array_t) (roster : List remote_server_t) (rr : Nat)
    (jobs : List job_t) (st : dispatch_t)
    (h : dispatch_reach P T N limit timeout servers (dispatch_init roster rr jobs) st) :
    dispatch_acct jobs st := by
  induction h with
  | init => exact dispatch_acct_init roster rr jobs
  | start st env st1 _ hs ih => exact dispatch_acct_start P N servers jobs st st1 env hs ih
  | poll st i env st1 _ hp ih => exact dispatch_acct_poll P T limit timeout jobs st st1 i env hp ih

theorem dispatch_polls_reach (P : net_h) (T : nodetable_t) (N : Nat) (limit : Bool)
    (timeout : Int) (servers : server_array_t) (st0 : dispatch_t) (poll : Nat → poll_env) :
    ∀ (l : List Nat) (st st1 : dispatch_t),
      dispatch_reach P T N limit timeout servers st0 st →
      dispatch_polls P T limit timeout poll l st = .ok st1 →
      dispatch_reach P T N limit timeout servers st0 st1 := by
  intro l
  induction l with
  | nil =>
    intro st st1 hr h
    simp only [dispatch_polls] at h
    injection h with h; subst h; exact hr
  | cons i rest ih =>
    intro st st1 hr h
    simp only [dispatch_polls] at h
    cases hp : dispatch_poll P T limit timeout st i (poll i) with
    | error e => rw [hp] at h; exact absurd h (by simp)
    | ok st2 =>
      rw [hp] at h
      exact ih st2 st1 (.poll st i (poll i) st2 hr hp) h

/-- An iteration of the do-while loop is made of these steps. -/
theorem dispatch_pass_reach (P : net_h) (T : nodetable_t) (N : Nat) (limit : Bool)
    (timeout : Int) (servers : server_array_t) (st0 st st1 : dispatch_t) (env : pass_env)
    (hr : dispatch_reach P T N limit timeout servers st0 st)
    (h : dispatch_pass P T N limit timeout servers st env = .ok st1) :
    dispatch_reach P T N limit timeout servers st0 st1 := by
  unfold dispatch_pass at h
  cases hs : dispatch_start P N servers st env.start with
  | error e => rw [hs] at h; exact absurd h (by simp)
  | ok st2 =>
    rw [hs] at h
    exact dispatch_polls_reach P T N limit timeout servers st0 env.poll _ st2 st1
      (.start st env.start st2 hr hs) h

theorem dispatch_iter_reach (P : net_h) (T : nodetable_t) (N : Nat) (limit : Bool)
    (timeout : Int) (servers : server_array_t) (st0 st : dispatch_t)
    (h : dispatch_iter P T N limit timeout servers st0 st) :
    dispatch_reach P T N limit timeout servers st0 st := by
  induction h with
  | first env st1 hp => exact dispatch_pass_reach P T N limit timeout servers st0 st0 st1 env .init hp
  | next st env st1 _ _ hp ih =>
    exact dispatch_pass_reach P T N limit timeout servers st0 st st1 env ih hp

/-- The loop returns at the end of an iteration that leaves `open_jobs` at 0. -/
theorem dispatch_loop_iter (P : net_h) (T : nodetable_t) (N : Nat) (limit : Bool)
    (timeout : Int) (servers : server_array_t) (st0 : dispatch_t) :
    ∀ (world : List pass_env) (st st1 : dispatch_t),
      (st = st0 ∨ (dispatch_iter P T N limit timeout servers st0 st ∧ st.open_jobs ≠ 0)) →
      dispatch_loop P T N limit timeout servers st world = .ok st1 →
      dispatch_iter P T N limit timeout servers st0 st1 ∧ st1.open_jobs = 0 := by
  intro world
  induction world with
  | nil => intro st st1 _ h; exact absurd h (by simp [dispatch_loop])
  | cons env world ih =>
    intro st st1 hst h
    simp only [dispatch_loop] at h
    cases hp : dispatch_pass P T N limit timeout servers st env with
    | error e => rw [hp] at h; exact absurd h (by simp)
    | ok st2 =>
      rw [hp] at h
      simp only at h
      have hit : dispatch_iter P T N limit timeout servers st0 st2 := by
        rcases hst with hst | ⟨hst, hne⟩
        · subst hst; exact .first env st2 hp
        · exact .next st env st2 hst hne hp
      split at h
      · rename_i hz
        injection h with h; subst h
        exact ⟨hit, hz⟩
      · rename_i hz
        exact ih st2 st1 (Or.inr ⟨hit, hz⟩) h

/-- When `open_jobs` is 0, every job of the queue has a remote job, and all of them are
marked done. -/
theorem dispatch_acct_final (jobs : List job_t) (st : dispatch_t) (hinv : dispatch_acct jobs st)
    (hz : st.open_jobs = 0) :
    st.pending = [] ∧ st.r.length = jobs.length ∧ (∀ j ∈ st.r, j.done = true) ∧
      (st.printed.map dispatch_report.index).Perm (List.range jobs.length) := by
  obtain ⟨a1, a2, a3, a4, a5, a6, a7, a8⟩ := hinv
  have hle := num_done_le st.r
  have hlen : st.r.length = jobs.length := by omega
  have hnd : num_done st.r = st.r.length := by omega
  have hall := num_done_eq_length st.r hnd
  refine ⟨by rw [a3, hlen]; simp, hlen, hall, ?_⟩
  rw [List.perm_ext_iff_of_nodup a5 (List.nodup_range _)]
  intro i
  rw [a6 i, List.mem_range, ← hlen]
  constructor
  · rintro ⟨j, hj, _⟩
    rw [List.get?_eq_getElem?] at hj
    exact (List.getElem?_eq_some_iff.mp hj).1
  · intro hi
    refine ⟨st.r[i], ?_, hall _ (List.getElem_mem hi)⟩
    rw [List.get?_eq_getElem?, List.getElem?_eq_getElem hi]

/-! ## Lemmas: `best_score` over a dispatch round -/

theorem dispatch_reach_best_clear (P : net_h) (T : nodetable_t) (N : Nat) (timeout : Int)
    (servers : server_array_t) (st0 st : dispatch_t)
    (h : dispatch_reach P T N false timeout servers st0 st) :
    st.best_score = st0.best_score := by
  induction h with
  | init => rfl
  | start st env st1 _ hs ih =>
    rw [(dispatch_start_cases P N servers st st1 env hs).2.2.2.1, ih]
  | poll st i env st1 _ hp ih =>
    obtain ⟨j, _, _, _, hb, _⟩ := dispatch_poll_cases P T false timeout st st1 i env hp
    rcases hb with hb | ⟨hb, _⟩
    · rw [hb, ih]
    · exact absurd hb (by simp)

theorem dispatch_reach_best_le (P : net_h) (T : nodetable_t) (N : Nat) (limit : Bool)
    (timeout : Int) (servers : server_array_t) (st0 st : dispatch_t)
    (h : dispatch_reach P T N limit timeout servers st0 st) :
    st.best_score ≤ st0.best_score := by
  induction h with
  | init => exact le_refl _
  | start st env st1 _ hs ih =>
    rw [(dispatch_start_cases P N servers st st1 env hs).2.2.2.1]; exact ih
  | poll st i env st1 _ hp ih =>
    obtain ⟨j, _, _, _, hb, _⟩ := dispatch_poll_cases P T limit timeout st st1 i env hp
    rcases hb with hb | ⟨_, hb⟩
    · rw [hb]; exact ih
    · omega

/-- The bytes `remote_job_read_result` writes to a job that answers OK, a cpu-time and
the score `s`, when `*best_score` is `best`. -/
theorem remote_job_read_result_written (P : net_h) (T : nodetable_t) (limit : Bool)
    (rjob : remote_job_t) (ms s best : Int) (hms : is_int32 ms) (hs : is_int32 s)
    (rest : List Nat) :
    (remote_job_read_result P T limit
        (P.RESPONSE_OK :: (write_compressed_int ms ++ write_compressed_int s ++ rest)) rjob
        best).1
      = if s ≥ best then write_uint8 P.REQUEST_DISCARD_CODE
        else write_uint8 P.REQUEST_SEND_CODE := by
  rw [remote_job_read_result_eq]
  exact finish_request_written P T rjob ms s best hms hs rest

/-! ## Lemmas: a delivery of SIGCHLD -/

/-- A delivery of SIGCHLD in which `waitpid` returns the pid of one child and then
nothing more runs the body of the loop of `sigchild` once, for that pid. -/
theorem sigchild_one (s : server_t) (pid : Int) (rest : List Int) (hpid : 0 < pid)
    (hrest : ∀ p, rest.head? = some p → p ≤ 0) :
    sigchild s (pid :: rest) = sigchild_reap s pid := by
  rw [sigchild, if_neg (by omega)]
  cases rest with
  | nil => rfl
  | cons p ps =>
    rw [sigchild, if_pos (hrest p rfl)]

theorem server_run_append (P : net_h) (cfg : Nat) (events : List server_event)
    (e : server_event) :
    server_run P cfg (events ++ [e]) = server_step P cfg (server_run P cfg events) e := by
  simp [server_run, List.foldl_append]

/-! ## Lemmas: the bounds `node_read` enforces -/

mutual
theorem node_preorder_within_max (T : nodetable_t) :
    ∀ (n : node_t), node_within_max T n = true →
      ∀ d ∈ node_preorder n, 0 ≤ d.2 ∧ d.2 ≤ (T.max_args d.1 : Int)
  | .mk t v c, h => by
    simp only [node_within_max, Bool.and_eq_true, decide_eq_true_eq] at h
    intro d hd
    simp only [node_preorder, List.mem_cons] at hd
    rcases hd with hd | hd
    · subst hd
      simp only
      omega
    · exact node_preorder_children_within_max T c h.2 d hd
theorem node_preorder_children_within_max (T : nodetable_t) :
    ∀ (c : List node_t), node_within_max_children T c = true →
      ∀ d ∈ node_preorder_children c, 0 ≤ d.2 ∧ d.2 ≤ (T.max_args d.1 : Int)
  | [], _ => by simp [node_preorder_children]
  | n :: ns, h => by
    simp only [node_within_max_children, Bool.and_eq_true] at h
    intro d hd
    simp only [node_preorder_children, List.mem_append] at hd
    rcases hd with hd | hd
    · exact node_preorder_within_max T n h.1 d hd
    · exact node_preorder_children_within_max T ns h.2 d hd
end

mutual
/-- A tree within the upper bounds whose nodes all have their minimum of children is
what `node_sanitycheck` accepts. -/
theorem node_sanitycheck_of_preorder (T : nodetable_t) :
    ∀ (n : node_t), node_within_max T n = true →
      (∀ d ∈ node_preorder n, (T.min_args d.1 : Int) ≤ d.2) → node_sanitycheck T n = true
  | .mk t v c, h, hmin => by
    simp only [node_within_max, Bool.and_eq_true, decide_eq_true_eq] at h
    have h0 := hmin (t, (c.length : Int)) (by simp [node_preorder])
    simp only [Nat.cast_le] at h0
    simp only [node_sanitycheck, Bool.and_eq_true, decide_eq_true_eq]
    exact ⟨⟨h0, h.1⟩, node_sanitycheck_children_of_preorder T c h.2
      (fun d hd => hmin d (by simp [node_preorder, hd]))⟩
theorem node_sanitycheck_children_of_preorder (T : nodetable_t) :
    ∀ (c : List node_t), node_within_max_children T c = true →
      (∀ d ∈ node_preorder_children c, (T.min_args d.1 : Int) ≤ d.2) →
      node_sanitycheck_children T c = true
  | [], _, _ => by simp [node_sanitycheck_children]
  | n :: ns, h, hmin => by
    simp only [node_within_max_children, Bool.and_eq_true] at h
    simp only [node_sanitycheck_children, Bool.and_eq_true]
    exact ⟨node_sanitycheck_of_preorder T n h.1
        (fun d hd => hmin d (by simp [node_preorder_children, hd])),
      node_sanitycheck_children_of_preorder T ns h.2
        (fun d hd => hmin d (by simp [node_preorder_children, hd]))⟩
end

/-! # The claims -/

/-- C1, counterexample: the tree that is one `constant` node carrying the Bool true is
well-formed, yet `node_write` with flags 0 stops the process on it, so there are no
bytes from which `node_read` could return the tree. -/
theorem C1_counterexample :
    sample_nodes.valid = true ∧
    node_wf sample_nodes (.mk node_constant (some (bool_constant true)) []) = true ∧
    node_write sample_nodes 0 (.mk node_constant (some (bool_constant true)) []) = .error .exit ∧
    ¬ ∃ bs, node_write sample_nodes 0 (.mk node_constant (some (bool_constant true)) []) = .ok bs ∧
        node_read sample_nodes bs = .ok (.mk node_constant (some (bool_constant true)) [], []) :=
  ⟨by decide, by decide, rfl, by
    rintro ⟨bs, h, _⟩
    have h2 : node_write sample_nodes 0 (.mk node_constant (some (bool_constant true)) [])
        = .error .exit := rfl
    rw [h2] at h
    exact Except.noConfusion h⟩

/-- C1 (amended): for every opcode table with distinct opcode bytes and every well-formed
tree whose embedded values have the tags Float, Int, Category, Missing or String (an
`array` node holding at most 255 entries of these tags, no `bool` node with a value),
`node_write` with flags 0 produces bytes from which `node_read` returns a tree equal to
the one written, leaving the bytes that follow unread. -/
theorem C1_node_round_trip (T : nodetable_t) (hT : T.valid = true) (n : node_t)
    (hwf : node_wf T n = true) (hok : node_codec_ok n = true) :
    ∃ bs, node_write T 0 n = .ok bs ∧ ∀ rest, node_read T (bs ++ rest) = .ok (n, rest) :=
  node_read_write_ok T hT 0 (by decide) n hwf hok

/-- C1, witness: the round trip on `sample_tree` with the sample opcode table. -/
theorem C1_node_round_trip_witness :
    sample_nodes.valid = true ∧ node_wf sample_nodes sample_tree = true ∧
    node_codec_ok sample_tree = true ∧
    ∃ bs, node_write sample_nodes 0 sample_tree = .ok bs ∧
      ∀ rest, node_read sample_nodes (bs ++ rest) = .ok (sample_tree, rest) :=
  ⟨by decide, by decide, by decide,
   C1_node_round_trip sample_nodes (by decide) sample_tree (by decide) (by decide)⟩

/-- C2: for a response that starts with OK, a cpu-time and a score s, and for every
cutoff, `finish_request_TRAIN_MODEL` writes `DISCARD_CODE`, records score s without code
and reads nothing after the score when s >= cutoff; otherwise it writes `SEND_CODE` and the
code is what `node_read` returns from the bytes after `DATA_FOLLOWS`.  The cutoff
`remote_job_read_result` passes is the running best at the moment of the fetch. -/
theorem C2_score_gate (P : net_h) (T : nodetable_t) (rjob : remote_job_t) (ms s cutoff : Int)
    (hms : is_int32 ms) (hs : is_int32 s) (rest : List Nat) :
    (s ≥ cutoff →
      finish_request_TRAIN_MODEL P T
          (P.RESPONSE_OK :: (write_compressed_int ms ++ write_compressed_int s ++ rest)) rjob cutoff
        = (write_uint8 P.REQUEST_DISCARD_CODE,
           .ok ({ rjob with response := P.RESPONSE_OK, cpu_time := (ms : Rat) / 1000,
                            job := { rjob.job with score := s, code := none } }, rest))) ∧
    (s < cutoff →
      (finish_request_TRAIN_MODEL P T
          (P.RESPONSE_OK :: (write_compressed_int ms ++ write_compressed_int s ++ rest)) rjob
          cutoff).1 = write_uint8 P.REQUEST_SEND_CODE ∧
      ∀ code_bytes, rest = P.RESPONSE_DATA_FOLLOWS :: code_bytes →
        (finish_request_TRAIN_MODEL P T
          (P.RESPONSE_OK :: (write_compressed_int ms ++ write_compressed_int s ++ rest)) rjob
          cutoff).2 =
          match node_read T code_bytes with
          | .error e => .error e
          | .ok (code, r5) =>
            .ok ({ rjob with response := P.RESPONSE_OK, cpu_time := (ms : Rat) / 1000,
                             job := { rjob.job with score := s, code := some code } }, r5)) ∧
    (∀ (limit : Bool) (r : reader_t) (best_score : Int),
      (remote_job_read_result P T limit r rjob best_score).1
        = (finish_request_TRAIN_MODEL P T r rjob best_score).1) := by
  refine ⟨?_, ?_, ?_⟩
  · intro h
    rw [finish_request_ok_header P T rjob ms s cutoff hms hs rest, if_pos h]
  · intro h
    have hn : ¬ s ≥ cutoff := by omega
    refine ⟨?_, ?_⟩
    · rw [finish_request_written P T rjob ms s cutoff hms hs rest, if_neg hn]
    · intro code_bytes hr
      rw [finish_request_ok_header P T rjob ms s cutoff hms hs rest, if_neg hn, hr]
      simp only [read_uint8, ne_eq, not_true_eq_false, if_false]
      cases node_read T code_bytes with
      | error e => rfl
      | ok x => rfl
  · intro limit r best_score
    rw [remote_job_read_result_eq]

/-- C2, witness: score 100 against the cutoffs 100 and 101. -/
theorem C2_score_gate_witness :
    is_int32 0 ∧ is_int32 100 ∧
    (finish_request_TRAIN_MODEL sample_codes sample_nodes
        (sample_codes.RESPONSE_OK :: (write_compressed_int 0 ++ write_compressed_int 100 ++ []))
        sample_remote_job 100).1 = write_uint8 sample_codes.REQUEST_DISCARD_CODE ∧
    (finish_request_TRAIN_MODEL sample_codes sample_nodes
        (sample_codes.RESPONSE_OK :: (write_compressed_int 0 ++ write_compressed_int 100 ++ []))
        sample_remote_job 101).1 = write_uint8 sample_codes.REQUEST_SEND_CODE :=
  ⟨by decide, by decide,
   congrArg Prod.fst ((C2_score_gate sample_codes sample_nodes sample_remote_job 0 100 100
      (by decide) (by decide) []).1 (by decide)),
   ((C2_score_gate sample_codes sample_nodes sample_remote_job 0 100 101
      (by decide) (by decide) []).2.1 (by decide)).1⟩

/-- C3: with `config_limit_network_io` set, every call of `remote_job_read_result` that
returns leaves `best_score` at the minimum of its old value and the score recorded for the
job, so it never rises, a job recorded with INT32_MAX leaves it unchanged, and over any
sequence of results it ends at the minimum of the start value and the scores recorded. -/
theorem C3_best_score_moves_down (P : net_h) (T : nodetable_t) (r : reader_t)
    (j : remote_job_t) (best_score : Int) (w : List Nat) (j1 : remote_job_t) (best1 : Int)
    (r1 : reader_t)
    (h : remote_job_read_result P T true r j best_score = (w, .ok (j1, best1, r1))) :
    best1 = min best_score j1.job.score ∧ best1 ≤ best_score ∧
    (best_score ≤ INT32_MAX → j1.job.score = INT32_MAX → best1 = best_score) ∧
    (∀ (ready : List (remote_job_t × reader_t)) (done : List (remote_job_t × List Nat))
        (best2 : Int), read_results P T true best_score ready = .ok (done, best2) →
      best2 = (done.map (fun d => d.1.job.score)).foldl min best_score ∧ best2 ≤ best_score) := by
  have h1 := remote_job_read_result_best P T r j best_score w j1 best1 r1 h
  refine ⟨h1, ?_, ?_, ?_⟩
  · rw [h1]; exact min_le_left _ _
  · intro hb hs
    rw [h1, hs]
    exact min_eq_left hb
  · intro ready done best2 hr
    exact read_results_best P T ready best_score done best2 hr

/-- C3, witness: a job that reports score 50 while the running best is 100. -/
theorem C3_best_score_moves_down_witness :
    remote_job_read_result sample_codes sample_nodes true (sample_response 50)
        sample_remote_job 100
      = (write_uint8 sample_codes.REQUEST_SEND_CODE,
         .ok ({ sample_remote_job with
                  response := sample_codes.RESPONSE_OK, cpu_time := ((0 : Int) : Rat) / 1000,
                  job := { score := 50, code := some sample_leaf } }, 50, [])) ∧
    (50 : Int) = min 100 50 :=
  ⟨rfl, (C3_best_score_moves_down sample_codes sample_nodes (sample_response 50)
      sample_remote_job 100 _ _ 50 [] rfl).1⟩

theorem finish_request_score_cases (P : net_h) (T : nodetable_t) (rjob : remote_job_t)
    (ms s cutoff : Int) (hms : is_int32 ms) (hs : is_int32 s) (rest : List Nat)
    (w : List Nat) (j1 : remote_job_t) (r1 : reader_t)
    (h : finish_request_TRAIN_MODEL P T
        (P.RESPONSE_OK :: (write_compressed_int ms ++ write_compressed_int s ++ rest)) rjob cutoff
      = (w, .ok (j1, r1))) :
    j1.job.score = s ∨ j1.job.score = INT32_MAX := by
  rw [finish_request_ok_header P T rjob ms s cutoff hms hs rest] at h
  by_cases hc : s ≥ cutoff
  · rw [if_pos hc] at h
    simp only [Prod.mk.injEq, Except.ok.injEq] at h
    left; rw [← h.2.1]
  · rw [if_neg hc] at h
    cases hr : read_uint8 rest with
    | error e => rw [hr] at h; simp at h
    | ok x =>
      obtain ⟨resp, r4⟩ := x
      rw [hr] at h
      simp only at h
      by_cases hd : resp ≠ P.RESPONSE_DATA_FOLLOWS
      · rw [if_pos hd] at h
        simp only [Prod.mk.injEq, Except.ok.injEq] at h
        right; rw [← h.2.1]
      · rw [if_neg hd] at h
        cases hn : node_read T r4 with
        | error e => rw [hn] at h; simp at h
        | ok y =>
          obtain ⟨code, r5⟩ := y
          rw [hn] at h
          simp only [Prod.mk.injEq, Except.ok.injEq] at h
          left; rw [← h.2.1]

/-- C4, counterexample: in a round started at the initial `best_score`, with
`config_limit_network_io` set, in which two jobs report the scores 100 and 50 in that
order, the first job is sent `SEND_CODE` (and so is the second); `DISCARD_CODE` is a
different byte and is sent to neither. -/
theorem C4_counterexample :
    (read_results sample_codes sample_nodes true distribute_jobs_initial_best_score
        [(sample_remote_job, sample_response 100),
         (sample_remote_job, sample_response 50)]).toOption.map
      (fun res => (res.1.map (fun d => (d.1.job.score, d.2)), res.2))
      = some ([(100, write_uint8 sample_codes.REQUEST_SEND_CODE),
               (50, write_uint8 sample_codes.REQUEST_SEND_CODE)], 50) ∧
    write_uint8 sample_codes.REQUEST_SEND_CODE ≠ write_uint8 sample_codes.REQUEST_DISCARD_CODE :=
  ⟨rfl, by decide⟩

/-- C4 (amended): in a round started at the initial `best_score` (INT_MAX), with
`config_limit_network_io` set, in which two jobs report the scores 100 and 50 in that
order, the first job is sent `SEND_CODE` and the second job is sent `SEND_CODE` as well:
each score is below the running best at the moment of its fetch. -/
theorem C4_both_jobs_send_code (P : net_h) (T : nodetable_t) (j1 j2 : remote_job_t)
    (ms1 ms2 : Int) (hms1 : is_int32 ms1) (hms2 : is_int32 ms2) (rest1 rest2 : List Nat)
    (done : List (remote_job_t × List Nat)) (best : Int)
    (h : read_results P T true distribute_jobs_initial_best_score
        [(j1, P.RESPONSE_OK :: (write_compressed_int ms1 ++ write_compressed_int 100 ++ rest1)),
         (j2, P.RESPONSE_OK :: (write_compressed_int ms2 ++ write_compressed_int 50 ++ rest2))]
      = .ok (done, best)) :
    done.map (fun d => d.2)
      = [write_uint8 P.REQUEST_SEND_CODE, write_uint8 P.REQUEST_SEND_CODE] ∧
    (remote_job_read_result P T true
        (P.RESPONSE_OK :: (write_compressed_int ms1 ++ write_compressed_int 100 ++ rest1)) j1
        distribute_jobs_initial_best_score).1 = write_uint8 P.REQUEST_SEND_CODE := by
  have h100 : is_int32 100 := by decide
  have h50 : is_int32 50 := by decide
  have hw1 : (remote_job_read_result P T true
        (P.RESPONSE_OK :: (write_compressed_int ms1 ++ write_compressed_int 100 ++ rest1)) j1
        distribute_jobs_initial_best_score).1 = write_uint8 P.REQUEST_SEND_CODE := by
    rw [remote_job_read_result_eq]
    simp only
    rw [finish_request_written P T j1 ms1 100 _ hms1 h100 rest1, if_neg (by decide)]
  refine ⟨?_, hw1⟩
  simp only [read_results] at h
  rcases hres1 : remote_job_read_result P T true
      (P.RESPONSE_OK :: (write_compressed_int ms1 ++ write_compressed_int 100 ++ rest1)) j1
      distribute_jobs_initial_best_score with ⟨w1, o1⟩
  rw [hres1] at h hw1
  cases o1 with
  | error e => simp at h
  | ok x =>
    obtain ⟨j1a, best1, r1a⟩ := x
    simp only at h hw1
    have hb1 := remote_job_read_result_best P T _ j1 _ w1 j1a best1 r1a hres1
    have hs1 : j1a.job.score = 100 ∨ j1a.job.score = INT32_MAX := by
      rw [remote_job_read_result_eq] at hres1
      cases hfin : (finish_request_TRAIN_MODEL P T
          (P.RESPONSE_OK :: (write_compressed_int ms1 ++ write_compressed_int 100 ++ rest1)) j1
          distribute_jobs_initial_best_score).2 with
      | error e => rw [hfin] at hres1; simp at hres1
      | ok y =>
        obtain ⟨ja, ra⟩ := y
        rw [hfin] at hres1
        simp only [Prod.mk.injEq, Except.ok.injEq] at hres1
        rw [← hres1.2.1]
        exact finish_request_score_cases P T j1 ms1 100 _ hms1 h100 rest1 _ ja ra
          (Prod.ext rfl hfin)
    have hlt : (50 : Int) < best1 := by
      rw [hb1]
      rcases hs1 with hs | hs <;> rw [hs] <;> decide
    rcases hres2 : remote_job_read_result P T true
        (P.RESPONSE_OK :: (write_compressed_int ms2 ++ write_compressed_int 50 ++ rest2)) j2
        best1 with ⟨w2, o2⟩
    have hw2 : w2 = write_uint8 P.REQUEST_SEND_CODE := by
      have := congrArg Prod.fst hres2
      rw [remote_job_read_result_eq] at this
      simp only at this
      rw [finish_request_written P T j2 ms2 50 best1 hms2 h50 rest2,
        if_neg (by omega)] at this
      exact this.symm
    rw [hres2] at h
    cases o2 with
    | error e => simp at h
    | ok z =>
      obtain ⟨j2a, best2, r2a⟩ := z
      simp only [Except.ok.injEq, Prod.mk.injEq] at h
      rw [← h.1]
      simp [hw1, hw2]

/-- C4, witness: the round of the two sample responses with scores 100 and 50. -/
theorem C4_both_jobs_send_code_witness :
    is_int32 0 ∧
    ∃ done best,
      read_results sample_codes sample_nodes true distribute_jobs_initial_best_score
        [(sample_remote_job, sample_codes.RESPONSE_OK :: (write_compressed_int 0
            ++ write_compressed_int 100
            ++ sample_codes.RESPONSE_DATA_FOLLOWS :: [sample_nodes.opcode node_category, 1])),
         (sample_remote_job, sample_codes.RESPONSE_OK :: (write_compressed_int 0
            ++ write_compressed_int 50
            ++ sample_codes.RESPONSE_DATA_FOLLOWS :: [sample_nodes.opcode node_category, 1]))]
        = .ok (done, best) ∧
      done.map (fun d => d.2)
        = [write_uint8 sample_codes.REQUEST_SEND_CODE, write_uint8 sample_codes.REQUEST_SEND_CODE] :=
  ⟨by decide,
   [({ sample_remote_job with
         response := sample_codes.RESPONSE_OK, cpu_time := ((0 : Int) : Rat) / 1000,
         job := { score := 100, code := some sample_leaf } },
     write_uint8 sample_codes.REQUEST_SEND_CODE),
    ({ sample_remote_job with
         response := sample_codes.RESPONSE_OK, cpu_time := ((0 : Int) : Rat) / 1000,
         job := { score := 50, code := some sample_leaf } },
     write_uint8 sample_codes.REQUEST_SEND_CODE)],
   50, rfl,
   (C4_both_jobs_send_code sample_codes sample_nodes sample_remote_job sample_remote_job 0 0
      (by decide) (by decide)
      (sample_codes.RESPONSE_DATA_FOLLOWS :: [sample_nodes.opcode node_category, 1])
      (sample_codes.RESPONSE_DATA_FOLLOWS :: [sample_nodes.opcode node_category, 1])
      _ 50 rfl).1⟩

/-- C5, the code at the failing input: a roster of 4 servers that all answer OK,
`config_num_seeded_hosts` 2, and the draws 2, 3, 1.  Servers 2 and 3 are seeded; server 0
then fetches from `seeds[1]` and the success is recorded in `status[1]` instead of
`status[0]`, so server 1 is skipped: it is never sent the dataset and the returned array
lists 3 of the 4 servers. -/
theorem C5_dissemination_skips_server :
    distribute_dataset sample_codes 2 4 (fun _ _ _ => sample_codes.RESPONSE_OK) [2, 3, 1]
      = .ok (some { servers := [2, 3, 0], num := 3 },
             [(2, none, sample_codes.RESPONSE_OK), (3, none, sample_codes.RESPONSE_OK),
              (0, some 3, sample_codes.RESPONSE_OK)]) ∧
    (1 : Nat) ∉ [2, 3, 0] :=
  ⟨rfl, by decide⟩

/-- C6: with `hosts_to_seed = imin(config_num_seeded_hosts, N)`, their minimum, the seed loop of
`distribute_dataset` sends the dataset only to servers it has not contacted before, and
when it ends it either has exactly `hosts_to_seed` seeded servers or leaves through the
error exit (for which `distribute_dataset` returns no server array), the latter exactly
when successes + failures = N while successes < `hosts_to_seed`.  The loop can only be
held up by draws that keep hitting contacted servers: every sequence of draws can be
continued so that the loop ends. -/
theorem C6_seed_phase (P : net_h) (config_num_seeded_hosts N : Nat) (net : dataset_net)
    (draws : List Nat) :
    (seed_phase P N (imin config_num_seeded_hosts N) net (N + 1) (distribute_init N) draws
        = .error .stalled ∨
      ∃ ok st draws1,
        seed_phase P N (imin config_num_seeded_hosts N) net (N + 1) (distribute_init N) draws
          = .ok (ok, st, draws1) ∧
        st.contacted.Nodup ∧ (∀ s ∈ st.contacted, s < N) ∧
        st.seeds = sent_successes P st.sent ∧
        st.sent.length = st.num_seeds + st.num_errors ∧
        (ok = true → st.num_seeds = imin config_num_seeded_hosts N) ∧
        (ok = false ↔
          (st.num_seeds + st.num_errors = N ∧ st.num_seeds < imin config_num_seeded_hosts N)) ∧
        (ok = false →
          distribute_dataset P config_num_seeded_hosts N net draws = .ok (none, st.sent))) ∧
    (∃ more ok st draws1,
      seed_phase P N (imin config_num_seeded_hosts N) net (N + 1) (distribute_init N)
        (draws ++ more) = .ok (ok, st, draws1)) := by
  refine ⟨?_, ?_⟩
  · rcases seed_phase_spec P N (imin config_num_seeded_hosts N) net (N + 1) (distribute_init N)
        draws (distribute_init_inv P N) (by simp [distribute_init, distribute_state.num_seeds])
        (by omega) with h | h
    · exact Or.inl h
    · obtain ⟨ok, st, d1, he, hinv, ho, hn, _⟩ := h
      refine Or.inr ⟨ok, st, d1, he, hinv.base.sent_nodup, hinv.base.sent_lt, hinv.base.seeds_eq,
        hinv.sent_len, ho, ⟨hn, ?_⟩, ?_⟩
      · intro hc
        cases ok with
        | false => rfl
        | true =>
          have := ho rfl
          omega
      · intro hf
        subst hf
        unfold distribute_dataset
        simp only [he]
  · exact seed_phase_ends P N (imin config_num_seeded_hosts N) net (N + 1) (distribute_init N)
      draws (distribute_init_inv P N) (by omega)

/-- C7: when `distribute_dataset` returns an array, a server is in it if and only if it
was sent the dataset (in the seed or the propagate phase) and answered OK or DUPL_DATA; a
server that answered with any other code is not in it; the array lists the successful
sends in order and its count is their number. -/
theorem C7_returned_servers (P : net_h) (config_num_seeded_hosts N : Nat) (net : dataset_net)
    (draws : List Nat) (arr : server_array_t) (sent : List (Nat × Option Nat × Nat))
    (h : distribute_dataset P config_num_seeded_hosts N net draws = .ok (some arr, sent)) :
    (∀ s, s ∈ arr.servers ↔
      ∃ src resp, (s, src, resp) ∈ sent ∧ (resp = P.RESPONSE_OK ∨ resp = P.RESPONSE_DUPL_DATA)) ∧
    (∀ s src resp, (s, src, resp) ∈ sent → resp ≠ P.RESPONSE_OK → resp ≠ P.RESPONSE_DUPL_DATA →
      s ∉ arr.servers) ∧
    arr.servers = sent_successes P sent ∧
    arr.num = (sent_successes P sent).length := by
  obtain ⟨hs, hnum, hnd, _⟩ := distribute_dataset_spec P config_num_seeded_hosts N net draws arr
    sent h
  have hmem : ∀ s, s ∈ arr.servers ↔
      ∃ src resp, (s, src, resp) ∈ sent ∧ (resp = P.RESPONSE_OK ∨ resp = P.RESPONSE_DUPL_DATA) := by
    intro s
    rw [hs]
    simp only [sent_successes, List.mem_map, List.mem_filter, resp_is_success, Bool.or_eq_true,
      beq_iff_eq]
    constructor
    · rintro ⟨⟨s1, src, resp⟩, ⟨hm, hr⟩, he⟩
      simp only at he hr
      subst he
      exact ⟨src, resp, hm, hr.symm⟩
    · rintro ⟨src, resp, hm, hr⟩
      exact ⟨(s, src, resp), ⟨hm, hr.symm⟩, rfl⟩
  refine ⟨hmem, ?_, hs, by rw [hnum, hs]⟩
  intro s src resp hm h1 h2 hin
  obtain ⟨src2, resp2, hm2, hr2⟩ := (hmem s).mp hin
  have := List.inj_on_of_nodup_map hnd hm hm2 rfl
  simp only [Prod.mk.injEq, true_and] at this
  rcases hr2 with hr | hr
  · exact h1 (by rw [this.2, hr])
  · exact h2 (by rw [this.2, hr])

/-- C7, witness: a roster of 4 servers of which server 2 answers BUSY. -/
theorem C7_returned_servers_witness :
    distribute_dataset sample_codes 2 4
        (fun _ s _ => if s = 2 then sample_codes.RESPONSE_BUSY else sample_codes.RESPONSE_OK)
        [2, 2, 3, 0, 0]
      = .ok (some { servers := [3, 0, 1], num := 3 },
             [(2, none, sample_codes.RESPONSE_BUSY), (3, none, sample_codes.RESPONSE_OK),
              (0, none, sample_codes.RESPONSE_OK), (1, some 3, sample_codes.RESPONSE_OK)]) ∧
    (2 : Nat) ∉ [3, 0, 1] :=
  ⟨rfl,
   (C7_returned_servers sample_codes 2 4
      (fun _ s _ => if s = 2 then sample_codes.RESPONSE_BUSY else sample_codes.RESPONSE_OK)
      [2, 2, 3, 0, 0] { servers := [3, 0, 1], num := 3 } _ rfl).2.1 2 none
        sample_codes.RESPONSE_BUSY (by decide) (by decide) (by decide)⟩

/-- C8: in every state the worker server reaches by accepting connections and reaping
children, 0 <= num_workers <= config_number_of_remote_workers; a child is forked and
recorded exactly when num_workers < config_number_of_remote_workers (the table is left
alone otherwise); and a delivery of SIGCHLD in which `waitpid` returns the pid of a
recorded worker (and then no further pid) takes the server to a state in which the count
is one less and the recorded workers are those before without the first entry with that
pid. -/
theorem C8_worker_pool_cap (P : net_h) (config_number_of_remote_workers : Nat)
    (events : List server_event) :
    0 ≤ (server_run P config_number_of_remote_workers events).num_workers ∧
    (server_run P config_number_of_remote_workers events).num_workers
      ≤ (config_number_of_remote_workers : Int) ∧
    (∀ pid now,
      ((start_server_accept P config_number_of_remote_workers
          (server_run P config_number_of_remote_workers events) pid now).forked = true ↔
        (server_run P config_number_of_remote_workers events).num_workers
          < (config_number_of_remote_workers : Int)) ∧
      ((server_run P config_number_of_remote_workers events).num_workers
          < (config_number_of_remote_workers : Int) →
        (server_run P config_number_of_remote_workers
          (events ++ [.accept pid now])).num_workers
          = (server_run P config_number_of_remote_workers events).num_workers + 1 ∧
        (server_run P config_number_of_remote_workers (events ++ [.accept pid now])).workers
          = (server_run P config_number_of_remote_workers events).workers
              ++ [{ pid := pid, start_time := now }]) ∧
      (¬ (server_run P config_number_of_remote_workers events).num_workers
          < (config_number_of_remote_workers : Int) →
        server_run P config_number_of_remote_workers (events ++ [.accept pid now])
          = server_run P config_number_of_remote_workers events)) ∧
    (∀ (pid : Int) (waitpid : List Int), 0 < pid → (∀ p, waitpid.head? = some p → p ≤ 0) →
      (∃ w ∈ (server_run P config_number_of_remote_workers events).workers, w.pid = pid) →
      (server_run P config_number_of_remote_workers
          (events ++ [.sigchld (pid :: waitpid)])).num_workers
        = (server_run P config_number_of_remote_workers events).num_workers - 1 ∧
      ∃ i, i < (server_run P config_number_of_remote_workers events).workers.length ∧
        (((server_run P config_number_of_remote_workers events).workers.getD i default).pid = pid) ∧
        (∀ j < i,
          ((server_run P config_number_of_remote_workers events).workers.getD j default).pid
            ≠ pid) ∧
        (server_run P config_number_of_remote_workers
            (events ++ [.sigchld (pid :: waitpid)])).workers.Perm
          ((server_run P config_number_of_remote_workers events).workers.eraseIdx i)) := by
  have hinv := server_inv_run P config_number_of_remote_workers events
    (server_init config_number_of_remote_workers) (by simp [server_init])
  refine ⟨hinv.2.1, hinv.2.2, ?_, ?_⟩
  · intro pid now
    rw [server_run_append]
    exact server_accept_spawn P config_number_of_remote_workers _ pid now hinv
  · intro pid waitpid hpid hrest hw
    rw [server_run_append]
    simp only [server_step]
    rw [sigchild_one _ pid waitpid hpid hrest]
    exact server_reap_spec config_number_of_remote_workers _ pid hinv hw

/-- C8, on an example: two workers allowed; the children 100 and 101 are forked, then
SIGCHLD is delivered for 100 (`waitpid` returns 100, then 0).  The count goes from 2 to
1 and the worker 101 is the one left. -/
theorem C8_worker_pool_cap_witness :
    (server_run sample_codes 2 [.accept 100 0, .accept 101 1]).workers
      = [{ pid := 100, start_time := 0 }, { pid := 101, start_time := 1 }] ∧
    (server_run sample_codes 2 [.accept 100 0, .accept 101 1]).num_workers = 2 ∧
    (server_run sample_codes 2 [.accept 100 0, .accept 101 1, .sigchld [100, 0]]).workers
      = [{ pid := 101, start_time := 1 }] ∧
    (server_run sample_codes 2 ([.accept 100 0, .accept 101 1] ++ [.sigchld [100, 0]])).num_workers
      = (server_run sample_codes 2 [.accept 100 0, .accept 101 1]).num_workers - 1 :=
  ⟨by decide, by decide, by decide,
   ((C8_worker_pool_cap sample_codes 2 [.accept 100 0, .accept 101 1]).2.2.2 100 [0]
      (by decide) (by intro p hp; simp at hp; omega)
      ⟨{ pid := 100, start_time := 0 }, by decide, rfl⟩).1⟩

/-- C9, counterexample: the tree that is one `getlocal` node carrying the Bool false is
well-formed, yet `node_write` with `OMIT_STRINGS` stops the process on it: no bytes are
produced and no tree of the same shape can be read back. -/
theorem C9_counterexample :
    node_wf sample_nodes (.mk node_getlocal (some (bool_constant false)) []) = true ∧
    node_write sample_nodes SERIALIZE_FLAG_OMIT_STRINGS
      (.mk node_getlocal (some (bool_constant false)) []) = .error .exit ∧
    ¬ ∃ bs, node_write sample_nodes SERIALIZE_FLAG_OMIT_STRINGS
          (.mk node_getlocal (some (bool_constant false)) []) = .ok bs ∧
        node_read sample_nodes bs
          = .ok (node_omit_strings (.mk node_getlocal (some (bool_constant false)) []), []) :=
  ⟨by decide, rfl, by
    rintro ⟨bs, h, _⟩
    have h2 : node_write sample_nodes SERIALIZE_FLAG_OMIT_STRINGS
        (.mk node_getlocal (some (bool_constant false)) []) = .error .exit := rfl
    rw [h2] at h
    exact Except.noConfusion h⟩

/-- C9 (amended): for every opcode table with distinct opcode bytes and every well-formed
tree whose embedded values have the tags Float, Int, Category, Missing or String (an
`array` node holding at most 255 entries of these tags, no `bool` node with a value),
`node_write` with `OMIT_STRINGS` emits exactly the bytes that encode the tree with every
string emptied, i.e. every string payload as zero length, and `node_read` of those bytes
returns the tree of the same shape and the same non-string payloads in which every string
is empty. -/
theorem C9_string_omission (T : nodetable_t) (hT : T.valid = true) (n : node_t)
    (hwf : node_wf T n = true) (hok : node_codec_ok n = true) :
    ∃ bs, node_write T SERIALIZE_FLAG_OMIT_STRINGS n = .ok bs ∧
      node_write T SERIALIZE_DEFAULTS (node_omit_strings n) = .ok bs ∧
      ∀ rest, node_read T (bs ++ rest) = .ok (node_omit_strings n, rest) :=
  node_read_write_omit T hT SERIALIZE_FLAG_OMIT_STRINGS (by decide) n hwf hok

/-- C9, witness: string omission on `sample_tree` with the sample opcode table. -/
theorem C9_string_omission_witness :
    sample_nodes.valid = true ∧ node_wf sample_nodes sample_tree = true ∧
    node_codec_ok sample_tree = true ∧
    ∃ bs, node_write sample_nodes SERIALIZE_FLAG_OMIT_STRINGS sample_tree = .ok bs ∧
      node_write sample_nodes SERIALIZE_DEFAULTS (node_omit_strings sample_tree) = .ok bs ∧
      ∀ rest, node_read sample_nodes (bs ++ rest) = .ok (node_omit_strings sample_tree, rest) :=
  ⟨by decide, by decide, by decide,
   C9_string_omission sample_nodes (by decide) sample_tree (by decide) (by decide)⟩

/-- C10, counterexample: the Value Bool true is not carried by the codec.  `constant_write`
stops the process on it instead of emitting a tag and a compressed-uint, and
`constant_read` stops the process on the bytes the claim describes (tag Bool, then the
compressed-uint 1). -/
theorem C10_counterexample :
    constant_wf (bool_constant true) = true ∧
    constant_write SERIALIZE_DEFAULTS (bool_constant true) = .error .exit ∧
    constant_read ((bool_constant true).type :: value_payload (bool_constant true))
      = .error .exit :=
  ⟨by decide, rfl, rfl⟩

/-- C10 (amended): for every Value v of tag Float, Int, Category, Missing or String with a
payload in the range of its C type, `constant_write` (without `OMIT_STRINGS`) emits the tag
byte followed by the tag-dependent payload, and `constant_read` applied to those bytes
returns v and leaves the bytes that follow unread; a Bool value is not carried:
`constant_write` stops the process on it and `constant_read` stops on the Bool tag. -/
theorem C10_value_codec (flags : Nat) (v : constant_t) (hf : omit_strings flags = false)
    (hwf : constant_wf v = true) (hs : v.is_scalar = true) :
    constant_write flags v = .ok (v.type :: value_payload v) ∧
    (∀ rest, constant_read (v.type :: value_payload v ++ rest) = .ok (v, rest)) ∧
    (∀ b, constant_write flags (bool_constant b) = .error .exit) ∧
    (∀ r, constant_read (CONSTANT_BOOL :: r) = .error .exit) :=
  ⟨(constant_read_write_scalar flags v hf hwf hs []).1,
   fun rest => (constant_read_write_scalar flags v hf hwf hs rest).2,
   fun b => constant_write_bool flags b, constant_read_bool⟩

/-- C10, witness: the codec on the string "hi" and flags 0. -/
theorem C10_value_codec_witness :
    omit_strings 0 = false ∧ constant_wf (.string [104, 105]) = true ∧
    (constant_t.string [104, 105]).is_scalar = true ∧
    constant_write 0 (.string [104, 105]) = .ok [CONSTANT_STRING, 2, 104, 105] ∧
    (∀ rest, constant_read ([CONSTANT_STRING, 2, 104, 105] ++ rest)
      = .ok (.string [104, 105], rest)) :=
  ⟨by decide, by decide, by decide,
   (C10_value_codec 0 (.string [104, 105]) (by decide) (by decide) (by decide)).1,
   (C10_value_codec 0 (.string [104, 105]) (by decide) (by decide) (by decide)).2.1⟩

/-- C11: with an opcode table of distinct opcodes and the arities of the spec, the macros
of `test_if` build the tree `root(if(gt(add(var 0, var 1), var 2), category 1,
category 2))`, and `node_write` followed by `node_read` gives the same tree back.  For
every row whose inputs 0, 1, 2 are continuous values a, b, c, the tree read back
evaluates to Category 1 when a + b > c (in the arithmetic of `float`) and to Category 2
otherwise, as the tree built does.  On the row 1.0, 2.0, 4.0, C5 that is Category 2
(1.0 + 2.0 > 4.0 being false) and, after input 2 is set to 2.5, Category 1 (1.0 + 2.0 >
2.5 being true). -/
theorem C11_if_gt_add (F : float_ops) (T : nodetable_t) (hT : T.valid = true)
    (hS : T.as_spec = true) (env : environment_t) (a b c : Nat)
    (h0 : env.row.get? 0 = some (variable_make_continuous a))
    (h1 : env.row.get? 1 = some (variable_make_continuous b))
    (h2 : env.row.get? 2 = some (variable_make_continuous c)) :
    ∃ node node1, code_build T test_if_code = .ok node ∧ node = test_if_tree ∧
      test_serialization T node = .ok node1 ∧
      node_eval F env node1
        = .ok (if F.gt (F.add a b) c = true then category_constant 1 else category_constant 2) ∧
      node_eval F env node1 = node_eval F env node ∧
      (F.gt (F.add 1065353216 1073741824) 1082130432 = false →
        node_eval F test_environment node1 = .ok (category_constant 2)) ∧
      (F.gt (F.add 1065353216 1073741824) 1075838976 = true →
        node_eval F { row := test_environment.row.set 2 (variable_make_continuous 1075838976) }
          node1 = .ok (category_constant 1)) := by
  refine ⟨test_if_tree, test_if_tree, code_build_test_if T hS, rfl,
    test_serialization_ok T hT _ (test_if_tree_wf T hT hS) (by decide),
    node_eval_test_if F env a b c h0 h1 h2, rfl, ?_, ?_⟩
  · intro hf
    rw [node_eval_test_if F test_environment 1065353216 1073741824 1082130432 rfl rfl rfl, hf]
    rfl
  · intro hf
    rw [node_eval_test_if F
      { row := test_environment.row.set 2 (variable_make_continuous 1075838976) }
      1065353216 1073741824 1075838976 rfl rfl rfl, hf]
    rfl

/-- C11, on the row of `test_environment` with the sample opcode table and the sample
float arithmetic: 1.0 + 2.0 > 4.0 is false and 1.0 + 2.0 > 2.5 is true. -/
theorem C11_if_gt_add_witness :
    sample_floats.gt (sample_floats.add 1065353216 1073741824) 1082130432 = false ∧
    sample_floats.gt (sample_floats.add 1065353216 1073741824) 1075838976 = true ∧
    ∃ node node1, code_build sample_nodes test_if_code = .ok node ∧ node = test_if_tree ∧
      test_serialization sample_nodes node = .ok node1 ∧
      node_eval sample_floats test_environment node1
        = .ok (if sample_floats.gt (sample_floats.add 1065353216 1073741824) 1082130432 = true
            then category_constant 1 else category_constant 2) ∧
      node_eval sample_floats test_environment node1
        = node_eval sample_floats test_environment node ∧
      (sample_floats.gt (sample_floats.add 1065353216 1073741824) 1082130432 = false →
        node_eval sample_floats test_environment node1 = .ok (category_constant 2)) ∧
      (sample_floats.gt (sample_floats.add 1065353216 1073741824) 1075838976 = true →
        node_eval sample_floats
          { row := test_environment.row.set 2 (variable_make_continuous 1075838976) }
          node1 = .ok (category_constant 1)) :=
  ⟨by decide, by decide,
    C11_if_gt_add sample_floats sample_nodes (by decide) (by decide) test_environment
      1065353216 1073741824 1082130432 rfl rfl rfl⟩

/-- C12: with an opcode table of distinct opcodes and the arities of the spec, the macros
of `test_array` build the tree `root(if(in(var 3, array [C1, C2, C3]), category 1,
category 2))`, the array being `array_create(3, 1, 2, 3)`, and `node_write` followed by
`node_read` gives the same tree back.  For every row whose input 3 is categorical with
category k, the tree read back evaluates to Category 1 when k is 1, 2 or 3 and to
Category 2 otherwise.  On the row 1.0, 2.0, 4.0, C5 that is Category 2 and, after input 3
is set to C3, Category 1. -/
theorem C12_in_array (F : float_ops) (T : nodetable_t) (hT : T.valid = true)
    (hS : T.as_spec = true) (env : environment_t) (k : Int)
    (h3 : env.row.get? 3 = some (variable_make_categorical k)) :
    ∃ node node1, code_build T test_array_code = .ok node ∧ node = test_array_tree ∧
      test_serialization T node = .ok node1 ∧
      node_eval F env node1
        = .ok (if k = 1 ∨ k = 2 ∨ k = 3 then category_constant 1 else category_constant 2) ∧
      node_eval F env node1 = node_eval F env node ∧
      node_eval F test_environment node1 = .ok (category_constant 2) ∧
      node_eval F { row := test_environment.row.set 3 (variable_make_categorical 3) } node1
        = .ok (category_constant 1) := by
  refine ⟨test_array_tree, test_array_tree, code_build_test_array T hS, rfl,
    test_serialization_ok T hT _ (test_array_tree_wf T hT hS) (by decide),
    node_eval_test_array F env k h3, rfl, ?_, ?_⟩
  · rw [node_eval_test_array F test_environment 5 rfl]
    rfl
  · rw [node_eval_test_array F
      { row := test_environment.row.set 3 (variable_make_categorical 3) } 3 rfl]
    rfl

/-- C12, on a row whose input 3 is C2, with the sample opcode table. -/
theorem C12_in_array_witness :
    ∃ node node1, code_build sample_nodes test_array_code = .ok node ∧ node = test_array_tree ∧
      test_serialization sample_nodes node = .ok node1 ∧
      node_eval sample_floats { row := test_environment.row.set 3 (variable_make_categorical 2) }
          node1
        = .ok (if (2 : Int) = 1 ∨ (2 : Int) = 2 ∨ (2 : Int) = 3 then category_constant 1
            else category_constant 2) ∧
      node_eval sample_floats { row := test_environment.row.set 3 (variable_make_categorical 2) }
          node1
        = node_eval sample_floats
            { row := test_environment.row.set 3 (variable_make_categorical 2) } node ∧
      node_eval sample_floats test_environment node1 = .ok (category_constant 2) ∧
      node_eval sample_floats
          { row := test_environment.row.set 3 (variable_make_categorical 3) } node1
        = .ok (category_constant 1) :=
  C12_in_array sample_floats sample_nodes (by decide) (by decide)
    { row := test_environment.row.set 3 (variable_make_categorical 2) } 2 rfl

/-- C13: whatever the first response byte `b` is, as long as it is not `RESPONSE_OK`
(`DATASET_UNKNOWN`, `FACTORY_UNKNOWN` or anything else), `finish_request_TRAIN_MODEL`
records `b` as the response of the remote job, sets `cpu_time` to 0, the score of the job
to `INT32_MAX` and its code to none; it reads no byte after `b` (the reader is left at
`rest`) and writes nothing, so neither `SEND_CODE` nor `DISCARD_CODE`. -/
theorem C13_failure_response (P : net_h) (T : nodetable_t) (b : Nat) (rest : reader_t)
    (rjob : remote_job_t) (cutoff : Int) (hb : b ≠ P.RESPONSE_OK) :
    ∃ rjob1, finish_request_TRAIN_MODEL P T (b :: rest) rjob cutoff = ([], .ok (rjob1, rest)) ∧
      rjob1.response = b ∧ rjob1.cpu_time = 0 ∧ rjob1.job.score = INT32_MAX ∧
      rjob1.job.code = none ∧
      rjob1.server = rjob.server ∧ rjob1.socket = rjob.socket ∧
      rjob1.start_time = rjob.start_time ∧ rjob1.running = rjob.running ∧
      rjob1.done = rjob.done := by
  refine ⟨{ rjob with response := b, cpu_time := 0,
                      job := { rjob.job with score := INT32_MAX, code := none } }, ?_, rfl, rfl,
    rfl, rfl, rfl, rfl, rfl, rfl, rfl⟩
  simp only [finish_request_TRAIN_MODEL, read_uint8]
  rw [if_pos hb]

/-- C13, on an example: the answer `DATASET_UNKNOWN` followed by bytes that are never
read. -/
theorem C13_failure_response_witness :
    sample_codes.RESPONSE_DATASET_UNKNOWN ≠ sample_codes.RESPONSE_OK ∧
    ∃ rjob1, finish_request_TRAIN_MODEL sample_codes sample_nodes
        (sample_codes.RESPONSE_DATASET_UNKNOWN :: [1, 2, 3]) sample_remote_job 50
          = ([], .ok (rjob1, [1, 2, 3])) ∧
      rjob1.response = sample_codes.RESPONSE_DATASET_UNKNOWN ∧ rjob1.cpu_time = 0 ∧
      rjob1.job.score = INT32_MAX ∧ rjob1.job.code = none ∧
      rjob1.server = sample_remote_job.server ∧ rjob1.socket = sample_remote_job.socket ∧
      rjob1.start_time = sample_remote_job.start_time ∧
      rjob1.running = sample_remote_job.running ∧ rjob1.done = sample_remote_job.done :=
  ⟨by decide, C13_failure_response sample_codes sample_nodes _ [1, 2, 3] sample_remote_job 50
    (by decide)⟩

/-- C14: the worker answered `RESPONSE_OK` with a cpu-time and a score below the cutoff, so
the client writes `SEND_CODE`; the next byte `b` is not `RESPONSE_DATA_FOLLOWS`.  Then
`finish_request_TRAIN_MODEL` records the response `b ||| 0x80`, sets the score of the job
to `INT32_MAX` and its code to none, and reads nothing after `b` (no node tree).  With
the code `RESPONSE_OK` below 0x80 the recorded response differs from `RESPONSE_OK`, and
the loop of `distribute_jobs_to_servers`, finding this job readable, prints it as failed
and marks it done. -/
theorem C14_invalid_code_response (P : net_h) (T : nodetable_t) (limit : Bool) (timeout : Int)
    (st : dispatch_t) (i : Nat) (env : poll_env) (rjob : remote_job_t) (ms score : Int)
    (b : Nat) (rest : List Nat)
    (hOK : P.RESPONSE_OK < 128) (hms : is_int32 ms) (hs : is_int32 score)
    (hlt : score < st.best_score) (hb : b ≠ P.RESPONSE_DATA_FOLLOWS)
    (hi : st.r.get? i = some rjob) (hrun : rjob.running = true) (hdone : rjob.done = false)
    (hcode : rjob.job.code = none) (hready : env.ready = true)
    (hreader : env.reader
      = P.RESPONSE_OK :: (write_compressed_int ms ++ write_compressed_int score ++ b :: rest)) :
    ∃ rjob1 st1,
      finish_request_TRAIN_MODEL P T env.reader rjob st.best_score
        = (write_uint8 P.REQUEST_SEND_CODE, .ok (rjob1, rest)) ∧
      rjob1.response = b ||| 128 ∧ rjob1.job.score = INT32_MAX ∧ rjob1.job.code = none ∧
      rjob1.response ≠ P.RESPONSE_OK ∧
      dispatch_poll P T limit timeout st i env = .ok st1 ∧
      st1.printed = st.printed ++ [.failed i rjob.server (b ||| 128)] ∧
      st1.r = st.r.set i { rjob1 with done := true } ∧
      st1.open_jobs = st.open_jobs - 1 := by
  have hne : b ||| 128 ≠ P.RESPONSE_OK := or_128_ne b _ hOK
  have hfin := finish_request_mismatch P T rjob ms score st.best_score hms hs hlt b hb rest
  rw [← hreader] at hfin
  obtain ⟨st1, h1, h2, h3, h4⟩ := dispatch_poll_failed P T limit timeout st i env rjob _ _ rest
    hi hrun hdone hcode hready hfin hne
  exact ⟨_, st1, hfin, rfl, rfl, rfl, hne, h1, h2, h3, h4⟩

/-- C14, on an example: score 5 against the initial cutoff, then `READ_ERROR` where
`DATA_FOLLOWS` is due; the response recorded is 0x99. -/
theorem C14_invalid_code_response_witness :
    ∃ rjob1 st1,
      finish_request_TRAIN_MODEL sample_codes sample_nodes
          (sample_codes.RESPONSE_OK :: (write_compressed_int 7 ++ write_compressed_int 5
            ++ sample_codes.RESPONSE_READ_ERROR :: [1, 2])) sample_remote_job
          sample_dispatch.best_score
        = (write_uint8 sample_codes.REQUEST_SEND_CODE, .ok (rjob1, [1, 2])) ∧
      rjob1.response = sample_codes.RESPONSE_READ_ERROR ||| 128 ∧
      rjob1.job.score = INT32_MAX ∧ rjob1.job.code = none ∧
      rjob1.response ≠ sample_codes.RESPONSE_OK ∧
      dispatch_poll sample_codes sample_nodes true 60 sample_dispatch 0
          { ready := true, time := 10,
            reader := sample_codes.RESPONSE_OK :: (write_compressed_int 7
              ++ write_compressed_int 5 ++ sample_codes.RESPONSE_READ_ERROR :: [1, 2]) }
        = .ok st1 ∧
      st1.printed = sample_dispatch.printed
        ++ [.failed 0 sample_remote_job.server (sample_codes.RESPONSE_READ_ERROR ||| 128)] ∧
      st1.r = sample_dispatch.r.set 0 { rjob1 with done := true } ∧
      st1.open_jobs = sample_dispatch.open_jobs - 1 :=
  C14_invalid_code_response sample_codes sample_nodes true 60 sample_dispatch 0
    { ready := true, time := 10,
      reader := sample_codes.RESPONSE_OK :: (write_compressed_int 7
        ++ write_compressed_int 5 ++ sample_codes.RESPONSE_READ_ERROR :: [1, 2]) }
    sample_remote_job 7 5 sample_codes.RESPONSE_READ_ERROR [1, 2]
    (by decide) (by decide) (by decide) (by decide) (by decide) rfl rfl rfl rfl rfl rfl

/-- C15: the loop of `distribute_jobs_to_servers` looks at a remote job `r[i]` that is
running, not done and not readable.  The job is cancelled exactly when all jobs have
been sent out (`num == jobs->num`) and its age exceeds `config_remote_worker_timeout`;
otherwise nothing but `pos` changes.  When it is cancelled its socket is closed, it is
marked done and `open_jobs` is decremented, and the job has no code; but its score is
left as it was: the branch never stores `INT32_MAX`. -/
theorem C15_timeout_keeps_score (P : net_h) (T : nodetable_t) (limit : Bool) (timeout : Int)
    (st : dispatch_t) (i : Nat) (env : poll_env) (j : remote_job_t)
    (hi : st.r.get? i = some j) (hrun : j.running = true) (hdone : j.done = false)
    (hcode : j.job.code = none) (hready : env.ready = false) :
    ∃ st1, dispatch_poll P T limit timeout st i env = .ok st1 ∧
      (st.num = st.jobs_num ∧ env.time - j.start_time > timeout →
        ∃ j1, st1.r = st.r.set i j1 ∧ j1.done = true ∧ j1.job.code = none ∧
          j1.job.score = j.job.score ∧
          st1.closed = st.closed ++ [j.socket] ∧ st1.open_jobs = st.open_jobs - 1 ∧
          st1.printed = st.printed ++ [.failed_timeout i j.server]) ∧
      (¬ (st.num = st.jobs_num ∧ env.time - j.start_time > timeout) →
        st1.r = st.r ∧ st1.closed = st.closed ∧ st1.open_jobs = st.open_jobs ∧
          st1.printed = st.printed) := by
  have hcond : (j.running && !j.done && j.job.code.isNone) = true := by
    rw [hrun, hdone, hcode]; rfl
  unfold dispatch_poll
  simp only [hi, hcond, hready, if_true]
  by_cases hc : st.num = st.jobs_num ∧ env.time - j.start_time > timeout
  · rw [if_neg (by simp), if_pos hc]
    exact ⟨_, rfl, fun _ => ⟨{ j with done := true }, rfl, rfl, hcode, rfl, rfl, rfl, rfl⟩,
      fun h => absurd hc h⟩
  · rw [if_neg (by simp), if_neg hc]
    exact ⟨_, rfl, fun h => absurd h hc, fun _ => ⟨rfl, rfl, rfl, rfl⟩⟩

/-- C15, on an example: one job whose score field holds 0 is started at time 0 and never
answers; at time 61, with a timeout of 60, it is cancelled and marked done, and its score
is still 0.  The same as a complete run of `distribute_jobs_to_servers`. -/
theorem C15_timeout_keeps_score_witness :
    (∃ st1, dispatch_poll sample_codes sample_nodes true 60 sample_dispatch 0
        { ready := false, time := 61, reader := [] } = .ok st1 ∧
      (sample_dispatch.num = sample_dispatch.jobs_num ∧
          (61 : Int) - sample_remote_job.start_time > 60 →
        ∃ j1, st1.r = sample_dispatch.r.set 0 j1 ∧ j1.done = true ∧ j1.job.code = none ∧
          j1.job.score = sample_remote_job.job.score ∧
          st1.closed = sample_dispatch.closed ++ [sample_remote_job.socket] ∧
          st1.open_jobs = sample_dispatch.open_jobs - 1 ∧
          st1.printed = sample_dispatch.printed
            ++ [.failed_timeout 0 sample_remote_job.server]) ∧
      (¬ (sample_dispatch.num = sample_dispatch.jobs_num ∧
          (61 : Int) - sample_remote_job.start_time > 60) →
        st1.r = sample_dispatch.r ∧ st1.closed = sample_dispatch.closed ∧
          st1.open_jobs = sample_dispatch.open_jobs ∧
          st1.printed = sample_dispatch.printed)) ∧
    (sample_dispatch.num = sample_dispatch.jobs_num ∧
      (61 : Int) - sample_remote_job.start_time > 60) ∧
    sample_remote_job.job.score = 0 ∧ (0 : Int) ≠ INT32_MAX ∧
    (distribute_jobs_to_servers sample_codes sample_nodes 1 true 60 [default] 0
        [{ score := 0, code := none }] { servers := [0], num := 1 }
        [sample_quiet_pass 0, sample_quiet_pass 61]).map
      (fun st => (st.r.map (fun j => (j.done, j.job.score, j.job.code.isNone)), st.printed,
        st.open_jobs))
      = .ok ([(true, 0, true)], [.failed_timeout 0 0], 0) :=
  ⟨C15_timeout_keeps_score sample_codes sample_nodes true 60 sample_dispatch 0
      { ready := false, time := 61, reader := [] } sample_remote_job rfl rfl rfl rfl rfl,
    by decide, rfl, by decide, rfl⟩

/-- C16, counterexample: a RECV_DATASET request with a hash that is not in the (empty)
cache and an empty host, so the dataset is to follow inline; the stream ends there and
the read of the dataset fails.  No dataset was obtained, yet the server writes only
`GO_AHEAD`: neither the hash nor `DATA_ERROR` follows. -/
theorem C16_counterexample :
    datacache_find [] (List.replicate HASH_SIZE 7) = none ∧
    process_request_RECV_DATASET sample_codes sample_dataset_read (fun _ _ => none) []
        (List.replicate HASH_SIZE 7 ++ write_string [] ++ write_compressed_uint 0 ++ [])
      = ([sample_codes.RESPONSE_GO_AHEAD], .ok []) ∧
    [sample_codes.RESPONSE_GO_AHEAD]
      ≠ write_uint8 sample_codes.RESPONSE_GO_AHEAD ++ List.replicate HASH_SIZE 7
          ++ write_uint8 sample_codes.RESPONSE_DATA_ERROR :=
  ⟨rfl, rfl, by decide⟩

/-- C16 (amended): a RECV_DATASET request announces a hash `h` that is not in the cache,
then a host, a port and the bytes `body`.  The server writes `GO_AHEAD` and obtains a
dataset (inline when the host is empty, else from the peer).  If it obtained a dataset
whose hash equals `h` it stores it and writes `h` and `OK`; if it obtained a dataset with
another hash, or none (a NULL from `dataset_read`, or a failed fetch from the peer), it
writes `h` and `DATA_ERROR` and leaves the cache as it was.  If the inline read ends with
the error flag of the reader set, it writes nothing after `GO_AHEAD` and leaves the cache
as it was. -/
theorem C16_recv_dataset (P : net_h) (dataset_read : reader_t → dataset_read_t)
    (peer_net : List Nat → Nat → Option reader_t) (datacache : datacache_t)
    (h host : List Nat) (port : Nat) (body : reader_t)
    (hh : h.length = HASH_SIZE) (hfind : datacache_find datacache h = none)
    (hhost : string_wf host = true) (hport : port < 4294967296) :
    (∀ d, recv_dataset_obtained P dataset_read peer_net h host port body = some (some d) →
      d.hash = h →
      process_request_RECV_DATASET P dataset_read peer_net datacache
          (h ++ write_string host ++ write_compressed_uint port ++ body)
        = (write_uint8 P.RESPONSE_GO_AHEAD ++ h ++ write_uint8 P.RESPONSE_OK,
           .ok (datacache_store datacache d))) ∧
    (∀ d, recv_dataset_obtained P dataset_read peer_net h host port body = some (some d) →
      d.hash ≠ h →
      process_request_RECV_DATASET P dataset_read peer_net datacache
          (h ++ write_string host ++ write_compressed_uint port ++ body)
        = (write_uint8 P.RESPONSE_GO_AHEAD ++ h ++ write_uint8 P.RESPONSE_DATA_ERROR,
           .ok datacache)) ∧
    (recv_dataset_obtained P dataset_read peer_net h host port body = some none →
      process_request_RECV_DATASET P dataset_read peer_net datacache
          (h ++ write_string host ++ write_compressed_uint port ++ body)
        = (write_uint8 P.RESPONSE_GO_AHEAD ++ h ++ write_uint8 P.RESPONSE_DATA_ERROR,
           .ok datacache)) ∧
    (recv_dataset_obtained P dataset_read peer_net h host port body = none →
      process_request_RECV_DATASET P dataset_read peer_net datacache
          (h ++ write_string host ++ write_compressed_uint port ++ body)
        = (write_uint8 P.RESPONSE_GO_AHEAD, .ok datacache)) ∧
    (recv_dataset_obtained P dataset_read peer_net h host port body = none ↔
      host = [] ∧ (dataset_read body).error = true) := by
  have heq := process_request_RECV_DATASET_eq P dataset_read peer_net datacache h host port
    body hh hfind hhost hport
  refine ⟨?_, ?_, ?_, ?_, ?_⟩
  · intro d hd hdh
    rw [heq, hd]
    simp only [recv_dataset_check, hdh, ne_eq, not_true_eq_false, if_false]
  · intro d hd hdh
    rw [heq, hd]
    simp only [recv_dataset_check, ne_eq, hdh, not_false_eq_true, if_true]
  · intro hd
    rw [heq, hd]
    rfl
  · intro hd
    rw [heq, hd]
  · unfold recv_dataset_obtained
    by_cases hempty : host = []
    · by_cases herr : (dataset_read body).error = true
      · simp [hempty, herr]
      · simp [hempty, herr]
    · simp [hempty]

/-- C16 (amended), on an example: the hash of twenty 7s, an inline dataset with that hash
and the content 1, 2; it is stored and the reply is `GO_AHEAD`, the hash, `OK`. -/
theorem C16_recv_dataset_witness :
    (List.replicate HASH_SIZE 7).length = HASH_SIZE ∧
    datacache_find [] (List.replicate HASH_SIZE 7) = none ∧
    recv_dataset_obtained sample_codes sample_dataset_read (fun _ _ => none)
        (List.replicate HASH_SIZE 7) [] 0 [7, 1, 2]
      = some (some { hash := List.replicate HASH_SIZE 7, content := [1, 2] }) ∧
    process_request_RECV_DATASET sample_codes sample_dataset_read (fun _ _ => none) []
        (List.replicate HASH_SIZE 7 ++ write_string [] ++ write_compressed_uint 0 ++ [7, 1, 2])
      = (write_uint8 sample_codes.RESPONSE_GO_AHEAD ++ List.replicate HASH_SIZE 7
           ++ write_uint8 sample_codes.RESPONSE_OK,
         .ok (datacache_store [] { hash := List.replicate HASH_SIZE 7, content := [1, 2] })) :=
  ⟨rfl, rfl, rfl,
    (C16_recv_dataset sample_codes sample_dataset_read (fun _ _ => none) []
      (List.replicate HASH_SIZE 7) [] 0 [7, 1, 2] rfl rfl (by decide) (by decide)).1
      { hash := List.replicate HASH_SIZE 7, content := [1, 2] } rfl rfl⟩

/-- C17, counterexample: the model `sample_bool_model` has well-formed fields and the
well-formed code `root(constant true)`, yet `model_save` stops the process on it
(`constant_write` has no case for a Bool), so there is no file from which `model_load`
could return the model. -/
theorem C17_counterexample :
    sample_nodes.valid = true ∧ model_wf sample_nodes sample_bool_model = true ∧
    model_save sample_nodes sample_bool_model = .error .exit ∧
    ¬ ∃ bs, model_save sample_nodes sample_bool_model = .ok bs ∧
        model_load sample_nodes bs = .ok sample_bool_model :=
  ⟨by decide, by decide, rfl, by
    rintro ⟨bs, h, _⟩
    have h2 : model_save sample_nodes sample_bool_model = .error .exit := rfl
    rw [h2] at h
    exact Except.noConfusion h⟩

/-- C17 (amended): for an opcode table with distinct opcode bytes and a model with
well-formed fields whose code carries only values of the tags Float, Int, Category,
Missing and String (an `array` node at most 255 of them, no `bool` node with a value),
`model_save` writes, in this order, the name as a string, `num_inputs` as a
compressed-uint, the flags byte (bit 0 set iff column names are present, bit 1 iff
column types are present), the column names as strings if present, the column types as
compressed-uints if present, and the code as `node_write` with flags 0 writes it; and
`model_load` on these bytes returns the model: same name, `num_inputs`, column names,
column types and code. -/
theorem C17_model_round_trip (T : nodetable_t) (hT : T.valid = true) (m : model_t)
    (hwf : model_wf T m = true) (hok : node_codec_ok m.code = true) :
    ∃ code, node_write T SERIALIZE_DEFAULTS m.code = .ok code ∧
      model_save T m = .ok (write_string m.name ++ write_compressed_uint (to_uint32 m.num_inputs)
        ++ [model_save_flags m] ++ model_names_bytes m ++ model_types_bytes m ++ code) ∧
      (model_save_flags m).testBit 0 = m.column_names.isSome ∧
      (model_save_flags m).testBit 1 = m.column_types.isSome ∧
      model_save_flags m < 4 ∧
      model_load T (write_string m.name ++ write_compressed_uint (to_uint32 m.num_inputs)
        ++ [model_save_flags m] ++ model_names_bytes m ++ model_types_bytes m ++ code) = .ok m := by
  obtain ⟨code, h1, h2, h3⟩ := model_save_load T hT m hwf hok
  refine ⟨code, h1, h2, ?_, ?_, ?_, h3⟩
  · unfold model_save_flags
    cases m.column_names.isSome <;> cases m.column_types.isSome <;> decide
  · unfold model_save_flags
    cases m.column_names.isSome <;> cases m.column_types.isSome <;> decide
  · unfold model_save_flags
    cases m.column_names.isSome <;> cases m.column_types.isSome <;> decide

/-- C17, witness: the round trip of `sample_model` with the sample opcode table. -/
theorem C17_model_round_trip_witness :
    sample_nodes.valid = true ∧ model_wf sample_nodes sample_model = true ∧
    node_codec_ok sample_model.code = true ∧
    ∃ code, node_write sample_nodes SERIALIZE_DEFAULTS sample_model.code = .ok code ∧
      model_save sample_nodes sample_model
        = .ok (write_string sample_model.name
          ++ write_compressed_uint (to_uint32 sample_model.num_inputs)
          ++ [model_save_flags sample_model] ++ model_names_bytes sample_model
          ++ model_types_bytes sample_model ++ code) ∧
      (model_save_flags sample_model).testBit 0 = sample_model.column_names.isSome ∧
      (model_save_flags sample_model).testBit 1 = sample_model.column_types.isSome ∧
      model_save_flags sample_model < 4 ∧
      model_load sample_nodes (write_string sample_model.name
          ++ write_compressed_uint (to_uint32 sample_model.num_inputs)
          ++ [model_save_flags sample_model] ++ model_names_bytes sample_model
          ++ model_types_bytes sample_model ++ code) = .ok sample_model :=
  ⟨by decide, by decide, by decide,
   C17_model_round_trip sample_nodes (by decide) sample_model (by decide) (by decide)⟩

/-- C18: the loop of `node_read`, started on the bytes `r0`, has come to the start of a
pass (the first one, which reads the opcode of the root, or a later one, which reads the
opcode of a node below the frames on the stack) and the next byte `b` is not the opcode
of any node type of the table.  Then `node_read` ends in the failure of `assert(type)`:
it returns no tree, whatever bytes follow. -/
theorem C18_unknown_opcode_is_fatal (T : nodetable_t) (r0 : reader_t)
    (stack : List nodestack_t) (top_node : Option node_t) (b : Nat) (rest : reader_t)
    (h : node_read_at T r0 stack top_node (b :: rest)) (hb : opcode_to_node T b = none) :
    node_read T r0 = .error .assertion ∧ ∀ tree r, node_read T r0 ≠ .ok (tree, r) := by
  have h1 := node_read_unknown_opcode T r0 stack top_node b rest h hb
  exact ⟨h1, fun tree r h2 => by rw [h1] at h2; exact absurd h2 (by simp)⟩

/-- C18, on an example: `root`, `if`, and then the byte 99 where the opcode of the first
child of `if` is due. -/
theorem C18_unknown_opcode_is_fatal_witness :
    node_read_at sample_nodes [113, 1, 99, 7, 1]
      [{ node := .mk node_if none [], num_children := 3 },
       { node := .mk node_root none [.mk node_if none []], num_children := 1 }] none
      [99, 7, 1] ∧
    opcode_to_node sample_nodes 99 = none ∧
    node_read sample_nodes [113, 1, 99, 7, 1] = .error .assertion ∧
    ∀ tree r, node_read sample_nodes [113, 1, 99, 7, 1] ≠ .ok (tree, r) :=
  have h : node_read_at sample_nodes [113, 1, 99, 7, 1]
      [{ node := .mk node_if none [], num_children := 3 },
       { node := .mk node_root none [.mk node_if none []], num_children := 1 }] none
      [99, 7, 1] :=
    .pass _ _ _ _ _ _ _ (.pass _ _ _ _ _ _ _ .root (by rfl)) (by rfl)
  ⟨h, by decide, C18_unknown_opcode_is_fatal sample_nodes _ _ _ 99 [7, 1] h (by decide)⟩

/-- C19: what `constant_print` prints.  A Category n is printed as `C` followed by n,
Missing as `<missing>`, a Bool as `true` or `false`, an Array as `[`, its entries
separated by commas, `]`.  A String is not printed as its text in double quotes: the
switch has no case for it, and every String is printed as `<bad value>` (the String
`hi`, for one, not as `"hi"`). -/
theorem C19_string_prints_bad_value (printf_2f : Nat → String) :
    (∀ n, constant_print printf_2f (category_constant n) = "C" ++ toString n) ∧
    constant_print printf_2f missing_constant = "<missing>" ∧
    constant_print printf_2f (bool_constant true) = "true" ∧
    constant_print printf_2f (bool_constant false) = "false" ∧
    constant_print printf_2f (array_constant []) = "[]" ∧
    (∀ e rest, constant_print printf_2f (array_constant (e :: rest))
      = "[" ++ (constant_print printf_2f e
          ++ (rest.map (fun x => "," ++ constant_print printf_2f x)).foldr
              (fun x y => x ++ y) "")
        ++ "]") ∧
    constant_print printf_2f (array_constant (array_create [1, 2, 3])) = "[C1,C2,C3]" ∧
    (∀ s, constant_print printf_2f (string_constant s) = "<bad value>") ∧
    constant_print printf_2f (string_constant [104, 105])
      ≠ String.mk ['"', 'h', 'i', '"'] := by
  refine ⟨fun n => rfl, rfl, rfl, rfl, rfl, fun e rest => constant_print_array_cons _ e rest,
    rfl, fun s => rfl, ?_⟩
  show "<bad value>" ≠ String.mk ['"', 'h', 'i', '"']
  decide

/-- C20, counterexample: two servers, two jobs.  The first call of
`remote_job_try_to_start` selects server 0, whose name lookup fails, so it is marked
broken.  The second call selects server 1, the third selects server 0 again, now
reachable, and the second job is started on it while it is still marked broken. -/
theorem C20_counterexample :
    (dispatch_pass sample_codes sample_nodes 2 true 60 { servers := [0, 1], num := 2 }
        (dispatch_init [default, default] 0
          [{ score := 0, code := none }, { score := 0, code := none }])
        sample_lookup_fails).map
      (fun st => (st.selected, st.roster.map (fun s => s.broken), st.r.map (fun j => j.server)))
      = .ok ([0], [true, false], []) ∧
    (distribute_jobs_to_servers sample_codes sample_nodes 2 true 60 [default, default] 0
        [{ score := 0, code := none }, { score := 0, code := none }]
        { servers := [0, 1], num := 2 }
        [sample_lookup_fails, sample_quiet_pass 0, sample_quiet_pass 1, sample_answers]).map
      (fun st => (st.selected, st.roster.map (fun s => s.broken), st.r.map (fun j => j.server)))
      = .ok ([0, 1, 0], [true, false], [1, 0]) :=
  ⟨rfl, rfl⟩

/-- C20, amended: in a run of `distribute_jobs_to_servers` that starts with the static
counter `round_robin` at `rr0`, the k-th call of `remote_job_try_to_start` selects
`servers[(rr0 + k) % num]`, whatever the roster holds: the selection does not look at the
broken mark, so a server marked broken is selected again when the rotation comes back to
it.  A call returns a remote job exactly when its connection succeeds, which does not
depend on the record of the server either. -/
theorem C20_rotation_ignores_broken (P : net_h) (T : nodetable_t)
    (config_num_remote_servers : Nat) (config_limit_network_io : Bool)
    (config_remote_worker_timeout : Int) (roster : List remote_server_t) (rr0 : Nat)
    (jobs : List job_t) (servers : server_array_t) (world : List pass_env) (st : dispatch_t)
    (h : distribute_jobs_to_servers P T config_num_remote_servers config_limit_network_io
      config_remote_worker_timeout roster rr0 jobs servers world = .ok st) :
    st.round_robin = rr0 + st.selected.length ∧
    st.selected = (List.range st.selected.length).map
      (fun k => servers.servers.getD ((rr0 + k) % servers.num) 0) ∧
    ∀ (roster1 : List remote_server_t) (rr : Nat) (job : job_t) (env : start_env)
      (res : start_result),
      remote_job_try_to_start P config_num_remote_servers servers roster1 rr job env = .ok res →
      res.server = servers.servers.getD (rr % servers.num) 0 ∧
      (res.rjob.isSome = true ↔ 0 ≤ (connect_to_remote_server P default env.net).2) :=
  have hrot := dispatch_loop_rotation P T config_num_remote_servers config_limit_network_io
    config_remote_worker_timeout servers rr0 world _ st h
    (dispatch_init_rotation servers roster rr0 jobs)
  ⟨hrot.1, hrot.2, fun roster1 rr job env res hres =>
    ⟨(remote_job_try_to_start_server P _ servers roster1 rr job env res hres).1,
     remote_job_try_to_start_started P _ servers roster1 rr job env res hres⟩⟩

/-- C20, amended, on the run of the counterexample: three calls, servers 0, 1, 0. -/
theorem C20_rotation_ignores_broken_witness :
    ∃ st, distribute_jobs_to_servers sample_codes sample_nodes 2 true 60 [default, default] 0
        [{ score := 0, code := none }, { score := 0, code := none }]
        { servers := [0, 1], num := 2 }
        [sample_lookup_fails, sample_quiet_pass 0, sample_quiet_pass 1, sample_answers]
        = .ok st ∧
      st.selected = [0, 1, 0] ∧
      st.round_robin = 0 + st.selected.length ∧
      st.selected = (List.range st.selected.length).map
        (fun k => ([0, 1] : List Nat).getD ((0 + k) % 2) 0) ∧
      ∀ (roster1 : List remote_server_t) (rr : Nat) (job : job_t) (env : start_env)
        (res : start_result),
        remote_job_try_to_start sample_codes 2 { servers := [0, 1], num := 2 } roster1 rr job env
          = .ok res →
        res.server = ([0, 1] : List Nat).getD (rr % 2) 0 ∧
        (res.rjob.isSome = true ↔
          0 ≤ (connect_to_remote_server sample_codes default env.net).2) :=
  ⟨_, rfl, rfl,
    C20_rotation_ignores_broken sample_codes sample_nodes 2 true 60 [default, default] 0
      [{ score := 0, code := none }, { score := 0, code := none }]
      { servers := [0, 1], num := 2 }
      [sample_lookup_fails, sample_quiet_pass 0, sample_quiet_pass 1, sample_answers] _ rfl⟩

/-- C21: in every state the worker server reaches, the header written for an accepted
connection has three bytes: the status, the current worker count and
`config_number_of_remote_workers` (each as one byte, so modulo 256).  With IDLE and BUSY
distinct as bytes, the status is IDLE exactly when the worker count is below
`config_number_of_remote_workers` and BUSY exactly when it is not; and after a BUSY header
no worker is forked and the worker table is what it was. -/
theorem C21_header (P : net_h) (config_number_of_remote_workers : Nat)
    (events : List server_event) (pid now : Int)
    (hcodes : P.RESPONSE_IDLE % 256 ≠ P.RESPONSE_BUSY % 256) :
    (start_server_accept P config_number_of_remote_workers
        (server_run P config_number_of_remote_workers events) pid now).header
      = [(if (server_run P config_number_of_remote_workers events).num_workers
            < (config_number_of_remote_workers : Int)
          then P.RESPONSE_IDLE else P.RESPONSE_BUSY) % 256,
         (server_run P config_number_of_remote_workers events).num_workers.toNat % 256,
         config_number_of_remote_workers % 256] ∧
    ((start_server_accept P config_number_of_remote_workers
        (server_run P config_number_of_remote_workers events) pid now).header.head?
        = some (P.RESPONSE_IDLE % 256) ↔
      (server_run P config_number_of_remote_workers events).num_workers
        < (config_number_of_remote_workers : Int)) ∧
    ((start_server_accept P config_number_of_remote_workers
        (server_run P config_number_of_remote_workers events) pid now).header.head?
        = some (P.RESPONSE_BUSY % 256) ↔
      ¬ (server_run P config_number_of_remote_workers events).num_workers
        < (config_number_of_remote_workers : Int)) ∧
    ((start_server_accept P config_number_of_remote_workers
        (server_run P config_number_of_remote_workers events) pid now).header.head?
        = some (P.RESPONSE_BUSY % 256) →
      (start_server_accept P config_number_of_remote_workers
        (server_run P config_number_of_remote_workers events) pid now).forked = false ∧
      (start_server_accept P config_number_of_remote_workers
        (server_run P config_number_of_remote_workers events) pid now).server
        = server_run P config_number_of_remote_workers events) ∧
    (config_number_of_remote_workers < 256 →
      (server_run P config_number_of_remote_workers events).num_workers.toNat % 256
        = (server_run P config_number_of_remote_workers events).num_workers.toNat ∧
      config_number_of_remote_workers % 256 = config_number_of_remote_workers) := by
  have hinv := server_inv_run P config_number_of_remote_workers events
    (server_init config_number_of_remote_workers) (by simp [server_init])
  obtain ⟨h1, h2, h3, h4⟩ := start_server_accept_header P config_number_of_remote_workers
    (server_run P config_number_of_remote_workers events) pid now hcodes hinv.2.1
  refine ⟨h1, h2, h3, h4, fun hc => ⟨?_, Nat.mod_eq_of_lt hc⟩⟩
  have := hinv.2.2
  have h0 := hinv.2.1
  apply Nat.mod_eq_of_lt
  unfold server_run at *
  omega

/-- C21, on an example: two workers allowed and two running; the third connection gets
BUSY, 2, 2 and the table stays as it is. -/
theorem C21_header_witness :
    sample_codes.RESPONSE_IDLE % 256 ≠ sample_codes.RESPONSE_BUSY % 256 ∧
    (start_server_accept sample_codes 2
        (server_run sample_codes 2 [.accept 100 0, .accept 101 1]) 102 2).header
      = [sample_codes.RESPONSE_BUSY, 2, 2] ∧
    (start_server_accept sample_codes 2
        (server_run sample_codes 2 [.accept 100 0, .accept 101 1]) 102 2).forked = false ∧
    (start_server_accept sample_codes 2
        (server_run sample_codes 2 [.accept 100 0, .accept 101 1]) 102 2).server
      = server_run sample_codes 2 [.accept 100 0, .accept 101 1] :=
  have h := C21_header sample_codes 2 [.accept 100 0, .accept 101 1] 102 2 (by decide)
  ⟨by decide, h.1, h.2.2.2.1 (by decide)⟩

/-- C22, counterexample: the node `bool true` is well-formed and its opcode has an
embedded value, yet `node_write` emits no encoding for it: the value goes through
`constant_write`, which stops the process on a Bool. -/
theorem C22_counterexample :
    sample_nodes.valid = true ∧
    node_wf sample_nodes (.mk node_bool (some (bool_constant true)) []) = true ∧
    sample_nodes.has_value node_bool = true ∧
    node_write sample_nodes 0 (.mk node_bool (some (bool_constant true)) []) = .error .exit ∧
    node_write sample_nodes 0 (.mk node_bool (some (bool_constant true)) [])
      ≠ .ok (spec_node_encoding sample_nodes (.mk node_bool (some (bool_constant true)) [])) :=
  ⟨by decide, by decide, by decide, rfl, by
    have h2 : node_write sample_nodes 0 (.mk node_bool (some (bool_constant true)) [])
        = .error .exit := rfl
    rw [h2]
    exact fun h => Except.noConfusion h⟩

/-- C22 (amended): for an opcode table with distinct opcode bytes and every well-formed
node whose embedded values have the tags Float, Int, Category, Missing or String (an
`array` node at most 255 of them, no `bool` node with a value), the bytes `node_write`
emits with flags 0 are the opcode byte, then the opcode-specific value payload if the
opcode has an embedded value, then, if the opcode has children, a compressed-uint child
count exactly when `min_args` differs from `max_args`, then the encodings of the
children in order. -/
theorem C22_node_write_layout (T : nodetable_t) (hT : T.valid = true) (n : node_t)
    (hwf : node_wf T n = true) (hok : node_codec_ok n = true) :
    node_write T SERIALIZE_DEFAULTS n = .ok (spec_node_encoding T n) ∧
    (∀ t cs, child_count_bytes T t cs
      = if T.has_children t = true ∧ T.min_args t ≠ T.max_args t then write_compressed_uint cs
        else []) :=
  ⟨node_write_spec T hT 0 (by decide) n hwf hok, fun _ _ => rfl⟩

/-- C22, witness: the bytes of `sample_tree` with the sample opcode table; `setlocal`
(one to four children) is followed by its count 4, `root`, `if`, `gt` and `add` (fixed
arity) by none. -/
theorem C22_node_write_layout_witness :
    sample_nodes.valid = true ∧ node_wf sample_nodes sample_tree = true ∧
    node_codec_ok sample_tree = true ∧
    spec_node_encoding sample_nodes sample_tree
      = [113, 14, 7, 1, 65, 4,
         12, 3, 2, 1, 2, 2, 7, 2, 66, 67,
         11, 1, 68,
         1, 4, 2, 6, 0, 6, 1, 6, 2, 7, 1, 7, 2,
         13, 1, 0, 0, 64, 64] ∧
    node_write sample_nodes SERIALIZE_DEFAULTS sample_tree
      = .ok (spec_node_encoding sample_nodes sample_tree) :=
  ⟨by decide, by decide, by decide, by decide,
   (C22_node_write_layout sample_nodes (by decide) sample_tree (by decide) (by decide)).1⟩

/-- C23: a TRAIN_MODEL request announces the hash `h`.  If `h` is not in the cache, all
that `process_request_TRAIN_MODEL` writes is the byte `DATASET_UNKNOWN`, whatever
follows the hash (the factory name is not even read), and `job_process` is not run.  If
`h` is in the cache and the request goes on with a name and a transforms string, and no
factory has that name, all that it writes is the byte `FACTORY_UNKNOWN`, and
`job_process` is not run. -/
theorem C23_unknown_dataset_or_factory (P : net_h) (T : nodetable_t)
    (model_factory_get_by_name : List Nat → Option Nat)
    (job_process : Nat → dataset_t → List Nat → job_t) (cpu_ms : Int)
    (cache : datacache_t) (h : List Nat) (hh : h.length = HASH_SIZE) :
    (datacache_find cache h = none → ∀ rest,
      process_request_TRAIN_MODEL P T model_factory_get_by_name job_process cpu_ms cache
          (h ++ rest)
        = { written := write_uint8 P.RESPONSE_DATASET_UNKNOWN, trained := false,
            fault := none }) ∧
    (∀ d name transforms rest, datacache_find cache h = some d →
      string_wf name = true → string_wf transforms = true →
      model_factory_get_by_name name = none →
      process_request_TRAIN_MODEL P T model_factory_get_by_name job_process cpu_ms cache
          (h ++ (write_string name ++ (write_string transforms ++ rest)))
        = { written := write_uint8 P.RESPONSE_FACTORY_UNKNOWN, trained := false,
            fault := none }) :=
  ⟨fun hfind rest =>
      process_request_dataset_unknown P T model_factory_get_by_name job_process cpu_ms cache h
        rest hh hfind,
   fun d name transforms rest hfind hname htr hfac =>
      process_request_factory_unknown P T model_factory_get_by_name job_process cpu_ms cache h
        name transforms rest d hh hfind hname htr hfac⟩

/-- C23, on examples: the hash of `sample_dataset` with an empty cache and the factory
"f", and with the dataset cached and the unknown factory "g". -/
theorem C23_unknown_dataset_or_factory_witness :
    sample_dataset.hash.length = HASH_SIZE ∧
    datacache_find [] sample_dataset.hash = none ∧
    process_request_TRAIN_MODEL sample_codes sample_nodes sample_factories
        (sample_job_process 5) 7 [] (sample_dataset.hash ++ (write_string [102] ++ write_string []))
      = { written := [sample_codes.RESPONSE_DATASET_UNKNOWN], trained := false, fault := none } ∧
    datacache_find [sample_dataset] sample_dataset.hash = some sample_dataset ∧
    sample_factories [103] = none ∧
    process_request_TRAIN_MODEL sample_codes sample_nodes sample_factories
        (sample_job_process 5) 7 [sample_dataset]
        (sample_dataset.hash ++ (write_string [103] ++ (write_string [] ++ [4])))
      = { written := [sample_codes.RESPONSE_FACTORY_UNKNOWN], trained := false, fault := none } :=
  ⟨rfl, rfl,
    (C23_unknown_dataset_or_factory sample_codes sample_nodes sample_factories
      (sample_job_process 5) 7 [] sample_dataset.hash rfl).1 rfl _,
    rfl, rfl,
    (C23_unknown_dataset_or_factory sample_codes sample_nodes sample_factories
      (sample_job_process 5) 7 [sample_dataset] sample_dataset.hash rfl).2
      sample_dataset [103] [] [4] rfl (by decide) (by decide) rfl⟩

/-- C24, counterexample: the block `START_CODE IF END_CODE` raises no assertion, and the
tree it leaves in `program` is a root whose `if` child has no children, which
`node_sanitycheck` rejects: `END_CODE` checks nothing, and the lower bound of a node is
only checked by an `END` that closes it. -/
theorem C24_counterexample :
    code_build sample_nodes [.IF] = .ok (.mk node_root none [.mk node_if none []]) ∧
    node_sanitycheck sample_nodes (.mk node_root none [.mk node_if none []]) = false :=
  ⟨rfl, rfl⟩

/-- C24, amended: over an opcode table whose leaf opcodes have `min_args` 0, every block
of construction macros that runs without an assertion failure leaves a tree in which
every node, the root included, has at most `max_args` children; and `node_sanitycheck`
accepts that tree as soon as every node that no `END` has closed (the root and the nodes
still open at `END_CODE`) has at least its `min_args` children. -/
theorem C24_builder_bounds (T : nodetable_t)
    (hleaf : ∀ t, T.has_children t = false → T.min_args t = 0)
    (ops : List code_op) (b : code_builder)
    (h : code_ops_run T START_CODE ops = .ok b) :
    ∃ tree, code_build T ops = .ok tree ∧ node_within_max T tree = true ∧
      ((∀ n ∈ b.chain, T.min_args n.type ≤ n.num_children) →
        node_sanitycheck T tree = true) :=
  code_build_of_inv T ops b h (code_ops_run_inv T hleaf ops START_CODE b h (START_CODE_inv T))

/-- C24, witness: the block of `test_if` over the sample table. -/
theorem C24_builder_bounds_witness :
    (∀ t, sample_nodes.has_children t = false → sample_nodes.min_args t = 0) ∧
    code_ops_run sample_nodes START_CODE test_if_code = .ok
      { chain := [test_if_tree], program := none } ∧
    ∃ tree, code_build sample_nodes test_if_code = .ok tree ∧
      node_within_max sample_nodes tree = true ∧
      ((∀ n ∈ [test_if_tree], sample_nodes.min_args n.type ≤ n.num_children) →
        node_sanitycheck sample_nodes tree = true) :=
  ⟨by intro t; cases t <;> decide, rfl,
   C24_builder_bounds sample_nodes (by intro t; cases t <;> decide) test_if_code
     { chain := [test_if_tree], program := none } rfl⟩

/-- C26, counterexample: the tree `root(setlocal true)` is well-formed, yet `node_write`
with flags 0 stops the process on its Bool, so there are no bytes of `node_write` from
which `node_read` could return the tree, whatever follows them. -/
theorem C26_counterexample :
    sample_nodes.valid = true ∧
    node_wf sample_nodes
      (.mk node_root none [.mk node_setlocal (some (bool_constant true)) []]) = true ∧
    node_write sample_nodes 0
      (.mk node_root none [.mk node_setlocal (some (bool_constant true)) []]) = .error .exit ∧
    ¬ ∃ bs, node_write sample_nodes 0
          (.mk node_root none [.mk node_setlocal (some (bool_constant true)) []]) = .ok bs ∧
        ∀ rest, node_read sample_nodes (bs ++ rest)
          = .ok (.mk node_root none [.mk node_setlocal (some (bool_constant true)) []], rest) :=
  ⟨by decide, by decide, rfl, by
    rintro ⟨bs, h, _⟩
    have h2 : node_write sample_nodes 0
        (.mk node_root none [.mk node_setlocal (some (bool_constant true)) []])
        = .error .exit := rfl
    rw [h2] at h
    exact Except.noConfusion h⟩

/-- C26 (amended): for an opcode table with distinct opcode bytes, every well-formed tree
`n` whose embedded values have the tags Float, Int, Category, Missing or String (an
`array` node at most 255 of them, no `bool` node with a value) and every byte sequence
`rest`, `node_read` on the bytes of `node_write(n, 0)` followed by `rest` returns `n` and
leaves exactly `rest` unread.  Whenever its loop begins a pass, which after the first
pass means that frames are left on the work stack, more than `rest` is unread: the
stack is not empty before the last byte of the encoding has been read, and it is empty
(the loop ends) when the reader stands at `rest`. -/
theorem C26_node_read_consumes_one_tree (T : nodetable_t) (hT : T.valid = true) (n : node_t)
    (hwf : node_wf T n = true) (hok : node_codec_ok n = true) :
    ∃ bs, node_write T SERIALIZE_DEFAULTS n = .ok bs ∧ ∀ rest,
      node_read T (bs ++ rest) = .ok (n, rest) ∧
      ∀ stack top_node r, node_read_at T (bs ++ rest) stack top_node r →
        rest.length < r.length :=
  node_read_write_at T hT n hwf hok

/-- C26, witness: `sample_tree` followed by the bytes 9, 9. -/
theorem C26_node_read_consumes_one_tree_witness :
    sample_nodes.valid = true ∧ node_wf sample_nodes sample_tree = true ∧
    node_codec_ok sample_tree = true ∧
    ∃ bs, node_write sample_nodes SERIALIZE_DEFAULTS sample_tree = .ok bs ∧
      node_read sample_nodes (bs ++ [9, 9]) = .ok (sample_tree, [9, 9]) ∧
      ∀ stack top_node r, node_read_at sample_nodes (bs ++ [9, 9]) stack top_node r →
        ([9, 9] : List Nat).length < r.length :=
  ⟨by decide, by decide, by decide,
   (C26_node_read_consumes_one_tree sample_nodes (by decide) sample_tree (by decide)
      (by decide)).elim fun bs h => ⟨bs, h.1, h.2 [9, 9]⟩⟩

/-- C27: a call of `remote_job_try_to_start` made when the static counter `round_robin`
is `k` selects `servers[k % servers.num]` and leaves the counter at `k + 1`, whether or
not the connection succeeds; so in a run of `distribute_jobs_to_servers` that starts with
the counter at `rr0` (0 in the first run of a process) the k-th call selects
`servers[(rr0 + k) % servers.num]`.  In a pass of the loop that has a job to start, the
job pointer advances and `num` grows by one exactly when the connection succeeded;
when it failed the same job is still the next one, and the counter has moved on, so the
next pass offers the job to the next server of the rotation. -/
theorem C27_round_robin (P : net_h) (T : nodetable_t) (config_num_remote_servers : Nat)
    (config_limit_network_io : Bool) (config_remote_worker_timeout : Int)
    (roster : List remote_server_t) (rr0 : Nat) (jobs : List job_t) (servers : server_array_t)
    (world : List pass_env) (st : dispatch_t)
    (h : distribute_jobs_to_servers P T config_num_remote_servers config_limit_network_io
      config_remote_worker_timeout roster rr0 jobs servers world = .ok st) :
    (∀ k, k < st.selected.length →
      st.selected.getD k 0 = servers.servers.getD ((rr0 + k) % servers.num) 0) ∧
    st.round_robin = rr0 + st.selected.length ∧
    (∀ (roster1 : List remote_server_t) (k : Nat) (job : job_t) (env : start_env)
      (res : start_result),
      remote_job_try_to_start P config_num_remote_servers servers roster1 k job env = .ok res →
      res.server = servers.servers.getD (k % servers.num) 0 ∧ res.round_robin = k + 1) ∧
    (∀ (st0 st1 : dispatch_t) (env : pass_env) (job : job_t) (next : List job_t),
      dispatch_pass P T config_num_remote_servers config_limit_network_io
        config_remote_worker_timeout servers st0 env = .ok st1 →
      st0.pending = job :: next →
      st1.selected
        = st0.selected ++ [servers.servers.getD (st0.round_robin % servers.num) 0] ∧
      st1.round_robin = st0.round_robin + 1 ∧
      (0 ≤ (connect_to_remote_server P default env.start.net).2 →
        st1.pending = next ∧ st1.r.length = st0.r.length + 1) ∧
      (¬ 0 ≤ (connect_to_remote_server P default env.start.net).2 →
        st1.pending = job :: next ∧ st1.r.length = st0.r.length)) := by
  have hrot := dispatch_loop_rotation P T config_num_remote_servers config_limit_network_io
    config_remote_worker_timeout servers rr0 world _ st h
    (dispatch_init_rotation servers roster rr0 jobs)
  refine ⟨?_, hrot.1, ?_, ?_⟩
  · intro k hk
    have h2 := hrot.2
    generalize st.selected.length = n at h2 hk
    rw [h2, List.getD_eq_getElem?_getD, List.getElem?_map, List.getElem?_range hk]
    rfl
  · intro roster1 k job env res hres
    exact remote_job_try_to_start_server P _ servers roster1 k job env res hres
  · intro st0 st1 env job next hpass hp
    exact dispatch_pass_job P T _ _ _ servers st0 st1 env job next hpass hp

/-- C27, on an example: two servers, two jobs, the first connection fails.  The calls
select the servers 0, 1, 0; the first job, refused by server 0, is started on server 1,
the second on server 0. -/
theorem C27_round_robin_witness :
    ∃ st, distribute_jobs_to_servers sample_codes sample_nodes 2 true 60 [default, default] 0
        [{ score := 1, code := none }, { score := 2, code := none }]
        { servers := [0, 1], num := 2 }
        [sample_lookup_fails, sample_quiet_pass 0, sample_quiet_pass 1, sample_answers]
        = .ok st ∧
      st.selected = [0, 1, 0] ∧ st.r.map (fun j => j.server) = [1, 0] ∧
      (∀ k, k < st.selected.length →
        st.selected.getD k 0 = ([0, 1] : List Nat).getD ((0 + k) % 2) 0) ∧
      st.round_robin = 0 + st.selected.length :=
  have h := C27_round_robin sample_codes sample_nodes 2 true 60 [default, default] 0
    [{ score := 1, code := none }, { score := 2, code := none }]
    { servers := [0, 1], num := 2 }
    [sample_lookup_fails, sample_quiet_pass 0, sample_quiet_pass 1, sample_answers] _ rfl
  ⟨_, rfl, rfl, rfl, h.1, h.2.1⟩

/-- C28, counterexample: training yields the score 5 and the well-formed code
`root(constant true)`; the cutoff is 50, so the client asks for the code.  The worker
writes OK, the cpu-time, the score and `DATA_FOLLOWS`, and then `node_write` stops the
process on the Bool; the client finds no tree behind `DATA_FOLLOWS`, and the job does not
end up with the code. -/
theorem C28_counterexample :
    sample_nodes.valid = true ∧ node_wf sample_nodes sample_bool_model.code = true ∧
    process_request_TRAIN_MODEL sample_codes sample_nodes sample_factories
        (sample_bool_job_process 5) 7 [sample_dataset]
        (sample_dataset.hash ++ (write_string [102] ++ (write_string []
          ++ write_uint8 sample_codes.REQUEST_SEND_CODE)))
      = { written := write_uint8 sample_codes.RESPONSE_OK ++ write_compressed_int 7
            ++ write_compressed_int 5 ++ write_uint8 sample_codes.RESPONSE_DATA_FOLLOWS,
          trained := true, fault := some .exit } ∧
    finish_request_TRAIN_MODEL sample_codes sample_nodes
        (write_uint8 sample_codes.RESPONSE_OK ++ write_compressed_int 7
          ++ write_compressed_int 5 ++ write_uint8 sample_codes.RESPONSE_DATA_FOLLOWS)
        sample_remote_job 50
      = (write_uint8 sample_codes.REQUEST_SEND_CODE, .error .eof) :=
  ⟨by decide, by decide, rfl, rfl⟩

/-- C28 (amended): training yields the score `s` and a well-formed code `N` whose
embedded values have the tags Float, Int, Category, Missing or String (an `array` node at
most 255 of them, no `bool` node with a value); the codes of net.h are bytes and
`SEND_CODE` differs from `DISCARD_CODE`.  Let the client write `SEND_CODE` when `s < c`
and `DISCARD_CODE` otherwise.  Then `process_request_TRAIN_MODEL`, reading that byte
after the request, writes OK, the cpu-time, `s`, and, when `s < c`, `DATA_FOLLOWS` and the
bytes of `node_write(N)`; and `finish_request_TRAIN_MODEL`, run with cutoff `c` on these
bytes, writes the very byte the worker read, consumes all of them and leaves the job
with response OK, score `s`, and the code `N` when `s < c` and no code when `s >= c`. -/
theorem C28_train_model_agreement (P : net_h) (T : nodetable_t)
    (model_factory_get_by_name : List Nat → Option Nat)
    (job_process : Nat → dataset_t → List Nat → job_t) (cpu_ms : Int)
    (cache : datacache_t) (h name transforms : List Nat) (d : dataset_t)
    (factory : Nat) (N : node_t) (s c : Int) (rjob : remote_job_t)
    (hP : P.train_codes_ok = true) (hT : T.valid = true)
    (hh : h.length = HASH_SIZE) (hfind : datacache_find cache h = some d)
    (hname : string_wf name = true) (htr : string_wf transforms = true)
    (hfac : model_factory_get_by_name name = some factory)
    (htrain : job_process factory d transforms = { score := s, code := some N })
    (hs : is_int32 s) (hwf : node_wf T N = true) (hok : node_codec_ok N = true) :
    ∃ code reply rjob1,
      node_write T SERIALIZE_DEFAULTS N = .ok code ∧
      reply = write_uint8 P.RESPONSE_OK ++ write_compressed_int cpu_ms ++ write_compressed_int s
        ++ (if s < c then write_uint8 P.RESPONSE_DATA_FOLLOWS ++ code else []) ∧
      process_request_TRAIN_MODEL P T model_factory_get_by_name job_process cpu_ms cache
          (h ++ (write_string name ++ (write_string transforms
            ++ (if s < c then write_uint8 P.REQUEST_SEND_CODE
                else write_uint8 P.REQUEST_DISCARD_CODE))))
        = { written := reply, trained := true, fault := none } ∧
      finish_request_TRAIN_MODEL P T reply rjob c
        = ((if s < c then write_uint8 P.REQUEST_SEND_CODE
            else write_uint8 P.REQUEST_DISCARD_CODE), .ok (rjob1, [])) ∧
      rjob1.response = P.RESPONSE_OK ∧ rjob1.job.score = s ∧
      rjob1.job.code = (if s < c then some N else none) :=
  train_model_exchange P T model_factory_get_by_name job_process cpu_ms cache h name transforms
    d factory N s c rjob hP hT hh hfind hname htr hfac htrain hs hwf hok

/-- C28 (amended), on an example: the factory "f" trains `sample_tree` with score 5, the
cutoff is 50. -/
theorem C28_train_model_agreement_witness :
    ∃ code reply rjob1,
      node_write sample_nodes SERIALIZE_DEFAULTS sample_tree = .ok code ∧
      reply = write_uint8 sample_codes.RESPONSE_OK ++ write_compressed_int 7
        ++ write_compressed_int 5
        ++ (if (5 : Int) < 50 then write_uint8 sample_codes.RESPONSE_DATA_FOLLOWS ++ code
            else []) ∧
      process_request_TRAIN_MODEL sample_codes sample_nodes sample_factories
          (sample_job_process 5) 7 [sample_dataset]
          (sample_dataset.hash ++ (write_string [102] ++ (write_string []
            ++ (if (5 : Int) < 50 then write_uint8 sample_codes.REQUEST_SEND_CODE
                else write_uint8 sample_codes.REQUEST_DISCARD_CODE))))
        = { written := reply, trained := true, fault := none } ∧
      finish_request_TRAIN_MODEL sample_codes sample_nodes reply sample_remote_job 50
        = ((if (5 : Int) < 50 then write_uint8 sample_codes.REQUEST_SEND_CODE
            else write_uint8 sample_codes.REQUEST_DISCARD_CODE), .ok (rjob1, [])) ∧
      rjob1.response = sample_codes.RESPONSE_OK ∧ rjob1.job.score = 5 ∧
      rjob1.job.code = (if (5 : Int) < 50 then some sample_tree else none) :=
  C28_train_model_agreement sample_codes sample_nodes sample_factories (sample_job_process 5) 7
    [sample_dataset] sample_dataset.hash [102] [] sample_dataset 0 sample_tree 5 50
    sample_remote_job (by decide) (by decide) rfl rfl (by decide) (by decide) rfl rfl
    (by decide) (by decide) (by decide)

/-- C29: what `send_dataset_to_remote_server` returns, the codes for failure being
different from OK and DUPL_DATA.  If it returns OK or DUPL_DATA, the connection was
made, the request was written, and the reply was read in full: a status GO_AHEAD or
DUPL_DATA, then the hash of the dataset, then the byte returned; and the call did not
mark the server broken.  If the reply is complete but echoes another hash, it returns
DATA_ERROR and marks the server broken.  If the connection fails, a write of the request
fails, no status arrives or it is neither GO_AHEAD nor DUPL_DATA, or fewer than
`HASH_SIZE + 1` bytes follow the status, it returns READ_ERROR. -/
theorem C29_send_dataset (P : net_h) (dataset_write : dataset_t → List Nat)
    (server : remote_server_t) (env : send_env) (data : dataset_t)
    (from_server : Option (List Nat × Nat)) (hP : P.send_codes_ok = true) :
    (((send_dataset_to_remote_server P dataset_write server env data from_server).resp
          = P.RESPONSE_OK ∨
        (send_dataset_to_remote_server P dataset_write server env data from_server).resp
          = P.RESPONSE_DUPL_DATA) →
      0 ≤ (connect_to_remote_server P server env.net).2 ∧
      env.write_error1 = false ∧ env.write_error2 = false ∧
      (∃ status more, env.reply
          = status :: (data.hash
              ++ (send_dataset_to_remote_server P dataset_write server env data
                    from_server).resp :: more) ∧
        (status = P.RESPONSE_GO_AHEAD ∨ status = P.RESPONSE_DUPL_DATA)) ∧
      (send_dataset_to_remote_server P dataset_write server env data from_server).server.broken
        = server.broken) ∧
    (∀ status hash b more, 0 ≤ (connect_to_remote_server P server env.net).2 →
      env.write_error1 = false → env.write_error2 = false →
      env.reply = status :: (hash ++ b :: more) →
      (status = P.RESPONSE_GO_AHEAD ∨ status = P.RESPONSE_DUPL_DATA) →
      hash.length = HASH_SIZE → hash ≠ data.hash →
      (send_dataset_to_remote_server P dataset_write server env data from_server).resp
        = P.RESPONSE_DATA_ERROR ∧
      (send_dataset_to_remote_server P dataset_write server env data from_server).server.broken
        = true) ∧
    (((connect_to_remote_server P server env.net).2 < 0 ∨
        env.write_error1 = true ∨ env.write_error2 = true ∨ env.reply = [] ∨
        (∃ status rest, env.reply = status :: rest ∧ status ≠ P.RESPONSE_GO_AHEAD ∧
          status ≠ P.RESPONSE_DUPL_DATA) ∨
        (∃ status rest, env.reply = status :: rest ∧ rest.length < HASH_SIZE + 1)) →
      (send_dataset_to_remote_server P dataset_write server env data from_server).resp
        = P.RESPONSE_READ_ERROR) :=
  ⟨fun hres => send_dataset_success P dataset_write server env data from_server hP hres,
   fun status hash b more hc h1 h2 hr hs hlen hne =>
     (send_dataset_bad_hash P dataset_write server env data from_server status hash more b hc
       h1 h2 hr hs hlen).1 hne,
   fun h => send_dataset_read_error P dataset_write server env data from_server h⟩

/-- C29, on examples: the server answers GO_AHEAD, echoes the hash of `sample_dataset` and
says OK; and the same with a hash of twenty 8s, which marks the server broken. -/
theorem C29_send_dataset_witness :
    sample_codes.send_codes_ok = true ∧
    (send_dataset_to_remote_server sample_codes (fun d => d.content) default
        (sample_send (sample_codes.RESPONSE_GO_AHEAD :: (sample_dataset.hash
          ++ [sample_codes.RESPONSE_OK]))) sample_dataset none).resp
      = sample_codes.RESPONSE_OK ∧
    (send_dataset_to_remote_server sample_codes (fun d => d.content) default
        (sample_send (sample_codes.RESPONSE_GO_AHEAD :: (sample_dataset.hash
          ++ [sample_codes.RESPONSE_OK]))) sample_dataset none).server.broken = false ∧
    (send_dataset_to_remote_server sample_codes (fun d => d.content) default
        (sample_send (sample_codes.RESPONSE_GO_AHEAD :: (List.replicate HASH_SIZE 8
          ++ [sample_codes.RESPONSE_OK]))) sample_dataset none).resp
      = sample_codes.RESPONSE_DATA_ERROR ∧
    (send_dataset_to_remote_server sample_codes (fun d => d.content) default
        (sample_send (sample_codes.RESPONSE_GO_AHEAD :: (List.replicate HASH_SIZE 8
          ++ [sample_codes.RESPONSE_OK]))) sample_dataset none).server.broken = true :=
  ⟨by decide, by decide,
    ((C29_send_dataset sample_codes (fun d => d.content) default
      (sample_send (sample_codes.RESPONSE_GO_AHEAD :: (sample_dataset.hash
        ++ [sample_codes.RESPONSE_OK]))) sample_dataset none (by decide)).1
      (Or.inl (by decide))).2.2.2.2,
    (C29_send_dataset sample_codes (fun d => d.content) default
      (sample_send (sample_codes.RESPONSE_GO_AHEAD :: (List.replicate HASH_SIZE 8
        ++ [sample_codes.RESPONSE_OK]))) sample_dataset none (by decide)).2.1
      sample_codes.RESPONSE_GO_AHEAD (List.replicate HASH_SIZE 8) sample_codes.RESPONSE_OK []
      (by decide) rfl rfl rfl (Or.inl rfl) rfl (by decide)⟩

/-- C30: with `config_num_seeded_hosts = 0` and at least one server configured, the seed
loop of `distribute_dataset` is not entered, `num_seeds` is 0, and the first pass of the
propagate loop computes `lrand48() % num_seeds`: a division by zero, whatever the draw
and whatever the servers would answer (so with one server and the draw 0).  The other
indices are well defined: with `config_num_seeded_hosts > 0` no division by zero occurs,
and in every state of the seed loop in which successes and failures do not add up to the
number of servers, some server has not been contacted yet. -/
theorem C30_no_seeds_division_by_zero (P : net_h) (N : Nat) (net : dataset_net) (d : Nat)
    (draws : List Nat) :
    distribute_dataset P 0 (N + 1) net (d :: draws) = .error .div_by_zero ∧
    distribute_dataset sample_codes 0 1 (fun _ _ _ => sample_codes.RESPONSE_OK) [0]
      = .error .div_by_zero ∧
    (∀ (S M : Nat) (net1 : dataset_net) (draws1 : List Nat), 0 < S →
      distribute_dataset P S M net1 draws1 ≠ .error .div_by_zero) ∧
    (∀ (M : Nat) (st : distribute_state), seed_inv P M st →
      st.num_seeds + st.num_errors ≠ M → ∃ s, s < M ∧ st.status.getD s 0 = 0) := by
  refine ⟨distribute_dataset_no_seeds P N net d draws, rfl,
    fun S M net1 draws1 hS => distribute_dataset_no_div P S M net1 draws1 hS, ?_⟩
  intro M st hinv hne
  have hle := contacted_length_le P M st hinv.base
  have hlen := hinv.sent_len
  exact exists_uncontacted P M st hinv (by omega)

/-- C31: `sent` records the calls of `send_dataset_to_remote_server` of one run of
`distribute_dataset`, seed and propagate phase together.  Whether the run returns an
array or leaves through the error exit, no server occurs twice among the servers sent
to, each of them is in the roster, and there are at most `config_num_remote_servers`
sends; a returned array is a sublist of the servers sent to, so it contains no
server twice, and its count is its length and at most `config_num_remote_servers`. -/
theorem C31_sent_at_most_once (P : net_h) (config_num_seeded_hosts N : Nat)
    (net : dataset_net) (draws : List Nat) (res : Option server_array_t)
    (sent : List (Nat × Option Nat × Nat))
    (h : distribute_dataset P config_num_seeded_hosts N net draws = .ok (res, sent)) :
    (∀ s, (sent.map (fun e => e.1)).count s ≤ 1) ∧
    (∀ e ∈ sent, e.1 < N) ∧ sent.length ≤ N ∧
    ∀ arr, res = some arr →
      arr.servers.Sublist (sent.map (fun e => e.1)) ∧ arr.servers.Nodup ∧
      (∀ s, arr.servers.count s ≤ 1) ∧ (∀ s ∈ arr.servers, s < N) ∧
      arr.num = arr.servers.length ∧ arr.num ≤ N := by
  obtain ⟨hnd, hlt, harr⟩ := distribute_dataset_sent P config_num_seeded_hosts N net draws res
    sent h
  have hlt1 : ∀ s ∈ sent.map (fun e => e.1), s < N := by
    intro s hs
    obtain ⟨e, he, rfl⟩ := List.mem_map.mp hs
    exact hlt e he
  refine ⟨fun s => List.nodup_iff_count_le_one.mp hnd s, hlt, ?_, ?_⟩
  · simpa using nodup_lt_length_le _ N hnd hlt1
  · intro arr hres
    obtain ⟨hs, hn⟩ := harr arr hres
    have hsub : arr.servers.Sublist (sent.map (fun e => e.1)) := by
      rw [hs]; exact sent_successes_sublist P sent
    have hnd1 : arr.servers.Nodup := hsub.nodup hnd
    have hlt2 : ∀ s ∈ arr.servers, s < N := fun s hs1 => hlt1 s (hsub.subset hs1)
    refine ⟨hsub, hnd1, fun s => List.nodup_iff_count_le_one.mp hnd1 s, hlt2, hn, ?_⟩
    rw [hn]
    exact nodup_lt_length_le _ N hnd1 hlt2

/-- C31, on an example: four servers, two to be seeded, server 2 busy.  Four sends, to the
servers 2, 3, 0 and 1, and the array returned lists 3, 0, 1. -/
theorem C31_sent_at_most_once_witness :
    distribute_dataset sample_codes 2 4
        (fun _ s _ => if s = 2 then sample_codes.RESPONSE_BUSY else sample_codes.RESPONSE_OK)
        [2, 2, 3, 0, 0]
      = .ok (some { servers := [3, 0, 1], num := 3 },
             [(2, none, sample_codes.RESPONSE_BUSY), (3, none, sample_codes.RESPONSE_OK),
              (0, none, sample_codes.RESPONSE_OK), (1, some 3, sample_codes.RESPONSE_OK)]) ∧
    ([3, 0, 1] : List Nat).Nodup ∧ (3 : Nat) ≤ 4 :=
  have h := C31_sent_at_most_once sample_codes 2 4
    (fun _ s _ => if s = 2 then sample_codes.RESPONSE_BUSY else sample_codes.RESPONSE_OK)
    [2, 2, 3, 0, 0] (some { servers := [3, 0, 1], num := 3 })
    [(2, none, sample_codes.RESPONSE_BUSY), (3, none, sample_codes.RESPONSE_OK),
     (0, none, sample_codes.RESPONSE_OK), (1, some 3, sample_codes.RESPONSE_OK)] rfl
  ⟨rfl, (h.2.2.2 _ rfl).2.1, (h.2.2.2 _ rfl).2.2.2.2.2⟩

/-- C32: at the end of every iteration of the loop of `distribute_jobs_to_servers`,
`open_jobs` is `jobs->num` minus the number of remote jobs marked done; the loop has
printed one report ("Finished", "Failed (response)" or "Failed (timeout)", one per
marking) for each remote job marked done, none for the others and none twice, so no
remote job was marked both by a result read and by a timeout cancel; the remote jobs are
the first `num` jobs of the queue in order, `job` points at the next one, and a remote
job not yet marked done holds its job with the score it was queued with and no code.
When the function returns, `open_jobs` is 0, no job is left to start, there is one remote
job per job of the queue, all of them are marked done, and the reports are one for each
`i` below `jobs->num`. -/
theorem C32_dispatcher_accounting (P : net_h) (T : nodetable_t)
    (config_num_remote_servers : Nat) (config_limit_network_io : Bool)
    (config_remote_worker_timeout : Int) (roster : List remote_server_t) (rr0 : Nat)
    (jobs : List job_t) (servers : server_array_t) :
    (∀ st, dispatch_iter P T config_num_remote_servers config_limit_network_io
        config_remote_worker_timeout servers (dispatch_init roster rr0 jobs) st →
      st.jobs_num = jobs.length ∧
      st.open_jobs = (jobs.length : Int) - (num_done st.r : Int) ∧
      (st.printed.map dispatch_report.index).Nodup ∧
      (∀ i, i ∈ st.printed.map dispatch_report.index ↔
        ∃ j, st.r.get? i = some j ∧ j.done = true) ∧
      st.r.length ≤ jobs.length ∧ st.pending = jobs.drop st.r.length ∧
      (∀ j ∈ st.r, j.running = true) ∧
      (∀ i j, st.r.get? i = some j → j.done = false →
        ∃ job, jobs.get? i = some job ∧ j.job.score = job.score ∧ j.job.code = none)) ∧
    (∀ world st, distribute_jobs_to_servers P T config_num_remote_servers
        config_limit_network_io config_remote_worker_timeout roster rr0 jobs servers world
        = .ok st →
      dispatch_iter P T config_num_remote_servers config_limit_network_io
        config_remote_worker_timeout servers (dispatch_init roster rr0 jobs) st ∧
      st.open_jobs = 0 ∧ st.pending = [] ∧ st.r.length = jobs.length ∧
      (∀ j ∈ st.r, j.done = true) ∧
      (st.printed.map dispatch_report.index).Perm (List.range jobs.length)) := by
  constructor
  · intro st hit
    obtain ⟨a1, a2, a3, a4, a5, a6, a7, a8⟩ := dispatch_acct_reach P T
      config_num_remote_servers config_limit_network_io config_remote_worker_timeout servers
      roster rr0 jobs st (dispatch_iter_reach P T _ _ _ servers _ st hit)
    exact ⟨a1, a4, a5, a6, a2, a3, a7, a8⟩
  · intro world st h
    obtain ⟨hit, hz⟩ := dispatch_loop_iter P T config_num_remote_servers
      config_limit_network_io config_remote_worker_timeout servers
      (dispatch_init roster rr0 jobs) world _ st (Or.inl rfl) h
    have hinv := dispatch_acct_reach P T config_num_remote_servers config_limit_network_io
      config_remote_worker_timeout servers roster rr0 jobs st
      (dispatch_iter_reach P T _ _ _ servers _ st hit)
    obtain ⟨b1, b2, b3, b4⟩ := dispatch_acct_final jobs st hinv hz
    exact ⟨hit, hz, b1, b2, b3, b4⟩

/-- C32, on an example: two jobs and two servers.  The first pass starts job 0, the second
starts job 1 and reads the result of job 0, the third, at time 100, cancels job 1, which
never answered.  The reports are "Finished" for `r[0]` and "Failed (timeout)" for
`r[1]`, and one socket was closed. -/
theorem C32_dispatcher_accounting_witness :
    ∃ st, distribute_jobs_to_servers sample_codes sample_nodes 2 true 60 [default, default] 0
        [{ score := 1, code := none }, { score := 2, code := none }]
        { servers := [0, 1], num := 2 }
        [sample_quiet_pass 0, sample_mixed_pass, sample_quiet_pass 100] = .ok st ∧
      st.printed.map dispatch_report.index = [0, 1] ∧
      st.printed.get? 1 = some (.failed_timeout 1 1) ∧ st.closed = [4] ∧
      st.r.map (fun j => j.job.score) = [5, 2] ∧
      st.open_jobs = 0 ∧ st.pending = [] ∧ st.r.length = 2 ∧ (∀ j ∈ st.r, j.done = true) :=
  have h := (C32_dispatcher_accounting sample_codes sample_nodes 2 true 60 [default, default] 0
    [{ score := 1, code := none }, { score := 2, code := none }]
    { servers := [0, 1], num := 2 }).2
    [sample_quiet_pass 0, sample_mixed_pass, sample_quiet_pass 100] _ rfl
  ⟨_, rfl, rfl, rfl, rfl, rfl, h.2.1, h.2.2.1, h.2.2.2.1, h.2.2.2.2.1⟩

/-- C33: with `config_limit_network_io` clear, `best_score` is `INT_MAX` in every state
the loop of `distribute_jobs_to_servers` passes through and when the function returns;
so whenever the loop calls `remote_job_read_result` for a job that answers OK, a cpu-time
and a score below `INT32_MAX`, the job is sent `SEND_CODE`, whatever results were read
before.  With the flag set or clear, `best_score` never exceeds `INT_MAX`, and a job that
answers OK with the score `INT32_MAX` is sent `DISCARD_CODE`. -/
theorem C33_limit_network_io_clear (P : net_h) (T : nodetable_t)
    (config_num_remote_servers : Nat) (config_remote_worker_timeout : Int)
    (roster : List remote_server_t) (rr0 : Nat) (jobs : List job_t)
    (servers : server_array_t) :
    (∀ st, dispatch_reach P T config_num_remote_servers false config_remote_worker_timeout
        servers (dispatch_init roster rr0 jobs) st →
      st.best_score = INT_MAX ∧
      ∀ (rjob : remote_job_t) (ms s : Int) (rest : List Nat), is_int32 ms → is_int32 s →
        s < INT32_MAX →
        (remote_job_read_result P T false
          (P.RESPONSE_OK :: (write_compressed_int ms ++ write_compressed_int s ++ rest)) rjob
          st.best_score).1 = write_uint8 P.REQUEST_SEND_CODE) ∧
    (∀ world st, distribute_jobs_to_servers P T config_num_remote_servers false
        config_remote_worker_timeout roster rr0 jobs servers world = .ok st →
      dispatch_reach P T config_num_remote_servers false config_remote_worker_timeout
        servers (dispatch_init roster rr0 jobs) st ∧ st.best_score = INT_MAX) ∧
    (∀ (config_limit_network_io : Bool) st,
      dispatch_reach P T config_num_remote_servers config_limit_network_io
        config_remote_worker_timeout servers (dispatch_init roster rr0 jobs) st →
      st.best_score ≤ INT_MAX ∧
      ∀ (rjob : remote_job_t) (ms : Int) (rest : List Nat), is_int32 ms →
        (remote_job_read_result P T config_limit_network_io
          (P.RESPONSE_OK :: (write_compressed_int ms ++ write_compressed_int INT32_MAX ++ rest))
          rjob st.best_score).1 = write_uint8 P.REQUEST_DISCARD_CODE) := by
  refine ⟨?_, ?_, ?_⟩
  · intro st hr
    have hb : st.best_score = INT_MAX :=
      dispatch_reach_best_clear P T _ _ servers _ st hr
    refine ⟨hb, ?_⟩
    intro rjob ms s rest hms hs hlt
    rw [remote_job_read_result_written P T false rjob ms s _ hms hs rest, hb, if_neg]
    unfold INT32_MAX at hlt
    unfold INT_MAX
    omega
  · intro world st h
    obtain ⟨hit, _⟩ := dispatch_loop_iter P T config_num_remote_servers false
      config_remote_worker_timeout servers (dispatch_init roster rr0 jobs) world _ st
      (Or.inl rfl) h
    have hr := dispatch_iter_reach P T _ _ _ servers _ st hit
    exact ⟨hr, dispatch_reach_best_clear P T _ _ servers _ st hr⟩
  · intro limit st hr
    have hb : st.best_score ≤ INT_MAX :=
      dispatch_reach_best_le P T _ limit _ servers _ st hr
    refine ⟨hb, ?_⟩
    intro rjob ms rest hms
    rw [remote_job_read_result_written P T limit rjob ms INT32_MAX _ hms (by decide) rest,
      if_pos]
    unfold INT_MAX at hb
    unfold INT32_MAX
    omega

/-- C33, on an example: the round of two jobs in which job 0 answers with the score 5 and
job 1 never answers, run with the flag clear: `best_score` is still `INT_MAX` at the end,
and a job that then answered with the score 7 would be sent `SEND_CODE`. -/
theorem C33_limit_network_io_clear_witness :
    ∃ st, distribute_jobs_to_servers sample_codes sample_nodes 2 false 60 [default, default] 0
        [{ score := 1, code := none }, { score := 2, code := none }]
        { servers := [0, 1], num := 2 }
        [sample_quiet_pass 0, sample_mixed_pass, sample_quiet_pass 100] = .ok st ∧
      st.r.map (fun j => j.job.score) = [5, 2] ∧
      st.best_score = INT_MAX ∧
      (remote_job_read_result sample_codes sample_nodes false
          (sample_codes.RESPONSE_OK :: (write_compressed_int 0 ++ write_compressed_int 7 ++ []))
          sample_remote_job st.best_score).1 = write_uint8 sample_codes.REQUEST_SEND_CODE :=
  have h := C33_limit_network_io_clear sample_codes sample_nodes 2 60 [default, default] 0
    [{ score := 1, code := none }, { score := 2, code := none }]
    { servers := [0, 1], num := 2 }
  have h2 := h.2.1 [sample_quiet_pass 0, sample_mixed_pass, sample_quiet_pass 100] _ rfl
  ⟨_, rfl, rfl, h2.2, (h.1 _ h2.1).2 sample_remote_job 0 7 [] (by decide) (by decide)
    (by decide)⟩

end Mrscake
